import Mathlib

/-!
# DBF (DrekkarBinaryFormat): shallow embedding of the codec in `dbf.c`

The embedding follows the build selected by `dbf.h` on x86-64 Linux:
`DBF_AND_ASCII` is defined, `DBF_FIXED_MSG_SIZE` and `DBF_OPTIMIZE_FOR_32_BITS`
are not, and `GET_CODE_TYPE` is the lookup in `codeTypeTable`.

Conventions.
* A byte is a `Nat` below 256.  A C string argument is the list of its bytes; the
  loops that scan for the terminating NUL stop at a 0 byte or at the end of the list.
* `int64_t` values are `Int`; `uint64_t`, `uint32_t` and `unsigned long` values are
  `Nat` reduced modulo the width wherever the C code converts or can wrap.
* The serializer buffer is the list of the `pos` bytes written so far, so `pos` is
  its length; `capacity` is kept as a number only.  Memory that the C code reads
  beyond a list (the byte after the last one) reads as 0.
* `assert` is not part of the functional model (a release build); `printf` logging
  is dropped.
* Every C loop is a structurally recursive function over a bound that the loop cannot
  exceed; the bound is justified next to each loop.
-/

namespace Dbf

/-! ## Machine integers -/

/-- Conversion of a C integer value to `uint64_t`. -/
def toU64 (i : Int) : Nat := (i % 18446744073709551616).toNat

/-- Conversion of a C integer value to `uint32_t`. -/
def toU32 (i : Int) : Nat := (i % 4294967296).toNat

/-- The `int64_t` value of a 64-bit pattern (two's complement). -/
def toInt64 (n : Nat) : Int :=
  if n % 18446744073709551616 < 9223372036854775808 then ((n % 18446744073709551616 : Nat) : Int)
  else ((n % 18446744073709551616 : Nat) : Int) - 18446744073709551616

/-- Conversion of a C integer value to `int` (32 bits, two's complement). -/
def toInt32 (i : Int) : Int :=
  if i % 4294967296 < 2147483648 then i % 4294967296 else i % 4294967296 - 4294967296

/-- Wrap-around of `int64_t` arithmetic. -/
def wrap64 (i : Int) : Int := toInt64 (toU64 i)

/-- Conversion of a C integer value to `unsigned char` (what is stored in a `char` cell). -/
def toByte (i : Int) : Nat := (i % 256).toNat

/-- The `int` value of a `char` cell holding byte `b` (`char` is signed on this target). -/
def charToInt (b : Nat) : Int := if b % 256 < 128 then ((b % 256 : Nat) : Int) else ((b % 256 : Nat) : Int) - 256

/-- The values an `int64_t` can hold. -/
def isInt64 (i : Int) : Prop := -9223372036854775808 ≤ i ∧ i < 9223372036854775808

instance (i : Int) : Decidable (isInt64 i) := by unfold isInt64; infer_instance

/-! ## Constants of `dbf.h` and `dbf.c` -/

def DBF_EXT_CODEID : Nat := 0x80
def DBF_EXT_CODEMASK : Nat := 0x80
def DBF_EXT_DATANBITS : Nat := 7
def DBF_EXT_DATAMASK : Nat := (1 <<< 7) - 1
def DBF_PINT_CODEID : Nat := 0x40
def DBF_PINT_DATANBITS : Nat := 6
def DBF_PINT_DATAMASK : Nat := (1 <<< 6) - 1
def DBF_NINT_CODEID : Nat := 0x20
def DBF_NINT_DATANBITS : Nat := 5
def DBF_NINT_DATAMASK : Nat := (1 <<< 5) - 1
def DBF_FMTCRC_CODEID : Nat := 0x10
def DBF_FMTCRC_DATANBITS : Nat := 4
def DBF_FMTCRC_DATAMASK : Nat := (1 <<< 4) - 1
def DBF_REPEAT_CODEID : Nat := 0x08
def DBF_REPEAT_DATANBITS : Nat := 3
def DBF_REPEAT_DATAMASK : Nat := (1 <<< 3) - 1
def DBF_END_CODEID : Nat := 0x01
def DBF_BEGIN_CODEID : Nat := 0x00

def DBF_INT_BEGIN_CODE : Nat := 0
def DBF_WORD_BEGIN_CODE : Nat := 1
def DBF_STR_BEGIN_CODE : Nat := 2

def INITIAL_BUFFER_SIZE : Nat := 256
def ASCII_OFFSET : Int := 64

inductive encoder_states_type where
  | DBF_ENCODER_IDLE
  | DBF_ENCODING_INT
  | DBF_ENCODING_WORD
  | DBF_ENCODER_ERROR
  | DBF_ENCODER_ASCII_MODE
  | DBF_ENCODING_STR
deriving DecidableEq, Repr

inductive DbfDecodingStateEnum where
  | DbfNextIsIntegerState
  | DbfNextIsWordState
  | DbfNextIsStringState
  | DbfEndOfMsgState
  | DbfAsciiNumberState
  | DbfAsciiWordState
  | DbfAsciiStringState
  | DbfUnserializerErrorState
deriving DecidableEq, Repr

inductive DbfCodeTypesEnum where
  | DbfNct
  | DbfExt
  | DbfPnc
  | DbfNnc
  | DbfFoC
  | DbfRcc
  | DbfEom
deriving DecidableEq, Repr

inductive DBF_CRC_RESULT where
  | DBF_OK_CRC
  | DBF_NO_CRC
  | DBF_BAD_CRC
deriving DecidableEq, Repr

open encoder_states_type DbfDecodingStateEnum DbfCodeTypesEnum DBF_CRC_RESULT

structure DbfSerializer where
  buffer : List Nat
  capacity : Nat
  encoderState : encoder_states_type
  prev_code : Int
  repeat_counter : Nat
deriving DecidableEq, Repr

/-- The field `pos`: the number of bytes written.  It is an `unsigned int` in the source and
the length of the list here, the same number below 2^32. -/
def DbfSerializer.pos (s : DbfSerializer) : Nat := s.buffer.length

structure DbfUnserializer where
  msgPtr : List Nat
  msgSize : Nat
  decodeState : DbfDecodingStateEnum
  readPos : Nat
  current_code : Int
  repeat_counter : Nat
deriving DecidableEq, Repr

/-! ## C library character classes (the "C" locale) -/

def isdigit (ch : Int) : Bool := decide (48 ≤ ch ∧ ch ≤ 57)
def isgraph (ch : Int) : Bool := decide (33 ≤ ch ∧ ch ≤ 126)
def isprint (ch : Int) : Bool := decide (32 ≤ ch ∧ ch ≤ 126)
def isalnum (ch : Int) : Bool :=
  decide ((48 ≤ ch ∧ ch ≤ 57) ∨ (65 ≤ ch ∧ ch ≤ 90) ∨ (97 ≤ ch ∧ ch ≤ 122))

/-! ## Helpers at the top of `dbf.c` and in `utility_functions.c` -/

def is_char_part_of_number (ch : Int) : Bool :=
  isdigit ch || decide (ch = 46) || decide (ch = 120) || decide (ch = 88)

def is_char_part_of_word (ch : Int) : Bool :=
  decide (ch ≠ 34) && decide (ch ≠ 92) && isgraph ch

/-- The loop of `word_length`: it stops at the first byte that is not part of a word,
the terminating NUL included. -/
def word_length : List Nat → Nat
  | [] => 0
  | c :: rest => if is_char_part_of_word (charToInt c) then word_length rest + 1 else 0

/-- The C library `strlen`. -/
def strlen : List Nat → Nat
  | [] => 0
  | c :: rest => if c = 0 then 0 else strlen rest + 1

def utility_encode_digit (d : Nat) : Nat :=
  [48, 49, 50, 51, 52, 53, 54, 55, 56, 57, 65, 66, 67, 68, 69, 70].getD ((d % 256) &&& 0xF) 0

def utility_decode_digit (ch : Int) : Int :=
  if 48 ≤ ch ∧ ch ≤ 57 then ch - 48
  else if 97 ≤ ch ∧ ch ≤ 102 then ch + 10 - 97
  else if 65 ≤ ch ∧ ch ≤ 70 then ch + 10 - 65
  else -1

/-! ## Serializer -/

def DbfSerializerInitBase (s : DbfSerializer) : DbfSerializer :=
  { s with buffer := [], repeat_counter := 0, prev_code := 0, capacity := INITIAL_BUFFER_SIZE }

def DbfSerializerInit (s : DbfSerializer) : DbfSerializer :=
  { DbfSerializerInitBase s with encoderState := DBF_ENCODER_IDLE }

def DbfSerializerInitAscii (s : DbfSerializer) : DbfSerializer :=
  { DbfSerializerInitBase s with encoderState := DBF_ENCODER_ASCII_MODE, prev_code := 32 }

def DbfSerializerSetAsciiSeparator (s : DbfSerializer) (ch : Int) : DbfSerializer :=
  { s with prev_code := ch }

def DbfSerializerInitSeparator (s : DbfSerializer) (ch : Int) : DbfSerializer :=
  DbfSerializerSetAsciiSeparator (DbfSerializerInitAscii s) ch

def DbfSerializerReset (s : DbfSerializer) : DbfSerializer :=
  { s with buffer := [], encoderState := DBF_ENCODER_IDLE, repeat_counter := 0, prev_code := 0 }

/-- The field `capacity` is an `unsigned int`: doubling it is taken modulo 2^32.  `ST_RESIZE`
is `st_resize` of `sys_time.c`, which asserts that the new size is larger than the old one,
so the call aborts when the doubling wraps. -/
def DbfSerializerResizeIfNeeded (s : DbfSerializer) (needed_capacity : Nat) : DbfSerializer :=
  if needed_capacity ≥ s.capacity then { s with capacity := s.capacity * 2 % 4294967296 } else s

/-- The argument is converted to `char`, stored at `buffer[pos]`, and `pos` advances.  The
store lies inside the allocation only when `pos < capacity` before the call (the source
asserts `pos <= capacity` after it); the list grows in any case, and `hasRoom` is the
condition under which this is what the source does. -/
def DbfSerializerPutByte (s : DbfSerializer) (b : Nat) : DbfSerializer :=
  { s with buffer := s.buffer ++ [b % 256] }

/-- The loop `while (data > 0)` of the two `_step2` encoders.  `data` is a 64-bit word
shifted right by 7 in each round, so ten rounds always empty it. -/
def encodeExtLoop : Nat → DbfSerializer → Nat → DbfSerializer
  | 0, s, _ => s
  | fuel + 1, s, data =>
    if data > 0 then
      encodeExtLoop fuel (DbfSerializerPutByte s (DBF_EXT_CODEID + (data &&& DBF_EXT_DATAMASK)))
        (data >>> DBF_EXT_DATANBITS)
    else s

def DbfSerializerEncodeData64_step2 (s : DbfSerializer) (code nofb data : Nat) : DbfSerializer :=
  let s1 := DbfSerializerResizeIfNeeded s (s.pos + 12)
  let data := data % 18446744073709551616
  let m := (1 <<< nofb) - 1
  let s2 := DbfSerializerPutByte s1 (code + (data &&& m))
  encodeExtLoop 10 s2 (data >>> nofb)

def DbfSerializerEncodeData32_step2 (s : DbfSerializer) (code nofb data : Nat) : DbfSerializer :=
  let s1 := DbfSerializerResizeIfNeeded s (s.pos + 8)
  let data := data % 4294967296
  let m := (1 <<< nofb) - 1
  let s2 := DbfSerializerPutByte s1 (code + (data &&& m))
  encodeExtLoop 10 s2 (data >>> nofb)

def DbfSerializerWriteRepeat (s : DbfSerializer) : DbfSerializer :=
  if s.repeat_counter > 0 then
    let s1 := DbfSerializerEncodeData64_step2 s DBF_REPEAT_CODEID DBF_REPEAT_DATANBITS s.repeat_counter
    { s1 with repeat_counter := 0, prev_code := 0 }
  else s

def DbfSerializerEncodeData64 (s : DbfSerializer) (code nofb data : Nat) : DbfSerializer :=
  DbfSerializerEncodeData64_step2 (DbfSerializerWriteRepeat s) code nofb data

def DbfSerializerEncodeData32 (s : DbfSerializer) (code nofb data : Nat) : DbfSerializer :=
  DbfSerializerEncodeData32_step2 (DbfSerializerWriteRepeat s) code nofb data

/-- The external `crc32_calculate` (declared in `crc32.h`, not part of the repository's
sources) is a parameter; its result is converted to `uint32_t`. -/
def DbfSerializerWriteCrc (crc32_calculate : List Nat → Nat) (s : DbfSerializer) : DbfSerializer :=
  let s1 := DbfSerializerWriteRepeat s
  let crc := crc32_calculate s1.buffer % 4294967296
  DbfSerializerEncodeData32_step2 s1 DBF_FMTCRC_CODEID DBF_FMTCRC_DATANBITS crc

def DbfSerializerWriteCode64 (s : DbfSerializer) (i : Int) : DbfSerializer :=
  if i = s.prev_code then
    { s with repeat_counter := (s.repeat_counter + 1) % 18446744073709551616 }
  else
    let s1 :=
      if i ≥ 0 then DbfSerializerEncodeData64 s DBF_PINT_CODEID DBF_PINT_DATANBITS (toU64 i)
      else DbfSerializerEncodeData64 s DBF_NINT_CODEID DBF_NINT_DATANBITS (toU64 (-1 - i))
    { s1 with prev_code := i }

/-- Without `DBF_OPTIMIZE_FOR_32_BITS` this only forwards to the 64-bit version. -/
def DbfSerializerWriteCode32 (s : DbfSerializer) (i : Int) : DbfSerializer :=
  DbfSerializerWriteCode64 s i

/-- The digits loop of `snprintf("%lld")`, most significant digit first; an `int64_t` has
at most 19 digits. -/
def decimalDigits : Nat → Nat → List Nat → List Nat
  | 0, _, acc => acc
  | fuel + 1, n, acc =>
    if n / 10 = 0 then (48 + n % 10) :: acc else decimalDigits fuel (n / 10) ((48 + n % 10) :: acc)

/-- The characters `snprintf` produces for `"%lld"`. -/
def snprintf_lld (i : Int) : List Nat :=
  if i < 0 then 45 :: decimalDigits 20 (-i).toNat [] else decimalDigits 20 i.toNat []

def DbfSerializerWriteInt64 (s : DbfSerializer) (i : Int) : DbfSerializer :=
  match s.encoderState with
  | DBF_ENCODING_INT => DbfSerializerWriteCode64 s i
  | DBF_ENCODER_IDLE => DbfSerializerWriteCode64 { s with encoderState := DBF_ENCODING_INT } i
  | DBF_ENCODER_ERROR => s
  | DBF_ENCODER_ASCII_MODE =>
    let s1 := DbfSerializerResizeIfNeeded s (s.pos + 32)
    let s2 := if s1.pos ≠ 0 then { s1 with buffer := s1.buffer ++ [toByte s1.prev_code] } else s1
    { s2 with buffer := s2.buffer ++ snprintf_lld i }
  | _ =>
    let s1 := DbfSerializerEncodeData32 s DBF_FMTCRC_CODEID DBF_FMTCRC_DATANBITS DBF_INT_BEGIN_CODE
    DbfSerializerWriteCode64 { s1 with encoderState := DBF_ENCODING_INT } i

/-- Without `DBF_OPTIMIZE_FOR_32_BITS` this only forwards to the 64-bit version. -/
def DbfSerializerWriteInt32 (s : DbfSerializer) (i : Int) : DbfSerializer :=
  DbfSerializerWriteInt64 s i

def DbfSerializerEndWrite (s : DbfSerializer) : DbfSerializer :=
  match s.encoderState with
  | DBF_ENCODER_ERROR => s
  | DBF_ENCODER_ASCII_MODE =>
    let s1 := DbfSerializerResizeIfNeeded s (s.pos + 1)
    if s1.repeat_counter ≠ 0 then
      { DbfSerializerPutByte s1 34 with repeat_counter := 0 }
    else s1
  | _ => DbfSerializerWriteRepeat s

/-- The capacity loop of the ASCII branch of `serializerWrite`; a capacity of at least 1
passes `pos + len + 8` in fewer than that many doublings. -/
def serializerWriteGrow : Nat → DbfSerializer → Nat → DbfSerializer
  | 0, s, _ => s
  | fuel + 1, s, len =>
    if s.pos + len + 8 > s.capacity then
      serializerWriteGrow fuel { s with capacity := s.capacity * 2 % 4294967296 } len
    else s

/-- The copy loop of the `DBF_STR_BEGIN_CODE` case in ASCII mode, over the first `len`
bytes of `str`.  The stores are not checked against `capacity`, in the source as here; they
lie inside the allocation only while `pos < capacity`. -/
def serializerWriteEscaped : DbfSerializer → List Nat → DbfSerializer
  | s, [] => s
  | s, c :: rest =>
    let ch := charToInt c
    if isprint ch && decide (ch ≠ 34) && decide (ch ≠ 92) then
      serializerWriteEscaped { s with buffer := s.buffer ++ [toByte ch] } rest
    else
      serializerWriteEscaped
        { s with buffer := s.buffer ++
            [92, 120, utility_encode_digit (toByte (ch / 16)), utility_encode_digit (toByte (ch % 16))] }
        rest

/-- The loop `while(*str)` of the binary branch of `serializerWrite`. -/
def serializerWriteCodes : DbfSerializer → List Nat → DbfSerializer
  | s, [] => s
  | s, c :: rest =>
    if c = 0 then s
    else serializerWriteCodes (DbfSerializerWriteCode32 s (charToInt c - ASCII_OFFSET)) rest

def serializerWrite (s : DbfSerializer) (str : List Nat) (len : Nat) (code : Nat) : DbfSerializer :=
  match s.encoderState with
  | DBF_ENCODER_ERROR => s
  | DBF_ENCODER_ASCII_MODE =>
    let s1 := serializerWriteGrow (s.pos + len + 8) s len
    let s2 := if s1.pos ≠ 0 then { s1 with buffer := s1.buffer ++ [toByte s1.prev_code] } else s1
    if code = DBF_WORD_BEGIN_CODE then
      { s2 with buffer := s2.buffer ++ str.take len }
    else if code = DBF_STR_BEGIN_CODE then
      let s3 := { s2 with buffer := s2.buffer ++ [34] }
      let s4 := serializerWriteEscaped s3 (str.take len)
      { s4 with buffer := s4.buffer ++ [34] }
    else s2
  | _ =>
    let s1 := DbfSerializerEncodeData32 s DBF_FMTCRC_CODEID DBF_FMTCRC_DATANBITS code
    serializerWriteCodes { s1 with encoderState := DBF_ENCODING_WORD } str

def DbfSerializerWriteWord (s : DbfSerializer) (str : List Nat) : DbfSerializer :=
  let n := word_length str
  if n = 0 then serializerWrite s str n DBF_STR_BEGIN_CODE
  else serializerWrite s str n DBF_WORD_BEGIN_CODE

def DbfSerializerWriteString (s : DbfSerializer) (str : List Nat) : DbfSerializer :=
  serializerWrite s str (strlen str) DBF_STR_BEGIN_CODE

def DbfSerializerFinalize (s : DbfSerializer) : DbfSerializer :=
  DbfSerializerEndWrite s

def DbfSerializerGetMsgLen (s : DbfSerializer) : Nat := s.pos

/-! ## Code classes -/

/-- The 256-entry table `codeTypeTable`, row by row. -/
def codeTypeTable : List DbfCodeTypesEnum := [
  DbfNct,DbfNct,DbfNct,DbfNct,DbfNct,DbfNct,DbfNct,DbfNct,DbfRcc,DbfRcc,DbfRcc,DbfRcc,DbfRcc,DbfRcc,DbfRcc,DbfRcc,
  DbfFoC,DbfFoC,DbfFoC,DbfFoC,DbfFoC,DbfFoC,DbfFoC,DbfFoC,DbfFoC,DbfFoC,DbfFoC,DbfFoC,DbfFoC,DbfFoC,DbfFoC,DbfFoC,
  DbfNnc,DbfNnc,DbfNnc,DbfNnc,DbfNnc,DbfNnc,DbfNnc,DbfNnc,DbfNnc,DbfNnc,DbfNnc,DbfNnc,DbfNnc,DbfNnc,DbfNnc,DbfNnc,
  DbfNnc,DbfNnc,DbfNnc,DbfNnc,DbfNnc,DbfNnc,DbfNnc,DbfNnc,DbfNnc,DbfNnc,DbfNnc,DbfNnc,DbfNnc,DbfNnc,DbfNnc,DbfNnc,
  DbfPnc,DbfPnc,DbfPnc,DbfPnc,DbfPnc,DbfPnc,DbfPnc,DbfPnc,DbfPnc,DbfPnc,DbfPnc,DbfPnc,DbfPnc,DbfPnc,DbfPnc,DbfPnc,
  DbfPnc,DbfPnc,DbfPnc,DbfPnc,DbfPnc,DbfPnc,DbfPnc,DbfPnc,DbfPnc,DbfPnc,DbfPnc,DbfPnc,DbfPnc,DbfPnc,DbfPnc,DbfPnc,
  DbfPnc,DbfPnc,DbfPnc,DbfPnc,DbfPnc,DbfPnc,DbfPnc,DbfPnc,DbfPnc,DbfPnc,DbfPnc,DbfPnc,DbfPnc,DbfPnc,DbfPnc,DbfPnc,
  DbfPnc,DbfPnc,DbfPnc,DbfPnc,DbfPnc,DbfPnc,DbfPnc,DbfPnc,DbfPnc,DbfPnc,DbfPnc,DbfPnc,DbfPnc,DbfPnc,DbfPnc,DbfPnc,
  DbfExt,DbfExt,DbfExt,DbfExt,DbfExt,DbfExt,DbfExt,DbfExt,DbfExt,DbfExt,DbfExt,DbfExt,DbfExt,DbfExt,DbfExt,DbfExt,
  DbfExt,DbfExt,DbfExt,DbfExt,DbfExt,DbfExt,DbfExt,DbfExt,DbfExt,DbfExt,DbfExt,DbfExt,DbfExt,DbfExt,DbfExt,DbfExt,
  DbfExt,DbfExt,DbfExt,DbfExt,DbfExt,DbfExt,DbfExt,DbfExt,DbfExt,DbfExt,DbfExt,DbfExt,DbfExt,DbfExt,DbfExt,DbfExt,
  DbfExt,DbfExt,DbfExt,DbfExt,DbfExt,DbfExt,DbfExt,DbfExt,DbfExt,DbfExt,DbfExt,DbfExt,DbfExt,DbfExt,DbfExt,DbfExt,
  DbfExt,DbfExt,DbfExt,DbfExt,DbfExt,DbfExt,DbfExt,DbfExt,DbfExt,DbfExt,DbfExt,DbfExt,DbfExt,DbfExt,DbfExt,DbfExt,
  DbfExt,DbfExt,DbfExt,DbfExt,DbfExt,DbfExt,DbfExt,DbfExt,DbfExt,DbfExt,DbfExt,DbfExt,DbfExt,DbfExt,DbfExt,DbfExt,
  DbfExt,DbfExt,DbfExt,DbfExt,DbfExt,DbfExt,DbfExt,DbfExt,DbfExt,DbfExt,DbfExt,DbfExt,DbfExt,DbfExt,DbfExt,DbfExt,
  DbfExt,DbfExt,DbfExt,DbfExt,DbfExt,DbfExt,DbfExt,DbfExt,DbfExt,DbfExt,DbfExt,DbfExt,DbfExt,DbfExt,DbfExt,DbfExt]

/-- The lookup `GET_CODE_TYPE(i)`; the index is always a byte. -/
def GET_CODE_TYPE (i : Nat) : DbfCodeTypesEnum := codeTypeTable.getD i DbfNct

/-! ## Unserializer -/

/-- The byte `u->msgPtr[idx]`. -/
def DbfUnserializer.byteAt (u : DbfUnserializer) (idx : Nat) : Nat := u.msgPtr.getD idx 0

/-- The loop of `DbfUnserializerFindNextCode`: `idx` grows by one in each round and the
loop breaks once it reaches `msgSize`. -/
def findNextCodeLoop : Nat → DbfUnserializer → Nat → Nat
  | 0, _, idx => idx
  | fuel + 1, u, idx =>
    let idx1 := idx + 1
    if idx1 ≥ u.msgSize then idx1
    else if (u.byteAt idx1 &&& DBF_EXT_CODEMASK) = DBF_EXT_CODEID then findNextCodeLoop fuel u idx1
    else idx1

def DbfUnserializerFindNextCode (u : DbfUnserializer) (idx : Nat) : Nat :=
  findNextCodeLoop (u.msgSize - idx + 1) u idx

/-- The loop of `DbfUnserializerDecodeData64`, by recursion on `codeEndIndex`; the
accumulator `i` is kept as its 64-bit pattern. -/
def decodeData64Loop : Nat → DbfUnserializer → Nat → Nat
  | 0, _, i => i
  | codeEndIndex + 1, u, i =>
    let ch := u.byteAt codeEndIndex
    match GET_CODE_TYPE ch with
    | DbfNct => i
    | DbfExt =>
      decodeData64Loop codeEndIndex u
        (((i <<< DBF_EXT_DATANBITS) ||| (ch &&& DBF_EXT_DATAMASK)) % 18446744073709551616)
    | DbfPnc => ((i <<< DBF_PINT_DATANBITS) ||| (ch &&& DBF_PINT_DATAMASK)) % 18446744073709551616
    | DbfNnc => ((i <<< DBF_NINT_DATANBITS) ||| (ch &&& DBF_NINT_DATAMASK)) % 18446744073709551616
    | DbfFoC => ((i <<< DBF_FMTCRC_DATANBITS) ||| (ch &&& DBF_FMTCRC_DATAMASK)) % 18446744073709551616
    | DbfRcc => ((i <<< DBF_REPEAT_DATANBITS) ||| (ch &&& DBF_REPEAT_DATAMASK)) % 18446744073709551616
    | DbfEom => i

def DbfUnserializerDecodeData64 (u : DbfUnserializer) (codeEndIndex : Nat) : Int :=
  toInt64 (decodeData64Loop codeEndIndex u 0)

def DbfUnserializerFindBeginOfCode (u : DbfUnserializer) : Nat → Nat
  | 0 => 0
  | idx + 1 =>
    if (u.byteAt idx &&& DBF_EXT_CODEMASK) = DBF_EXT_CODEID then DbfUnserializerFindBeginOfCode u idx
    else idx

def DbfUnserializerGetNextType (u : DbfUnserializer) (idx : Nat) : DbfCodeTypesEnum :=
  if idx ≥ u.msgSize then DbfEom else GET_CODE_TYPE (u.byteAt idx)

/-- Returns `beginIdx`, `*nextCodeType` and `*nextCodeData`. -/
def DbfUnserializerDecodeDataRev64 (u : DbfUnserializer) (endIdx : Nat) :
    Nat × DbfCodeTypesEnum × Int :=
  let beginIdx := DbfUnserializerFindBeginOfCode u endIdx
  (beginIdx, DbfUnserializerGetNextType u beginIdx, DbfUnserializerDecodeData64 u endIdx)

def take_next_code (u : DbfUnserializer) : Int × DbfUnserializer :=
  let nextIndex := DbfUnserializerFindNextCode u u.readPos
  (DbfUnserializerDecodeData64 u nextIndex, { u with readPos := nextIndex })

/-- The loop of `DbfUnserializerTakeSpecial`.  Only the format-code case goes round
again, after `take_next_code` moved `readPos` forward, and a round at or beyond `msgSize`
returns. -/
def takeSpecialLoop : Nat → DbfUnserializer → DbfUnserializer
  | 0, u => u
  | fuel + 1, u =>
    if u.repeat_counter = 0 then
      if u.readPos ≥ u.msgSize then { u with decodeState := DbfEndOfMsgState }
      else
        match GET_CODE_TYPE (u.byteAt u.readPos) with
        | DbfPnc => u
        | DbfNnc => u
        | DbfFoC =>
          let r := take_next_code u
          let st :=
            if r.1 = 0 then DbfNextIsIntegerState
            else if r.1 = 2 then DbfNextIsStringState
            else if r.1 = 1 then DbfNextIsWordState
            else DbfEndOfMsgState
          takeSpecialLoop fuel { r.2 with decodeState := st, current_code := 0 }
        | DbfEom => { u with decodeState := DbfEndOfMsgState }
        | DbfRcc =>
          let r := take_next_code u
          { r.2 with repeat_counter := toU64 r.1 }
        | _ => u
    else u

def DbfUnserializerTakeSpecial (u : DbfUnserializer) : DbfUnserializer :=
  takeSpecialLoop (u.msgSize - u.readPos + 1) u

/-- The skipping loop of `DbfUnserializerTakeAsciiSpace`, bounded by `msgSize`. -/
def takeAsciiSpaceLoop : Nat → DbfUnserializer → DbfUnserializer
  | 0, u => u
  | fuel + 1, u =>
    if (!isgraph (u.byteAt u.readPos)) && decide (u.readPos < u.msgSize) then
      takeAsciiSpaceLoop fuel { u with readPos := u.readPos + 1 }
    else u

def DbfUnserializerTakeAsciiSpace (u : DbfUnserializer) : DbfUnserializer :=
  let u1 := takeAsciiSpaceLoop (u.msgSize - u.readPos) u
  if u1.readPos = u1.msgSize then { u1 with decodeState := DbfEndOfMsgState }
  else
    let ch : Int := u1.byteAt u1.readPos
    if isdigit ch || decide (ch = 45) then { u1 with decodeState := DbfAsciiNumberState }
    else if ch = 34 then { u1 with readPos := u1.readPos + 1, decodeState := DbfAsciiStringState }
    else if is_char_part_of_word ch then { u1 with decodeState := DbfAsciiWordState }
    else { u1 with decodeState := DbfEndOfMsgState }

def DbfUnserializerInitGeneric (u : DbfUnserializer) (msgPtr : List Nat) (msgSize : Nat) :
    DbfUnserializer :=
  { u with msgPtr := msgPtr, msgSize := msgSize, readPos := 0, current_code := 0, repeat_counter := 0 }

def DbfUnserializerInitNoCRC (u : DbfUnserializer) (msgPtr : List Nat) (msgSize : Nat) :
    DbfUnserializer :=
  DbfUnserializerTakeSpecial
    (DbfUnserializerInitGeneric { u with decodeState := DbfNextIsIntegerState } msgPtr msgSize)

def DbfUnserializerInitFromSerializer (u : DbfUnserializer) (s : DbfSerializer) :
    DBF_CRC_RESULT × DbfUnserializer :=
  (DBF_OK_CRC, DbfUnserializerTakeSpecial
    (DbfUnserializerInitGeneric { u with decodeState := DbfNextIsIntegerState } s.buffer s.pos))

def DbfUnserializerInitCopyUnserializer (_u : DbfUnserializer) (src : DbfUnserializer) :
    DBF_CRC_RESULT × DbfUnserializer :=
  (DBF_OK_CRC, src)

def DbfUnserializerInitAscii (u : DbfUnserializer) (msgPtr : List Nat) (msgSize : Nat) :
    DBF_CRC_RESULT × DbfUnserializer :=
  (DBF_OK_CRC, DbfUnserializerTakeAsciiSpace
    (DbfUnserializerInitGeneric { u with decodeState := DbfAsciiNumberState } msgPtr msgSize))

def DbfUnserializerInitAsciiSerializer (_u : DbfUnserializer) (s : DbfSerializer) :
    DBF_CRC_RESULT × DbfUnserializer :=
  (DBF_OK_CRC, DbfUnserializerTakeAsciiSpace
    { msgPtr := s.buffer, msgSize := s.pos, decodeState := DbfNextIsIntegerState, readPos := 0,
      current_code := 0, repeat_counter := 0 })

/-- This takes the last code in the buffer, decodes it and checks it against the CRC of
the bytes before it; the external `crc32_calculate` is a parameter. -/
def DbfUnserializerReadCrc (crc32_calculate : List Nat → Nat) (u : DbfUnserializer) :
    DBF_CRC_RESULT × DbfUnserializer :=
  if u.msgSize = 0 then (DBF_NO_CRC, u)
  else
    let r := DbfUnserializerDecodeDataRev64 u u.msgSize
    if r.2.1 ≠ DbfFoC then (DBF_NO_CRC, u)
    else
      let u1 := { u with msgSize := r.1 }
      let receivedCrc := toU32 r.2.2
      let calculatedCrc := crc32_calculate (u1.msgPtr.take u1.msgSize) % 4294967296
      if receivedCrc ≠ calculatedCrc then (DBF_BAD_CRC, u1) else (DBF_OK_CRC, u1)

def DbfUnserializerInitTakeCrc (crc32_calculate : List Nat → Nat) (u : DbfUnserializer)
    (msgPtr : List Nat) (msgSize : Nat) : DBF_CRC_RESULT × DbfUnserializer :=
  let r := DbfUnserializerReadCrc crc32_calculate (DbfUnserializerInitNoCRC u msgPtr msgSize)
  match r.1 with
  | DBF_OK_CRC => (DBF_OK_CRC, r.2)
  | _ => (r.1, { r.2 with decodeState := DbfEndOfMsgState, msgSize := 0 })

/-! ### `utility_atoll` -/

def atollHex : List Nat → Int → Int
  | [], value => value
  | c :: rest, value =>
    let d := utility_decode_digit (charToInt c)
    if d < 0 then value else atollHex rest (wrap64 (value * 16 + d))

def atollOctal : List Nat → Int → Int
  | [], value => value
  | c :: rest, value =>
    if 48 ≤ c ∧ c ≤ 55 then atollOctal rest (wrap64 (value * 8 + (charToInt c - 48))) else value

def atollDecimal : List Nat → Int → Int
  | [], value => value
  | c :: rest, value =>
    if 48 ≤ c ∧ c ≤ 57 then atollDecimal rest (wrap64 (value * 10 + (charToInt c - 48))) else value

/-- The function `utility_atoll` on the bytes from `str` on; it calls itself once per
leading sign character, so the number of bytes bounds the recursion. -/
def utility_atoll : Nat → List Nat → Int
  | 0, _ => 0
  | fuel + 1, str =>
    match str.dropWhile (fun c => decide (c = 32)) with
    | [] => 0
    | c :: rest =>
      if c = 45 then wrap64 (-(utility_atoll fuel rest))
      else if c = 43 then utility_atoll fuel rest
      else if c = 48 then
        match rest with
        | [] => 0
        | x :: rest2 => if x = 120 ∨ x = 88 then atollHex rest2 0 else atollOctal rest 0
      else atollDecimal (c :: rest) 0

/-! ### Reading values -/

/-- The loop `while (isalnum(u->msgPtr[u->readPos]))` of the ASCII case of
`DbfUnserializerReadInt64`; it ends at the latest at the 0 read behind the bytes. -/
def readInt64SkipAlnum : Nat → DbfUnserializer → DbfUnserializer
  | 0, u => u
  | fuel + 1, u =>
    if isalnum (u.byteAt u.readPos) then readInt64SkipAlnum fuel { u with readPos := u.readPos + 1 }
    else u

def DbfUnserializerReadInt64 (u : DbfUnserializer) : Int × DbfUnserializer :=
  match u.decodeState with
  | DbfAsciiNumberState =>
    let str := u.msgPtr.drop u.readPos
    let i := utility_atoll (str.length + 1) str
    let u1 := readInt64SkipAlnum (u.msgPtr.length - u.readPos + 1) u
    (i, DbfUnserializerTakeAsciiSpace u1)
  | DbfNextIsIntegerState =>
    if u.repeat_counter > 0 then
      (u.current_code, DbfUnserializerTakeSpecial { u with repeat_counter := u.repeat_counter - 1 })
    else
      match GET_CODE_TYPE (u.byteAt u.readPos) with
      | DbfPnc =>
        let r := take_next_code u
        (r.1, DbfUnserializerTakeSpecial { r.2 with repeat_counter := 0, current_code := r.1 })
      | DbfNnc =>
        let r := take_next_code u
        let code := wrap64 (-r.1 - 1)
        (code, DbfUnserializerTakeSpecial { r.2 with repeat_counter := 0, current_code := code })
      | _ =>
        (0, DbfUnserializerTakeSpecial
          { u with repeat_counter := 0, current_code := 0, decodeState := DbfEndOfMsgState })
  | _ => (-1, u)

/-- The `int64_t` result of `DbfUnserializerReadInt64` is returned as `int32_t`. -/
def DbfUnserializerReadInt32 (u : DbfUnserializer) : Int × DbfUnserializer :=
  (toInt32 (DbfUnserializerReadInt64 u).1, (DbfUnserializerReadInt64 u).2)

/-- The guarded store `if (n < bufCap) {bufPtr[n] = c;}`. -/
def storeChar (bufPtr : List Nat) (bufCap n c : Nat) : List Nat :=
  if n < bufCap then bufPtr.set n (c % 256) else bufPtr

/-- The terminator
`if (n < bufCap) {bufPtr[n] = 0;} else if (bufCap>0) {bufPtr[bufCap-1] = 0;}`. -/
def storeNul (bufPtr : List Nat) (bufCap n : Nat) : List Nat :=
  if n < bufCap then bufPtr.set n 0
  else if bufCap > 0 then bufPtr.set (bufCap - 1) 0 else bufPtr

/-- The quote
`if (u->decodeState == DbfNextIsStringState) {if (n < bufCap) {bufPtr[n] = '\"';n++;}}`. -/
def storeQuote (st : DbfDecodingStateEnum) (bufPtr : List Nat) (bufCap n : Nat) : List Nat × Nat :=
  if st = DbfNextIsStringState then
    if n < bufCap then (bufPtr.set n 34, n + 1) else (bufPtr, n)
  else (bufPtr, n)

/-- The loops of the `DbfAsciiNumberState` and `DbfAsciiWordState` cases of
`DbfUnserializerRead`, which differ in the character test `p` only. -/
def readAsciiRun (p : Int → Bool) : Nat → DbfUnserializer → List Nat → Nat → Nat →
    Nat × List Nat × DbfUnserializer
  | 0, u, bufPtr, _, n => (n, bufPtr, u)
  | fuel + 1, u, bufPtr, bufCap, n =>
    if p (u.byteAt u.readPos) then
      readAsciiRun p fuel { u with readPos := u.readPos + 1 }
        (storeChar bufPtr bufCap n (u.byteAt u.readPos)) bufCap (n + 1)
    else (n, bufPtr, u)

/-- The `for(;;)` loop of the `DbfAsciiStringState` case of `DbfUnserializerRead`;
`readPos` grows in each round and the loop returns once it reaches `msgSize`. -/
def readAsciiStringLoop : Nat → DbfUnserializer → List Nat → Nat → Nat →
    Nat × List Nat × DbfUnserializer
  | 0, u, bufPtr, _, n => (n, bufPtr, u)
  | fuel + 1, u, bufPtr, bufCap, n =>
    let ch := u.byteAt u.readPos
    let u1 := { u with readPos := u.readPos + 1 }
    if ch = 0 ∨ ch = 34 ∨ u1.readPos ≥ u1.msgSize then (n, bufPtr, DbfUnserializerTakeAsciiSpace u1)
    else if ch = 92 then
      let x := u1.byteAt u1.readPos
      let u2 := { u1 with readPos := u1.readPos + 1 }
      if x = 120 then
        let h1 := u2.byteAt u2.readPos
        let u3 := { u2 with readPos := u2.readPos + 1 }
        let h2 := u3.byteAt u3.readPos
        let u4 := { u3 with readPos := u3.readPos + 1 }
        let h : Int := utility_decode_digit h1 * 16 + utility_decode_digit h2
        readAsciiStringLoop fuel u4 (storeChar bufPtr bufCap n (toByte h)) bufCap (n + 1)
      else readAsciiStringLoop fuel u2 bufPtr bufCap n
    else readAsciiStringLoop fuel u1 (storeChar bufPtr bufCap n ch) bufCap (n + 1)

/-- The loop `while (code > 0)` of the repeat case: `code` copies of `current_code`. -/
def storeRepeat : Nat → List Nat → Nat → Nat → Nat → List Nat × Nat
  | 0, bufPtr, _, n, _ => (bufPtr, n)
  | code + 1, bufPtr, bufCap, n, c => storeRepeat code (storeChar bufPtr bufCap n c) bufCap (n + 1) c

/-- What `DbfUnserializerRead` does when it is not at a string: `"Not string"`. -/
def readNotString (u : DbfUnserializer) (bufPtr : List Nat) (bufCap : Nat) :
    Int × List Nat × DbfUnserializer :=
  (-1, if bufCap > 0 then bufPtr.set 0 0 else bufPtr, u)

/-- The `while` loop of the binary case of `DbfUnserializerRead`.  A round that does not
return consumes a code, so `readPos` grows, and a round at or beyond `msgSize` returns.
The count `n` is an `int` in the source; it is counted here without a bound, which is the
same number as long as it stays below 2^31.  The two `assert(u->repeat_counter==0)` are
not part of this function: `readCodesAssert` gives their condition. -/
def readCodesLoop : Nat → DbfUnserializer → List Nat → Nat → Nat →
    Int × List Nat × DbfUnserializer
  | 0, u, bufPtr, bufCap, _ => readNotString (DbfUnserializerTakeSpecial u) bufPtr bufCap
  | fuel + 1, u, bufPtr, bufCap, n =>
    if u.decodeState = DbfNextIsWordState ∨ u.decodeState = DbfNextIsStringState then
      match DbfUnserializerGetNextType u u.readPos with
      | DbfPnc =>
        let r := take_next_code u
        let c := wrap64 (ASCII_OFFSET + r.1)
        readCodesLoop fuel { r.2 with current_code := c } (storeChar bufPtr bufCap n (toByte c))
          bufCap (n + 1)
      | DbfNnc =>
        let r := take_next_code u
        let c := wrap64 (ASCII_OFFSET - 1 - r.1)
        readCodesLoop fuel { r.2 with current_code := c } (storeChar bufPtr bufCap n (toByte c))
          bufCap (n + 1)
      | DbfRcc =>
        let r := take_next_code u
        let w := storeRepeat r.1.toNat bufPtr bufCap n (toByte r.2.current_code)
        readCodesLoop fuel { r.2 with repeat_counter := 0 } w.1 bufCap w.2
      | DbfEom =>
        let q := storeQuote u.decodeState bufPtr bufCap n
        ((q.2 : Int), storeNul q.1 bufCap q.2, { u with decodeState := DbfEndOfMsgState })
      | _ =>
        let q := storeQuote u.decodeState bufPtr bufCap n
        ((q.2 : Int), storeNul q.1 bufCap q.2, DbfUnserializerTakeSpecial u)
    else readNotString (DbfUnserializerTakeSpecial u) bufPtr bufCap

/-- Returns the `int` result, the caller's buffer `bufPtr` after the call, and the
unserializer after the call.  The result is the value of the source's `int` as long as
fewer than 2^31 characters are counted, and the call returns as long as
`DbfUnserializerReadAssert` holds. -/
def DbfUnserializerRead (u : DbfUnserializer) (bufPtr : List Nat) (bufCap : Nat) :
    Int × List Nat × DbfUnserializer :=
  match u.decodeState with
  | DbfAsciiNumberState =>
    let r := readAsciiRun is_char_part_of_number (u.msgPtr.length - u.readPos + 1) u bufPtr bufCap 0
    ((r.1 : Int), storeNul r.2.1 bufCap r.1, DbfUnserializerTakeAsciiSpace r.2.2)
  | DbfAsciiWordState =>
    let r := readAsciiRun is_char_part_of_word (u.msgPtr.length - u.readPos + 1) u bufPtr bufCap 0
    ((r.1 : Int), storeNul r.2.1 bufCap r.1, DbfUnserializerTakeAsciiSpace r.2.2)
  | DbfAsciiStringState =>
    let r := readAsciiStringLoop (u.msgSize - u.readPos + 1) u bufPtr bufCap 0
    ((r.1 : Int), r.2.1, r.2.2)
  | DbfNextIsWordState =>
    readCodesLoop (u.msgSize - u.readPos + 1) u bufPtr bufCap 0
  | DbfNextIsStringState =>
    let q := storeQuote u.decodeState bufPtr bufCap 0
    readCodesLoop (u.msgSize - u.readPos + 1) u q.1 bufCap q.2
  | _ => readNotString u bufPtr bufCap

/-- The condition of the two `assert(u->repeat_counter==0)` in the binary case of
`DbfUnserializerRead` (cases `DbfFoC` and `DbfEom`), at the round of the loop that reaches
one of them; `true` when the call returns without reaching one.  The rounds are those of
`readCodesLoop`. -/
def readCodesAssert : Nat → DbfUnserializer → Bool
  | 0, _ => true
  | fuel + 1, u =>
    if u.decodeState = DbfNextIsWordState ∨ u.decodeState = DbfNextIsStringState then
      match DbfUnserializerGetNextType u u.readPos with
      | DbfPnc =>
        readCodesAssert fuel
          { (take_next_code u).2 with current_code := wrap64 (ASCII_OFFSET + (take_next_code u).1) }
      | DbfNnc =>
        readCodesAssert fuel
          { (take_next_code u).2 with
            current_code := wrap64 (ASCII_OFFSET - 1 - (take_next_code u).1) }
      | DbfRcc => readCodesAssert fuel { (take_next_code u).2 with repeat_counter := 0 }
      | DbfEom => decide (u.repeat_counter = 0)
      | DbfFoC => decide (u.repeat_counter = 0)
      | _ => true
    else true

/-- Whether a call of `DbfUnserializerRead` passes its `assert(u->repeat_counter==0)`;
`sys_time.h` refuses `NDEBUG`, so a failing assertion aborts the program. -/
def DbfUnserializerReadAssert (u : DbfUnserializer) : Bool :=
  match u.decodeState with
  | DbfNextIsWordState => readCodesAssert (u.msgSize - u.readPos + 1) u
  | DbfNextIsStringState => readCodesAssert (u.msgSize - u.readPos + 1) u
  | _ => true

def DbfUnserializerReadIsNextString (u : DbfUnserializer) : Int :=
  match u.decodeState with
  | DbfAsciiStringState => 1
  | DbfAsciiWordState => 1
  | DbfNextIsStringState => 1
  | _ => 0

def DbfUnserializerReadIsNextInt (u : DbfUnserializer) : Int :=
  match u.decodeState with
  | DbfAsciiNumberState => 1
  | DbfNextIsIntegerState => 1
  | _ => 0

def DbfUnserializerReadIsNextEnd (u : DbfUnserializer) : Int :=
  if u.decodeState = DbfEndOfMsgState then 1 else 0

/-! ## Reference definitions, following the words of the specification -/

/-- Reference for "while non-zero, each successive 7-bit slab is written as a byte with the
EXT prefix (`0x80 | slab`)", least significant slab first. -/
def extSlabs (value : Nat) : List Nat :=
  if h : value = 0 then [] else (0x80 ||| (value % 128)) :: extSlabs (value / 128)
termination_by value
decreasing_by exact Nat.div_lt_self (Nat.pos_of_ne_zero h) (by decide)

/-- Reference for Encode(class, payloadBits, value): "the low `payloadBits` of `value` are
OR-ed into the class's code-identifier and written as one byte; then `value` is shifted
right by `payloadBits`" and its slabs follow. -/
def Encode (code payloadBits value : Nat) : List Nat :=
  (code ||| (value % 2 ^ payloadBits)) :: extSlabs (value / 2 ^ payloadBits)

/-- The four classes that carry a value, with their code identifier, the number of payload
bits of the start sub-code, and the class the decoder reports. -/
def isValueClass (code nofb : Nat) (t : DbfCodeTypesEnum) : Prop :=
  (code = DBF_PINT_CODEID ∧ nofb = DBF_PINT_DATANBITS ∧ t = DbfPnc) ∨
  (code = DBF_NINT_CODEID ∧ nofb = DBF_NINT_DATANBITS ∧ t = DbfNnc) ∨
  (code = DBF_FMTCRC_CODEID ∧ nofb = DBF_FMTCRC_DATANBITS ∧ t = DbfFoC) ∨
  (code = DBF_REPEAT_CODEID ∧ nofb = DBF_REPEAT_DATANBITS ∧ t = DbfRcc)

/-! ## Definitions used to state the theorems -/

/-- The value carried by a run of EXT sub-codes, least significant slab first. -/
def slabVal : List Nat → Nat
  | [] => 0
  | b :: bs => b % 128 + 128 * slabVal bs

/-- An all-zero serializer structure, as input to the `Init` functions. -/
def zeroSerializer : DbfSerializer := ⟨[], 0, DBF_ENCODER_IDLE, 0, 0⟩

/-- An all-zero unserializer structure, as input to the `Init` functions. -/
def zeroUnserializer : DbfUnserializer := ⟨[], 0, DbfNextIsIntegerState, 0, 0, 0⟩

/-- The bytes of a flushed repetition: nothing when no repetition is pending. -/
def repBytes (k : Nat) : List Nat :=
  if k > 0 then Encode DBF_REPEAT_CODEID DBF_REPEAT_DATANBITS k else []

/-- The number code of an `int64_t`: PINT of `i`, or NINT of `-1 - i` when `i` is negative. -/
def numBytes (i : Int) : List Nat :=
  if i ≥ 0 then Encode DBF_PINT_CODEID DBF_PINT_DATANBITS (toU64 i)
  else Encode DBF_NINT_CODEID DBF_NINT_DATANBITS (toU64 (-1 - i))

/-- The bytes of a format code. -/
def fmtBytes (c : Nat) : List Nat := Encode DBF_FMTCRC_CODEID DBF_FMTCRC_DATANBITS c

/-- A byte run that is empty or begins with a start sub-code (not EXT). -/
def startsWithCode (l : List Nat) : Prop := ∀ b, l.head? = some b → b < 128

/-- The serializer is in one of the binary encoder states. -/
def isBinary (s : DbfSerializer) : Prop :=
  s.encoderState ≠ DBF_ENCODER_ERROR ∧ s.encoderState ≠ DBF_ENCODER_ASCII_MODE

instance (s : DbfSerializer) : Decidable (isBinary s) := by unfold isBinary; infer_instance

/-- The allocation holds what was written: `capacity` is the initial 256 doubled some number
of times without passing 2^32 (the doubling of the `unsigned int` never wrapped), and at
least two bytes are free behind `pos`, so that every byte so far was stored below
`capacity`. -/
def hasRoom (s : DbfSerializer) : Prop :=
  (∃ j, j ≤ 23 ∧ s.capacity = 256 * 2 ^ j) ∧ s.pos + 2 < s.capacity

instance (s : DbfSerializer) : Decidable (hasRoom s) := by unfold hasRoom; infer_instance

/-- The list 1, 2, 1, 2, ... of `n` integers: no two neighbours are equal, and each one is
written as one byte. -/
def alternating (n : Nat) : List Int := (List.range n).map (fun k => ((k % 2 + 1 : Nat) : Int))

/-- Consecutive `DbfSerializerWriteInt64` calls, one per element. -/
def writeInts (s : DbfSerializer) (V : List Int) : DbfSerializer :=
  V.foldl DbfSerializerWriteInt64 s

/-- The results of `n` consecutive `DbfUnserializerReadInt64` calls, and the unserializer
after them. -/
def readInts : Nat → DbfUnserializer → List Int × DbfUnserializer
  | 0, u => ([], u)
  | n + 1, u =>
    let r := DbfUnserializerReadInt64 u
    let rest := readInts n r.2
    (r.1 :: rest.1, rest.2)

/-- A value of a message: an integer, or the bytes of the C string passed to
`DbfSerializerWriteWord` or to `DbfSerializerWriteString`. -/
inductive Item where
  | int (i : Int)
  | word (w : List Nat)
  | str (w : List Nat)
deriving DecidableEq, Repr

/-- The write call for one value. -/
def writeItem (s : DbfSerializer) : Item → DbfSerializer
  | Item.int i => DbfSerializerWriteInt64 s i
  | Item.word w => DbfSerializerWriteWord s w
  | Item.str w => DbfSerializerWriteString s w

/-- The write calls for a sequence of values, in order. -/
def writeItems (s : DbfSerializer) (V : List Item) : DbfSerializer := V.foldl writeItem s

/-- The format code a value is written under (`DbfSerializerWriteWord` falls back to the
string code when its argument does not begin with a word character). -/
def Item.fmt : Item → Nat
  | Item.int _ => DBF_INT_BEGIN_CODE
  | Item.word w => if word_length w = 0 then DBF_STR_BEGIN_CODE else DBF_WORD_BEGIN_CODE
  | Item.str _ => DBF_STR_BEGIN_CODE

/-- The characters of a word or string. -/
def Item.chars : Item → List Nat
  | Item.int _ => []
  | Item.word w => w
  | Item.str w => w

/-- The number codes a value is written as: the integer itself, or the characters
minus `ASCII_OFFSET`. -/
def Item.codes : Item → List Int
  | Item.int i => [i]
  | Item.word w => w.map (fun c => charToInt c - ASCII_OFFSET)
  | Item.str w => w.map (fun c => charToInt c - ASCII_OFFSET)

/-- The bytes `DbfUnserializerRead` stores for a value written under the word code (the
characters) or under the string code (the characters between two `'"'`). -/
def Item.expected (it : Item) : List Nat :=
  if it.fmt = DBF_WORD_BEGIN_CODE then it.chars else [34] ++ it.chars ++ [34]

/-- The decoder state in front of a value. -/
def Item.state (it : Item) : DbfDecodingStateEnum :=
  if it.fmt = DBF_INT_BEGIN_CODE then DbfNextIsIntegerState
  else if it.fmt = DBF_WORD_BEGIN_CODE then DbfNextIsWordState
  else DbfNextIsStringState

/-- Well-formed values: an `int64_t`, or a non-empty 7-bit ASCII C string (no NUL inside)
of fewer than 2^31 - 2 bytes, so that the `int` counters of `word_length`, `strlen` and
`DbfUnserializerRead` (which also counts the two quotes of a string) hold its length. -/
def Item.valid : Item → Bool
  | Item.int i => decide (isInt64 i)
  | Item.word w =>
    decide (w ≠ []) && decide (w.length + 2 < 2 ^ 31) && w.all (fun c => decide (0 < c ∧ c < 128))
  | Item.str w =>
    decide (w ≠ []) && decide (w.length + 2 < 2 ^ 31) && w.all (fun c => decide (0 < c ∧ c < 128))

/-- The number of number codes in a sequence of values. -/
def itemsSize : List Item → Nat
  | [] => 0
  | it :: V => it.codes.length + itemsSize V

/-- No value begins right after a format code with the code that the serializer holds in
`prev_code` at that moment (after the flush of a pending repetition): a word or string
never, an integer only when that `prev_code` is 0. -/
def noSlip : DbfSerializer → List Item → Bool
  | _, [] => true
  | s, it :: V =>
    (match it with
      | Item.int i =>
        decide (s.encoderState = DBF_ENCODER_IDLE ∨ s.encoderState = DBF_ENCODING_INT) ||
        decide (i ≠ (DbfSerializerWriteRepeat s).prev_code) ||
        decide ((DbfSerializerWriteRepeat s).prev_code = 0)
      | _ => decide (it.codes.head? ≠ some (DbfSerializerWriteRepeat s).prev_code)) &&
    noSlip (writeItem s it) V

/-- Reading the values back, one call per value: `DbfUnserializerReadInt64` returns each
integer; `DbfUnserializerRead` passes its assertions and, for every caller buffer with room
for the bytes and the terminating NUL, returns their number and stores them NUL-terminated;
and the decoder is in the state of the next value before each call and in
`DbfEndOfMsgState` at the end. -/
def ReadsBack : DbfUnserializer → List Item → Prop
  | u, [] => u.decodeState = DbfEndOfMsgState
  | u, it :: V =>
    u.decodeState = it.state ∧
    match it with
    | Item.int i =>
      (DbfUnserializerReadInt64 u).1 = i ∧ ReadsBack (DbfUnserializerReadInt64 u).2 V
    | _ =>
      DbfUnserializerReadAssert u = true ∧
      ∀ (bufPtr : List Nat) (bufCap : Nat), it.expected.length < bufCap → bufCap ≤ bufPtr.length →
        (DbfUnserializerRead u bufPtr bufCap).1 = (it.expected.length : Int) ∧
        (DbfUnserializerRead u bufPtr bufCap).2.1.take (it.expected.length + 1)
          = it.expected ++ [0] ∧
        ReadsBack (DbfUnserializerRead u bufPtr bufCap).2.2 V

/-- The bytes of a run of number codes written from `prev_code = p` with `k` repetitions
pending, up to and including the final flush: a code equal to the previous one only counts,
any other code first flushes the count as a REP code. -/
def foldedCodes : Int → Nat → List Int → List Nat
  | _, k, [] => repBytes k
  | p, k, x :: xs =>
    if x = p then foldedCodes p (k + 1) xs else repBytes k ++ numBytes x ++ foldedCodes x 0 xs

/-- The guarded stores of a run of bytes from index `n` on. -/
def storeList : List Nat → Nat → Nat → List Nat → List Nat
  | bufPtr, _, _, [] => bufPtr
  | bufPtr, bufCap, n, c :: cs => storeList (storeChar bufPtr bufCap n c) bufCap (n + 1) cs

/-- A byte run that is empty or begins with a FMTCRC start sub-code. -/
def startsWithFmt (l : List Nat) : Prop := ∀ b, l.head? = some b → 16 ≤ b ∧ b < 32

/-- The serializer `s'` is in a binary state, its counter is a valid `unsigned long`, and
its buffer is the buffer of `s` followed by whole codes. -/
def Extends (s s' : DbfSerializer) : Prop :=
  isBinary s' ∧ s'.repeat_counter < 2 ^ 64 ∧
    ∃ tail, s'.buffer = s.buffer ++ tail ∧ startsWithCode tail

/-- The serializer after `DbfSerializerEncodeData32` of the format code `c` and the
assignment of the encoder state `st`. -/
def afterFmt (s : DbfSerializer) (c : Nat) (st : encoder_states_type) : DbfSerializer :=
  { DbfSerializerEncodeData32 s DBF_FMTCRC_CODEID DBF_FMTCRC_DATANBITS c with encoderState := st }

/-- The encoder states in which integers are being written. -/
def isIntMode (s : DbfSerializer) : Prop :=
  s.encoderState = DBF_ENCODER_IDLE ∨ s.encoderState = DBF_ENCODING_INT

/-- The encoder states in which a word or string was written last. -/
def isStrMode (s : DbfSerializer) : Prop :=
  s.encoderState = DBF_ENCODING_WORD ∨ s.encoderState = DBF_ENCODING_STR

/-- The result and the buffer of the binary case of `DbfUnserializerRead` when the
characters `out` were stored from index `n` on and the value ended: the closing quote of
a string, the terminator, and the count. -/
def readResult (st : DbfDecodingStateEnum) (bufPtr : List Nat) (bufCap n : Nat) (out : List Nat) :
    Int × List Nat :=
  let q := storeQuote st (storeList bufPtr bufCap n out) bufCap (n + out.length)
  ((q.2 : Int), storeNul q.1 bufCap q.2)

/-! ### `DbfUnserializerStringLength` -/

/-- The loops of the `DbfAsciiNumberState` and `DbfAsciiWordState` cases of
`DbfUnserializerStringLength` on the copy `uc`, which differ in the character test `p`
only; they end at the latest at the 0 read behind the bytes. -/
def stringLengthRun (p : Int → Bool) : Nat → DbfUnserializer → Nat → Nat
  | 0, _, n => n
  | fuel + 1, uc, n =>
    if p (uc.byteAt uc.readPos) then stringLengthRun p fuel { uc with readPos := uc.readPos + 1 } (n + 1)
    else n

/-- The `for(;;)` loop of the `DbfAsciiStringState` case of `DbfUnserializerStringLength`;
`readPos` grows in each round and the loop returns once it reaches `msgSize`. -/
def stringLengthAsciiString : Nat → DbfUnserializer → Nat → Nat
  | 0, _, n => n
  | fuel + 1, uc, n =>
    let ch := uc.byteAt uc.readPos
    let uc1 := { uc with readPos := uc.readPos + 1 }
    if ch = 0 ∨ ch = 34 ∨ uc1.readPos ≥ uc1.msgSize then n
    else if ch = 92 then stringLengthAsciiString fuel { uc1 with readPos := uc1.readPos + 4 } (n + 1)
    else stringLengthAsciiString fuel { uc1 with readPos := uc1.readPos + 1 } (n + 1)

/-- The `while` loop of the binary case of `DbfUnserializerStringLength`; `n` is an `int`
and `n += take_next_code(&uc)` converts the 64-bit sum back to `int`.  A round that does
not return consumes a code. -/
def stringLengthCodes : Nat → DbfUnserializer → Int → Int
  | 0, _, _ => -1
  | fuel + 1, uc, n =>
    if uc.decodeState = DbfNextIsStringState ∨ uc.decodeState = DbfNextIsWordState then
      match DbfUnserializerGetNextType uc uc.readPos with
      | DbfPnc => stringLengthCodes fuel (take_next_code uc).2 (n + 1)
      | DbfNnc => stringLengthCodes fuel (take_next_code uc).2 (n + 1)
      | DbfRcc =>
        let r := take_next_code uc
        stringLengthCodes fuel r.2 (toInt32 (n + r.1))
      | _ => n
    else -1

/-- It works on a copy of the unserializer, so only the result is returned. -/
def DbfUnserializerStringLength (u : DbfUnserializer) : Int :=
  match u.decodeState with
  | DbfAsciiNumberState =>
    (stringLengthRun is_char_part_of_number (u.msgPtr.length - u.readPos + 1) u 0 : Nat)
  | DbfAsciiWordState =>
    (stringLengthRun is_char_part_of_word (u.msgPtr.length - u.readPos + 1) u 0 : Nat)
  | DbfAsciiStringState => (stringLengthAsciiString (u.msgSize - u.readPos + 1) u 0 : Nat)
  | DbfNextIsWordState => stringLengthCodes (u.msgSize - u.readPos + 1) u 0
  | DbfNextIsStringState => stringLengthCodes (u.msgSize - u.readPos + 1) u 0
  | DbfNextIsIntegerState => 32
  | _ => -1

/-- Reference for "the two hexadecimal digits of c": the digit character of `d < 16`, with
capital letters. -/
def hexDigit (d : Nat) : Nat := if d < 10 then 48 + d else 55 + d

/-- Reference for the ASCII rendering of one byte of a string: the byte itself when it is
printable (0x20..0x7E) and neither `'"'` nor `'\\'`, otherwise `'\\'`, `'x'` and its two
hexadecimal digits. -/
def asciiRender (c : Nat) : List Nat :=
  if 0x20 ≤ c ∧ c ≤ 0x7E ∧ c ≠ 34 ∧ c ≠ 92 then [c] else [92, 120, hexDigit (c / 16), hexDigit (c % 16)]

def DBF_RCV_TIMEOUT_MS : Int := 5000
def BUFFER_SIZE_IN_BYTES : Nat := 1024
def IGNORE_UNTIL_SILENCE_MS : Int := 100

inductive DbfReveiverCodeStateEnum where
  | DbfRcvInitialState
  | DbfRcvReceivingTxtState
  | DbfRcvReceivingMessageState
  | DbfRcvMessageReadyState
  | DbfRcvTxtReceivedState
  | DbfRcvDbfReceivedState
  | DbfRcvDbfReceivedMoreExpectedState
  | DbfRcvIgnoreInputState
  | DbfRcvErrorState
deriving DecidableEq, Repr

open DbfReveiverCodeStateEnum

/-- The receiver: `buffer` is the array of `BUFFER_SIZE_IN_BYTES` bytes, `msgtimestamp` a
`uint64_t`. -/
structure DbfReceiver where
  buffer : List Nat
  msgSize : Nat
  receiverState : DbfReveiverCodeStateEnum
  msgtimestamp : Nat
deriving DecidableEq, Repr

def DbfReceiverIsFull (r : DbfReceiver) : Bool := decide (r.msgSize ≥ BUFFER_SIZE_IN_BYTES)

/-- Returns 0 if the byte was stored, -1 if the buffer is full. -/
def DbfReceiverStoreByte (r : DbfReceiver) (b : Nat) : Int × DbfReceiver :=
  if r.msgSize < BUFFER_SIZE_IN_BYTES then
    (0, { r with buffer := r.buffer.set r.msgSize (b % 256), msgSize := r.msgSize + 1 })
  else (-1, r)

/-! The clock `get_sys_time_ms()` (`st_get_posix_time_us() / 1000`, a `long`) is an input of
the receiver: the functions that read it take its value `now` as a parameter, one reading
per call of `DbfReceiverProcessCh` or `DbfReceiverCheckTimeout`.  Stored in `msgtimestamp`
it is converted to `uint64_t`; the difference `get_sys_time_ms() - r->msgtimestamp` is
converted to `int32_t`. -/

def enterInitialState (r : DbfReceiver) : DbfReceiver :=
  { r with msgSize := 0, msgtimestamp := 0, receiverState := DbfRcvInitialState }

def enterReceivingTxtState (now : Int) (r : DbfReceiver) (ch : Nat) : DbfReceiver :=
  { (DbfReceiverStoreByte r ch).2 with
    msgtimestamp := toU64 now, receiverState := DbfRcvReceivingTxtState }

def enterReceivingBinaryMessageState (now : Int) (r : DbfReceiver) (_ch : Nat) : DbfReceiver :=
  { r with msgSize := 0, msgtimestamp := toU64 now, receiverState := DbfRcvReceivingMessageState }

def enterReceivingNoiseState (now : Int) (r : DbfReceiver) (_ch : Nat) : DbfReceiver :=
  { r with msgSize := 0, msgtimestamp := toU64 now, receiverState := DbfRcvIgnoreInputState }

def DbfReceiverInit (r : DbfReceiver) : DbfReceiver := enterInitialState r

def DbfReceiverDeinit (r : DbfReceiver) : DbfReceiver := enterInitialState r

def DbfReceiverReset (r : DbfReceiver) : DbfReceiver := enterInitialState r

def DbfReceiverGetEncoding (r : DbfReceiver) : Int :=
  match r.receiverState with
  | DbfRcvMessageReadyState => 1
  | DbfRcvDbfReceivedState => 1
  | DbfRcvDbfReceivedMoreExpectedState => 1
  | DbfRcvTxtReceivedState => 0
  | _ => -1

def processFirstChar (now : Int) (r : DbfReceiver) (ch : Nat) : DbfReceiver :=
  if ch = DBF_BEGIN_CODEID then enterReceivingBinaryMessageState now r ch
  else if ch = DBF_END_CODEID then { r with msgSize := 0, msgtimestamp := 0 }
  else if ch = 13 ∨ ch = 10 then { r with msgSize := 0, msgtimestamp := 0 }
  else if ch = 9 then enterReceivingTxtState now r ch
  else
    let r1 := { r with msgSize := 0 }
    if ch ≥ 32 ∧ ch ≤ 126 then enterReceivingTxtState now r1 ch
    else enterReceivingNoiseState now r1 ch

def processNoise (now : Int) (r : DbfReceiver) (ch : Nat) : DbfReceiver :=
  if ch = DBF_BEGIN_CODEID then enterReceivingBinaryMessageState now r ch
  else
    let d := toInt32 (now - (r.msgtimestamp : Int))
    if d > IGNORE_UNTIL_SILENCE_MS then processFirstChar now r ch
    else if (ch ≥ 32 ∧ ch ≤ 126) ∨ ch = 10 ∨ ch = 13 ∨ ch = 9 then r
    else { r with msgtimestamp := toU64 now }

/-- Returns the `int` result and the receiver after the call; `ch` is an `unsigned char`. -/
def DbfReceiverProcessCh (now : Int) (r : DbfReceiver) (ch : Nat) : Int × DbfReceiver :=
  match r.receiverState with
  | DbfRcvInitialState => (0, processFirstChar now r ch)
  | DbfRcvReceivingTxtState =>
    if ch = DBF_END_CODEID then (0, enterInitialState r)
    else if ch = DBF_BEGIN_CODEID then (0, enterReceivingBinaryMessageState now r ch)
    else if ch = 13 ∨ ch = 10 then
      if r.msgSize < BUFFER_SIZE_IN_BYTES then
        ((r.msgSize : Int),
          { r with buffer := r.buffer.set r.msgSize 0, receiverState := DbfRcvTxtReceivedState })
      else ((r.msgSize : Int), r)
    else if ch < 32 ∨ ch > 126 then (0, enterReceivingNoiseState now r ch)
    else
      let r1 := { (DbfReceiverStoreByte r ch).2 with msgtimestamp := toU64 now }
      if DbfReceiverIsFull r1 then
        ((r1.msgSize : Int), { r1 with receiverState := DbfRcvTxtReceivedState })
      else (0, r1)
  | DbfRcvReceivingMessageState =>
    if ch = DBF_BEGIN_CODEID then
      if r.msgSize = 0 then (0, r)
      else ((r.msgSize : Int), { r with receiverState := DbfRcvDbfReceivedMoreExpectedState })
    else if ch = DBF_END_CODEID then
      if r.msgSize = 0 then (0, enterInitialState r)
      else ((r.msgSize : Int), { r with receiverState := DbfRcvDbfReceivedState })
    else
      let p := DbfReceiverStoreByte r ch
      if p.1 ≠ 0 then (0, enterInitialState p.2) else (0, p.2)
  | DbfRcvIgnoreInputState => (0, processNoise now r ch)
  | _ => (-1, { r with msgSize := 0 })

def DbfReceiverIsDbf (r : DbfReceiver) : Bool :=
  decide (r.receiverState = DbfRcvDbfReceivedState) ||
    decide (r.receiverState = DbfRcvDbfReceivedMoreExpectedState)

def DbfReceiverIsTxt (r : DbfReceiver) : Bool := decide (r.receiverState = DbfRcvTxtReceivedState)

def DbfReceiverCheckTimeout (now : Int) (r : DbfReceiver) (timout_ms : Int) : DbfReceiver :=
  match r.receiverState with
  | DbfRcvReceivingMessageState =>
    let time_since_msg_begin := toInt32 (now - (r.msgtimestamp : Int))
    if time_since_msg_begin > timout_ms then
      enterInitialState (if r.msgSize ≠ 0 then { r with msgSize := 0 } else r)
    else r
  | DbfRcvIgnoreInputState =>
    let time_since_msg_begin := toInt32 (now - (r.msgtimestamp : Int))
    if time_since_msg_begin > timout_ms then
      enterInitialState (if r.msgSize ≠ 0 then { r with msgSize := 0 } else r)
    else r
  | _ => r

def DbfReceiverTick (now : Int) (r : DbfReceiver) : DbfReceiver :=
  DbfReceiverCheckTimeout now r DBF_RCV_TIMEOUT_MS

/-- The bytes of a stream, each with the clock value at its arrival, given to
`DbfReceiverProcessCh` one at a time: the results and the receiver at the end. -/
def processAll (r : DbfReceiver) : List (Nat × Int) → List Int × DbfReceiver
  | [] => ([], r)
  | x :: rest =>
    let p := DbfReceiverProcessCh x.2 r x.1
    let q := processAll p.2 rest
    (p.1 :: q.1, q.2)

/-- The receiver after a stream when the caller calls `DbfReceiverReset` after every call
of `DbfReceiverProcessCh` that reported a message (a positive result). -/
def receiveAll (r : DbfReceiver) : List (Nat × Int) → DbfReceiver
  | [] => r
  | x :: rest =>
    let p := DbfReceiverProcessCh x.2 r x.1
    receiveAll (if p.1 > 0 then DbfReceiverReset p.2 else p.2) rest

/-- An initialised receiver structure with a buffer of `BUFFER_SIZE_IN_BYTES` zero bytes. -/
def zeroReceiver : DbfReceiver := ⟨List.replicate 1024 0, 0, DbfRcvInitialState, 0⟩

/-! ## Copying an unserializer into a serializer -/

def DbfSerializerBeginWriteNumber (s : DbfSerializer) : DbfSerializer :=
  match s.encoderState with
  | DBF_ENCODER_ERROR => s
  | DBF_ENCODER_ASCII_MODE =>
    let s1 := DbfSerializerResizeIfNeeded s (s.pos + 8)
    if s1.pos ≠ 0 then { s1 with buffer := s1.buffer ++ [toByte s1.prev_code] } else s1
  | _ =>
    let s1 := DbfSerializerEncodeData32 s DBF_FMTCRC_CODEID DBF_FMTCRC_DATANBITS DBF_INT_BEGIN_CODE
    { s1 with encoderState := DBF_ENCODING_STR }

def DbfSerializerBeginWriteWord (s : DbfSerializer) : DbfSerializer :=
  match s.encoderState with
  | DBF_ENCODER_ERROR => s
  | DBF_ENCODER_ASCII_MODE =>
    let s1 := DbfSerializerResizeIfNeeded s (s.pos + 8)
    if s1.pos ≠ 0 then { s1 with buffer := s1.buffer ++ [toByte s1.prev_code] } else s1
  | _ =>
    let s1 := DbfSerializerEncodeData32 s DBF_FMTCRC_CODEID DBF_FMTCRC_DATANBITS DBF_WORD_BEGIN_CODE
    { s1 with encoderState := DBF_ENCODING_STR }

def DbfSerializerBeginWriteString (s : DbfSerializer) : DbfSerializer :=
  match s.encoderState with
  | DBF_ENCODER_ERROR => s
  | DBF_ENCODER_ASCII_MODE =>
    let s1 := DbfSerializerResizeIfNeeded s (s.pos + 8)
    let s2 := if s1.pos ≠ 0 then { s1 with buffer := s1.buffer ++ [toByte s1.prev_code] } else s1
    { DbfSerializerPutByte s2 34 with repeat_counter := 1 }
  | _ =>
    let s1 := DbfSerializerEncodeData32 s DBF_FMTCRC_CODEID DBF_FMTCRC_DATANBITS DBF_STR_BEGIN_CODE
    { s1 with encoderState := DBF_ENCODING_STR }

/-- The copy loops of the `DbfAsciiNumberState` and `DbfAsciiWordState` cases of
`DbfUnserializerToSerializer`, which differ in the character test `p` only; `readPos` grows
in each round and stays below `msgSize`. -/
def toSerializerAsciiRun (p : Int → Bool) : Nat → DbfUnserializer → DbfSerializer → Int →
    Int × DbfUnserializer × DbfSerializer
  | 0, u, s, n => (n, u, s)
  | fuel + 1, u, s, n =>
    if u.readPos < u.msgSize ∧ p (u.byteAt u.readPos) = true then
      toSerializerAsciiRun p fuel { u with readPos := u.readPos + 1 }
        (DbfSerializerPutByte (DbfSerializerResizeIfNeeded s s.pos) (u.byteAt u.readPos)) (n + 1)
    else (n, u, s)

/-- The copy loop of the `DbfAsciiStringState` case.  The first component tells whether the
function returned from inside the loop (an escape sequence it does not accept). -/
def toSerializerAsciiString : Nat → DbfUnserializer → DbfSerializer → Int →
    Bool × Int × DbfUnserializer × DbfSerializer
  | 0, u, s, n => (false, n, u, s)
  | fuel + 1, u, s, n =>
    if u.readPos < u.msgSize then
      let ch := u.byteAt u.readPos
      let u1 := { u with readPos := u.readPos + 1 }
      if ch = 0 ∨ ch = 34 then (false, n, u1, s)
      else if ch = 92 then
        if u1.readPos + 3 ≤ u1.msgSize then
          let x := u1.byteAt u1.readPos
          let u2 := { u1 with readPos := u1.readPos + 1 }
          if x = 120 then
            let h1 := u2.byteAt u2.readPos
            let u3 := { u2 with readPos := u2.readPos + 1 }
            let h2 := u3.byteAt u3.readPos
            let u4 := { u3 with readPos := u3.readPos + 1 }
            let h : Int := utility_decode_digit h1 * 16 + utility_decode_digit h2
            toSerializerAsciiString fuel u4
              (DbfSerializerPutByte (DbfSerializerResizeIfNeeded s s.pos) (toByte h)) (n + 1)
          else (true, n, { u2 with decodeState := DbfEndOfMsgState }, s)
        else (true, n, { u1 with decodeState := DbfEndOfMsgState }, s)
      else
        toSerializerAsciiString fuel u1
          (DbfSerializerPutByte (DbfSerializerResizeIfNeeded s s.pos) ch) (n + 1)
    else (false, n, u, s)

/-- The loop `while (code > 0)` of the repeat case: `code` copies of the byte `c`. -/
def toSerializerRepeat : Nat → DbfSerializer → Nat → DbfSerializer
  | 0, s, _ => s
  | code + 1, s, c =>
    toSerializerRepeat code (DbfSerializerPutByte (DbfSerializerResizeIfNeeded s s.pos) c) c

/-- The loop `while (u->decodeState == st)` of the `DbfNextIsWordState` and
`DbfNextIsStringState` cases.  A round that does not return consumes a code, so `readPos`
grows, and a round at or beyond `msgSize` returns. -/
def toSerializerCodes (st : DbfDecodingStateEnum) : Nat → DbfUnserializer → DbfSerializer →
    Int → Int × DbfUnserializer × DbfSerializer
  | 0, u, s, _ => (-1, DbfUnserializerTakeSpecial u, s)
  | fuel + 1, u, s, n =>
    if u.decodeState = st then
      match DbfUnserializerGetNextType u u.readPos with
      | DbfPnc =>
        let r := take_next_code u
        let c := wrap64 (ASCII_OFFSET + r.1)
        toSerializerCodes st fuel { r.2 with current_code := c }
          (DbfSerializerPutByte (DbfSerializerResizeIfNeeded s s.pos) (toByte c)) (n + 1)
      | DbfNnc =>
        let r := take_next_code u
        let c := wrap64 (ASCII_OFFSET - 1 - r.1)
        toSerializerCodes st fuel { r.2 with current_code := c }
          (DbfSerializerPutByte (DbfSerializerResizeIfNeeded s s.pos) (toByte c)) (n + 1)
      | DbfRcc =>
        let r := take_next_code u
        toSerializerCodes st fuel { r.2 with repeat_counter := 0 }
          (toSerializerRepeat r.1.toNat s (toByte r.2.current_code)) (n + (r.1.toNat : Int))
      | _ => (n, DbfUnserializerTakeSpecial u, DbfSerializerEndWrite s)
    else (-1, DbfUnserializerTakeSpecial u, s)

/-- Returns the `int` result, the unserializer and the serializer after the call. -/
def DbfUnserializerToSerializer (u : DbfUnserializer) (s : DbfSerializer) :
    Int × DbfUnserializer × DbfSerializer :=
  match u.decodeState with
  | DbfAsciiNumberState =>
    let r := toSerializerAsciiRun is_char_part_of_number (u.msgSize - u.readPos + 1) u
      (DbfSerializerBeginWriteNumber s) 0
    (r.1, DbfUnserializerTakeAsciiSpace r.2.1, DbfSerializerEndWrite r.2.2)
  | DbfAsciiWordState =>
    let r := toSerializerAsciiRun is_char_part_of_word (u.msgSize - u.readPos + 1) u
      (DbfSerializerBeginWriteWord s) 0
    (r.1, DbfUnserializerTakeAsciiSpace r.2.1, DbfSerializerEndWrite r.2.2)
  | DbfAsciiStringState =>
    let r := toSerializerAsciiString (u.msgSize - u.readPos + 1) u
      (DbfSerializerBeginWriteString s) 0
    if r.1 then (r.2.1, r.2.2.1, r.2.2.2)
    else (r.2.1, DbfUnserializerTakeAsciiSpace r.2.2.1, DbfSerializerEndWrite r.2.2.2)
  | DbfNextIsWordState =>
    toSerializerCodes DbfNextIsWordState (u.msgSize - u.readPos + 1) u
      (DbfSerializerBeginWriteWord s) 0
  | DbfNextIsStringState =>
    toSerializerCodes DbfNextIsStringState (u.msgSize - u.readPos + 1) u
      (DbfSerializerBeginWriteString s) 0
  | DbfNextIsIntegerState =>
    let r := DbfUnserializerReadInt64 u
    (-1, r.2, DbfSerializerWriteInt64 s r.1)
  | _ => (-1, { u with decodeState := DbfEndOfMsgState }, s)

/-- The loop of `DbfUnserializerToSerializerAll`, which the source does not bound: `none`
stands for a loop that has not ended after `fuel` rounds. -/
def toSerializerAllLoop : Nat → DbfUnserializer → DbfSerializer → Int →
    Option (Int × DbfUnserializer × DbfSerializer)
  | 0, u, s, n => if DbfUnserializerReadIsNextEnd u = 0 then none else some (n, u, s)
  | fuel + 1, u, s, n =>
    if DbfUnserializerReadIsNextEnd u = 0 then
      let r := DbfUnserializerToSerializer u s
      toSerializerAllLoop fuel r.2.1 r.2.2 (n + 1)
    else some (n, u, s)

/-- Returns the number of values copied, the unserializer and the serializer after the call,
when the loop ends within `fuel` rounds. -/
def DbfUnserializerToSerializerAll (fuel : Nat) (u : DbfUnserializer) (s : DbfSerializer) :
    Option (Int × DbfUnserializer × DbfSerializer) :=
  toSerializerAllLoop fuel u s 0

/-! ## The comparison chain behind `GET_CODE_TYPE` on targets without the table -/

/-- The function `getCodeType` of the `#else` branch; its argument is a `uint8_t`. -/
def getCodeType (i : Nat) : DbfCodeTypesEnum :=
  if i ≥ 128 then DbfExt
  else if i ≥ 64 then DbfPnc
  else if i ≥ 32 then DbfNnc
  else if i ≥ 16 then DbfFoC
  else if i ≥ 8 then DbfRcc
  else DbfNct

/-! ## Sequences of calls -/

/-- A call on a serializer: `DbfSerializerWriteInt64`, `DbfSerializerWriteInt32`,
`DbfSerializerWriteWord`, `DbfSerializerWriteString` (with the bytes of the C string),
`DbfSerializerWriteCrc` or `DbfSerializerFinalize`. -/
inductive WriteCall where
  | int64 (i : Int)
  | int32 (i : Int)
  | word (w : List Nat)
  | str (w : List Nat)
  | crc
  | finalize
deriving DecidableEq, Repr

def applyWriteCall (crc32_calculate : List Nat → Nat) (s : DbfSerializer) :
    WriteCall → DbfSerializer
  | WriteCall.int64 i => DbfSerializerWriteInt64 s i
  | WriteCall.int32 i => DbfSerializerWriteInt32 s i
  | WriteCall.word w => DbfSerializerWriteWord s w
  | WriteCall.str w => DbfSerializerWriteString s w
  | WriteCall.crc => DbfSerializerWriteCrc crc32_calculate s
  | WriteCall.finalize => DbfSerializerFinalize s

/-- The calls of a sequence, in order. -/
def applyWriteCalls (crc32_calculate : List Nat → Nat) (s : DbfSerializer)
    (calls : List WriteCall) : DbfSerializer :=
  calls.foldl (applyWriteCall crc32_calculate) s

/-- A read call on an unserializer: `DbfUnserializerReadInt64`, or `DbfUnserializerRead`
with the caller's buffer and its capacity. -/
inductive ReadCall where
  | readInt64
  | read (bufPtr : List Nat) (bufCap : Nat)
deriving DecidableEq, Repr

/-- The unserializer after a read call. -/
def applyReadCall (u : DbfUnserializer) : ReadCall → DbfUnserializer
  | ReadCall.readInt64 => (DbfUnserializerReadInt64 u).2
  | ReadCall.read bufPtr bufCap => (DbfUnserializerRead u bufPtr bufCap).2.2

/-- The read calls of a sequence, in order. -/
def applyReadCalls (u : DbfUnserializer) (calls : List ReadCall) : DbfUnserializer :=
  calls.foldl applyReadCall u

/-- Every REP code of the buffer carries a count that is not 0 (as `unsigned long`). -/
def repCountsNonZero (msgPtr : List Nat) (msgSize : Nat) : Prop :=
  ∀ i, i < msgSize → GET_CODE_TYPE (msgPtr.getD i 0) = DbfRcc →
    toU64 (DbfUnserializerDecodeData64 ⟨msgPtr, msgSize, DbfNextIsIntegerState, 0, 0, 0⟩
      (DbfUnserializerFindNextCode ⟨msgPtr, msgSize, DbfNextIsIntegerState, 0, 0, 0⟩ i)) ≠ 0

instance (msgPtr : List Nat) (msgSize : Nat) : Decidable (repCountsNonZero msgPtr msgSize) := by
  unfold repCountsNonZero; infer_instance

/-- The decoder states of a binary message. -/
def isBinaryState (st : DbfDecodingStateEnum) : Prop :=
  st = DbfNextIsIntegerState ∨ st = DbfNextIsWordState ∨ st = DbfNextIsStringState ∨
    st = DbfEndOfMsgState

/-- The sub-code at the cursor is one that `DbfUnserializerTakeSpecial` leaves in place: a
PINT or NINT start sub-code, or a byte it does not know (`DbfNct`, `DbfExt`). -/
def cursorAtCode (u : DbfUnserializer) : Prop :=
  u.readPos < u.msgSize ∧
    (GET_CODE_TYPE (u.byteAt u.readPos) = DbfPnc ∨ GET_CODE_TYPE (u.byteAt u.readPos) = DbfNnc ∨
      GET_CODE_TYPE (u.byteAt u.readPos) = DbfNct ∨ GET_CODE_TYPE (u.byteAt u.readPos) = DbfExt)

/-- The invariant of the binary read functions on the buffer `msgPtr`, `msgSize`: the decoder
is in a binary state, and at the end of the message, inside a repetition, or in front of a
sub-code that `DbfUnserializerTakeSpecial` leaves in place. -/
def readInvariant (msgPtr : List Nat) (msgSize : Nat) (u : DbfUnserializer) : Prop :=
  u.msgPtr = msgPtr ∧ u.msgSize = msgSize ∧ isBinaryState u.decodeState ∧
    (u.decodeState = DbfEndOfMsgState ∨ u.repeat_counter > 0 ∨ cursorAtCode u)

/-! ## The fixed-size build of the serializer

When neither `__linux__` nor `__WIN32` is defined, dbf.h defines `DBF_FIXED_MSG_SIZE 120` and
leaves `DBF_AND_ASCII` undefined: the serializer has no `capacity`, its buffer is an array of
120 bytes, and `DbfSerializerPutByte` is the one place that assigns `DBF_ENCODER_ERROR`.  The
target dbf.c names for this build is `__arm__` without `__linux__`, where `BITNESS` is 32, so
`DBF_OPTIMIZE_FOR_32_BITS` is defined and `unsigned long` has 32 bits.  The enumeration has no
`DBF_ENCODER_ASCII_MODE` in this build; the shared type keeps it and it falls in the
`default` branches.  `DbfSerializerEndWrite` ends with `assert(s->pos <= s->capacity)`
although the structure has no `capacity` here, so this build compiles only where `assert`
discards its argument: assertions are no part of these definitions. -/

namespace Fixed

def DBF_FIXED_MSG_SIZE : Nat := 120

/-- The `buffer` field holds the `pos` bytes stored so far of the array of
`DBF_FIXED_MSG_SIZE` bytes. -/
structure DbfSerializer where
  buffer : List Nat
  encoderState : encoder_states_type
  prev_code : Int
  repeat_counter : Nat
deriving DecidableEq, Repr

/-- The field `pos`: the number of bytes written. -/
def DbfSerializer.pos (s : DbfSerializer) : Nat := s.buffer.length

def zeroSerializer : DbfSerializer := ⟨[], DBF_ENCODER_IDLE, 0, 0⟩

def DbfSerializerInitBase (s : DbfSerializer) : DbfSerializer :=
  { s with buffer := [], repeat_counter := 0, prev_code := 0 }

def DbfSerializerInit (s : DbfSerializer) : DbfSerializer :=
  { DbfSerializerInitBase s with encoderState := DBF_ENCODER_IDLE }

/-- The body is compiled out in this build. -/
def DbfSerializerResizeIfNeeded (s : DbfSerializer) (_needed_capacity : Nat) : DbfSerializer := s

/-- The byte is stored while `pos < sizeof(buffer)`; otherwise the state becomes
`DBF_ENCODER_ERROR` and nothing is stored. -/
def DbfSerializerPutByte (s : DbfSerializer) (b : Nat) : DbfSerializer :=
  if s.pos < DBF_FIXED_MSG_SIZE then { s with buffer := s.buffer ++ [b % 256] }
  else { s with encoderState := DBF_ENCODER_ERROR }

/-- The loop `while (data > 0)` of the two `_step2` encoders; `data` has at most 64 bits and
is shifted right by 7 in each round, so ten rounds always empty it. -/
def encodeExtLoop : Nat → DbfSerializer → Nat → DbfSerializer
  | 0, s, _ => s
  | fuel + 1, s, data =>
    if data > 0 then
      encodeExtLoop fuel (DbfSerializerPutByte s (DBF_EXT_CODEID + (data &&& DBF_EXT_DATAMASK)))
        (data >>> DBF_EXT_DATANBITS)
    else s

def DbfSerializerEncodeData64_step2 (s : DbfSerializer) (code nofb data : Nat) : DbfSerializer :=
  let s1 := DbfSerializerResizeIfNeeded s (s.pos + 12)
  let data := data % 18446744073709551616
  let m := (1 <<< nofb) - 1
  let s2 := DbfSerializerPutByte s1 (code + (data &&& m))
  encodeExtLoop 10 s2 (data >>> nofb)

def DbfSerializerEncodeData32_step2 (s : DbfSerializer) (code nofb data : Nat) : DbfSerializer :=
  let s1 := DbfSerializerResizeIfNeeded s (s.pos + 8)
  let data := data % 4294967296
  let m := (1 <<< nofb) - 1
  let s2 := DbfSerializerPutByte s1 (code + (data &&& m))
  encodeExtLoop 10 s2 (data >>> nofb)

def DbfSerializerWriteRepeat (s : DbfSerializer) : DbfSerializer :=
  if s.repeat_counter > 0 then
    let s1 := DbfSerializerEncodeData64_step2 s DBF_REPEAT_CODEID DBF_REPEAT_DATANBITS s.repeat_counter
    { s1 with repeat_counter := 0, prev_code := 0 }
  else s

def DbfSerializerEncodeData64 (s : DbfSerializer) (code nofb data : Nat) : DbfSerializer :=
  DbfSerializerEncodeData64_step2 (DbfSerializerWriteRepeat s) code nofb data

def DbfSerializerEncodeData32 (s : DbfSerializer) (code nofb data : Nat) : DbfSerializer :=
  DbfSerializerEncodeData32_step2 (DbfSerializerWriteRepeat s) code nofb data

/-- The external `crc32_calculate` is a parameter; its result is converted to `uint32_t`.
There is no test of `encoderState` in this function. -/
def DbfSerializerWriteCrc (crc32_calculate : List Nat → Nat) (s : DbfSerializer) : DbfSerializer :=
  let s1 := DbfSerializerWriteRepeat s
  let crc := crc32_calculate s1.buffer % 4294967296
  DbfSerializerEncodeData32_step2 s1 DBF_FMTCRC_CODEID DBF_FMTCRC_DATANBITS crc

/-- The counter `repeat_counter` is an `unsigned long`, 32 bits wide here. -/
def DbfSerializerWriteCode64 (s : DbfSerializer) (i : Int) : DbfSerializer :=
  if i = s.prev_code then
    { s with repeat_counter := (s.repeat_counter + 1) % 4294967296 }
  else
    let s1 :=
      if i ≥ 0 then DbfSerializerEncodeData64 s DBF_PINT_CODEID DBF_PINT_DATANBITS (toU64 i)
      else DbfSerializerEncodeData64 s DBF_NINT_CODEID DBF_NINT_DATANBITS (toU64 (-1 - i))
    { s1 with prev_code := i }

/-- The branch under `DBF_OPTIMIZE_FOR_32_BITS`. -/
def DbfSerializerWriteCode32 (s : DbfSerializer) (i : Int) : DbfSerializer :=
  if i = s.prev_code then
    { s with repeat_counter := (s.repeat_counter + 1) % 4294967296 }
  else
    let s1 :=
      if i ≥ 0 then DbfSerializerEncodeData32 s DBF_PINT_CODEID DBF_PINT_DATANBITS (toU32 i)
      else DbfSerializerEncodeData32 s DBF_NINT_CODEID DBF_NINT_DATANBITS (toU32 (-1 - i))
    { s1 with prev_code := i }

/-- The branch under `DBF_OPTIMIZE_FOR_32_BITS`. -/
def DbfSerializerWriteInt32 (s : DbfSerializer) (i : Int) : DbfSerializer :=
  match s.encoderState with
  | DBF_ENCODING_INT => DbfSerializerWriteCode32 s i
  | DBF_ENCODER_IDLE => DbfSerializerWriteCode32 { s with encoderState := DBF_ENCODING_INT } i
  | DBF_ENCODER_ERROR => s
  | _ =>
    let s1 := DbfSerializerEncodeData32 s DBF_FMTCRC_CODEID DBF_FMTCRC_DATANBITS DBF_INT_BEGIN_CODE
    DbfSerializerWriteCode32 { s1 with encoderState := DBF_ENCODING_INT } i

def DbfSerializerWriteInt64 (s : DbfSerializer) (i : Int) : DbfSerializer :=
  match s.encoderState with
  | DBF_ENCODING_INT => DbfSerializerWriteCode64 s i
  | DBF_ENCODER_IDLE => DbfSerializerWriteCode64 { s with encoderState := DBF_ENCODING_INT } i
  | DBF_ENCODER_ERROR => s
  | _ =>
    let s1 := DbfSerializerEncodeData32 s DBF_FMTCRC_CODEID DBF_FMTCRC_DATANBITS DBF_INT_BEGIN_CODE
    DbfSerializerWriteCode64 { s1 with encoderState := DBF_ENCODING_INT } i

def DbfSerializerEndWrite (s : DbfSerializer) : DbfSerializer :=
  match s.encoderState with
  | DBF_ENCODER_ERROR => s
  | _ => DbfSerializerWriteRepeat s

/-- The loop `while(*str)` of `serializerWrite`; for a 7-bit character `*str` is the same
number whether `char` is signed or not. -/
def serializerWriteCodes : DbfSerializer → List Nat → DbfSerializer
  | s, [] => s
  | s, c :: rest =>
    if c = 0 then s
    else serializerWriteCodes (DbfSerializerWriteCode32 s (charToInt c - ASCII_OFFSET)) rest

/-- After the format code the state is set to `DBF_ENCODING_WORD` whatever
`DbfSerializerPutByte` made of it. -/
def serializerWrite (s : DbfSerializer) (str : List Nat) (_len : Nat) (code : Nat) : DbfSerializer :=
  match s.encoderState with
  | DBF_ENCODER_ERROR => s
  | _ =>
    let s1 := DbfSerializerEncodeData32 s DBF_FMTCRC_CODEID DBF_FMTCRC_DATANBITS code
    serializerWriteCodes { s1 with encoderState := DBF_ENCODING_WORD } str

def DbfSerializerWriteWord (s : DbfSerializer) (str : List Nat) : DbfSerializer :=
  let n := word_length str
  if n = 0 then serializerWrite s str n DBF_STR_BEGIN_CODE
  else serializerWrite s str n DBF_WORD_BEGIN_CODE

def DbfSerializerWriteString (s : DbfSerializer) (str : List Nat) : DbfSerializer :=
  serializerWrite s str (strlen str) DBF_STR_BEGIN_CODE

def DbfSerializerFinalize (s : DbfSerializer) : DbfSerializer :=
  DbfSerializerEndWrite s

/-- `DbfSerializerWriteInt64` of each element of `V` in order. -/
def writeInts (s : DbfSerializer) (V : List Int) : DbfSerializer :=
  V.foldl DbfSerializerWriteInt64 s

/-- The list 1, 2, 1, 2, ... of `n` integers: no two neighbours are equal, and each is
written as one byte. -/
def alternating (n : Nat) : List Int := (List.range n).map (fun k => ((k % 2 + 1 : Nat) : Int))

end Fixed

/-! # Theorems -/

/-! ## Bytes and classes -/

set_option maxRecDepth 100000 in
theorem get_code_type_eq (b : Nat) (hb : b < 256) :
    GET_CODE_TYPE b =
      if 128 ≤ b then DbfExt else if 64 ≤ b then DbfPnc else if 32 ≤ b then DbfNnc
      else if 16 ≤ b then DbfFoC else if 8 ≤ b then DbfRcc else DbfNct := by
  have h : ∀ c : Fin 256, GET_CODE_TYPE c.val =
      if 128 ≤ c.val then DbfExt else if 64 ≤ c.val then DbfPnc else if 32 ≤ c.val then DbfNnc
      else if 16 ≤ c.val then DbfFoC else if 8 ≤ c.val then DbfRcc else DbfNct := by
    decide
  exact h ⟨b, hb⟩

set_option maxRecDepth 100000 in
theorem ext_mask_iff (b : Nat) (hb : b < 256) :
    (b &&& DBF_EXT_CODEMASK) = DBF_EXT_CODEID ↔ 128 ≤ b := by
  have h : ∀ c : Fin 256, ((c.val &&& DBF_EXT_CODEMASK) = DBF_EXT_CODEID ↔ 128 ≤ c.val) := by
    decide
  exact h ⟨b, hb⟩

theorem or_eq_add_of_lt (code k x : Nat) (hx : x < 2 ^ k) (hc : 2 ^ k ∣ code) :
    code ||| x = code + x := by
  obtain ⟨a, rfl⟩ := hc
  exact (Nat.mul_add_lt_is_or hx a).symm

/-! ## The sub-code encoder -/

theorem extSlabs_zero : extSlabs 0 = [] := by
  rw [extSlabs]; simp

theorem extSlabs_pos (v : Nat) (h : v ≠ 0) :
    extSlabs v = (128 + v % 128) :: extSlabs (v / 128) := by
  rw [extSlabs]
  have h1 : (0x80 ||| (v % 128)) = 128 + v % 128 :=
    or_eq_add_of_lt 128 7 (v % 128) (Nat.mod_lt _ (by decide)) (by decide)
  simp [h, h1]

theorem encodeExtLoop_eq (fuel : Nat) : ∀ (s : DbfSerializer) (data : Nat), data < 128 ^ fuel →
    encodeExtLoop fuel s data = { s with buffer := s.buffer ++ extSlabs data } := by
  induction fuel with
  | zero =>
    intro s data h
    have h0 : data = 0 := by simpa using h
    subst h0
    simp [encodeExtLoop, extSlabs_zero]
  | succ fuel ih =>
    intro s data h
    by_cases hd : data = 0
    · subst hd
      simp [encodeExtLoop, extSlabs_zero]
    · have hpos : data > 0 := Nat.pos_of_ne_zero hd
      have hlt : data >>> DBF_EXT_DATANBITS < 128 ^ fuel := by
        rw [Nat.shiftRight_eq_div_pow]
        have : data < 128 ^ fuel * 128 := by rw [← pow_succ]; exact h
        exact Nat.div_lt_of_lt_mul (by simpa [DBF_EXT_DATANBITS, Nat.mul_comm] using this)
      have hmask : data &&& DBF_EXT_DATAMASK = data % 128 := by
        have := Nat.and_pow_two_sub_one_eq_mod data 7
        simpa [DBF_EXT_DATAMASK] using this
      have hb : (DBF_EXT_CODEID + data % 128) % 256 = 128 + data % 128 := by
        have : data % 128 < 128 := Nat.mod_lt _ (by decide)
        simp only [DBF_EXT_CODEID]; omega
      have hsh : data >>> DBF_EXT_DATANBITS = data / 128 := by
        rw [Nat.shiftRight_eq_div_pow]; rfl
      rw [encodeExtLoop, if_pos hpos, ih _ _ hlt, extSlabs_pos data hd]
      simp [DbfSerializerPutByte, hmask, hb, hsh]

theorem isValueClass_cases {code nofb : Nat} {t : DbfCodeTypesEnum} (h : isValueClass code nofb t) :
    (code = 64 ∧ nofb = 6 ∧ t = DbfPnc) ∨ (code = 32 ∧ nofb = 5 ∧ t = DbfNnc) ∨
    (code = 16 ∧ nofb = 4 ∧ t = DbfFoC) ∨ (code = 8 ∧ nofb = 3 ∧ t = DbfRcc) := by
  exact h

theorem first_byte_pow (k : Nat) (hk : k ≤ 6) (data : Nat) :
    (2 ^ k + data % 2 ^ k) % 256 = 2 ^ k ||| (data % 2 ^ k) ∧
    (2 ^ k ||| (data % 2 ^ k)) = 2 ^ k + data % 2 ^ k ∧ data % 2 ^ k < 2 ^ k := by
  have hlt : data % 2 ^ k < 2 ^ k := Nat.mod_lt _ (Nat.two_pow_pos k)
  have hor := or_eq_add_of_lt (2 ^ k) k _ hlt (dvd_refl _)
  have hle : 2 ^ k ≤ 2 ^ 6 := Nat.pow_le_pow_right (by decide) hk
  refine ⟨?_, hor, hlt⟩
  rw [hor]
  apply Nat.mod_eq_of_lt
  norm_num at hle
  omega

/-- The first byte of a code of one of the four value classes. -/
theorem first_byte_eq {code nofb : Nat} {t : DbfCodeTypesEnum} (h : isValueClass code nofb t)
    (data : Nat) :
    (code + (data &&& ((1 <<< nofb) - 1))) % 256 = code ||| (data % 2 ^ nofb) ∧
    (code ||| (data % 2 ^ nofb)) = code + data % 2 ^ nofb ∧ data % 2 ^ nofb < code := by
  have hm : data &&& ((1 <<< nofb) - 1) = data % 2 ^ nofb := by
    simp [Nat.shiftLeft_eq]
  rw [hm]
  rcases isValueClass_cases h with ⟨rfl, rfl, _⟩ | ⟨rfl, rfl, _⟩ | ⟨rfl, rfl, _⟩ | ⟨rfl, rfl, _⟩
  · exact first_byte_pow 6 (by decide) data
  · exact first_byte_pow 5 (by decide) data
  · exact first_byte_pow 4 (by decide) data
  · exact first_byte_pow 3 (by decide) data

theorem encodeData64_step2_eq (s : DbfSerializer) {code nofb : Nat} {t : DbfCodeTypesEnum}
    (h : isValueClass code nofb t) (data : Nat) (hd : data < 2 ^ 64) :
    DbfSerializerEncodeData64_step2 s code nofb data =
      { s with buffer := s.buffer ++ Encode code nofb data,
               capacity := (DbfSerializerResizeIfNeeded s (s.pos + 12)).capacity } := by
  have hmod : data % 18446744073709551616 = data := Nat.mod_eq_of_lt (by simpa using hd)
  have hlt : data >>> nofb < 128 ^ 10 := by
    rw [Nat.shiftRight_eq_div_pow]
    calc data / 2 ^ nofb ≤ data := Nat.div_le_self _ _
      _ < 2 ^ 64 := hd
      _ < 128 ^ 10 := by norm_num
  unfold DbfSerializerEncodeData64_step2
  simp only [hmod]
  rw [encodeExtLoop_eq 10 _ _ hlt]
  simp [DbfSerializerPutByte, (first_byte_eq h data).1, Encode, Nat.shiftRight_eq_div_pow,
    DbfSerializerResizeIfNeeded]
  split <;> simp

theorem encodeData32_step2_eq (s : DbfSerializer) {code nofb : Nat} {t : DbfCodeTypesEnum}
    (h : isValueClass code nofb t) (data : Nat) (hd : data < 2 ^ 32) :
    DbfSerializerEncodeData32_step2 s code nofb data =
      { s with buffer := s.buffer ++ Encode code nofb data,
               capacity := (DbfSerializerResizeIfNeeded s (s.pos + 8)).capacity } := by
  have hmod : data % 4294967296 = data := Nat.mod_eq_of_lt (by simpa using hd)
  have hlt : data >>> nofb < 128 ^ 10 := by
    rw [Nat.shiftRight_eq_div_pow]
    calc data / 2 ^ nofb ≤ data := Nat.div_le_self _ _
      _ < 2 ^ 32 := hd
      _ < 128 ^ 10 := by norm_num
  unfold DbfSerializerEncodeData32_step2
  simp only [hmod]
  rw [encodeExtLoop_eq 10 _ _ hlt]
  simp [DbfSerializerPutByte, (first_byte_eq h data).1, Encode, Nat.shiftRight_eq_div_pow,
    DbfSerializerResizeIfNeeded]
  split <;> simp

/-! ## Facts about the reference encoding -/

theorem extSlabs_bytes (w : Nat) : ∀ b ∈ extSlabs w, 128 ≤ b ∧ b < 256 := by
  induction w using Nat.strong_induction_on with
  | _ w ih =>
    by_cases hw : w = 0
    · subst hw; simp [extSlabs_zero]
    · rw [extSlabs_pos w hw]
      intro b hb
      rcases List.mem_cons.1 hb with rfl | hb
      · have : w % 128 < 128 := Nat.mod_lt _ (by decide)
        omega
      · exact ih (w / 128) (Nat.div_lt_self (Nat.pos_of_ne_zero hw) (by decide)) b hb

theorem slabVal_extSlabs (w : Nat) : slabVal (extSlabs w) = w := by
  induction w using Nat.strong_induction_on with
  | _ w ih =>
    by_cases hw : w = 0
    · subst hw; simp [extSlabs_zero, slabVal]
    · rw [extSlabs_pos w hw, slabVal,
        ih (w / 128) (Nat.div_lt_self (Nat.pos_of_ne_zero hw) (by decide))]
      omega

theorem slabVal_append (E : List Nat) (b : Nat) :
    slabVal (E ++ [b]) = slabVal E + 128 ^ E.length * (b % 128) := by
  induction E with
  | nil => simp [slabVal]
  | cons a E ih =>
    have h1 : slabVal (a :: E ++ [b]) = a % 128 + 128 * slabVal (E ++ [b]) := rfl
    have h2 : slabVal (a :: E) = a % 128 + 128 * slabVal E := rfl
    rw [h1, h2, ih, List.length_cons, pow_succ]
    ring

theorem log2_div_128 (w : Nat) (hw : 128 ≤ w) : Nat.log2 (w / 128) = Nat.log2 w - 7 := by
  have hw0 : w ≠ 0 := by omega
  have hq0 : w / 128 ≠ 0 := by
    have : 1 ≤ w / 128 := (Nat.le_div_iff_mul_le (by decide)).2 (by omega)
    omega
  have hk : 7 ≤ Nat.log2 w := (Nat.le_log2 hw0).2 (by simpa using hw)
  have hlow : 2 ^ Nat.log2 w ≤ w := Nat.log2_self_le hw0
  have hhigh : w < 2 ^ (Nat.log2 w + 1) := Nat.lt_log2_self
  have hsplit : 2 ^ Nat.log2 w = 2 ^ (Nat.log2 w - 7) * 128 := by
    rw [show (128 : Nat) = 2 ^ 7 from rfl, ← pow_add]
    congr 1; omega
  have hsplit2 : 2 ^ (Nat.log2 w + 1) = 2 ^ (Nat.log2 w - 7 + 1) * 128 := by
    rw [show (128 : Nat) = 2 ^ 7 from rfl, ← pow_add]
    congr 1; omega
  apply Nat.le_antisymm
  · have : Nat.log2 (w / 128) < Nat.log2 w - 7 + 1 := by
      rw [Nat.log2_lt hq0]
      rw [Nat.div_lt_iff_lt_mul (by decide)]
      omega
    omega
  · rw [Nat.le_log2 hq0, Nat.le_div_iff_mul_le (by decide)]
    omega

theorem extSlabs_length (w : Nat) :
    (extSlabs w).length = if w = 0 then 0 else Nat.log2 w / 7 + 1 := by
  induction w using Nat.strong_induction_on with
  | _ w ih =>
    by_cases hw : w = 0
    · subst hw; simp [extSlabs_zero]
    · rw [extSlabs_pos w hw, if_neg hw, List.length_cons,
        ih (w / 128) (Nat.div_lt_self (Nat.pos_of_ne_zero hw) (by decide))]
      by_cases hlt : w < 128
      · have hq : w / 128 = 0 := Nat.div_eq_of_lt hlt
        have hk : Nat.log2 w < 7 := (Nat.log2_lt hw).2 (by simpa using hlt)
        rw [if_pos hq]
        omega
      · have hge : 128 ≤ w := Nat.le_of_not_lt hlt
        have hq : w / 128 ≠ 0 := by
          have : 1 ≤ w / 128 := (Nat.le_div_iff_mul_le (by decide)).2 (by omega)
          omega
        have hk : 7 ≤ Nat.log2 w := (Nat.le_log2 hw).2 (by simpa using hge)
        rw [if_neg hq, log2_div_128 w hge]
        omega

/-! ## Claims about Encode -/

theorem byteAt_append (u : DbfUnserializer) (pre post : List Nat) (x : Nat)
    (h : u.msgPtr = pre ++ x :: post) : u.byteAt pre.length = x := by
  unfold DbfUnserializer.byteAt
  rw [h, List.getD_eq_getElem?_getD, List.getElem?_append_right (Nat.le_refl _), Nat.sub_self]
  simp

theorem and_mask_eq_mod (x k : Nat) : x &&& ((1 <<< k) - 1) = x % 2 ^ k := by
  simp [Nat.shiftLeft_eq]

theorem shift_or_eq (acc x k : Nat) : (acc <<< k) ||| (x % 2 ^ k) = acc * 2 ^ k + x % 2 ^ k := by
  rw [Nat.shiftLeft_eq, Nat.mul_comm]
  exact (Nat.mul_add_lt_is_or (Nat.mod_lt _ (Nat.two_pow_pos k)) acc).symm

/-- Going backward over a run of EXT sub-codes collects their slabs. -/
theorem decodeData64Loop_ext_run (u : DbfUnserializer) (E : List Nat) :
    ∀ (pre post : List Nat) (acc : Nat), u.msgPtr = pre ++ E ++ post →
      (∀ b ∈ E, 128 ≤ b ∧ b < 256) → acc * 128 ^ E.length + slabVal E < 2 ^ 64 →
      decodeData64Loop (pre.length + E.length) u acc
        = decodeData64Loop pre.length u (acc * 128 ^ E.length + slabVal E) := by
  induction E using List.reverseRecOn with
  | nil => intro pre post acc _ _ _; simp [slabVal]
  | append_singleton E b ih =>
    intro pre post acc hmsg hE hlt
    have hb : 128 ≤ b ∧ b < 256 := hE b (by simp)
    have hbyte : u.byteAt (pre.length + E.length) = b := by
      have := byteAt_append u (pre ++ E) post b (by simpa using hmsg)
      simpa using this
    have hval := slabVal_append E b
    have hpow : 128 ^ (E ++ [b]).length = 128 ^ E.length * 128 := by
      rw [List.length_append, List.length_singleton, pow_succ]
    rw [hval, hpow] at hlt
    have hpos : 0 < 128 ^ E.length := pow_pos (by decide) _
    have hacc1 : (acc * 128 + b % 128) * 128 ^ E.length + slabVal E < 2 ^ 64 := by
      have : (acc * 128 + b % 128) * 128 ^ E.length + slabVal E
          = acc * (128 ^ E.length * 128) + (slabVal E + 128 ^ E.length * (b % 128)) := by ring
      rw [this]; exact hlt
    have hsmall : acc * 128 + b % 128 < 2 ^ 64 := by
      have h1 : acc * 128 + b % 128 ≤ (acc * 128 + b % 128) * 128 ^ E.length :=
        Nat.le_mul_of_pos_right _ hpos
      omega
    have hstep : decodeData64Loop (pre.length + (E ++ [b]).length) u acc
        = decodeData64Loop (pre.length + E.length) u (acc * 128 + b % 128) := by
      have hidx : pre.length + (E ++ [b]).length = (pre.length + E.length) + 1 := by
        simp [Nat.add_assoc]
      rw [hidx, decodeData64Loop]
      simp only [hbyte]
      rw [get_code_type_eq b hb.2, if_pos hb.1]
      simp only [DBF_EXT_DATANBITS, DBF_EXT_DATAMASK]
      rw [and_mask_eq_mod, shift_or_eq, Nat.mod_eq_of_lt (by simpa using hsmall)]
      norm_num
    rw [hstep, ih pre ([b] ++ post) (acc * 128 + b % 128) (by simpa using hmsg)
      (fun x hx => hE x (by simp [hx])) hacc1, hval, hpow]
    congr 1
    ring

theorem decode_start_step (acc low k : Nat) (hlow : low < 2 ^ k)
    (hacc : acc * 2 ^ k + low < 2 ^ 64) :
    ((acc <<< k) ||| ((2 ^ k + low) &&& ((1 <<< k) - 1))) % 18446744073709551616
      = acc * 2 ^ k + low := by
  have h1 : (2 ^ k + low) % 2 ^ k = low := by
    rw [Nat.add_mod_left, Nat.mod_eq_of_lt hlow]
  have h2 := shift_or_eq acc (2 ^ k + low) k
  rw [and_mask_eq_mod, h2, h1]
  exact Nat.mod_eq_of_lt (by simpa using hacc)

/-- The start sub-code closes the backward decoding. -/
theorem decodeData64Loop_start (u : DbfUnserializer) {code nofb : Nat} {t : DbfCodeTypesEnum}
    (hclass : isValueClass code nofb t) (pre post : List Nat) (low acc : Nat)
    (hlow : low < 2 ^ nofb) (hmsg : u.msgPtr = pre ++ (code + low) :: post)
    (hacc : acc * 2 ^ nofb + low < 2 ^ 64) :
    decodeData64Loop (pre.length + 1) u acc = acc * 2 ^ nofb + low := by
  have hbyte := byteAt_append u pre post (code + low) hmsg
  rw [decodeData64Loop]
  simp only [hbyte]
  rcases isValueClass_cases hclass with ⟨rfl, rfl, _⟩ | ⟨rfl, rfl, _⟩ | ⟨rfl, rfl, _⟩ | ⟨rfl, rfl, _⟩
  · have hl : low < 64 := hlow
    rw [get_code_type_eq _ (by omega), if_neg (by omega), if_pos (by omega)]
    exact decode_start_step acc low 6 hlow hacc
  · have hl : low < 32 := hlow
    rw [get_code_type_eq _ (by omega), if_neg (by omega), if_neg (by omega), if_pos (by omega)]
    exact decode_start_step acc low 5 hlow hacc
  · have hl : low < 16 := hlow
    rw [get_code_type_eq _ (by omega), if_neg (by omega), if_neg (by omega), if_neg (by omega),
      if_pos (by omega)]
    exact decode_start_step acc low 4 hlow hacc
  · have hl : low < 8 := hlow
    rw [get_code_type_eq _ (by omega), if_neg (by omega), if_neg (by omega), if_neg (by omega),
      if_neg (by omega), if_pos (by omega)]
    exact decode_start_step acc low 3 hlow hacc


theorem encode_first_lt (code nofb : Nat) (t : DbfCodeTypesEnum) (hclass : isValueClass code nofb t)
    (v : Nat) : code + v % 2 ^ nofb < 128 ∧ 8 ≤ code + v % 2 ^ nofb ∧ code = 2 ^ nofb := by
  have hlt := Nat.mod_lt v (Nat.two_pow_pos nofb)
  rcases isValueClass_cases hclass with ⟨rfl, rfl, _⟩ | ⟨rfl, rfl, _⟩ | ⟨rfl, rfl, _⟩ | ⟨rfl, rfl, _⟩
  all_goals
    norm_num at hlt ⊢
    omega

theorem Encode_eq (code nofb : Nat) (t : DbfCodeTypesEnum) (hclass : isValueClass code nofb t)
    (v : Nat) : Encode code nofb v = (code + v % 2 ^ nofb) :: extSlabs (v / 2 ^ nofb) := by
  have h := (first_byte_eq hclass v).2.1
  simp [Encode, h]

theorem toInt64_of_lt (v : Nat) (hv : v < 2 ^ 63) : toInt64 v = (v : Int) := by
  have h1 : v % 18446744073709551616 = v := Nat.mod_eq_of_lt (by norm_num at hv ⊢; omega)
  have h2 : v < 9223372036854775808 := by simpa using hv
  simp [toInt64, h1, h2]

/-- Decoding backward from the end of an encoded code yields its value. -/
theorem decodeData64Loop_Encode (u : DbfUnserializer) {code nofb : Nat} {t : DbfCodeTypesEnum}
    (hclass : isValueClass code nofb t) (pre post : List Nat) (v : Nat) (hv : v < 2 ^ 64)
    (hmsg : u.msgPtr = pre ++ Encode code nofb v ++ post) :
    decodeData64Loop (pre.length + (Encode code nofb v).length) u 0 = v := by
  rw [Encode_eq code nofb t hclass v] at hmsg ⊢
  have hdiv : v / 2 ^ nofb * 2 ^ nofb + v % 2 ^ nofb = v := Nat.div_add_mod' v (2 ^ nofb)
  have hE := decodeData64Loop_ext_run u (extSlabs (v / 2 ^ nofb)) (pre ++ [code + v % 2 ^ nofb]) post 0
    (by simpa using hmsg) (extSlabs_bytes _)
    (by rw [slabVal_extSlabs]
        have : v / 2 ^ nofb ≤ v := Nat.div_le_self _ _
        omega)
  have hidx : pre.length + ((code + v % 2 ^ nofb) :: extSlabs (v / 2 ^ nofb)).length
      = (pre ++ [code + v % 2 ^ nofb]).length + (extSlabs (v / 2 ^ nofb)).length := by
    simp only [List.length_append, List.length_cons, List.length_nil]; omega
  rw [hidx, hE, slabVal_extSlabs]
  have hlen : (pre ++ [code + v % 2 ^ nofb]).length = pre.length + 1 := by simp
  rw [hlen, Nat.zero_mul, Nat.zero_add,
    decodeData64Loop_start u hclass pre (extSlabs (v / 2 ^ nofb) ++ post) (v % 2 ^ nofb)
      (v / 2 ^ nofb) (Nat.mod_lt _ (Nat.two_pow_pos nofb)) (by simpa using hmsg)
      (by rw [hdiv]; exact hv), hdiv]

theorem findNextCodeLoop_gt (fuel : Nat) (u : DbfUnserializer) (idx : Nat) :
    idx < findNextCodeLoop (fuel + 1) u idx := by
  induction fuel generalizing idx with
  | zero =>
    simp only [findNextCodeLoop]
    split_ifs <;> omega
  | succ fuel ih =>
    rw [findNextCodeLoop]
    split_ifs
    · omega
    · have := ih (idx + 1); omega
    · omega

theorem take_next_code_readPos_gt (u : DbfUnserializer) : u.readPos < (take_next_code u).2.readPos := by
  simp only [take_next_code, DbfUnserializerFindNextCode]
  exact findNextCodeLoop_gt _ u u.readPos

theorem take_next_code_fields (u : DbfUnserializer) :
    (take_next_code u).2.msgPtr = u.msgPtr ∧ (take_next_code u).2.msgSize = u.msgSize ∧
    (take_next_code u).2.decodeState = u.decodeState ∧
    (take_next_code u).2.current_code = u.current_code ∧
    (take_next_code u).2.repeat_counter = u.repeat_counter := by
  simp [take_next_code]

theorem takeSpecialLoop_fuel (fuel1 : Nat) : ∀ (fuel2 : Nat) (u : DbfUnserializer),
    u.msgSize - u.readPos < fuel1 → u.msgSize - u.readPos < fuel2 →
    takeSpecialLoop fuel1 u = takeSpecialLoop fuel2 u := by
  induction fuel1 with
  | zero => intro fuel2 u h; omega
  | succ fuel1 ih =>
    intro fuel2 u h1 h2
    obtain ⟨f2, rfl⟩ : ∃ f2, fuel2 = f2 + 1 := ⟨fuel2 - 1, by omega⟩
    rw [takeSpecialLoop, takeSpecialLoop]
    by_cases hrc : u.repeat_counter = 0
    · rw [if_pos hrc, if_pos hrc]
      by_cases hend : u.readPos ≥ u.msgSize
      · rw [if_pos hend, if_pos hend]
      · rw [if_neg hend, if_neg hend]
        cases hct : GET_CODE_TYPE (u.byteAt u.readPos) <;> simp only []
        have hgt := take_next_code_readPos_gt u
        have hf := take_next_code_fields u
        exact ih f2 _ (by simp only [hf.2.1]; omega) (by simp only [hf.2.1]; omega)
    · rw [if_neg hrc, if_neg hrc]

/-- The loop body of `DbfUnserializerTakeSpecial`, once. -/
theorem takeSpecial_unfold (u : DbfUnserializer) :
    DbfUnserializerTakeSpecial u =
      if u.repeat_counter = 0 then
        if u.readPos ≥ u.msgSize then { u with decodeState := DbfEndOfMsgState }
        else
          match GET_CODE_TYPE (u.byteAt u.readPos) with
          | DbfPnc => u
          | DbfNnc => u
          | DbfFoC =>
            DbfUnserializerTakeSpecial
              { (take_next_code u).2 with
                decodeState :=
                  if (take_next_code u).1 = 0 then DbfNextIsIntegerState
                  else if (take_next_code u).1 = 2 then DbfNextIsStringState
                  else if (take_next_code u).1 = 1 then DbfNextIsWordState
                  else DbfEndOfMsgState,
                current_code := 0 }
          | DbfEom => { u with decodeState := DbfEndOfMsgState }
          | DbfRcc => { (take_next_code u).2 with repeat_counter := toU64 (take_next_code u).1 }
          | _ => u
      else u := by
  unfold DbfUnserializerTakeSpecial
  rw [takeSpecialLoop]
  by_cases hrc : u.repeat_counter = 0
  · rw [if_pos hrc, if_pos hrc]
    by_cases hend : u.readPos ≥ u.msgSize
    · rw [if_pos hend, if_pos hend]
    · rw [if_neg hend, if_neg hend]
      cases hct : GET_CODE_TYPE (u.byteAt u.readPos) <;> simp only []
      have hgt := take_next_code_readPos_gt u
      have hf := take_next_code_fields u
      exact takeSpecialLoop_fuel _ _ _ (by simp only [hf.2.1]; omega) (by simp only [hf.2.1]; omega)
  · rw [if_neg hrc, if_neg hrc]

/-! ## Scanning forward over an encoded code -/

theorem byteAt_append_idx (u : DbfUnserializer) (pre post : List Nat) (x idx : Nat)
    (h : u.msgPtr = pre ++ x :: post) (hidx : idx = pre.length) : u.byteAt idx = x := by
  subst hidx; exact byteAt_append u pre post x h

theorem findNextCodeLoop_run (u : DbfUnserializer) (post : List Nat)
    (hsize : u.msgSize = u.msgPtr.length) (hpost : startsWithCode post) (E : List Nat) :
    ∀ (pre : List Nat) (idx fuel : Nat), u.msgPtr = pre ++ E ++ post → pre.length = idx + 1 →
      (∀ b ∈ E, 128 ≤ b ∧ b < 256) → E.length + 1 ≤ fuel →
      findNextCodeLoop fuel u idx = idx + 1 + E.length := by
  induction E with
  | nil =>
    intro pre idx fuel hmsg hpre _ hfuel
    obtain ⟨f, rfl⟩ : ∃ f, fuel = f + 1 := ⟨fuel - 1, by simp at hfuel; omega⟩
    rw [findNextCodeLoop]
    simp only [List.length_nil, Nat.add_zero]
    cases post with
    | nil =>
      have : u.msgSize = idx + 1 := by rw [hsize, hmsg]; simp [hpre]
      rw [if_pos (by omega)]
    | cons b rest =>
      have hb : b < 128 := hpost b rfl
      have hbyte := byteAt_append_idx u pre rest b (idx + 1) (by simpa using hmsg) hpre.symm
      have hne : ¬ (b &&& DBF_EXT_CODEMASK) = DBF_EXT_CODEID := by
        rw [ext_mask_iff b (by omega)]; omega
      split_ifs <;> simp_all
  | cons e E ih =>
    intro pre idx fuel hmsg hpre hE hfuel
    obtain ⟨f, rfl⟩ : ∃ f, fuel = f + 1 := ⟨fuel - 1, by simp at hfuel; omega⟩
    have he : 128 ≤ e ∧ e < 256 := hE e (by simp)
    have hbyte := byteAt_append_idx u pre (E ++ post) e (idx + 1) (by simpa using hmsg) hpre.symm
    have hext : (e &&& DBF_EXT_CODEMASK) = DBF_EXT_CODEID := (ext_mask_iff e he.2).2 he.1
    have hlt : ¬ idx + 1 ≥ u.msgSize := by
      rw [hsize, hmsg]; simp only [List.length_append, List.length_cons]; omega
    rw [findNextCodeLoop]
    rw [if_neg hlt, hbyte, if_pos hext,
      ih (pre ++ [e]) (idx + 1) f (by simpa using hmsg) (by simp [hpre])
        (fun x hx => hE x (by simp [hx])) (by simp at hfuel ⊢; omega)]
    simp only [List.length_cons]; omega

theorem startsWithCode_nil : startsWithCode [] := by
  intro b h; simp at h

theorem startsWithCode_cons (b : Nat) (l : List Nat) (hb : b < 128) : startsWithCode (b :: l) := by
  intro x h; simp at h; omega

theorem startsWithCode_append (a b : List Nat) (ha : startsWithCode a) (hb : startsWithCode b) :
    startsWithCode (a ++ b) := by
  cases a with
  | nil => simpa using hb
  | cons x a => intro y h; exact ha y (by simpa using h)

theorem Encode_length (code nofb v : Nat) :
    (Encode code nofb v).length = 1 + (extSlabs (v / 2 ^ nofb)).length := by
  simp [Encode, Nat.add_comm]

theorem startsWithCode_Encode {code nofb : Nat} {t : DbfCodeTypesEnum}
    (hclass : isValueClass code nofb t) (v : Nat) : startsWithCode (Encode code nofb v) := by
  rw [Encode_eq code nofb t hclass v]
  exact startsWithCode_cons _ _ (encode_first_lt code nofb t hclass v).1

/-- `take_next_code` at the start of an encoded code returns its value and moves behind it. -/
theorem take_next_code_Encode (u : DbfUnserializer) {code nofb : Nat} {t : DbfCodeTypesEnum}
    (hclass : isValueClass code nofb t) (pre post : List Nat) (v : Nat) (hv : v < 2 ^ 64)
    (hmsg : u.msgPtr = pre ++ Encode code nofb v ++ post) (hsize : u.msgSize = u.msgPtr.length)
    (hpost : startsWithCode post) (hpos : u.readPos = pre.length) :
    take_next_code u =
      (toInt64 v, { u with readPos := pre.length + (Encode code nofb v).length }) := by
  have hE := Encode_eq code nofb t hclass v
  have hnext : DbfUnserializerFindNextCode u u.readPos
      = pre.length + (Encode code nofb v).length := by
    unfold DbfUnserializerFindNextCode
    rw [hpos, findNextCodeLoop_run u post hsize hpost (extSlabs (v / 2 ^ nofb))
      (pre ++ [code + v % 2 ^ nofb]) pre.length _ (by rw [hmsg, hE]; simp) (by simp)
      (extSlabs_bytes _)
      (by rw [hsize, hmsg, hE]; simp only [List.length_append, List.length_cons]; omega),
      Encode_length]
    omega
  have hdec := decodeData64Loop_Encode u hclass pre post v hv hmsg
  simp only [take_next_code, hnext, DbfUnserializerDecodeData64, hdec]

theorem type_at_Encode (u : DbfUnserializer) {code nofb : Nat} {t : DbfCodeTypesEnum}
    (hclass : isValueClass code nofb t) (pre post : List Nat) (v : Nat)
    (hmsg : u.msgPtr = pre ++ Encode code nofb v ++ post) :
    GET_CODE_TYPE (u.byteAt pre.length) = t ∧ pre.length < u.msgPtr.length := by
  have hE := Encode_eq code nofb t hclass v
  have hbyte := byteAt_append u pre (extSlabs (v / 2 ^ nofb) ++ post) (code + v % 2 ^ nofb)
    (by rw [hmsg, hE]; simp)
  have hlow := Nat.mod_lt v (Nat.two_pow_pos nofb)
  refine ⟨?_, by rw [hmsg, hE]; simp only [List.length_append, List.length_cons]; omega⟩
  rw [hbyte, get_code_type_eq _ (by have := (encode_first_lt code nofb t hclass v).1; omega)]
  rcases isValueClass_cases hclass with ⟨rfl, rfl, rfl⟩ | ⟨rfl, rfl, rfl⟩ | ⟨rfl, rfl, rfl⟩ |
    ⟨rfl, rfl, rfl⟩
  all_goals
    norm_num at hlow
    split_ifs <;> first | rfl | omega

/-! ## The serializer operations as byte lists -/

theorem isValueClass_pint : isValueClass DBF_PINT_CODEID DBF_PINT_DATANBITS DbfPnc :=
  Or.inl ⟨rfl, rfl, rfl⟩

theorem isValueClass_nint : isValueClass DBF_NINT_CODEID DBF_NINT_DATANBITS DbfNnc :=
  Or.inr (Or.inl ⟨rfl, rfl, rfl⟩)

theorem isValueClass_fmt : isValueClass DBF_FMTCRC_CODEID DBF_FMTCRC_DATANBITS DbfFoC :=
  Or.inr (Or.inr (Or.inl ⟨rfl, rfl, rfl⟩))

theorem isValueClass_rep : isValueClass DBF_REPEAT_CODEID DBF_REPEAT_DATANBITS DbfRcc :=
  Or.inr (Or.inr (Or.inr ⟨rfl, rfl, rfl⟩))

theorem toU64_lt (i : Int) : toU64 i < 2 ^ 64 := by
  unfold toU64
  have h := Int.emod_lt_of_pos i (show (0 : Int) < 18446744073709551616 by norm_num)
  have h0 := Int.emod_nonneg i (show (18446744073709551616 : Int) ≠ 0 by norm_num)
  have : ((i % 18446744073709551616).toNat : Int) = i % 18446744073709551616 := Int.toNat_of_nonneg h0
  norm_num
  omega

theorem toU64_of_nonneg (i : Int) (h0 : 0 ≤ i) (h : i < 2 ^ 64) : toU64 i = i.toNat := by
  unfold toU64
  rw [Int.emod_eq_of_lt h0 (by norm_num at h ⊢; omega)]

theorem writeRepeat_fields (s : DbfSerializer) (hk : s.repeat_counter < 2 ^ 64) :
    (DbfSerializerWriteRepeat s).buffer = s.buffer ++ repBytes s.repeat_counter ∧
    (DbfSerializerWriteRepeat s).prev_code = (if s.repeat_counter > 0 then 0 else s.prev_code) ∧
    (DbfSerializerWriteRepeat s).repeat_counter = 0 ∧
    (DbfSerializerWriteRepeat s).encoderState = s.encoderState := by
  unfold DbfSerializerWriteRepeat repBytes
  by_cases h : s.repeat_counter > 0
  · simp only [if_pos h, encodeData64_step2_eq s isValueClass_rep _ hk]
    simp
  · have h0 : s.repeat_counter = 0 := by omega
    simp [h0]

theorem encodeData64_fields (s : DbfSerializer) {code nofb : Nat} {t : DbfCodeTypesEnum}
    (hclass : isValueClass code nofb t) (data : Nat) (hd : data < 2 ^ 64)
    (hk : s.repeat_counter < 2 ^ 64) :
    (DbfSerializerEncodeData64 s code nofb data).buffer
      = s.buffer ++ repBytes s.repeat_counter ++ Encode code nofb data ∧
    (DbfSerializerEncodeData64 s code nofb data).prev_code
      = (if s.repeat_counter > 0 then 0 else s.prev_code) ∧
    (DbfSerializerEncodeData64 s code nofb data).repeat_counter = 0 ∧
    (DbfSerializerEncodeData64 s code nofb data).encoderState = s.encoderState := by
  have hw := writeRepeat_fields s hk
  unfold DbfSerializerEncodeData64
  rw [encodeData64_step2_eq _ hclass data hd]
  simp [hw.1, hw.2.1, hw.2.2.1, hw.2.2.2]

theorem encodeData32_fields (s : DbfSerializer) {code nofb : Nat} {t : DbfCodeTypesEnum}
    (hclass : isValueClass code nofb t) (data : Nat) (hd : data < 2 ^ 32)
    (hk : s.repeat_counter < 2 ^ 64) :
    (DbfSerializerEncodeData32 s code nofb data).buffer
      = s.buffer ++ repBytes s.repeat_counter ++ Encode code nofb data ∧
    (DbfSerializerEncodeData32 s code nofb data).prev_code
      = (if s.repeat_counter > 0 then 0 else s.prev_code) ∧
    (DbfSerializerEncodeData32 s code nofb data).repeat_counter = 0 ∧
    (DbfSerializerEncodeData32 s code nofb data).encoderState = s.encoderState := by
  have hw := writeRepeat_fields s hk
  unfold DbfSerializerEncodeData32
  rw [encodeData32_step2_eq _ hclass data hd]
  simp [hw.1, hw.2.1, hw.2.2.1, hw.2.2.2]

theorem writeCode64_same (s : DbfSerializer) (i : Int) (h : i = s.prev_code) :
    DbfSerializerWriteCode64 s i
      = { s with repeat_counter := (s.repeat_counter + 1) % 18446744073709551616 } := by
  simp [DbfSerializerWriteCode64, h]

theorem writeCode64_diff (s : DbfSerializer) (i : Int) (h : i ≠ s.prev_code)
    (hk : s.repeat_counter < 2 ^ 64) :
    (DbfSerializerWriteCode64 s i).buffer = s.buffer ++ repBytes s.repeat_counter ++ numBytes i ∧
    (DbfSerializerWriteCode64 s i).prev_code = i ∧
    (DbfSerializerWriteCode64 s i).repeat_counter = 0 ∧
    (DbfSerializerWriteCode64 s i).encoderState = s.encoderState := by
  unfold DbfSerializerWriteCode64 numBytes
  rw [if_neg h]
  by_cases h0 : i ≥ 0
  · have hf := encodeData64_fields s isValueClass_pint (toU64 i) (toU64_lt i) hk
    simp only [if_pos h0]
    exact ⟨hf.1, trivial, hf.2.2.1, hf.2.2.2⟩
  · have hf := encodeData64_fields s isValueClass_nint (toU64 (-1 - i)) (toU64_lt _) hk
    simp only [if_neg h0]
    exact ⟨hf.1, trivial, hf.2.2.1, hf.2.2.2⟩

/-! ## Claims about writing one integer -/

theorem writeInt64_int_mode (s : DbfSerializer) (i : Int)
    (hstate : s.encoderState = DBF_ENCODER_IDLE ∨ s.encoderState = DBF_ENCODING_INT) :
    DbfSerializerWriteInt64 s i
      = DbfSerializerWriteCode64 { s with encoderState := DBF_ENCODING_INT } i := by
  rcases hstate with h | h
  · simp [DbfSerializerWriteInt64, h]
  · have hs : { s with encoderState := DBF_ENCODING_INT } = s := by
      cases s; simp_all
    simp [DbfSerializerWriteInt64, h, hs]

theorem repBytes_zero : repBytes 0 = [] := by simp [repBytes]

/-- C6 (Scenario A), what the code does: on a freshly initialised binary serializer the
value 0 equals the initial `prev_code`, so `DbfSerializerWriteInt64(0)` writes no byte and
`DbfSerializerFinalize` flushes a repetition code: the buffer is the one byte `09`
(REP, payload 1), not `40`.  Decoding that buffer yields the single integer 0. -/
theorem C6_scenario_A_is_folded :
    (DbfSerializerFinalize (DbfSerializerWriteInt64 (DbfSerializerInit zeroSerializer) 0)).buffer
      = [0x09] ∧
    (DbfUnserializerReadInt64 (DbfUnserializerInitFromSerializer zeroUnserializer
      (DbfSerializerFinalize
        (DbfSerializerWriteInt64 (DbfSerializerInit zeroSerializer) 0))).2).1 = 0 ∧
    (DbfUnserializerReadInt64 (DbfUnserializerInitFromSerializer zeroUnserializer
      (DbfSerializerFinalize
        (DbfSerializerWriteInt64 (DbfSerializerInit zeroSerializer) 0))).2).2.decodeState
      = DbfEndOfMsgState := by
  decide

/-- C8, what the code does for `x = 0`: writing 0 three times to a freshly initialised
binary serializer and finalizing produces the single byte `0B` (REP, payload 3) and no
PINT code, while 7, 7, 7 gives `47 0A`. -/
theorem C8_zero_run_is_folded :
    (DbfSerializerFinalize (writeInts (DbfSerializerInit zeroSerializer) [0, 0, 0])).buffer
      = [0x0B] ∧
    (DbfSerializerFinalize (writeInts (DbfSerializerInit zeroSerializer) [0])).buffer = [0x09] ∧
    (DbfSerializerFinalize (writeInts (DbfSerializerInit zeroSerializer) [7, 7, 7])).buffer
      = [0x47, 0x0A] := by
  decide

/-! ## Steps of the unserializer on encoded codes -/

theorem wrap64_of_isInt64 (i : Int) (hi : isInt64 i) : wrap64 i = i := by
  unfold isInt64 at hi
  unfold wrap64 toInt64 toU64
  have h0 := Int.emod_nonneg i (show (18446744073709551616 : Int) ≠ 0 by norm_num)
  have hlt := Int.emod_lt_of_pos i (show (0 : Int) < 18446744073709551616 by norm_num)
  have hcast : ((i % 18446744073709551616).toNat : Int) = i % 18446744073709551616 :=
    Int.toNat_of_nonneg h0
  have hmod : (i % 18446744073709551616).toNat % 18446744073709551616
      = (i % 18446744073709551616).toNat := Nat.mod_eq_of_lt (by omega)
  rw [hmod]
  by_cases hneg : i < 0
  · have he : i % 18446744073709551616 = i + 18446744073709551616 := by
      omega
    rw [if_neg (by omega), hcast, he]; ring
  · have he : i % 18446744073709551616 = i := Int.emod_eq_of_lt (by omega) (by omega)
    rw [if_pos (by omega), hcast, he]

theorem toInt64_toU64 (i : Int) (hi : isInt64 i) : toInt64 (toU64 i) = i :=
  wrap64_of_isInt64 i hi

theorem toU64_toInt64 (k : Nat) (hk : k < 2 ^ 64) : toU64 (toInt64 k) = k := by
  have hk' : k < 18446744073709551616 := by simpa using hk
  unfold toInt64 toU64
  rw [Nat.mod_eq_of_lt hk']
  by_cases h : k < 9223372036854775808
  · rw [if_pos h, Int.emod_eq_of_lt (by omega) (by omega)]; simp
  · rw [if_neg h]
    have he : ((k : Int) - 18446744073709551616) % 18446744073709551616 = (k : Int) := by
      omega
    rw [he]; simp

theorem takeSpecial_of_rc (u : DbfUnserializer) (h : u.repeat_counter ≠ 0) :
    DbfUnserializerTakeSpecial u = u := by
  rw [takeSpecial_unfold, if_neg h]

theorem takeSpecial_at_end (u : DbfUnserializer) (hrc : u.repeat_counter = 0)
    (hend : u.readPos ≥ u.msgSize) :
    DbfUnserializerTakeSpecial u = { u with decodeState := DbfEndOfMsgState } := by
  rw [takeSpecial_unfold, if_pos hrc, if_pos hend]

theorem takeSpecial_at_num (u : DbfUnserializer) (hrc : u.repeat_counter = 0)
    (hlt : u.readPos < u.msgSize)
    (ht : GET_CODE_TYPE (u.byteAt u.readPos) = DbfPnc ∨ GET_CODE_TYPE (u.byteAt u.readPos) = DbfNnc) :
    DbfUnserializerTakeSpecial u = u := by
  rw [takeSpecial_unfold, if_pos hrc, if_neg (by omega)]
  rcases ht with h | h <;> rw [h]

theorem repBytes_pos (k : Nat) (hk : 0 < k) :
    repBytes k = Encode DBF_REPEAT_CODEID DBF_REPEAT_DATANBITS k := by
  simp [repBytes, hk]

theorem takeSpecial_at_rep (u : DbfUnserializer) (pre post : List Nat) (k : Nat) (hk0 : 0 < k)
    (hk : k < 2 ^ 64) (hmsg : u.msgPtr = pre ++ repBytes k ++ post)
    (hsize : u.msgSize = u.msgPtr.length) (hpost : startsWithCode post)
    (hpos : u.readPos = pre.length) (hrc : u.repeat_counter = 0) :
    DbfUnserializerTakeSpecial u
      = { u with readPos := pre.length + (repBytes k).length, repeat_counter := k } := by
  rw [repBytes_pos k hk0] at hmsg ⊢
  have ht := type_at_Encode u isValueClass_rep pre post k hmsg
  have htake := take_next_code_Encode u isValueClass_rep pre post k hk hmsg hsize hpost hpos
  rw [takeSpecial_unfold, if_pos hrc, if_neg (by rw [hpos, hsize]; omega), hpos, ht.1]
  simp only [htake, toU64_toInt64 k hk]

theorem takeSpecial_at_fmt (u : DbfUnserializer) (pre post : List Nat) (c : Nat) (hc : c < 3)
    (hmsg : u.msgPtr = pre ++ fmtBytes c ++ post)
    (hsize : u.msgSize = u.msgPtr.length) (hpost : startsWithCode post)
    (hpos : u.readPos = pre.length) (hrc : u.repeat_counter = 0) :
    DbfUnserializerTakeSpecial u
      = DbfUnserializerTakeSpecial
          { u with readPos := pre.length + (fmtBytes c).length,
                   decodeState :=
                     if c = 0 then DbfNextIsIntegerState
                     else if c = 1 then DbfNextIsWordState else DbfNextIsStringState,
                   current_code := 0 } := by
  unfold fmtBytes at hmsg ⊢
  have ht := type_at_Encode u isValueClass_fmt pre post c hmsg
  have htake := take_next_code_Encode u isValueClass_fmt pre post c
    (by norm_num; omega) hmsg hsize hpost hpos
  have hci : toInt64 c = (c : Int) := toInt64_of_lt c (by norm_num; omega)
  rw [takeSpecial_unfold, if_pos hrc, if_neg (by rw [hpos, hsize]; omega), hpos, ht.1]
  simp only [htake, hci]
  congr 1
  have h3 : c = 0 ∨ c = 1 ∨ c = 2 := by omega
  rcases h3 with rfl | rfl | rfl <;> simp

theorem readInt64_pending (u : DbfUnserializer) (hst : u.decodeState = DbfNextIsIntegerState)
    (hrc : u.repeat_counter > 0) :
    DbfUnserializerReadInt64 u
      = (u.current_code,
          DbfUnserializerTakeSpecial { u with repeat_counter := u.repeat_counter - 1 }) := by
  simp [DbfUnserializerReadInt64, hst, hrc]

theorem numBytes_cases (i : Int) (hi : isInt64 i) :
    (0 ≤ i ∧ numBytes i = Encode DBF_PINT_CODEID DBF_PINT_DATANBITS i.toNat ∧ i.toNat < 2 ^ 63) ∨
    (i < 0 ∧ numBytes i = Encode DBF_NINT_CODEID DBF_NINT_DATANBITS (-1 - i).toNat ∧
      (-1 - i).toNat < 2 ^ 63) := by
  unfold isInt64 at hi
  by_cases h0 : 0 ≤ i
  · left
    refine ⟨h0, ?_, by norm_num; omega⟩
    simp [numBytes, h0, toU64_of_nonneg i h0 (by norm_num; omega)]
  · right
    refine ⟨by omega, ?_, by norm_num; omega⟩
    have hn : ¬ i ≥ 0 := h0
    simp only [numBytes, if_neg hn, toU64_of_nonneg (-1 - i) (by omega) (by norm_num; omega)]

theorem startsWithCode_numBytes (i : Int) : startsWithCode (numBytes i) := by
  unfold numBytes
  split
  · exact startsWithCode_Encode isValueClass_pint _
  · exact startsWithCode_Encode isValueClass_nint _

theorem readInt64_at_num (u : DbfUnserializer) (pre post : List Nat) (i : Int) (hi : isInt64 i)
    (hmsg : u.msgPtr = pre ++ numBytes i ++ post)
    (hsize : u.msgSize = u.msgPtr.length) (hpost : startsWithCode post)
    (hpos : u.readPos = pre.length) (hrc : u.repeat_counter = 0)
    (hst : u.decodeState = DbfNextIsIntegerState) :
    DbfUnserializerReadInt64 u
      = (i, DbfUnserializerTakeSpecial
              { u with readPos := pre.length + (numBytes i).length, repeat_counter := 0,
                       current_code := i }) := by
  rcases numBytes_cases i hi with ⟨h0, hnum, hlt⟩ | ⟨h0, hnum, hlt⟩
  · rw [hnum] at hmsg ⊢
    have ht := type_at_Encode u isValueClass_pint pre post _ hmsg
    have htake := take_next_code_Encode u isValueClass_pint pre post _
      (by norm_num at hlt ⊢; omega) hmsg hsize hpost hpos
    have hv : toInt64 i.toNat = i := by
      rw [toInt64_of_lt _ hlt]; exact Int.toNat_of_nonneg h0
    simp only [DbfUnserializerReadInt64, hst, hrc, hpos, ht.1, htake, hv]
    simp
  · rw [hnum] at hmsg ⊢
    have ht := type_at_Encode u isValueClass_nint pre post _ hmsg
    have htake := take_next_code_Encode u isValueClass_nint pre post _
      (by norm_num at hlt ⊢; omega) hmsg hsize hpost hpos
    have hv : toInt64 (-1 - i).toNat = -1 - i := by
      rw [toInt64_of_lt _ hlt]; exact Int.toNat_of_nonneg (by omega)
    have hw : wrap64 (-(-1 - i) - 1) = i := by
      rw [show -(-1 - i) - 1 = i by ring]; exact wrap64_of_isInt64 i hi
    simp only [DbfUnserializerReadInt64, hst, hrc, hpos, ht.1, htake, hv, hw]
    simp

/-! ## The write calls in terms of codes -/

theorem isBinary_cases (s : DbfSerializer) (h : isBinary s) : isIntMode s ∨ isStrMode s := by
  unfold isBinary at h
  unfold isIntMode isStrMode
  cases hs : s.encoderState <;> simp_all

theorem isBinary_of_int (s : DbfSerializer) (h : isIntMode s) : isBinary s := by
  unfold isBinary; rcases h with h | h <;> simp [h]

theorem isBinary_of_str (s : DbfSerializer) (h : isStrMode s) : isBinary s := by
  unfold isBinary; rcases h with h | h <;> simp [h]

theorem not_int_of_str (s : DbfSerializer) (h : isStrMode s) : ¬ isIntMode s := by
  unfold isIntMode; rcases h with h | h <;> simp [h]

theorem finalize_binary (s : DbfSerializer) (h : isBinary s) :
    DbfSerializerFinalize s = DbfSerializerWriteRepeat s := by
  unfold isBinary at h
  unfold DbfSerializerFinalize DbfSerializerEndWrite
  cases hs : s.encoderState <;> simp_all

theorem afterFmt_fields (s : DbfSerializer) (c : Nat) (st : encoder_states_type) (hc : c < 2 ^ 32)
    (hk : s.repeat_counter < 2 ^ 64) :
    (afterFmt s c st).buffer = s.buffer ++ repBytes s.repeat_counter ++ fmtBytes c ∧
    (afterFmt s c st).prev_code = (DbfSerializerWriteRepeat s).prev_code ∧
    (afterFmt s c st).repeat_counter = 0 ∧
    (afterFmt s c st).encoderState = st := by
  have h := encodeData32_fields s isValueClass_fmt c hc hk
  have hw := writeRepeat_fields s hk
  unfold afterFmt fmtBytes
  exact ⟨h.1, by simp only [h.2.1, hw.2.1], h.2.2.1, rfl⟩

theorem writeInt64_str_mode (s : DbfSerializer) (i : Int) (h : isStrMode s) :
    DbfSerializerWriteInt64 s i
      = DbfSerializerWriteCode64 (afterFmt s DBF_INT_BEGIN_CODE DBF_ENCODING_INT) i := by
  unfold afterFmt
  rcases h with h | h <;> simp [DbfSerializerWriteInt64, h]

theorem serializerWrite_binary (s : DbfSerializer) (str : List Nat) (len code : Nat)
    (h : isBinary s) :
    serializerWrite s str len code
      = serializerWriteCodes (afterFmt s code DBF_ENCODING_WORD) str := by
  unfold isBinary at h
  unfold afterFmt serializerWrite
  cases hs : s.encoderState <;> simp_all

theorem writeItem_chars (s : DbfSerializer) (it : Item) (h : isBinary s)
    (hit : ∀ i, it ≠ Item.int i) :
    writeItem s it = serializerWriteCodes (afterFmt s it.fmt DBF_ENCODING_WORD) it.chars := by
  cases it with
  | int i => exact absurd rfl (hit i)
  | word w =>
    simp only [writeItem, DbfSerializerWriteWord, Item.fmt, Item.chars]
    split <;> exact serializerWrite_binary s w _ _ h
  | str w =>
    simp only [writeItem, DbfSerializerWriteString, Item.fmt, Item.chars]
    exact serializerWrite_binary s w _ _ h

theorem writeCode64_state (s : DbfSerializer) (i : Int) (hk : s.repeat_counter < 2 ^ 64) :
    (DbfSerializerWriteCode64 s i).encoderState = s.encoderState ∧
    (DbfSerializerWriteCode64 s i).repeat_counter < 2 ^ 64 := by
  by_cases h : i = s.prev_code
  · rw [writeCode64_same s i h]
    exact ⟨rfl, by simp only; exact Nat.mod_lt _ (by norm_num)⟩
  · have := writeCode64_diff s i h hk
    exact ⟨this.2.2.2, by rw [this.2.2.1]; norm_num⟩

/-! ## Every write call appends whole codes -/

theorem extends_refl (s : DbfSerializer) (hb : isBinary s) (hk : s.repeat_counter < 2 ^ 64) :
    Extends s s :=
  ⟨hb, hk, [], by simp, startsWithCode_nil⟩

theorem extends_trans {a b c : DbfSerializer} (h1 : Extends a b) (h2 : Extends b c) :
    Extends a c := by
  obtain ⟨_, _, t1, hb1, hs1⟩ := h1
  obtain ⟨hb, hk, t2, hb2, hs2⟩ := h2
  exact ⟨hb, hk, t1 ++ t2, by rw [hb2, hb1, List.append_assoc],
    startsWithCode_append _ _ hs1 hs2⟩

theorem startsWithCode_repBytes (k : Nat) : startsWithCode (repBytes k) := by
  unfold repBytes
  split
  · exact startsWithCode_Encode isValueClass_rep _
  · exact startsWithCode_nil

theorem startsWithCode_fmtBytes (c : Nat) : startsWithCode (fmtBytes c) :=
  startsWithCode_Encode isValueClass_fmt _

theorem extends_writeRepeat (s : DbfSerializer) (hb : isBinary s)
    (hk : s.repeat_counter < 2 ^ 64) : Extends s (DbfSerializerWriteRepeat s) := by
  have h := writeRepeat_fields s hk
  refine ⟨?_, by rw [h.2.2.1]; norm_num, repBytes s.repeat_counter, h.1, startsWithCode_repBytes _⟩
  unfold isBinary at hb ⊢
  rw [h.2.2.2]; exact hb

theorem extends_writeCode64 (s : DbfSerializer) (i : Int) (hb : isBinary s)
    (hk : s.repeat_counter < 2 ^ 64) : Extends s (DbfSerializerWriteCode64 s i) := by
  have hst := writeCode64_state s i hk
  refine ⟨by unfold isBinary at hb ⊢; rw [hst.1]; exact hb, hst.2, ?_⟩
  by_cases h : i = s.prev_code
  · rw [writeCode64_same s i h]
    exact ⟨[], by simp, startsWithCode_nil⟩
  · have := writeCode64_diff s i h hk
    exact ⟨repBytes s.repeat_counter ++ numBytes i, by rw [this.1, List.append_assoc],
      startsWithCode_append _ _ (startsWithCode_repBytes _) (startsWithCode_numBytes _)⟩

theorem extends_afterFmt (s : DbfSerializer) (c : Nat) (st : encoder_states_type)
    (hc : c < 2 ^ 32) (hst : st = DBF_ENCODING_INT ∨ st = DBF_ENCODING_WORD)
    (hk : s.repeat_counter < 2 ^ 64) : Extends s (afterFmt s c st) := by
  have h := afterFmt_fields s c st hc hk
  refine ⟨?_, by rw [h.2.2.1]; norm_num, repBytes s.repeat_counter ++ fmtBytes c,
    by rw [h.1, List.append_assoc],
    startsWithCode_append _ _ (startsWithCode_repBytes _) (startsWithCode_fmtBytes _)⟩
  unfold isBinary
  rw [h.2.2.2]
  rcases hst with rfl | rfl <;> simp

theorem extends_writeCodes (str : List Nat) : ∀ (s : DbfSerializer), isBinary s →
    s.repeat_counter < 2 ^ 64 → Extends s (serializerWriteCodes s str) := by
  induction str with
  | nil => intro s hb hk; exact extends_refl s hb hk
  | cons c rest ih =>
    intro s hb hk
    unfold serializerWriteCodes
    split
    · exact extends_refl s hb hk
    · have h1 := extends_writeCode64 s (charToInt c - ASCII_OFFSET) hb hk
      exact extends_trans h1 (ih _ h1.1 h1.2.1)

theorem fmt_lt (it : Item) : it.fmt < 3 := by
  cases it <;> simp [Item.fmt, DBF_INT_BEGIN_CODE, DBF_STR_BEGIN_CODE, DBF_WORD_BEGIN_CODE]
  split <;> omega

theorem extends_writeItem (s : DbfSerializer) (it : Item) (hb : isBinary s)
    (hk : s.repeat_counter < 2 ^ 64) : Extends s (writeItem s it) := by
  cases it with
  | int i =>
    rcases isBinary_cases s hb with hm | hm
    · simp only [writeItem]
      rw [writeInt64_int_mode s i hm]
      have hs : Extends s { s with encoderState := DBF_ENCODING_INT } :=
        ⟨by unfold isBinary; simp, hk, [], by simp, startsWithCode_nil⟩
      exact extends_trans hs (extends_writeCode64 _ i hs.1 hs.2.1)
    · simp only [writeItem]
      rw [writeInt64_str_mode s i hm]
      have hs := extends_afterFmt s DBF_INT_BEGIN_CODE DBF_ENCODING_INT (by decide) (Or.inl rfl) hk
      exact extends_trans hs (extends_writeCode64 _ i hs.1 hs.2.1)
  | word w =>
    rw [writeItem_chars s _ hb (by intro i; simp)]
    have hs := extends_afterFmt s (Item.word w).fmt DBF_ENCODING_WORD
      (by have := fmt_lt (Item.word w); norm_num; omega) (Or.inr rfl) hk
    exact extends_trans hs (extends_writeCodes _ _ hs.1 hs.2.1)
  | str w =>
    rw [writeItem_chars s _ hb (by intro i; simp)]
    have hs := extends_afterFmt s (Item.str w).fmt DBF_ENCODING_WORD
      (by have := fmt_lt (Item.str w); norm_num; omega) (Or.inr rfl) hk
    exact extends_trans hs (extends_writeCodes _ _ hs.1 hs.2.1)

theorem extends_writeItems (V : List Item) : ∀ (s : DbfSerializer), isBinary s →
    s.repeat_counter < 2 ^ 64 → Extends s (writeItems s V) := by
  induction V with
  | nil => intro s hb hk; exact extends_refl s hb hk
  | cons it V ih =>
    intro s hb hk
    have h1 := extends_writeItem s it hb hk
    exact extends_trans h1 (ih _ h1.1 h1.2.1)

theorem extends_finalize (V : List Item) (s : DbfSerializer) (hb : isBinary s)
    (hk : s.repeat_counter < 2 ^ 64) :
    Extends s (DbfSerializerFinalize (writeItems s V)) := by
  have h1 := extends_writeItems V s hb hk
  rw [finalize_binary _ h1.1]
  exact extends_trans h1 (extends_writeRepeat _ h1.1 h1.2.1)

/-! ## The read loop of `DbfUnserializerRead` on encoded characters -/

theorem startsWithCode_of_fmt (l : List Nat) (h : startsWithFmt l) : startsWithCode l := by
  intro b hb; have := h b hb; omega

theorem startsWithFmt_fmtBytes_append (c : Nat) (l : List Nat) : startsWithFmt (fmtBytes c ++ l) := by
  unfold fmtBytes
  rw [Encode_eq _ _ _ isValueClass_fmt c]
  intro b hb
  simp only [List.cons_append, List.head?_cons, Option.some.injEq] at hb
  subst hb
  have := Nat.mod_lt c (show 0 < 2 ^ 4 by decide)
  show 16 ≤ 16 + c % 2 ^ 4 ∧ 16 + c % 2 ^ 4 < 32
  omega

theorem storeRepeat_eq (k : Nat) : ∀ (bufPtr : List Nat) (bufCap n c : Nat),
    storeRepeat k bufPtr bufCap n c = (storeList bufPtr bufCap n (List.replicate k c), n + k) := by
  induction k with
  | zero => intro bufPtr bufCap n c; simp [storeRepeat, storeList]
  | succ k ih =>
    intro bufPtr bufCap n c
    rw [storeRepeat, ih, List.replicate_succ, storeList]
    congr 1; omega

theorem storeList_append (a : List Nat) : ∀ (bufPtr : List Nat) (bufCap n : Nat) (b : List Nat),
    storeList bufPtr bufCap n (a ++ b)
      = storeList (storeList bufPtr bufCap n a) bufCap (n + a.length) b := by
  induction a with
  | nil => intro bufPtr bufCap n b; simp [storeList]
  | cons x a ih =>
    intro bufPtr bufCap n b
    rw [List.cons_append, storeList, storeList, ih, List.length_cons]
    rw [show n + 1 + a.length = n + (a.length + 1) by omega]

/-- The loop at the end of a word or string: the next sub-code is a format code, or the
message ends. -/
theorem readCodesLoop_finish (u : DbfUnserializer) (pre tail : List Nat) (fuel : Nat)
    (bufPtr : List Nat) (bufCap n : Nat)
    (hmsg : u.msgPtr = pre ++ tail) (htail : startsWithFmt tail)
    (hsize : u.msgSize = u.msgPtr.length) (hpos : u.readPos = pre.length)
    (hrc : u.repeat_counter = 0)
    (hst : u.decodeState = DbfNextIsWordState ∨ u.decodeState = DbfNextIsStringState) :
    readCodesLoop (fuel + 1) u bufPtr bufCap n =
      (((storeQuote u.decodeState bufPtr bufCap n).2 : Int),
        storeNul (storeQuote u.decodeState bufPtr bufCap n).1 bufCap
          (storeQuote u.decodeState bufPtr bufCap n).2,
        DbfUnserializerTakeSpecial u) := by
  rw [readCodesLoop, if_pos hst]
  cases tail with
  | nil =>
    have hend : u.readPos ≥ u.msgSize := by rw [hsize, hmsg, hpos]; simp
    simp only [DbfUnserializerGetNextType, if_pos hend]
    rw [takeSpecial_at_end u hrc hend]
  | cons b rest =>
    have hb := htail b rfl
    have hlt : ¬ u.readPos ≥ u.msgSize := by rw [hsize, hmsg, hpos]; simp
    have hbyte := byteAt_append_idx u pre rest b u.readPos hmsg hpos
    have hty : GET_CODE_TYPE b = DbfFoC := by
      rw [get_code_type_eq b (by omega)]
      split_ifs <;> first | rfl | omega
    simp only [DbfUnserializerGetNextType, if_neg hlt, hbyte, hty]

theorem readCodesLoop_rep (u : DbfUnserializer) (pre post : List Nat) (k fuel : Nat)
    (bufPtr : List Nat) (bufCap n : Nat) (hk0 : 0 < k) (hk : k < 2 ^ 63)
    (hmsg : u.msgPtr = pre ++ repBytes k ++ post) (hpost : startsWithCode post)
    (hsize : u.msgSize = u.msgPtr.length) (hpos : u.readPos = pre.length)
    (hst : u.decodeState = DbfNextIsWordState ∨ u.decodeState = DbfNextIsStringState) :
    readCodesLoop (fuel + 1) u bufPtr bufCap n =
      readCodesLoop fuel
        { u with readPos := pre.length + (repBytes k).length, repeat_counter := 0 }
        (storeList bufPtr bufCap n (List.replicate k (toByte u.current_code))) bufCap (n + k) := by
  rw [repBytes_pos k hk0] at hmsg ⊢
  have ht := type_at_Encode u isValueClass_rep pre post k hmsg
  have htake := take_next_code_Encode u isValueClass_rep pre post k
    (by norm_num at hk ⊢; omega) hmsg hsize hpost hpos
  have hlt : ¬ pre.length ≥ u.msgSize := by rw [hsize]; omega
  rw [readCodesLoop, if_pos hst]
  simp only [DbfUnserializerGetNextType, hpos, if_neg hlt, ht.1, htake, toInt64_of_lt k hk,
    Int.toNat_ofNat, storeRepeat_eq]

theorem readCodesLoop_num (u : DbfUnserializer) (pre post : List Nat) (x : Int) (fuel : Nat)
    (bufPtr : List Nat) (bufCap n : Nat) (hx : isInt64 x) (hx64 : isInt64 (64 + x))
    (hmsg : u.msgPtr = pre ++ numBytes x ++ post) (hpost : startsWithCode post)
    (hsize : u.msgSize = u.msgPtr.length) (hpos : u.readPos = pre.length)
    (hst : u.decodeState = DbfNextIsWordState ∨ u.decodeState = DbfNextIsStringState) :
    readCodesLoop (fuel + 1) u bufPtr bufCap n =
      readCodesLoop fuel
        { u with readPos := pre.length + (numBytes x).length, current_code := 64 + x }
        (storeChar bufPtr bufCap n (toByte (64 + x))) bufCap (n + 1) := by
  have hw : wrap64 (64 + x) = 64 + x := wrap64_of_isInt64 _ hx64
  rcases numBytes_cases x hx with ⟨h0, hnum, hlt⟩ | ⟨h0, hnum, hlt⟩
  · rw [hnum] at hmsg ⊢
    have ht := type_at_Encode u isValueClass_pint pre post _ hmsg
    have htake := take_next_code_Encode u isValueClass_pint pre post _
      (by norm_num at hlt ⊢; omega) hmsg hsize hpost hpos
    have hv : toInt64 x.toNat = x := by
      rw [toInt64_of_lt _ hlt]; exact Int.toNat_of_nonneg h0
    have hge : ¬ pre.length ≥ u.msgSize := by rw [hsize]; omega
    rw [readCodesLoop, if_pos hst]
    simp only [DbfUnserializerGetNextType, hpos, if_neg hge, ht.1, htake, hv, ASCII_OFFSET, hw]
  · rw [hnum] at hmsg ⊢
    have ht := type_at_Encode u isValueClass_nint pre post _ hmsg
    have htake := take_next_code_Encode u isValueClass_nint pre post _
      (by norm_num at hlt ⊢; omega) hmsg hsize hpost hpos
    have hv : toInt64 (-1 - x).toNat = -1 - x := by
      rw [toInt64_of_lt _ hlt]; exact Int.toNat_of_nonneg (by omega)
    have hge : ¬ pre.length ≥ u.msgSize := by rw [hsize]; omega
    have he : (64 : Int) - 1 - (-1 - x) = 64 + x := by ring
    rw [readCodesLoop, if_pos hst]
    simp only [DbfUnserializerGetNextType, hpos, if_neg hge, ht.1, htake, hv, ASCII_OFFSET, he, hw]

theorem repBytes_length_pos (k : Nat) (hk : 0 < k) : 0 < (repBytes k).length := by
  rw [repBytes_pos k hk, Encode_length]; omega

theorem numBytes_length_pos (i : Int) : 0 < (numBytes i).length := by
  unfold numBytes; split <;> rw [Encode_length] <;> omega

/-- The loop reads a pending repetition, if there is one. -/
theorem readCodesLoop_rep_any (u : DbfUnserializer) (pre post : List Nat) (k fuel : Nat)
    (bufPtr : List Nat) (bufCap n : Nat) (hk : k < 2 ^ 63)
    (hmsg : u.msgPtr = pre ++ repBytes k ++ post) (hpost : startsWithCode post)
    (hsize : u.msgSize = u.msgPtr.length) (hpos : u.readPos = pre.length)
    (hrc : u.repeat_counter = 0)
    (hst : u.decodeState = DbfNextIsWordState ∨ u.decodeState = DbfNextIsStringState)
    (hfuel : u.msgSize - u.readPos < fuel) :
    ∃ fuel2, readCodesLoop fuel u bufPtr bufCap n =
        readCodesLoop fuel2
          { u with readPos := pre.length + (repBytes k).length, repeat_counter := 0 }
          (storeList bufPtr bufCap n (List.replicate k (toByte u.current_code))) bufCap (n + k) ∧
      u.msgSize - (pre.length + (repBytes k).length) < fuel2 := by
  by_cases hk0 : k = 0
  · subst hk0
    refine ⟨fuel, ?_, by simp [repBytes_zero]; omega⟩
    have hu : { u with readPos := pre.length + (repBytes 0).length, repeat_counter := 0 } = u := by
      cases u; simp_all [repBytes_zero]
    rw [hu]; simp [storeList]
  · have hkpos : 0 < k := Nat.pos_of_ne_zero hk0
    have hlen := repBytes_length_pos k hkpos
    have hml : u.msgPtr.length = pre.length + (repBytes k).length + post.length := by
      rw [hmsg]; simp only [List.length_append]
    obtain ⟨f, rfl⟩ : ∃ f, fuel = f + 1 := ⟨fuel - 1, by omega⟩
    refine ⟨f, readCodesLoop_rep u pre post k f bufPtr bufCap n hkpos hk hmsg hpost hsize hpos hst,
      by omega⟩

theorem charToInt_of_lt (c : Nat) (hc : c < 128) : charToInt c = (c : Int) := by
  unfold charToInt
  rw [Nat.mod_eq_of_lt (by omega), if_pos hc]

theorem toByte_of_lt (c : Nat) (hc : c < 256) : toByte (c : Int) = c := by
  unfold toByte
  have : (c : Int) % 256 = c := Int.emod_eq_of_lt (by omega) (by omega)
  rw [this]; simp

/-- The read loop on the characters of a word or string: it stores a pending repetition
and the characters, then ends at the format code or at the end of the message. -/
theorem readCodesLoop_chars (tail : List Nat) (htail : startsWithFmt tail) :
    ∀ (w : List Nat) (s : DbfSerializer) (u : DbfUnserializer) (bufPtr : List Nat)
      (bufCap n fuel : Nat),
      isBinary s → (∀ c ∈ w, 0 < c ∧ c < 128) → s.repeat_counter + w.length < 2 ^ 63 →
      u.msgPtr = (DbfSerializerWriteRepeat (serializerWriteCodes s w)).buffer ++ tail →
      u.msgSize = u.msgPtr.length → u.readPos = s.buffer.length → u.repeat_counter = 0 →
      (u.decodeState = DbfNextIsWordState ∨ u.decodeState = DbfNextIsStringState) →
      (u.current_code = s.prev_code + 64 ∨
        (s.repeat_counter = 0 ∧
          w.head?.map (fun c => charToInt c - ASCII_OFFSET) ≠ some s.prev_code)) →
      u.msgSize - u.readPos < fuel →
      ∃ u2, readCodesLoop fuel u bufPtr bufCap n =
          ((readResult u.decodeState bufPtr bufCap n
              (List.replicate s.repeat_counter (toByte u.current_code) ++ w)).1,
           (readResult u.decodeState bufPtr bufCap n
              (List.replicate s.repeat_counter (toByte u.current_code) ++ w)).2,
           DbfUnserializerTakeSpecial u2) ∧
        u2.msgPtr = u.msgPtr ∧ u2.msgSize = u.msgSize ∧ u2.repeat_counter = 0 ∧
        u2.readPos = u.msgPtr.length - tail.length := by
  intro w
  induction w with
  | nil =>
    intro s u bufPtr bufCap n fuel hb _ hk hmsg hsize hpos hrc hst _ hfuel
    have hk64 : s.repeat_counter < 2 ^ 64 := by norm_num at hk ⊢; omega
    have hw := writeRepeat_fields s hk64
    simp only [serializerWriteCodes] at hmsg
    rw [hw.1] at hmsg
    obtain ⟨f2, hstep, hf2⟩ := readCodesLoop_rep_any u s.buffer tail s.repeat_counter fuel bufPtr
      bufCap n (by simpa using hk) hmsg (startsWithCode_of_fmt _ htail) hsize hpos hrc hst hfuel
    obtain ⟨f3, rfl⟩ : ∃ f3, f2 = f3 + 1 := ⟨f2 - 1, by omega⟩
    refine ⟨{ u with readPos := s.buffer.length + (repBytes s.repeat_counter).length,
                     repeat_counter := 0 }, ?_, rfl, rfl, rfl, ?_⟩
    · rw [hstep, readCodesLoop_finish
        { u with readPos := s.buffer.length + (repBytes s.repeat_counter).length,
                 repeat_counter := 0 }
        (s.buffer ++ repBytes s.repeat_counter) tail f3 _ bufCap _
        hmsg htail hsize (by simp) rfl hst]
      simp [readResult]
    · simp only [hmsg, List.length_append]; omega
  | cons c w ih =>
    intro s u bufPtr bufCap n fuel hb hw hk hmsg hsize hpos hrc hst hsync hfuel
    have hc : 0 < c ∧ c < 128 := hw c (by simp)
    have hk64 : s.repeat_counter < 2 ^ 64 := by norm_num at hk ⊢; omega
    have hci := charToInt_of_lt c hc.2
    have hstepw : serializerWriteCodes s (c :: w)
        = serializerWriteCodes (DbfSerializerWriteCode64 s ((c : Int) - 64)) w := by
      rw [serializerWriteCodes, if_neg (by omega), hci]; rfl
    rw [hstepw] at hmsg
    have hlen : s.repeat_counter + 1 + w.length < 2 ^ 63 := by
      simp only [List.length_cons] at hk; omega
    by_cases hx : (c : Int) - 64 = s.prev_code
    · have hcur : u.current_code = s.prev_code + 64 := by
        rcases hsync with h | ⟨_, h⟩
        · exact h
        · exact absurd (by simp [hci, ASCII_OFFSET, hx]) h
      have hcb : toByte u.current_code = c := by
        rw [hcur, ← hx, show (c : Int) - 64 + 64 = (c : Int) by ring]
        exact toByte_of_lt c (by omega)
      have hs1 : DbfSerializerWriteCode64 s ((c : Int) - 64)
          = { s with repeat_counter := s.repeat_counter + 1 } := by
        rw [writeCode64_same s _ hx, Nat.mod_eq_of_lt (by norm_num at hlen ⊢; omega)]
      rw [hs1] at hmsg
      obtain ⟨u2, h1, h2⟩ := ih { s with repeat_counter := s.repeat_counter + 1 } u bufPtr bufCap n
        fuel (by unfold isBinary at hb ⊢; exact hb) (fun x hx => hw x (by simp [hx])) hlen hmsg
        hsize hpos hrc hst (Or.inl hcur) hfuel
      refine ⟨u2, ?_, h2⟩
      rw [h1]
      have hout : List.replicate (s.repeat_counter + 1) (toByte u.current_code) ++ w
          = List.replicate s.repeat_counter (toByte u.current_code) ++ c :: w := by
        rw [List.replicate_succ', List.append_assoc, hcb]; rfl
      simp only [hout]
    · have hd := writeCode64_diff s _ hx hk64
      have hst1 := writeCode64_state s ((c : Int) - 64) hk64
      have hb1 : isBinary (DbfSerializerWriteCode64 s ((c : Int) - 64)) := by
        unfold isBinary at hb ⊢; rw [hst1.1]; exact hb
      have hext := extends_trans
        (extends_writeCodes w (DbfSerializerWriteCode64 s ((c : Int) - 64)) hb1 hst1.2)
        (extends_writeRepeat _
          (extends_writeCodes w (DbfSerializerWriteCode64 s ((c : Int) - 64)) hb1 hst1.2).1
          (extends_writeCodes w (DbfSerializerWriteCode64 s ((c : Int) - 64)) hb1 hst1.2).2.1)
      obtain ⟨_, _, t2, ht2, hclean⟩ := hext
      have hmsg2 : u.msgPtr = s.buffer ++ repBytes s.repeat_counter
          ++ (numBytes ((c : Int) - 64) ++ (t2 ++ tail)) := by
        rw [hmsg, ht2, hd.1]; simp only [List.append_assoc]
      have hpost2 : startsWithCode (t2 ++ tail) :=
        startsWithCode_append _ _ hclean (startsWithCode_of_fmt _ htail)
      obtain ⟨f2, hstep, hf2⟩ := readCodesLoop_rep_any u s.buffer
        (numBytes ((c : Int) - 64) ++ (t2 ++ tail)) s.repeat_counter fuel bufPtr bufCap n
        (by norm_num at hk ⊢; omega) hmsg2
        (startsWithCode_append _ _ (startsWithCode_numBytes _) hpost2) hsize hpos hrc hst hfuel
      have hnl := numBytes_length_pos ((c : Int) - 64)
      have hml : u.msgPtr.length = s.buffer.length + (repBytes s.repeat_counter).length
          + (numBytes ((c : Int) - 64)).length + (t2 ++ tail).length := by
        rw [hmsg2]; simp only [List.length_append]; omega
      obtain ⟨f3, rfl⟩ : ∃ f3, f2 = f3 + 1 := ⟨f2 - 1, by omega⟩
      have hxi : isInt64 ((c : Int) - 64) := by unfold isInt64; omega
      have hxi2 : isInt64 (64 + ((c : Int) - 64)) := by unfold isInt64; omega
      have hnum := readCodesLoop_num
        { u with readPos := s.buffer.length + (repBytes s.repeat_counter).length,
                 repeat_counter := 0 }
        (s.buffer ++ repBytes s.repeat_counter) (t2 ++ tail) ((c : Int) - 64) f3
        (storeList bufPtr bufCap n (List.replicate s.repeat_counter (toByte u.current_code)))
        bufCap (n + s.repeat_counter) hxi hxi2 (by simpa using hmsg2) hpost2 hsize (by simp) hst
      have h64 : (64 : Int) + ((c : Int) - 64) = (c : Int) := by ring
      rw [h64, toByte_of_lt c (by omega)] at hnum
      obtain ⟨u2, h1, h2⟩ := ih (DbfSerializerWriteCode64 s ((c : Int) - 64))
        { u with readPos := (s.buffer ++ repBytes s.repeat_counter).length
                   + (numBytes ((c : Int) - 64)).length,
                 repeat_counter := 0, current_code := (c : Int) }
        (storeChar (storeList bufPtr bufCap n
          (List.replicate s.repeat_counter (toByte u.current_code))) bufCap
          (n + s.repeat_counter) c)
        bufCap (n + s.repeat_counter + 1) f3 hb1 (fun x hx => hw x (by simp [hx]))
        (by rw [hd.2.2.1]; norm_num at hlen ⊢; omega) hmsg hsize
        (by rw [hd.1]; simp only [List.length_append]) rfl hst
        (Or.inl (by rw [hd.2.1]; ring))
        (by simp only [List.length_append]; omega)
      refine ⟨u2, ?_, h2.1, h2.2.1, h2.2.2.1, h2.2.2.2⟩
      rw [hstep, hnum, h1]
      simp only [hd.2.2.1, List.replicate_zero, List.nil_append, readResult, storeList_append,
        storeList, List.length_append, List.length_replicate, List.length_cons]
      have e1 : n + s.repeat_counter + 1 + w.length = n + (s.repeat_counter + (w.length + 1)) := by
        omega
      rw [e1]

/-! ## Reading back a sequence of values -/

theorem writeCodes_state (w : List Nat) : ∀ (s : DbfSerializer), s.repeat_counter < 2 ^ 64 →
    (serializerWriteCodes s w).encoderState = s.encoderState ∧
    (serializerWriteCodes s w).repeat_counter ≤ s.repeat_counter + w.length := by
  induction w with
  | nil => intro s _; simp [serializerWriteCodes]
  | cons c w ih =>
    intro s hk
    unfold serializerWriteCodes
    split
    · simp
    · have h1 := writeCode64_state s (charToInt c - ASCII_OFFSET) hk
      have h2 := ih (DbfSerializerWriteCode32 s (charToInt c - ASCII_OFFSET)) h1.2
      have h3 : (DbfSerializerWriteCode64 s (charToInt c - ASCII_OFFSET)).repeat_counter
          ≤ s.repeat_counter + 1 := by
        by_cases h : charToInt c - ASCII_OFFSET = s.prev_code
        · rw [writeCode64_same s _ h]; exact Nat.mod_le _ _
        · rw [(writeCode64_diff s _ h hk).2.2.1]; omega
      unfold DbfSerializerWriteCode32 at h2 ⊢
      refine ⟨by rw [h2.1, h1.1], ?_⟩
      simp only [List.length_cons]; omega

/-- After a word or string, the rest of the message is the flushed repetition followed by
nothing or by a format code. -/
theorem layout_after_str (V : List Item) (s : DbfSerializer) (hm : isStrMode s)
    (hk : s.repeat_counter < 2 ^ 64) :
    ∃ tail, (DbfSerializerFinalize (writeItems s V)).buffer
        = s.buffer ++ repBytes s.repeat_counter ++ tail ∧ startsWithFmt tail := by
  have hb := isBinary_of_str s hm
  cases V with
  | nil =>
    refine ⟨[], ?_, by intro b h; simp at h⟩
    simp only [writeItems, List.foldl_nil, finalize_binary s hb, (writeRepeat_fields s hk).1,
      List.append_nil]
  | cons it V =>
    have hfin : ∃ (sf : DbfSerializer) (c : Nat), sf.buffer
          = s.buffer ++ repBytes s.repeat_counter ++ fmtBytes c ∧ Extends sf (writeItem s it) := by
      cases it with
      | int i =>
        have hs := extends_afterFmt s DBF_INT_BEGIN_CODE DBF_ENCODING_INT (by decide) (Or.inl rfl) hk
        refine ⟨afterFmt s DBF_INT_BEGIN_CODE DBF_ENCODING_INT, DBF_INT_BEGIN_CODE,
          (afterFmt_fields s _ _ (by decide) hk).1, ?_⟩
        simp only [writeItem]
        rw [writeInt64_str_mode s i hm]
        exact extends_writeCode64 _ i hs.1 hs.2.1
      | word w =>
        have hc : (Item.word w).fmt < 2 ^ 32 := by have := fmt_lt (Item.word w); norm_num; omega
        have hs := extends_afterFmt s (Item.word w).fmt DBF_ENCODING_WORD hc (Or.inr rfl) hk
        refine ⟨afterFmt s (Item.word w).fmt DBF_ENCODING_WORD, (Item.word w).fmt,
          (afterFmt_fields s _ _ hc hk).1, ?_⟩
        rw [writeItem_chars s _ hb (by intro i; simp)]
        exact extends_writeCodes _ _ hs.1 hs.2.1
      | str w =>
        have hc : (Item.str w).fmt < 2 ^ 32 := by have := fmt_lt (Item.str w); norm_num; omega
        have hs := extends_afterFmt s (Item.str w).fmt DBF_ENCODING_WORD hc (Or.inr rfl) hk
        refine ⟨afterFmt s (Item.str w).fmt DBF_ENCODING_WORD, (Item.str w).fmt,
          (afterFmt_fields s _ _ hc hk).1, ?_⟩
        rw [writeItem_chars s _ hb (by intro i; simp)]
        exact extends_writeCodes _ _ hs.1 hs.2.1
    obtain ⟨sf, c, hsf, hext⟩ := hfin
    have hrest := extends_finalize V (writeItem s it) hext.1 hext.2.1
    obtain ⟨_, _, t, ht, _⟩ := extends_trans hext hrest
    refine ⟨fmtBytes c ++ t, ?_, startsWithFmt_fmtBytes_append c t⟩
    have hw : writeItems s (it :: V) = writeItems (writeItem s it) V := rfl
    rw [hw, ht, hsf]
    simp only [List.append_assoc]

theorem item_int_state (i : Int) : (Item.int i).state = DbfNextIsIntegerState := by
  simp [Item.state, Item.fmt]

theorem readsBack_int_cons (u : DbfUnserializer) (i : Int) (V : List Item) :
    ReadsBack u (Item.int i :: V) ↔
      u.decodeState = DbfNextIsIntegerState ∧ (DbfUnserializerReadInt64 u).1 = i ∧
        ReadsBack (DbfUnserializerReadInt64 u).2 V := by
  simp only [ReadsBack, item_int_state]

/-- Reading the replays of a repetition whose code the decoder has already taken. -/
theorem readsBack_pending (W : List Item) (j : Nat) : ∀ (u : DbfUnserializer),
    u.decodeState = DbfNextIsIntegerState → u.repeat_counter = j + 1 →
    ReadsBack (DbfUnserializerTakeSpecial { u with repeat_counter := 0 }) W →
    ReadsBack u (List.replicate (j + 1) (Item.int u.current_code) ++ W) := by
  induction j with
  | zero =>
    intro u hst hrc h
    have hr := readInt64_pending u hst (by omega)
    have h0 : u.repeat_counter - 1 = 0 := by omega
    rw [h0] at hr
    rw [show List.replicate (0 + 1) (Item.int u.current_code) ++ W
      = Item.int u.current_code :: W from rfl, readsBack_int_cons, hr]
    exact ⟨hst, rfl, h⟩
  | succ j ih =>
    intro u hst hrc h
    have hr := readInt64_pending u hst (by omega)
    have h0 : u.repeat_counter - 1 = j + 1 := by omega
    rw [h0, takeSpecial_of_rc _ (by simp)] at hr
    rw [show List.replicate (j + 1 + 1) (Item.int u.current_code) ++ W
      = Item.int u.current_code :: (List.replicate (j + 1) (Item.int u.current_code) ++ W) from rfl,
      readsBack_int_cons, hr]
    exact ⟨hst, rfl, ih { u with repeat_counter := j + 1 } hst rfl h⟩

/-- Reading the integers of a flushed repetition in front of the rest of the message. -/
theorem readsBack_flush (u : DbfUnserializer) (pre post : List Nat) (k : Nat) (p : Int)
    (rest : List Item) (hk : k < 2 ^ 64) (hmsg : u.msgPtr = pre ++ repBytes k ++ post)
    (hpost : startsWithCode post) (hsize : u.msgSize = u.msgPtr.length)
    (hpos : u.readPos = pre.length) (hrc : u.repeat_counter = 0)
    (hst : u.decodeState = DbfNextIsIntegerState) (hcur : 0 < k → u.current_code = p)
    (h : ReadsBack
      (DbfUnserializerTakeSpecial { u with readPos := pre.length + (repBytes k).length }) rest) :
    ReadsBack (DbfUnserializerTakeSpecial u) (List.replicate k (Item.int p) ++ rest) := by
  by_cases hk0 : k = 0
  · subst hk0
    have hu : { u with readPos := pre.length + (repBytes 0).length } = u := by
      cases u; simp_all [repBytes_zero]
    rw [hu] at h
    simpa using h
  · have hkpos : 0 < k := Nat.pos_of_ne_zero hk0
    obtain ⟨j, rfl⟩ : ∃ j, k = j + 1 := ⟨k - 1, by omega⟩
    rw [takeSpecial_at_rep u pre post (j + 1) hkpos hk hmsg hsize hpost hpos hrc]
    have hu : { u with readPos := pre.length + (repBytes (j + 1)).length, repeat_counter := 0 }
        = { u with readPos := pre.length + (repBytes (j + 1)).length } := by
      cases u; simp_all
    have hp := readsBack_pending rest j
      { u with readPos := pre.length + (repBytes (j + 1)).length, repeat_counter := j + 1 }
      hst rfl (by rw [hu]; exact h)
    rw [← hcur hkpos]
    exact hp

theorem type_at_numBytes (u : DbfUnserializer) (pre post : List Nat) (i : Int) (hi : isInt64 i)
    (hmsg : u.msgPtr = pre ++ numBytes i ++ post) :
    (GET_CODE_TYPE (u.byteAt pre.length) = DbfPnc ∨ GET_CODE_TYPE (u.byteAt pre.length) = DbfNnc) ∧
    pre.length < u.msgPtr.length := by
  rcases numBytes_cases i hi with ⟨_, hnum, _⟩ | ⟨_, hnum, _⟩
  · rw [hnum] at hmsg
    have := type_at_Encode u isValueClass_pint pre post _ hmsg
    exact ⟨Or.inl this.1, this.2⟩
  · rw [hnum] at hmsg
    have := type_at_Encode u isValueClass_nint pre post _ hmsg
    exact ⟨Or.inr this.1, this.2⟩

/-! ## The caller's buffer after `DbfUnserializerRead` -/

theorem take_set_succ (a : Nat) : ∀ (l : List Nat) (n : Nat), n < l.length →
    (l.set n a).take (n + 1) = l.take n ++ [a] := by
  intro l
  induction l with
  | nil => intro n h; simp at h
  | cons x l ih =>
    intro n h
    cases n with
    | zero => simp
    | succ n =>
      simp only [List.set_cons_succ, List.take_succ_cons, List.cons_append]
      rw [ih n (by simpa using h)]

theorem take_set_ge (a : Nat) : ∀ (l : List Nat) (m n : Nat), n ≤ m →
    (l.set m a).take n = l.take n := by
  intro l
  induction l with
  | nil => intro m n _; simp
  | cons x l ih =>
    intro m n h
    cases n with
    | zero => simp
    | succ n =>
      cases m with
      | zero => omega
      | succ m =>
        simp only [List.set_cons_succ, List.take_succ_cons]
        rw [ih m n (by omega)]

theorem storeList_length (xs : List Nat) : ∀ (bufPtr : List Nat) (bufCap n : Nat),
    (storeList bufPtr bufCap n xs).length = bufPtr.length := by
  induction xs with
  | nil => intro bufPtr bufCap n; rfl
  | cons x xs ih =>
    intro bufPtr bufCap n
    rw [storeList, ih]
    unfold storeChar
    split <;> simp

theorem storeList_take (xs : List Nat) : ∀ (bufPtr : List Nat) (bufCap n : Nat),
    n + xs.length ≤ bufCap → bufCap ≤ bufPtr.length → (∀ x ∈ xs, x < 256) →
    (storeList bufPtr bufCap n xs).take (n + xs.length) = bufPtr.take n ++ xs := by
  induction xs with
  | nil => intro bufPtr bufCap n _ _ _; simp [storeList]
  | cons x xs ih =>
    intro bufPtr bufCap n hfit hcap hx
    have hlt : n < bufCap := by simp only [List.length_cons] at hfit; omega
    have hx256 : x % 256 = x := Nat.mod_eq_of_lt (hx x (by simp))
    have hsc : storeChar bufPtr bufCap n x = bufPtr.set n x := by
      simp [storeChar, hlt, hx256]
    have e : n + (x :: xs).length = (n + 1) + xs.length := by simp only [List.length_cons]; omega
    rw [storeList, e, ih _ bufCap (n + 1) (by simp only [List.length_cons] at hfit; omega)
      (by rw [hsc]; simpa using hcap) (fun y hy => hx y (by simp [hy])), hsc,
      take_set_succ x bufPtr n (by omega)]
    simp

/-- What `DbfUnserializerRead` leaves for a word: the count, and the characters followed by
the terminator. -/
theorem readResult_word (bufPtr : List Nat) (bufCap : Nat) (w : List Nat)
    (hfit : w.length < bufCap) (hcap : bufCap ≤ bufPtr.length) (hw : ∀ x ∈ w, x < 256) :
    (readResult DbfNextIsWordState bufPtr bufCap 0 w).1 = (w.length : Int) ∧
    (readResult DbfNextIsWordState bufPtr bufCap 0 w).2.take (w.length + 1) = w ++ [0] := by
  have hlen := storeList_length w bufPtr bufCap 0
  have htake := storeList_take w bufPtr bufCap 0 (by omega) hcap hw
  simp only [Nat.zero_add, List.take_zero, List.nil_append] at htake
  simp only [readResult, storeQuote, storeNul, Nat.zero_add]
  refine ⟨by simp, ?_⟩
  simp only [if_neg (show ¬ DbfNextIsWordState = DbfNextIsStringState by decide), if_pos hfit]
  rw [take_set_succ 0 _ w.length (by rw [hlen]; omega), htake]

/-- What `DbfUnserializerRead` leaves for a string: the count with the two quotes, and the
characters between quotes followed by the terminator. -/
theorem readResult_string (bufPtr : List Nat) (bufCap : Nat) (w : List Nat)
    (hfit : w.length + 2 < bufCap) (hcap : bufCap ≤ bufPtr.length) (hw : ∀ x ∈ w, x < 256) :
    (readResult DbfNextIsStringState
        (storeQuote DbfNextIsStringState bufPtr bufCap 0).1 bufCap
        (storeQuote DbfNextIsStringState bufPtr bufCap 0).2 w).1 = ((w.length + 2 : Nat) : Int) ∧
    (readResult DbfNextIsStringState
        (storeQuote DbfNextIsStringState bufPtr bufCap 0).1 bufCap
        (storeQuote DbfNextIsStringState bufPtr bufCap 0).2 w).2.take (w.length + 2 + 1)
      = [34] ++ w ++ [34] ++ [0] := by
  have hq0 : storeQuote DbfNextIsStringState bufPtr bufCap 0 = (bufPtr.set 0 34, 1) := by
    simp [storeQuote, show 0 < bufCap by omega]
  rw [hq0]
  have hlen := storeList_length w (bufPtr.set 0 34) bufCap 1
  rw [List.length_set] at hlen
  have htake := storeList_take w (bufPtr.set 0 34) bufCap 1 (by omega)
    (by simpa using hcap) hw
  rw [take_set_succ 34 bufPtr 0 (by omega)] at htake
  simp only [List.take_zero, List.nil_append] at htake
  have h1 : 1 + w.length < bufCap := by omega
  have h2 : 1 + w.length + 1 < bufCap := by omega
  simp only [readResult, storeQuote, storeNul, if_pos h1, if_pos h2, if_true]
  refine ⟨by push_cast; ring, ?_⟩
  have e : w.length + 2 + 1 = (1 + w.length + 1) + 1 := by omega
  rw [e, take_set_succ 0 _ (1 + w.length + 1) (by rw [List.length_set, hlen]; omega),
    take_set_succ 34 _ (1 + w.length) (by rw [hlen]; omega), htake]

/-! ## Reading back a word or string -/

/-- The loop of `DbfUnserializerRead` only ever sets `repeat_counter` to 0, so a call that
starts with no repetition pending passes the assertions. -/
theorem readCodesAssert_of_zero (fuel : Nat) : ∀ (u : DbfUnserializer), u.repeat_counter = 0 →
    readCodesAssert fuel u = true := by
  induction fuel with
  | zero => intro u _; rfl
  | succ fuel ih =>
    intro u h
    rw [readCodesAssert]
    split
    · split
      · exact ih _ h
      · exact ih _ h
      · exact ih _ rfl
      · exact decide_eq_true h
      · exact decide_eq_true h
      · rfl
    · rfl

theorem readAssert_of_zero (u : DbfUnserializer) (h : u.repeat_counter = 0) :
    DbfUnserializerReadAssert u = true := by
  unfold DbfUnserializerReadAssert
  split
  · exact readCodesAssert_of_zero _ u h
  · exact readCodesAssert_of_zero _ u h
  · rfl

theorem readsBack_str_cons (u : DbfUnserializer) (it : Item) (V : List Item)
    (hit : ∀ i, it ≠ Item.int i) :
    ReadsBack u (it :: V) ↔
      u.decodeState = it.state ∧ DbfUnserializerReadAssert u = true ∧
      ∀ (bufPtr : List Nat) (bufCap : Nat), it.expected.length < bufCap → bufCap ≤ bufPtr.length →
        (DbfUnserializerRead u bufPtr bufCap).1 = (it.expected.length : Int) ∧
        (DbfUnserializerRead u bufPtr bufCap).2.1.take (it.expected.length + 1)
          = it.expected ++ [0] ∧
        ReadsBack (DbfUnserializerRead u bufPtr bufCap).2.2 V := by
  cases it with
  | int i => exact absurd rfl (hit i)
  | word w => simp only [ReadsBack]
  | str w => simp only [ReadsBack]

theorem valid_chars (it : Item) (hit : ∀ i, it ≠ Item.int i) (hv : it.valid = true) :
    it.chars ≠ [] ∧ it.chars.length < 2 ^ 63 ∧ (∀ c ∈ it.chars, 0 < c ∧ c < 128) ∧
    it.codes.length = it.chars.length ∧
    it.codes.head? = it.chars.head?.map (fun c => charToInt c - ASCII_OFFSET) ∧
    (it.fmt = 1 ∨ it.fmt = 2) := by
  cases it with
  | int i => exact absurd rfl (hit i)
  | word w =>
    simp only [Item.valid, Bool.and_eq_true, decide_eq_true_eq, List.all_eq_true] at hv
    refine ⟨hv.1.1, by have := hv.1.2; norm_num at this ⊢; simp only [Item.chars]; omega, hv.2,
      by simp [Item.codes, Item.chars], by simp [Item.codes, Item.chars], ?_⟩
    simp only [Item.fmt, DBF_STR_BEGIN_CODE, DBF_WORD_BEGIN_CODE]
    split <;> simp
  | str w =>
    simp only [Item.valid, Bool.and_eq_true, decide_eq_true_eq, List.all_eq_true] at hv
    exact ⟨hv.1.1, by have := hv.1.2; norm_num at this ⊢; simp only [Item.chars]; omega, hv.2,
      by simp [Item.codes, Item.chars], by simp [Item.codes, Item.chars], Or.inr rfl⟩

theorem noSlip_cons (s : DbfSerializer) (it : Item) (V : List Item) (h : noSlip s (it :: V) = true) :
    noSlip (writeItem s it) V = true := by
  simp only [noSlip, Bool.and_eq_true] at h
  exact h.2

theorem noSlip_str (s : DbfSerializer) (it : Item) (V : List Item) (hit : ∀ i, it ≠ Item.int i)
    (h : noSlip s (it :: V) = true) :
    it.codes.head? ≠ some (DbfSerializerWriteRepeat s).prev_code := by
  cases it with
  | int i => exact absurd rfl (hit i)
  | word w => simp only [noSlip, Bool.and_eq_true, decide_eq_true_eq] at h; exact h.1
  | str w => simp only [noSlip, Bool.and_eq_true, decide_eq_true_eq] at h; exact h.1

theorem noSlip_int (s : DbfSerializer) (i : Int) (V : List Item)
    (h : noSlip s (Item.int i :: V) = true) :
    isIntMode s ∨ i ≠ (DbfSerializerWriteRepeat s).prev_code ∨
      (DbfSerializerWriteRepeat s).prev_code = 0 := by
  simp only [noSlip, Bool.and_eq_true, Bool.or_eq_true, decide_eq_true_eq] at h
  unfold isIntMode
  tauto

/-- Reading back a word or string and what follows it, given that what follows a word or
string is read back. -/
theorem readsBack_str_step (it : Item) (V : List Item) (hit : ∀ i, it ≠ Item.int i)
    (ih : ∀ (s : DbfSerializer) (u : DbfUnserializer), isBinary s → V.all Item.valid = true →
      s.repeat_counter + itemsSize V < 2 ^ 64 → noSlip s V = true →
      u.msgPtr = (DbfSerializerFinalize (writeItems s V)).buffer → u.msgSize = u.msgPtr.length →
      u.repeat_counter = 0 → isStrMode s →
      u.readPos = s.buffer.length + (repBytes s.repeat_counter).length →
      ReadsBack (DbfUnserializerTakeSpecial u) V)
    (s : DbfSerializer) (u : DbfUnserializer) (hb : isBinary s) (hvalid : it.valid = true)
    (hvalidV : V.all Item.valid = true)
    (hsize : s.repeat_counter + itemsSize (it :: V) < 2 ^ 64)
    (hns : noSlip s (it :: V) = true)
    (hmsg : u.msgPtr = (DbfSerializerFinalize (writeItems s (it :: V))).buffer)
    (hsz : u.msgSize = u.msgPtr.length) (hrc : u.repeat_counter = 0)
    (hpos : u.readPos = s.buffer.length + (repBytes s.repeat_counter).length) :
    ReadsBack (DbfUnserializerTakeSpecial u) (it :: V) := by
  obtain ⟨hne, hwlen, hchars, hclen, hhead, hfmt⟩ := valid_chars it hit hvalid
  have hk64 : s.repeat_counter < 2 ^ 64 := by omega
  have hc32 : it.fmt < 2 ^ 32 := by have := fmt_lt it; norm_num; omega
  have hf := afterFmt_fields s it.fmt DBF_ENCODING_WORD hc32 hk64
  have hsfext := extends_afterFmt s it.fmt DBF_ENCODING_WORD hc32 (Or.inr rfl) hk64
  have hwi := writeItem_chars s it hb hit
  have hcs := writeCodes_state it.chars (afterFmt s it.fmt DBF_ENCODING_WORD) hsfext.2.1
  have hendmode : isStrMode (writeItem s it) := by
    rw [hwi]; left; rw [hcs.1, hf.2.2.2]
  have hendrc : (writeItem s it).repeat_counter ≤ it.chars.length := by
    rw [hwi]; have := hcs.2; rw [hf.2.2.1] at this; omega
  have hend64 : (writeItem s it).repeat_counter < 2 ^ 64 := by
    norm_num at hwlen ⊢; omega
  obtain ⟨tail, htl, htail⟩ := layout_after_str V (writeItem s it) hendmode hend64
  have hwr := writeRepeat_fields (writeItem s it) hend64
  have hM : u.msgPtr = (DbfSerializerWriteRepeat
      (serializerWriteCodes (afterFmt s it.fmt DBF_ENCODING_WORD) it.chars)).buffer ++ tail := by
    rw [← hwi, hwr.1, hmsg]; exact htl
  -- the first character
  obtain ⟨c0, w2, hw⟩ : ∃ c0 w2, it.chars = c0 :: w2 := by
    cases hcw : it.chars with
    | nil => exact absurd hcw hne
    | cons c0 w2 => exact ⟨c0, w2, rfl⟩
  have hc0 : 0 < c0 ∧ c0 < 128 := hchars c0 (by rw [hw]; simp)
  have hci := charToInt_of_lt c0 hc0.2
  have hx0 : (c0 : Int) - 64 ≠ (afterFmt s it.fmt DBF_ENCODING_WORD).prev_code := by
    have := noSlip_str s it V hit hns
    rw [hhead, hw] at this
    simp only [List.head?_cons, Option.map_some', hci, ASCII_OFFSET] at this
    rw [hf.2.1]
    intro h; exact this (by rw [h])
  have hd := writeCode64_diff (afterFmt s it.fmt DBF_ENCODING_WORD) _ hx0 hsfext.2.1
  have hst1 := writeCode64_state (afterFmt s it.fmt DBF_ENCODING_WORD) ((c0 : Int) - 64) hsfext.2.1
  have hb1 : isBinary (DbfSerializerWriteCode64 (afterFmt s it.fmt DBF_ENCODING_WORD)
      ((c0 : Int) - 64)) := by
    unfold isBinary; rw [hst1.1, hf.2.2.2]; simp
  have hstepw : serializerWriteCodes (afterFmt s it.fmt DBF_ENCODING_WORD) (c0 :: w2)
      = serializerWriteCodes (DbfSerializerWriteCode64 (afterFmt s it.fmt DBF_ENCODING_WORD)
          ((c0 : Int) - 64)) w2 := by
    rw [serializerWriteCodes, if_neg (by omega), hci]; rfl
  have hext1 := extends_writeCodes w2 _ hb1 hst1.2
  obtain ⟨_, _, t2, ht2, hclean⟩ := extends_trans hext1 (extends_writeRepeat _ hext1.1 hext1.2.1)
  have hM2 : u.msgPtr = s.buffer ++ repBytes s.repeat_counter ++ fmtBytes it.fmt
      ++ (numBytes ((c0 : Int) - 64) ++ (t2 ++ tail)) := by
    rw [hM, hw, hstepw, ht2, hd.1, hf.1, hf.2.2.1, repBytes_zero]
    simp only [List.append_assoc, List.append_nil]
  have hpost2 : startsWithCode (t2 ++ tail) :=
    startsWithCode_append _ _ hclean (startsWithCode_of_fmt _ htail)
  have hpost1 : startsWithCode (numBytes ((c0 : Int) - 64) ++ (t2 ++ tail)) :=
    startsWithCode_append _ _ (startsWithCode_numBytes _) hpost2
  have hxi : isInt64 ((c0 : Int) - 64) := by unfold isInt64; omega
  -- the format code, and the stop in front of the first character
  rw [takeSpecial_at_fmt u (s.buffer ++ repBytes s.repeat_counter) _ it.fmt (fmt_lt it) hM2 hsz
    hpost1 (by rw [hpos]; simp) hrc]
  have hstate : (if it.fmt = 0 then DbfNextIsIntegerState
      else if it.fmt = 1 then DbfNextIsWordState else DbfNextIsStringState) = it.state := by
    simp [Item.state, DBF_INT_BEGIN_CODE, DBF_WORD_BEGIN_CODE]
  rw [hstate]
  generalize hu3 : ({ u with
      readPos := (s.buffer ++ repBytes s.repeat_counter).length + (fmtBytes it.fmt).length,
      decodeState := it.state, current_code := 0 } : DbfUnserializer) = u3
  have h3 : u3.msgPtr = u.msgPtr ∧ u3.msgSize = u.msgSize ∧
      u3.readPos = (s.buffer ++ repBytes s.repeat_counter ++ fmtBytes it.fmt).length ∧
      u3.decodeState = it.state ∧ u3.current_code = 0 ∧ u3.repeat_counter = 0 := by
    subst hu3
    refine ⟨rfl, rfl, ?_, rfl, rfl, hrc⟩
    simp only [List.length_append]
  obtain ⟨h3p, h3s, h3r, h3d, h3c, h3k⟩ := h3
  have hty := type_at_numBytes u3
    (s.buffer ++ repBytes s.repeat_counter ++ fmtBytes it.fmt) (t2 ++ tail) ((c0 : Int) - 64) hxi
    (by rw [h3p, hM2]; simp only [List.append_assoc])
  rw [takeSpecial_at_num u3 h3k (by rw [h3r, h3s, hsz, ← h3p]; exact hty.2)
    (by rw [h3r]; exact hty.1)]
  rw [readsBack_str_cons _ it V hit]
  refine ⟨h3d, readAssert_of_zero u3 h3k, ?_⟩
  intro bufPtr bufCap hfit hcap
  have hsfb : isBinary (afterFmt s it.fmt DBF_ENCODING_WORD) := hsfext.1
  have hsync : u3.current_code = (afterFmt s it.fmt DBF_ENCODING_WORD).prev_code + 64 ∨
      ((afterFmt s it.fmt DBF_ENCODING_WORD).repeat_counter = 0 ∧
        it.chars.head?.map (fun c => charToInt c - ASCII_OFFSET) ≠
          some (afterFmt s it.fmt DBF_ENCODING_WORD).prev_code) := by
    right
    refine ⟨hf.2.2.1, ?_⟩
    rw [hw]
    simp only [List.head?_cons, Option.map_some', hci, ASCII_OFFSET]
    intro h; exact hx0 (by simpa using h)
  have hchars256 : ∀ x ∈ it.chars, x < 256 := fun x hx => by have := hchars x hx; omega
  have hihsize : (writeItem s it).repeat_counter + itemsSize V < 2 ^ 64 := by
    simp only [itemsSize, hclen] at hsize; omega
  have hu3st : u3.decodeState = DbfNextIsWordState ∨ u3.decodeState = DbfNextIsStringState := by
    rw [h3d]
    rcases hfmt with h | h <;> simp [Item.state, h, DBF_INT_BEGIN_CODE, DBF_WORD_BEGIN_CODE]
  have hloopAll : ∀ (b : List Nat) (n : Nat), ∃ u2,
      readCodesLoop (u3.msgSize - u3.readPos + 1) u3 b bufCap n =
        ((readResult u3.decodeState b bufCap n it.chars).1,
         (readResult u3.decodeState b bufCap n it.chars).2, DbfUnserializerTakeSpecial u2) ∧
      u2.msgPtr = u3.msgPtr ∧ u2.msgSize = u3.msgSize ∧ u2.repeat_counter = 0 ∧
      u2.readPos = u3.msgPtr.length - tail.length := by
    intro b n
    have := readCodesLoop_chars tail htail it.chars (afterFmt s it.fmt DBF_ENCODING_WORD) u3
      b bufCap n (u3.msgSize - u3.readPos + 1) hsfb hchars (by rw [hf.2.2.1]; omega)
      (by rw [h3p]; exact hM) (by rw [h3s, h3p]; exact hsz) (by rw [h3r, hf.1]) h3k hu3st hsync
      (by omega)
    rw [hf.2.2.1] at this
    simpa using this
  have hafter : ∀ u2 : DbfUnserializer, u2.msgPtr = u3.msgPtr → u2.msgSize = u3.msgSize →
      u2.repeat_counter = 0 → u2.readPos = u3.msgPtr.length - tail.length →
      ReadsBack (DbfUnserializerTakeSpecial u2) V := by
    intro u2 e1 e2 e3 e4
    exact ih (writeItem s it) u2 (isBinary_of_str _ hendmode) hvalidV hihsize
      (noSlip_cons s it V hns) (by rw [e1, h3p, hmsg]; rfl) (by rw [e2, e1, h3s, h3p]; exact hsz) e3
      hendmode
      (by rw [e4, h3p]
          simp only [hmsg]
          rw [show writeItems s (it :: V) = writeItems (writeItem s it) V from rfl, htl]
          simp only [List.length_append]; omega)
  rcases hfmt with h1 | h2
  · -- a word
    have hst : u3.decodeState = DbfNextIsWordState := by
      rw [h3d]; simp [Item.state, h1, DBF_INT_BEGIN_CODE, DBF_WORD_BEGIN_CODE]
    have hexp : it.expected = it.chars := by simp [Item.expected, h1, DBF_WORD_BEGIN_CODE]
    rw [hexp] at hfit ⊢
    obtain ⟨u2, hloop, hu2⟩ := hloopAll bufPtr 0
    have hR : DbfUnserializerRead u3 bufPtr bufCap
        = ((readResult DbfNextIsWordState bufPtr bufCap 0 it.chars).1,
           (readResult DbfNextIsWordState bufPtr bufCap 0 it.chars).2,
           DbfUnserializerTakeSpecial u2) := by
      simp only [DbfUnserializerRead, hst]
      rw [hloop, hst]
    have hres := readResult_word bufPtr bufCap it.chars hfit hcap hchars256
    rw [hR]
    exact ⟨hres.1, hres.2, hafter u2 hu2.1 hu2.2.1 hu2.2.2.1 hu2.2.2.2⟩
  · -- a string
    have hst : u3.decodeState = DbfNextIsStringState := by
      rw [h3d]; simp [Item.state, h2, DBF_INT_BEGIN_CODE, DBF_WORD_BEGIN_CODE]
    have hexp : it.expected = [34] ++ it.chars ++ [34] := by
      simp [Item.expected, h2, DBF_WORD_BEGIN_CODE]
    have hexplen : it.expected.length = it.chars.length + 2 := by
      rw [hexp]; simp only [List.length_append, List.length_cons, List.length_nil]; omega
    rw [hexplen] at hfit ⊢
    rw [hexp]
    obtain ⟨u2, hloop, hu2⟩ := hloopAll (storeQuote DbfNextIsStringState bufPtr bufCap 0).1
      (storeQuote DbfNextIsStringState bufPtr bufCap 0).2
    have hR : DbfUnserializerRead u3 bufPtr bufCap
        = ((readResult DbfNextIsStringState (storeQuote DbfNextIsStringState bufPtr bufCap 0).1
              bufCap (storeQuote DbfNextIsStringState bufPtr bufCap 0).2 it.chars).1,
           (readResult DbfNextIsStringState (storeQuote DbfNextIsStringState bufPtr bufCap 0).1
              bufCap (storeQuote DbfNextIsStringState bufPtr bufCap 0).2 it.chars).2,
           DbfUnserializerTakeSpecial u2) := by
      simp only [DbfUnserializerRead, hst]
      rw [hloop, hst]
    have hres := readResult_string bufPtr bufCap it.chars hfit hcap hchars256
    rw [hR]
    exact ⟨hres.1, hres.2, hafter u2 hu2.1 hu2.2.1 hu2.2.2.1 hu2.2.2.2⟩

/-- Reading back a pending repetition, an integer and what follows it, given that what
follows an integer is read back. -/
theorem readsBack_int_step (i : Int) (V : List Item)
    (ih : ∀ (s : DbfSerializer) (u : DbfUnserializer), isBinary s → V.all Item.valid = true →
      s.repeat_counter + itemsSize V < 2 ^ 64 → noSlip s V = true →
      u.msgPtr = (DbfSerializerFinalize (writeItems s V)).buffer → u.msgSize = u.msgPtr.length →
      u.repeat_counter = 0 → isIntMode s → u.readPos = s.buffer.length →
      u.decodeState = DbfNextIsIntegerState →
      (u.current_code = s.prev_code ∨
        (s.repeat_counter = 0 ∧ V.head? ≠ some (Item.int s.prev_code))) →
      ReadsBack (DbfUnserializerTakeSpecial u)
        (List.replicate s.repeat_counter (Item.int s.prev_code) ++ V))
    (s : DbfSerializer) (u : DbfUnserializer) (hm : isIntMode s) (hi : isInt64 i)
    (hvalidV : V.all Item.valid = true)
    (hsize : s.repeat_counter + itemsSize (Item.int i :: V) < 2 ^ 64)
    (hns : noSlip s (Item.int i :: V) = true)
    (hmsg : u.msgPtr = (DbfSerializerFinalize (writeItems s (Item.int i :: V))).buffer)
    (hsz : u.msgSize = u.msgPtr.length) (hrc : u.repeat_counter = 0)
    (hpos : u.readPos = s.buffer.length) (hst : u.decodeState = DbfNextIsIntegerState)
    (hsync : u.current_code = s.prev_code ∨ (s.repeat_counter = 0 ∧ i ≠ s.prev_code)) :
    ReadsBack (DbfUnserializerTakeSpecial u)
      (List.replicate s.repeat_counter (Item.int s.prev_code) ++ Item.int i :: V) := by
  have hk64 : s.repeat_counter < 2 ^ 64 := by omega
  have hsz1 : s.repeat_counter + 1 + itemsSize V < 2 ^ 64 := by
    simp only [itemsSize, Item.codes, List.length_cons, List.length_nil] at hsize; omega
  have hwi : writeItem s (Item.int i)
      = DbfSerializerWriteCode64 { s with encoderState := DBF_ENCODING_INT } i := by
    simp only [writeItem]; exact writeInt64_int_mode s i hm
  have hws : writeItems s (Item.int i :: V) = writeItems (writeItem s (Item.int i)) V := rfl
  have hns1 := noSlip_cons s _ V hns
  rw [hws] at hmsg
  by_cases hx : i = s.prev_code
  · have hcur : u.current_code = s.prev_code := by
      rcases hsync with h | ⟨_, h⟩
      · exact h
      · exact absurd hx h
    have hs1 : writeItem s (Item.int i)
        = { s with encoderState := DBF_ENCODING_INT, repeat_counter := s.repeat_counter + 1 } := by
      rw [hwi, writeCode64_same { s with encoderState := DBF_ENCODING_INT } i hx]
      have hmod : (s.repeat_counter + 1) % 18446744073709551616 = s.repeat_counter + 1 :=
        Nat.mod_eq_of_lt (by norm_num at hsz1 ⊢; omega)
      simp only [hmod]
    rw [hs1] at hmsg hns1
    have h := ih { s with encoderState := DBF_ENCODING_INT, repeat_counter := s.repeat_counter + 1 }
      u (by unfold isBinary; simp) hvalidV hsz1 hns1 hmsg hsz hrc (Or.inr rfl) hpos hst
      (Or.inl hcur)
    have hl : List.replicate s.repeat_counter (Item.int s.prev_code) ++ Item.int i :: V
        = List.replicate (s.repeat_counter + 1) (Item.int s.prev_code) ++ V := by
      rw [List.replicate_succ', List.append_assoc, hx]; rfl
    rw [hl]; exact h
  · have hd := writeCode64_diff { s with encoderState := DBF_ENCODING_INT } i hx hk64
    have hst1 := writeCode64_state { s with encoderState := DBF_ENCODING_INT } i hk64
    rw [← hwi] at hd hst1
    have hb1 : isBinary (writeItem s (Item.int i)) := by
      unfold isBinary; rw [hst1.1]; simp
    obtain ⟨_, _, t, ht, hclean⟩ := extends_finalize V (writeItem s (Item.int i)) hb1 hst1.2
    have hM : u.msgPtr = s.buffer ++ repBytes s.repeat_counter ++ (numBytes i ++ t) := by
      rw [hmsg, ht, hd.1]; simp only [List.append_assoc]
    apply readsBack_flush u s.buffer (numBytes i ++ t) s.repeat_counter s.prev_code _ hk64 hM
      (startsWithCode_append _ _ (startsWithCode_numBytes i) hclean) hsz hpos hrc hst
      (fun hpos => by
        rcases hsync with h | ⟨h, _⟩
        · exact h
        · omega)
    generalize hu2 : ({ u with readPos := s.buffer.length + (repBytes s.repeat_counter).length }
      : DbfUnserializer) = u2
    have h2 : u2.msgPtr = u.msgPtr ∧ u2.msgSize = u.msgSize ∧
        u2.readPos = (s.buffer ++ repBytes s.repeat_counter).length ∧
        u2.decodeState = DbfNextIsIntegerState ∧ u2.repeat_counter = 0 := by
      subst hu2
      exact ⟨rfl, rfl, by simp only [List.length_append], hst, hrc⟩
    obtain ⟨h2p, h2s, h2r, h2d, h2k⟩ := h2
    have hty := type_at_numBytes u2 (s.buffer ++ repBytes s.repeat_counter) t i hi
      (by rw [h2p, hM]; simp only [List.append_assoc])
    rw [takeSpecial_at_num u2 h2k (by rw [h2r, h2s, hsz, ← h2p]; exact hty.2)
      (by rw [h2r]; exact hty.1)]
    rw [readsBack_int_cons, readInt64_at_num u2 (s.buffer ++ repBytes s.repeat_counter) t i hi
      (by rw [h2p, hM]; simp only [List.append_assoc]) (by rw [h2s, h2p]; exact hsz) hclean h2r
      h2k h2d]
    refine ⟨h2d, rfl, ?_⟩
    have h := ih (writeItem s (Item.int i))
      { u2 with readPos := (s.buffer ++ repBytes s.repeat_counter).length + (numBytes i).length,
                repeat_counter := 0, current_code := i }
      hb1 hvalidV (by rw [hd.2.2.1]; omega) hns1 (by simp only [h2p]; exact hmsg)
      (by simp only [h2s, h2p]; exact hsz) rfl (by right; rw [hst1.1])
      (by rw [hd.1]; simp only [List.length_append]) h2d (Or.inl (by rw [hd.2.1]))
    rw [hd.2.2.1] at h
    simpa using h

theorem afterFmt_int_state (s : DbfSerializer) (c : Nat) :
    ({ afterFmt s c DBF_ENCODING_INT with encoderState := DBF_ENCODING_INT } : DbfSerializer)
      = afterFmt s c DBF_ENCODING_INT := rfl

/-- The general round trip: from any binary serializer state, with the decoder placed at
the serializer's write position, the values written next are read back in order. -/
theorem readsBack_items (V : List Item) : ∀ (s : DbfSerializer) (u : DbfUnserializer),
    isBinary s → V.all Item.valid = true →
    s.repeat_counter + itemsSize V < 2 ^ 64 → noSlip s V = true →
    u.msgPtr = (DbfSerializerFinalize (writeItems s V)).buffer → u.msgSize = u.msgPtr.length →
    u.repeat_counter = 0 →
    (isIntMode s → u.readPos = s.buffer.length →
      u.decodeState = DbfNextIsIntegerState →
      (u.current_code = s.prev_code ∨
        (s.repeat_counter = 0 ∧ V.head? ≠ some (Item.int s.prev_code))) →
      ReadsBack (DbfUnserializerTakeSpecial u)
        (List.replicate s.repeat_counter (Item.int s.prev_code) ++ V)) ∧
    (isStrMode s → u.readPos = s.buffer.length + (repBytes s.repeat_counter).length →
      ReadsBack (DbfUnserializerTakeSpecial u) V) := by
  induction V with
  | nil =>
    intro s u hb _ hsize _ hmsg hsz hrc
    have hk64 : s.repeat_counter < 2 ^ 64 := by omega
    have hM : u.msgPtr = s.buffer ++ repBytes s.repeat_counter ++ [] := by
      rw [hmsg]
      simp only [writeItems, List.foldl_nil, finalize_binary s hb, (writeRepeat_fields s hk64).1,
        List.append_nil]
    constructor
    · intro _ hpos hst hsync
      apply readsBack_flush u s.buffer [] s.repeat_counter s.prev_code [] hk64 hM
        startsWithCode_nil hsz hpos hrc hst
        (fun hp => by
          rcases hsync with h | ⟨h, _⟩
          · exact h
          · omega)
      have hend : ({ u with readPos := s.buffer.length + (repBytes s.repeat_counter).length }
          : DbfUnserializer).readPos ≥ u.msgSize := by
        show s.buffer.length + (repBytes s.repeat_counter).length ≥ u.msgSize
        rw [hsz, hM]; simp only [List.length_append, List.length_nil]; omega
      rw [takeSpecial_at_end
        { u with readPos := s.buffer.length + (repBytes s.repeat_counter).length } hrc hend]
      rfl
    · intro _ hpos
      rw [takeSpecial_at_end _ hrc (by
        rw [hpos, hsz, hM]; simp only [List.length_append, List.length_nil]; omega)]
      rfl
  | cons it V ih =>
    intro s u hb hvalid hsize hns hmsg hsz hrc
    have hk64 : s.repeat_counter < 2 ^ 64 := by omega
    have hvalid1 : it.valid = true := by
      simp only [List.all_cons, Bool.and_eq_true] at hvalid; exact hvalid.1
    have hvalidV : V.all Item.valid = true := by
      simp only [List.all_cons, Bool.and_eq_true] at hvalid; exact hvalid.2
    have ihInt := fun s u h1 h2 h3 h4 h5 h6 h7 h8 h9 h10 h11 =>
      (ih s u h1 h2 h3 h4 h5 h6 h7).1 h8 h9 h10 h11
    have ihStr := fun s u h1 h2 h3 h4 h5 h6 h7 h8 h9 =>
      (ih s u h1 h2 h3 h4 h5 h6 h7).2 h8 h9
    by_cases hit : ∀ i, it ≠ Item.int i
    · constructor
      · intro hm hpos hst hsync
        have hc32 : it.fmt < 2 ^ 32 := by have := fmt_lt it; norm_num; omega
        have hf := afterFmt_fields s it.fmt DBF_ENCODING_WORD hc32 hk64
        have hsfext := extends_afterFmt s it.fmt DBF_ENCODING_WORD hc32 (Or.inr rfl) hk64
        have hwi := writeItem_chars s it hb hit
        have hext1 := extends_writeCodes it.chars (afterFmt s it.fmt DBF_ENCODING_WORD)
          hsfext.1 hsfext.2.1
        rw [← hwi] at hext1
        have hext2 := extends_finalize V (writeItem s it) hext1.1 hext1.2.1
        obtain ⟨_, _, t, ht, hclean⟩ := extends_trans hext1 hext2
        have hM : u.msgPtr = s.buffer ++ repBytes s.repeat_counter ++ (fmtBytes it.fmt ++ t) := by
          rw [hmsg]
          show (DbfSerializerFinalize (writeItems (writeItem s it) V)).buffer = _
          rw [ht, hf.1]; simp only [List.append_assoc]
        apply readsBack_flush u s.buffer (fmtBytes it.fmt ++ t) s.repeat_counter s.prev_code _
          hk64 hM (startsWithCode_append _ _ (startsWithCode_fmtBytes _) hclean) hsz hpos hrc hst
          (fun hp => by
            rcases hsync with h | ⟨h, _⟩
            · exact h
            · omega)
        exact readsBack_str_step it V hit ihStr s _ hb hvalid1 hvalidV hsize hns hmsg hsz hrc rfl
      · intro _ hpos
        exact readsBack_str_step it V hit ihStr s u hb hvalid1 hvalidV hsize hns hmsg hsz hrc hpos
    · have hex : ∃ i, it = Item.int i := by
        by_contra hcon
        exact hit (fun i h => hcon ⟨i, h⟩)
      obtain ⟨i, rfl⟩ := hex
      have hi : isInt64 i := by simpa [Item.valid] using hvalid1
      constructor
      · intro hm hpos hst hsync
        refine readsBack_int_step i V ihInt s u hm hi hvalidV hsize hns hmsg hsz hrc hpos hst ?_
        rcases hsync with h | ⟨h1, h2⟩
        · exact Or.inl h
        · refine Or.inr ⟨h1, fun h => h2 ?_⟩
          rw [h]; rfl
      · intro hm hpos
        have hf := afterFmt_fields s DBF_INT_BEGIN_CODE DBF_ENCODING_INT (by decide) hk64
        have hsfext := extends_afterFmt s DBF_INT_BEGIN_CODE DBF_ENCODING_INT (by decide)
          (Or.inl rfl) hk64
        have hw1 : writeItem s (Item.int i)
            = writeItem (afterFmt s DBF_INT_BEGIN_CODE DBF_ENCODING_INT) (Item.int i) := by
          simp only [writeItem]
          rw [writeInt64_str_mode s i hm, writeInt64_int_mode _ i (Or.inr hf.2.2.2),
            afterFmt_int_state]
        have hws : writeItems s (Item.int i :: V)
            = writeItems (afterFmt s DBF_INT_BEGIN_CODE DBF_ENCODING_INT) (Item.int i :: V) := by
          show writeItems (writeItem s (Item.int i)) V = writeItems (writeItem _ (Item.int i)) V
          rw [hw1]
        have hns1 := noSlip_cons s _ V hns
        have hns2 : noSlip (afterFmt s DBF_INT_BEGIN_CODE DBF_ENCODING_INT) (Item.int i :: V)
            = true := by
          simp only [noSlip, Bool.and_eq_true, Bool.or_eq_true, decide_eq_true_eq]
          exact ⟨Or.inl (Or.inl (Or.inr hf.2.2.2)), by rw [← hw1]; exact hns1⟩
        obtain ⟨_, _, t, ht, hclean⟩ := extends_finalize (Item.int i :: V)
          (afterFmt s DBF_INT_BEGIN_CODE DBF_ENCODING_INT) hsfext.1 hsfext.2.1
        rw [hws] at hmsg
        have hM : u.msgPtr
            = (s.buffer ++ repBytes s.repeat_counter) ++ fmtBytes DBF_INT_BEGIN_CODE ++ t := by
          rw [hmsg, ht, hf.1]
        rw [takeSpecial_at_fmt u (s.buffer ++ repBytes s.repeat_counter) t DBF_INT_BEGIN_CODE
          (by decide) hM hsz hclean (by rw [hpos, List.length_append]) hrc]
        have h := readsBack_int_step i V ihInt (afterFmt s DBF_INT_BEGIN_CODE DBF_ENCODING_INT)
          { u with readPos := (s.buffer ++ repBytes s.repeat_counter).length
                      + (fmtBytes DBF_INT_BEGIN_CODE).length,
                   decodeState := if DBF_INT_BEGIN_CODE = 0 then DbfNextIsIntegerState
                     else if DBF_INT_BEGIN_CODE = 1 then DbfNextIsWordState
                     else DbfNextIsStringState,
                   current_code := 0 }
          (Or.inr hf.2.2.2) hi hvalidV (by rw [hf.2.2.1]; omega) hns2 hmsg hsz hrc
          (by rw [hf.1]; simp only [List.length_append]) rfl
          (by
            rcases noSlip_int s i V hns with h | h | h
            · exact absurd h (not_int_of_str s hm)
            · exact Or.inr ⟨hf.2.2.1, by rw [hf.2.1]; exact h⟩
            · exact Or.inl (by rw [hf.2.1, h]))
        rw [hf.2.2.1] at h
        simpa using h

/-! ## CRC -/

theorem init_fields (s0 : DbfSerializer) :
    (DbfSerializerInit s0).buffer = [] ∧ (DbfSerializerInit s0).prev_code = 0 ∧
    (DbfSerializerInit s0).repeat_counter = 0 ∧
    (DbfSerializerInit s0).encoderState = DBF_ENCODER_IDLE := ⟨rfl, rfl, rfl, rfl⟩

/-- The round trip from a freshly initialised serializer. -/
theorem readsBack_fresh (s0 : DbfSerializer) (u0 : DbfUnserializer) (V : List Item)
    (hvalid : V.all Item.valid = true) (hsize : itemsSize V < 2 ^ 64)
    (hns : noSlip (DbfSerializerInit s0) V = true) :
    ReadsBack (DbfUnserializerInitFromSerializer u0
      (DbfSerializerFinalize (writeItems (DbfSerializerInit s0) V))).2 V := by
  have hf := init_fields s0
  have h := (readsBack_items V (DbfSerializerInit s0)
    (DbfUnserializerInitGeneric { u0 with decodeState := DbfNextIsIntegerState }
      (DbfSerializerFinalize (writeItems (DbfSerializerInit s0) V)).buffer
      (DbfSerializerFinalize (writeItems (DbfSerializerInit s0) V)).pos)
    (by unfold isBinary; rw [hf.2.2.2]; simp) hvalid (by rw [hf.2.2.1]; omega) hns rfl rfl rfl).1
    (Or.inl hf.2.2.2) (by rw [hf.1]; rfl) rfl (Or.inl (by rw [hf.2.1]; rfl))
  rw [hf.2.2.1] at h
  simpa using h

/-! ## Round trip of integers -/

theorem writeItems_ints (V : List Int) : ∀ (s : DbfSerializer),
    writeItems s (V.map Item.int) = writeInts s V := by
  induction V with
  | nil => intro s; rfl
  | cons v V ih => intro s; exact ih (DbfSerializerWriteInt64 s v)

theorem noSlip_ints (V : List Int) : ∀ (s : DbfSerializer), isIntMode s →
    s.repeat_counter < 2 ^ 64 → noSlip s (V.map Item.int) = true := by
  induction V with
  | nil => intro s _ _; rfl
  | cons v V ih =>
    intro s hm hk
    have hw : writeItem s (Item.int v)
        = DbfSerializerWriteCode64 { s with encoderState := DBF_ENCODING_INT } v := by
      simp only [writeItem]; exact writeInt64_int_mode s v hm
    have hst := writeCode64_state { s with encoderState := DBF_ENCODING_INT } v hk
    rw [← hw] at hst
    have hrec := ih (writeItem s (Item.int v)) (Or.inr hst.1) hst.2
    simp only [List.map_cons, noSlip, Bool.and_eq_true, Bool.or_eq_true, decide_eq_true_eq]
    exact ⟨Or.inl (Or.inl hm), hrec⟩

theorem itemsSize_ints (V : List Int) : itemsSize (V.map Item.int) = V.length := by
  induction V with
  | nil => rfl
  | cons v V ih => simp only [List.map_cons, itemsSize, Item.codes, List.length_cons, List.length_nil, ih]; omega

theorem valid_ints (V : List Int) (hV : ∀ v ∈ V, isInt64 v) :
    (V.map Item.int).all Item.valid = true := by
  rw [List.all_eq_true]
  intro x hx
  obtain ⟨v, hv, rfl⟩ := List.mem_map.1 hx
  simpa [Item.valid] using hV v hv

theorem readsBack_ints (V : List Int) : ∀ (u : DbfUnserializer), ReadsBack u (V.map Item.int) →
    (readInts V.length u).1 = V ∧ (readInts V.length u).2.decodeState = DbfEndOfMsgState := by
  induction V with
  | nil => intro u h; exact ⟨rfl, h⟩
  | cons v V ih =>
    intro u h
    rw [List.map_cons, readsBack_int_cons] at h
    have h2 := ih _ h.2.2
    simp only [List.length_cons, readInts]
    exact ⟨by rw [h.2.1, h2.1], h2.2⟩

/-! ## Words -/

/-- The bytes written by the character loop of `serializerWrite` and the flush after it. -/
theorem writeCodes_buffer (w : List Nat) : ∀ (s : DbfSerializer), (∀ c ∈ w, c ≠ 0) →
    s.repeat_counter + w.length < 2 ^ 64 →
    (DbfSerializerWriteRepeat (serializerWriteCodes s w)).buffer
      = s.buffer ++ foldedCodes s.prev_code s.repeat_counter
          (w.map (fun c => charToInt c - ASCII_OFFSET)) := by
  induction w with
  | nil =>
    intro s _ hk
    simp only [serializerWriteCodes, List.map_nil, foldedCodes]
    exact (writeRepeat_fields s (by simp only [List.length_nil] at hk; omega)).1
  | cons c w ih =>
    intro s hc hk
    simp only [List.length_cons] at hk
    have hk64 : s.repeat_counter < 2 ^ 64 := by omega
    have hc0 : c ≠ 0 := hc c (List.mem_cons_self _ _)
    have hw : ∀ x ∈ w, x ≠ 0 := fun x hx => hc x (List.mem_cons_of_mem _ hx)
    rw [serializerWriteCodes, if_neg hc0, List.map_cons, foldedCodes]
    unfold DbfSerializerWriteCode32
    by_cases hx : charToInt c - ASCII_OFFSET = s.prev_code
    · rw [if_pos hx, writeCode64_same s _ hx,
        show (s.repeat_counter + 1) % 18446744073709551616 = s.repeat_counter + 1 from
          Nat.mod_eq_of_lt (by norm_num at hk ⊢; omega)]
      exact ih { s with repeat_counter := s.repeat_counter + 1 } hw (by simp only; omega)
    · have hd := writeCode64_diff s _ hx hk64
      rw [if_neg hx, ih _ hw (by rw [hd.2.2.1]; omega), hd.1, hd.2.1, hd.2.2.1]
      simp only [List.append_assoc]

theorem fmtBytes_word : fmtBytes DBF_WORD_BEGIN_CODE = [0x11] := by
  unfold fmtBytes
  rw [Encode_eq _ _ _ isValueClass_fmt]
  have h : DBF_WORD_BEGIN_CODE / 2 ^ DBF_FMTCRC_DATANBITS = 0 := by decide
  rw [h, extSlabs_zero]
  rfl

theorem word_char (c : Nat) (h : 0x21 ≤ c ∧ c ≤ 0x7E ∧ c ≠ 34 ∧ c ≠ 92) :
    is_char_part_of_word (charToInt c) = true ∧ charToInt c = (c : Int) ∧ 0 < c ∧ c < 128 := by
  have hc := charToInt_of_lt c (by omega)
  refine ⟨?_, hc, by omega, by omega⟩
  rw [hc]
  simp only [is_char_part_of_word, isgraph, Bool.and_eq_true, decide_eq_true_eq]
  omega

theorem word_fmt (w : List Nat) (hne : w ≠ [])
    (hw : ∀ c ∈ w, 0x21 ≤ c ∧ c ≤ 0x7E ∧ c ≠ 34 ∧ c ≠ 92) :
    (Item.word w).fmt = DBF_WORD_BEGIN_CODE := by
  cases w with
  | nil => exact absurd rfl hne
  | cons c rest =>
    have h := (word_char c (hw c (List.mem_cons_self _ _))).1
    simp only [Item.fmt, word_length, h, if_true]
    rw [if_neg (by omega)]

/-! ## The CRC verdict on an arbitrary buffer -/

/-- C12. Disarm on CRC failure: for every buffer and size, if `DbfUnserializerInitTakeCrc`
returns anything other than `DBF_OK_CRC`, then afterwards the unserializer has
`decodeState = DbfEndOfMsgState` and `msgSize = 0`, `DbfUnserializerReadIsNextEnd` is 1, and
no value can be read: `DbfUnserializerReadInt64` and `DbfUnserializerRead` both return -1
and leave the unserializer as it is. -/
theorem C12_disarm_on_crc_failure (crc32_calculate : List Nat → Nat) (u0 : DbfUnserializer)
    (buf : List Nat) (n : Nat)
    (h : (DbfUnserializerInitTakeCrc crc32_calculate u0 buf n).1 ≠ DBF_OK_CRC) :
    (DbfUnserializerInitTakeCrc crc32_calculate u0 buf n).2.decodeState = DbfEndOfMsgState ∧
    (DbfUnserializerInitTakeCrc crc32_calculate u0 buf n).2.msgSize = 0 ∧
    DbfUnserializerReadIsNextEnd (DbfUnserializerInitTakeCrc crc32_calculate u0 buf n).2 = 1 ∧
    DbfUnserializerReadInt64 (DbfUnserializerInitTakeCrc crc32_calculate u0 buf n).2
      = (-1, (DbfUnserializerInitTakeCrc crc32_calculate u0 buf n).2) ∧
    ∀ (bufPtr : List Nat) (bufCap : Nat),
      (DbfUnserializerRead (DbfUnserializerInitTakeCrc crc32_calculate u0 buf n).2
        bufPtr bufCap).1 = -1 ∧
      (DbfUnserializerRead (DbfUnserializerInitTakeCrc crc32_calculate u0 buf n).2
        bufPtr bufCap).2.2 = (DbfUnserializerInitTakeCrc crc32_calculate u0 buf n).2 := by
  have hst : (DbfUnserializerInitTakeCrc crc32_calculate u0 buf n).2.decodeState
      = DbfEndOfMsgState ∧
      (DbfUnserializerInitTakeCrc crc32_calculate u0 buf n).2.msgSize = 0 := by
    unfold DbfUnserializerInitTakeCrc at h ⊢
    generalize DbfUnserializerReadCrc crc32_calculate (DbfUnserializerInitNoCRC u0 buf n) = r
      at h ⊢
    obtain ⟨v, u1⟩ := r
    cases v
    · exact absurd rfl h
    · exact ⟨rfl, rfl⟩
    · exact ⟨rfl, rfl⟩
  generalize DbfUnserializerInitTakeCrc crc32_calculate u0 buf n = r at hst
  refine ⟨hst.1, hst.2, ?_, ?_, ?_⟩
  · unfold DbfUnserializerReadIsNextEnd; rw [if_pos hst.1]
  · unfold DbfUnserializerReadInt64; rw [hst.1]
  · intro bufPtr bufCap
    unfold DbfUnserializerRead; rw [hst.1]
    exact ⟨rfl, rfl⟩

theorem C12_disarm_on_crc_failure_witness :
    (DbfUnserializerInitTakeCrc (fun _ => 0) zeroUnserializer [0x45, 0x17] 2).2.decodeState
      = DbfEndOfMsgState ∧
    (DbfUnserializerInitTakeCrc (fun _ => 0) zeroUnserializer [0x45, 0x17] 2).2.msgSize = 0 ∧
    DbfUnserializerReadIsNextEnd
      (DbfUnserializerInitTakeCrc (fun _ => 0) zeroUnserializer [0x45, 0x17] 2).2 = 1 ∧
    DbfUnserializerReadInt64 (DbfUnserializerInitTakeCrc (fun _ => 0) zeroUnserializer [0x45, 0x17] 2).2
      = (-1, (DbfUnserializerInitTakeCrc (fun _ => 0) zeroUnserializer [0x45, 0x17] 2).2) ∧
    ∀ (bufPtr : List Nat) (bufCap : Nat),
      (DbfUnserializerRead (DbfUnserializerInitTakeCrc (fun _ => 0) zeroUnserializer [0x45, 0x17] 2).2
        bufPtr bufCap).1 = -1 ∧
      (DbfUnserializerRead (DbfUnserializerInitTakeCrc (fun _ => 0) zeroUnserializer [0x45, 0x17] 2).2
        bufPtr bufCap).2.2
        = (DbfUnserializerInitTakeCrc (fun _ => 0) zeroUnserializer [0x45, 0x17] 2).2 :=
  C12_disarm_on_crc_failure (fun _ => 0) zeroUnserializer [0x45, 0x17] 2 (by decide)

/-! ## Format codes in `DbfUnserializerTakeSpecial` -/

/-- The state after `DbfUnserializerTakeSpecial` when the cursor is not at a format code. -/
theorem takeSpecial_state_not_fmt (u : DbfUnserializer) (hrc : u.repeat_counter = 0)
    (h : u.readPos ≥ u.msgSize ∨ GET_CODE_TYPE (u.byteAt u.readPos) ≠ DbfFoC) :
    (DbfUnserializerTakeSpecial u).decodeState = DbfEndOfMsgState ∨
    (u.readPos < u.msgSize ∧ (DbfUnserializerTakeSpecial u).decodeState = u.decodeState) := by
  rw [takeSpecial_unfold, if_pos hrc]
  by_cases hend : u.readPos ≥ u.msgSize
  · rw [if_pos hend]; left; rfl
  · rw [if_neg hend]
    have hne : GET_CODE_TYPE (u.byteAt u.readPos) ≠ DbfFoC := by
      rcases h with h | h
      · exact absurd h hend
      · exact h
    cases hct : GET_CODE_TYPE (u.byteAt u.readPos)
    · right; exact ⟨by omega, rfl⟩
    · right; exact ⟨by omega, rfl⟩
    · right; exact ⟨by omega, rfl⟩
    · right; exact ⟨by omega, rfl⟩
    · exact absurd hct hne
    · right; exact ⟨by omega, (take_next_code_fields u).2.2.1⟩
    · left; rfl

/-- C13, as stated, fails: a format code that follows a reserved one is obeyed.  On the bytes
`13 10 45` (format code 3, format code 0, the integer 5) `DbfUnserializerTakeSpecial`
returns in `DbfNextIsIntegerState`, not in `DbfEndOfMsgState`, and 5 can be read. -/
theorem C13_reserved_then_format_counterexample :
    (DbfUnserializerInitNoCRC zeroUnserializer [0x13, 0x10, 0x45] 3).decodeState
      = DbfNextIsIntegerState ∧
    (DbfUnserializerReadInt64 (DbfUnserializerInitNoCRC zeroUnserializer [0x13, 0x10, 0x45] 3)).1
      = 5 := by
  decide

/-- C13, amended. Format-code dispatch: when `DbfUnserializerTakeSpecial` consumes a FMTCRC
code with value `k` at the cursor (no repetition pending, cursor inside the message), then
(1) if the following sub-code is a PINT or NINT, the decoder state on return is
`DbfNextIsIntegerState` for `k = 0`, `DbfNextIsWordState` for `k = 1`,
`DbfNextIsStringState` for `k = 2` and `DbfEndOfMsgState` for every other `k`; and (2) for
every reserved value (`k` other than 0, 1, 2) the state on return is `DbfEndOfMsgState`
whenever what follows the reserved code is not another format code. -/
theorem C13_format_code_dispatch (u : DbfUnserializer) (hrc : u.repeat_counter = 0)
    (hpos : u.readPos < u.msgSize) (hfoc : GET_CODE_TYPE (u.byteAt u.readPos) = DbfFoC) :
    (((take_next_code u).2.readPos < u.msgSize ∧
        (GET_CODE_TYPE (u.byteAt (take_next_code u).2.readPos) = DbfPnc ∨
          GET_CODE_TYPE (u.byteAt (take_next_code u).2.readPos) = DbfNnc)) →
      (DbfUnserializerTakeSpecial u).decodeState =
        if (take_next_code u).1 = 0 then DbfNextIsIntegerState
        else if (take_next_code u).1 = 1 then DbfNextIsWordState
        else if (take_next_code u).1 = 2 then DbfNextIsStringState
        else DbfEndOfMsgState) ∧
    (((take_next_code u).1 ≠ 0 ∧ (take_next_code u).1 ≠ 1 ∧ (take_next_code u).1 ≠ 2) →
      ((take_next_code u).2.readPos ≥ u.msgSize ∨
        GET_CODE_TYPE (u.byteAt (take_next_code u).2.readPos) ≠ DbfFoC) →
      (DbfUnserializerTakeSpecial u).decodeState = DbfEndOfMsgState) := by
  have hunf := takeSpecial_unfold u
  rw [if_pos hrc, if_neg (by omega), hfoc] at hunf
  simp only at hunf
  have hf := take_next_code_fields u
  generalize hu2 : ({ (take_next_code u).2 with
      decodeState :=
        if (take_next_code u).1 = 0 then DbfNextIsIntegerState
        else if (take_next_code u).1 = 2 then DbfNextIsStringState
        else if (take_next_code u).1 = 1 then DbfNextIsWordState
        else DbfEndOfMsgState,
      current_code := 0 } : DbfUnserializer) = u2 at hunf
  have h2 : u2.msgPtr = u.msgPtr ∧ u2.msgSize = u.msgSize ∧
      u2.readPos = (take_next_code u).2.readPos ∧ u2.repeat_counter = 0 ∧
      u2.decodeState = (if (take_next_code u).1 = 0 then DbfNextIsIntegerState
        else if (take_next_code u).1 = 2 then DbfNextIsStringState
        else if (take_next_code u).1 = 1 then DbfNextIsWordState
        else DbfEndOfMsgState) := by
    subst hu2
    exact ⟨hf.1, hf.2.1, rfl, by simp only [hf.2.2.2.2, hrc], rfl⟩
  obtain ⟨h2p, h2s, h2r, h2k, h2d⟩ := h2
  have hbyte : ∀ idx, u2.byteAt idx = u.byteAt idx := by
    intro idx; unfold DbfUnserializer.byteAt; rw [h2p]
  rw [hunf]
  constructor
  · intro ⟨hlt, hty⟩
    rw [takeSpecial_at_num u2 h2k (by rw [h2r, h2s]; exact hlt) (by rw [h2r, hbyte]; exact hty),
      h2d]
    split_ifs <;> first | rfl | omega
  · intro ⟨k0, k1, k2⟩ hnext
    have hst : u2.decodeState = DbfEndOfMsgState := by
      rw [h2d, if_neg k0, if_neg k2, if_neg k1]
    rcases takeSpecial_state_not_fmt u2 h2k (by rw [h2r, h2s, hbyte]; exact hnext) with h | h
    · exact h
    · rw [h.2, hst]

theorem C13_format_code_dispatch_witness :
    (DbfUnserializerTakeSpecial ⟨[0x13, 0x45], 2, DbfNextIsIntegerState, 0, 0, 0⟩).decodeState
      = (if (take_next_code ⟨[0x13, 0x45], 2, DbfNextIsIntegerState, 0, 0, 0⟩).1 = 0 then
          DbfNextIsIntegerState
        else if (take_next_code ⟨[0x13, 0x45], 2, DbfNextIsIntegerState, 0, 0, 0⟩).1 = 1 then
          DbfNextIsWordState
        else if (take_next_code ⟨[0x13, 0x45], 2, DbfNextIsIntegerState, 0, 0, 0⟩).1 = 2 then
          DbfNextIsStringState
        else DbfEndOfMsgState) ∧
    (DbfUnserializerTakeSpecial ⟨[0x13, 0x45], 2, DbfNextIsIntegerState, 0, 0, 0⟩).decodeState
      = DbfEndOfMsgState :=
  ⟨(C13_format_code_dispatch ⟨[0x13, 0x45], 2, DbfNextIsIntegerState, 0, 0, 0⟩ (by decide)
      (by decide) (by decide)).1 (by decide),
    (C13_format_code_dispatch ⟨[0x13, 0x45], 2, DbfNextIsIntegerState, 0, 0, 0⟩ (by decide)
      (by decide) (by decide)).2 (by decide) (by decide)⟩

/-- C14. Wrong-state integer read: for every unserializer whose `decodeState` is neither
`DbfNextIsIntegerState` nor `DbfAsciiNumberState`, `DbfUnserializerReadInt64` returns -1 and
leaves every field of the unserializer unchanged. -/
theorem C14_wrong_state_integer_read (u : DbfUnserializer)
    (h1 : u.decodeState ≠ DbfNextIsIntegerState) (h2 : u.decodeState ≠ DbfAsciiNumberState) :
    DbfUnserializerReadInt64 u = (-1, u) := by
  unfold DbfUnserializerReadInt64
  cases h : u.decodeState <;> simp_all

theorem C14_wrong_state_integer_read_witness :
    DbfUnserializerReadInt64 ⟨[0x11, 0x48], 2, DbfNextIsWordState, 1, 0, 0⟩
      = (-1, ⟨[0x11, 0x48], 2, DbfNextIsWordState, 1, 0, 0⟩) :=
  C14_wrong_state_integer_read ⟨[0x11, 0x48], 2, DbfNextIsWordState, 1, 0, 0⟩ (by decide)
    (by decide)

/-! ## `DbfUnserializerRead` with two capacities -/

theorem storeChar_agree (c1 c2 : Nat) (hc : c1 ≤ c2) (b1 b2 : List Nat) (n1 n2 x : Nat)
    (hb : b1.take (c1 - 1) = b2.take (c1 - 1)) (hn : n1 = n2 ∨ (c1 ≤ n1 ∧ c1 ≤ n2)) :
    (storeChar b1 c1 n1 x).take (c1 - 1) = (storeChar b2 c2 n2 x).take (c1 - 1) := by
  unfold storeChar
  by_cases h1 : n1 < c1
  · have h12 : n1 = n2 := by omega
    subst h12
    rw [if_pos h1, if_pos (by omega), List.set_take, List.set_take, hb]
  · rw [if_neg h1]
    by_cases h2 : n2 < c2
    · rw [if_pos h2, take_set_ge _ _ _ _ (by omega)]; exact hb
    · rw [if_neg h2]; exact hb

theorem storeList_agree (c1 c2 : Nat) (hc : c1 ≤ c2) (xs : List Nat) :
    ∀ (b1 b2 : List Nat) (n1 n2 : Nat), b1.take (c1 - 1) = b2.take (c1 - 1) →
      (n1 = n2 ∨ (c1 ≤ n1 ∧ c1 ≤ n2)) →
      (storeList b1 c1 n1 xs).take (c1 - 1) = (storeList b2 c2 n2 xs).take (c1 - 1) := by
  induction xs with
  | nil => intro b1 b2 n1 n2 hb _; exact hb
  | cons x xs ih =>
    intro b1 b2 n1 n2 hb hn
    rw [storeList, storeList]
    exact ih _ _ _ _ (storeChar_agree c1 c2 hc b1 b2 n1 n2 x hb hn) (by omega)

theorem storeQuote_agree (c1 c2 : Nat) (hc : c1 ≤ c2) (st : DbfDecodingStateEnum)
    (b1 b2 : List Nat) (n1 n2 : Nat)
    (hb : b1.take (c1 - 1) = b2.take (c1 - 1)) (hn : n1 = n2 ∨ (c1 ≤ n1 ∧ c1 ≤ n2)) :
    (storeQuote st b1 c1 n1).1.take (c1 - 1) = (storeQuote st b2 c2 n2).1.take (c1 - 1) ∧
    ((storeQuote st b1 c1 n1).2 = (storeQuote st b2 c2 n2).2 ∨
      (c1 ≤ (storeQuote st b1 c1 n1).2 ∧ c1 ≤ (storeQuote st b2 c2 n2).2)) ∧
    (st = DbfNextIsWordState → (storeQuote st b1 c1 n1).2 = n1 ∧ (storeQuote st b2 c2 n2).2 = n2) := by
  unfold storeQuote
  by_cases hst : st = DbfNextIsStringState
  · rw [if_pos hst, if_pos hst]
    refine ⟨?_, ?_, fun h => by rw [h] at hst; cases hst⟩
    · by_cases h1 : n1 < c1
      · have h12 : n1 = n2 := by omega
        subst h12
        rw [if_pos h1, if_pos (by omega)]
        simp only
        rw [List.set_take, List.set_take, hb]
      · rw [if_neg h1]
        by_cases h2 : n2 < c2
        · rw [if_pos h2]; simp only
          rw [take_set_ge _ _ _ _ (by omega)]; exact hb
        · rw [if_neg h2]; exact hb
    · by_cases h1 : n1 < c1
      · have h12 : n1 = n2 := by omega
        subst h12
        rw [if_pos h1, if_pos (by omega)]
        left; rfl
      · rw [if_neg h1]
        by_cases h2 : n2 < c2
        · rw [if_pos h2]; simp only; right; omega
        · rw [if_neg h2]; simp only; omega
  · rw [if_neg hst, if_neg hst]
    exact ⟨hb, hn, fun _ => ⟨rfl, rfl⟩⟩

theorem storeNul_agree (c1 c2 : Nat) (hc : c1 ≤ c2) (b1 b2 : List Nat) (n1 n2 : Nat)
    (hb : b1.take (c1 - 1) = b2.take (c1 - 1)) (hn : n1 = n2 ∨ (c1 ≤ n1 ∧ c1 ≤ n2)) :
    (storeNul b1 c1 n1).take (c1 - 1) = (storeNul b2 c2 n2).take (c1 - 1) := by
  unfold storeNul
  by_cases h1 : n1 < c1
  · have h12 : n1 = n2 := by omega
    subst h12
    rw [if_pos h1, if_pos (by omega), List.set_take, List.set_take, hb]
  · rw [if_neg h1]
    have hl : (if c1 > 0 then b1.set (c1 - 1) 0 else b1).take (c1 - 1) = b1.take (c1 - 1) := by
      split
      · exact take_set_ge _ _ _ _ (Nat.le_refl _)
      · rfl
    rw [hl]
    by_cases h2 : n2 < c2
    · rw [if_pos h2, take_set_ge _ _ _ _ (by omega)]; exact hb
    · rw [if_neg h2]
      split
      · rw [take_set_ge _ _ _ _ (by omega)]; exact hb
      · exact hb

theorem readNotString_agree (c1 c2 : Nat) (hc : c1 ≤ c2) (u : DbfUnserializer) (b1 b2 : List Nat)
    (hb : b1.take (c1 - 1) = b2.take (c1 - 1)) :
    (readNotString u b1 c1).2.2 = (readNotString u b2 c2).2.2 ∧
    (readNotString u b1 c1).2.1.take (c1 - 1) = (readNotString u b2 c2).2.1.take (c1 - 1) ∧
    (readNotString u b1 c1).1 = (readNotString u b2 c2).1 := by
  unfold readNotString
  refine ⟨rfl, ?_, rfl⟩
  simp only
  by_cases h1 : c1 > 0
  · rw [if_pos h1, if_pos (by omega), List.set_take, List.set_take, hb]
  · have h0 : c1 = 0 := by omega
    subst h0
    simp

/-- The read loop run with two capacities `c1 ≤ c2`: the unserializer ends the same, the
stored bytes agree below index `c1 - 1`, and in `DbfNextIsWordState` the counts agree. -/
theorem readCodesLoop_agree (c1 c2 : Nat) (hc : c1 ≤ c2) (fuel : Nat) :
    ∀ (u : DbfUnserializer) (b1 b2 : List Nat) (n1 n2 : Nat),
      b1.take (c1 - 1) = b2.take (c1 - 1) → (n1 = n2 ∨ (c1 ≤ n1 ∧ c1 ≤ n2)) →
      (readCodesLoop fuel u b1 c1 n1).2.2 = (readCodesLoop fuel u b2 c2 n2).2.2 ∧
      (readCodesLoop fuel u b1 c1 n1).2.1.take (c1 - 1)
        = (readCodesLoop fuel u b2 c2 n2).2.1.take (c1 - 1) ∧
      (u.decodeState = DbfNextIsWordState → n1 = n2 →
        (readCodesLoop fuel u b1 c1 n1).1 = (readCodesLoop fuel u b2 c2 n2).1) := by
  induction fuel with
  | zero =>
    intro u b1 b2 n1 n2 hb _
    have h := readNotString_agree c1 c2 hc (DbfUnserializerTakeSpecial u) b1 b2 hb
    exact ⟨h.1, h.2.1, fun _ _ => h.2.2⟩
  | succ fuel ih =>
    intro u b1 b2 n1 n2 hb hn
    rw [readCodesLoop, readCodesLoop]
    by_cases hst : u.decodeState = DbfNextIsWordState ∨ u.decodeState = DbfNextIsStringState
    · rw [if_pos hst, if_pos hst]
      have hf := take_next_code_fields u
      have hq := storeQuote_agree c1 c2 hc u.decodeState b1 b2 n1 n2 hb hn
      have hfin : (storeNul (storeQuote u.decodeState b1 c1 n1).1 c1
            (storeQuote u.decodeState b1 c1 n1).2).take (c1 - 1)
          = (storeNul (storeQuote u.decodeState b2 c2 n2).1 c2
            (storeQuote u.decodeState b2 c2 n2).2).take (c1 - 1) :=
        storeNul_agree c1 c2 hc _ _ _ _ hq.1 hq.2.1
      have hlen : u.decodeState = DbfNextIsWordState → n1 = n2 →
          (((storeQuote u.decodeState b1 c1 n1).2 : Nat) : Int)
            = (((storeQuote u.decodeState b2 c2 n2).2 : Nat) : Int) := by
        intro hw h12
        rw [(hq.2.2 hw).1, (hq.2.2 hw).2, h12]
      cases hct : DbfUnserializerGetNextType u u.readPos <;> simp only []
      · exact ⟨trivial, hfin, hlen⟩
      · exact ⟨trivial, hfin, hlen⟩
      · have h := ih { (take_next_code u).2 with
            current_code := wrap64 (ASCII_OFFSET + (take_next_code u).1) }
          _ _ (n1 + 1) (n2 + 1)
          (storeChar_agree c1 c2 hc b1 b2 n1 n2
            (toByte (wrap64 (ASCII_OFFSET + (take_next_code u).1))) hb hn) (by omega)
        exact ⟨h.1, h.2.1, fun hw h12 => h.2.2 (by simp only [hf.2.2.1]; exact hw) (by omega)⟩
      · have h := ih { (take_next_code u).2 with
            current_code := wrap64 (ASCII_OFFSET - 1 - (take_next_code u).1) }
          _ _ (n1 + 1) (n2 + 1)
          (storeChar_agree c1 c2 hc b1 b2 n1 n2
            (toByte (wrap64 (ASCII_OFFSET - 1 - (take_next_code u).1))) hb hn) (by omega)
        exact ⟨h.1, h.2.1, fun hw h12 => h.2.2 (by simp only [hf.2.2.1]; exact hw) (by omega)⟩
      · exact ⟨trivial, hfin, hlen⟩
      · rw [storeRepeat_eq, storeRepeat_eq]
        simp only
        have h := ih { (take_next_code u).2 with repeat_counter := 0 }
          (storeList b1 c1 n1
            (List.replicate (take_next_code u).1.toNat (toByte (take_next_code u).2.current_code)))
          (storeList b2 c2 n2
            (List.replicate (take_next_code u).1.toNat (toByte (take_next_code u).2.current_code)))
          (n1 + (take_next_code u).1.toNat) (n2 + (take_next_code u).1.toNat)
          (storeList_agree c1 c2 hc _ b1 b2 n1 n2 hb hn) (by omega)
        exact ⟨h.1, h.2.1, fun hw h12 => h.2.2 (by simp only [hf.2.2.1]; exact hw) (by omega)⟩
      · exact ⟨trivial, hfin, hlen⟩
    · rw [if_neg hst, if_neg hst]
      have h := readNotString_agree c1 c2 hc (DbfUnserializerTakeSpecial u) b1 b2 hb
      exact ⟨h.1, h.2.1, fun _ _ => h.2.2⟩

/-- The binary case of `DbfUnserializerRead` with two capacities `cap1 ≤ cap2`. -/
theorem read_agree (u : DbfUnserializer) (bufPtr : List Nat) (cap1 cap2 : Nat)
    (hst : u.decodeState = DbfNextIsWordState ∨ u.decodeState = DbfNextIsStringState)
    (hc : cap1 ≤ cap2) :
    (DbfUnserializerRead u bufPtr cap1).2.2 = (DbfUnserializerRead u bufPtr cap2).2.2 ∧
    (DbfUnserializerRead u bufPtr cap1).2.1.take (cap1 - 1)
      = (DbfUnserializerRead u bufPtr cap2).2.1.take (cap1 - 1) ∧
    (u.decodeState = DbfNextIsWordState →
      (DbfUnserializerRead u bufPtr cap1).1 = (DbfUnserializerRead u bufPtr cap2).1) := by
  unfold DbfUnserializerRead
  rcases hst with hw | hs
  · rw [hw]
    simp only
    have h := readCodesLoop_agree cap1 cap2 hc (u.msgSize - u.readPos + 1) u bufPtr bufPtr 0 0 rfl
      (Or.inl rfl)
    exact ⟨h.1, h.2.1, fun _ => h.2.2 hw rfl⟩
  · rw [hs]
    simp only
    have hq := storeQuote_agree cap1 cap2 hc DbfNextIsStringState bufPtr bufPtr 0 0 rfl (Or.inl rfl)
    have h := readCodesLoop_agree cap1 cap2 hc (u.msgSize - u.readPos + 1) u _ _ _ _ hq.1 hq.2.1
    exact ⟨h.1, h.2.1, fun hw => by cases hw⟩

/-- C15, as stated, fails.  The word `Hi` read with capacity 2 stores `H` and a NUL in place
of the second byte, which is not a prefix of `H`, `i`, NUL stored with capacity 3; and the
string `a` read in `DbfNextIsStringState` returns 2 with capacity 1 and 3 with capacity 8. -/
theorem C15_truncation_counterexample :
    (DbfUnserializerRead ⟨[0x11, 0x48, 0x69], 3, DbfNextIsWordState, 1, 0, 0⟩ [9, 9, 9, 9] 2).2.1
      = [72, 0, 9, 9] ∧
    (DbfUnserializerRead ⟨[0x11, 0x48, 0x69], 3, DbfNextIsWordState, 1, 0, 0⟩ [9, 9, 9, 9] 3).2.1
      = [72, 105, 0, 9] ∧
    (DbfUnserializerRead ⟨[0x12, 0x61], 2, DbfNextIsStringState, 1, 0, 0⟩
      [9, 9, 9, 9, 9, 9, 9, 9] 1).1 = 2 ∧
    (DbfUnserializerRead ⟨[0x12, 0x61], 2, DbfNextIsStringState, 1, 0, 0⟩
      [9, 9, 9, 9, 9, 9, 9, 9] 8).1 = 3 := by
  decide

/-- C15, amended. Truncating read: for every unserializer in `DbfNextIsWordState` or
`DbfNextIsStringState`, every caller buffer and every two capacities `cap1 ≤ cap2`,
`DbfUnserializerRead` leaves the unserializer in the same state for both capacities; the
bytes of the caller buffer below index `cap1 - 1` are the same after both calls (the byte
at `cap1 - 1` is the terminating NUL when the value does not fit); and in
`DbfNextIsWordState` the returned logical length is the same for both capacities.  The
returned length may exceed the capacity: the word `Hi` read with capacity 1 returns 2. -/
theorem C15_truncating_read (u : DbfUnserializer) (bufPtr : List Nat) (cap1 cap2 : Nat)
    (hst : u.decodeState = DbfNextIsWordState ∨ u.decodeState = DbfNextIsStringState)
    (hc : cap1 ≤ cap2) :
    (DbfUnserializerRead u bufPtr cap1).2.2 = (DbfUnserializerRead u bufPtr cap2).2.2 ∧
    (DbfUnserializerRead u bufPtr cap1).2.1.take (cap1 - 1)
      = (DbfUnserializerRead u bufPtr cap2).2.1.take (cap1 - 1) ∧
    (u.decodeState = DbfNextIsWordState →
      (DbfUnserializerRead u bufPtr cap1).1 = (DbfUnserializerRead u bufPtr cap2).1) ∧
    (DbfUnserializerRead ⟨[0x11, 0x48, 0x69], 3, DbfNextIsWordState, 1, 0, 0⟩ [9, 9, 9, 9] 1).1
      = 2 := by
  have h := read_agree u bufPtr cap1 cap2 hst hc
  exact ⟨h.1, h.2.1, h.2.2, by decide⟩

theorem C15_truncating_read_witness :
    (DbfUnserializerRead ⟨[0x11, 0x48, 0x69, 0x10, 0x45], 5, DbfNextIsWordState, 1, 0, 0⟩
        [9, 9, 9, 9] 2).2.2
      = (DbfUnserializerRead ⟨[0x11, 0x48, 0x69, 0x10, 0x45], 5, DbfNextIsWordState, 1, 0, 0⟩
        [9, 9, 9, 9] 4).2.2 ∧
    (DbfUnserializerRead ⟨[0x11, 0x48, 0x69, 0x10, 0x45], 5, DbfNextIsWordState, 1, 0, 0⟩
        [9, 9, 9, 9] 2).2.1.take (2 - 1)
      = (DbfUnserializerRead ⟨[0x11, 0x48, 0x69, 0x10, 0x45], 5, DbfNextIsWordState, 1, 0, 0⟩
        [9, 9, 9, 9] 4).2.1.take (2 - 1) ∧
    ((⟨[0x11, 0x48, 0x69, 0x10, 0x45], 5, DbfNextIsWordState, 1, 0, 0⟩ : DbfUnserializer).decodeState
        = DbfNextIsWordState →
      (DbfUnserializerRead ⟨[0x11, 0x48, 0x69, 0x10, 0x45], 5, DbfNextIsWordState, 1, 0, 0⟩
          [9, 9, 9, 9] 2).1
        = (DbfUnserializerRead ⟨[0x11, 0x48, 0x69, 0x10, 0x45], 5, DbfNextIsWordState, 1, 0, 0⟩
          [9, 9, 9, 9] 4).1) ∧
    (DbfUnserializerRead ⟨[0x11, 0x48, 0x69], 3, DbfNextIsWordState, 1, 0, 0⟩ [9, 9, 9, 9] 1).1
      = 2 :=
  C15_truncating_read ⟨[0x11, 0x48, 0x69, 0x10, 0x45], 5, DbfNextIsWordState, 1, 0, 0⟩
    [9, 9, 9, 9] 2 4 (by decide) (by decide)

/-- C16, what the code does.  On the ASCII message `"abcd"` (written by
`DbfSerializerWriteString` in ASCII mode) the unserializer is in `DbfAsciiStringState`,
`DbfUnserializerRead` returns 4 and `DbfUnserializerStringLength` returns 2, because its
loop advances `readPos` twice for every plain character.  On the binary message of the
string `a` (`DbfNextIsStringState`) `DbfUnserializerRead` returns 3, counting the two
quotes it adds, and `DbfUnserializerStringLength` returns 1.  For the word `Hi` both
return 2. -/
theorem C16_string_length_disagrees :
    (DbfUnserializerInitAsciiSerializer zeroUnserializer
      (DbfSerializerFinalize (DbfSerializerWriteString (DbfSerializerInitAscii zeroSerializer)
        [97, 98, 99, 100]))).2.decodeState = DbfAsciiStringState ∧
    (DbfUnserializerRead (DbfUnserializerInitAsciiSerializer zeroUnserializer
      (DbfSerializerFinalize (DbfSerializerWriteString (DbfSerializerInitAscii zeroSerializer)
        [97, 98, 99, 100]))).2 [0, 0, 0, 0, 0, 0, 0, 0] 8).1 = 4 ∧
    DbfUnserializerStringLength (DbfUnserializerInitAsciiSerializer zeroUnserializer
      (DbfSerializerFinalize (DbfSerializerWriteString (DbfSerializerInitAscii zeroSerializer)
        [97, 98, 99, 100]))).2 = 2 ∧
    (DbfUnserializerRead (DbfUnserializerInitFromSerializer zeroUnserializer
      (DbfSerializerFinalize (DbfSerializerWriteString (DbfSerializerInit zeroSerializer)
        [97]))).2 [0, 0, 0, 0, 0, 0, 0, 0] 8).1 = 3 ∧
    DbfUnserializerStringLength (DbfUnserializerInitFromSerializer zeroUnserializer
      (DbfSerializerFinalize (DbfSerializerWriteString (DbfSerializerInit zeroSerializer)
        [97]))).2 = 1 ∧
    (DbfUnserializerRead (DbfUnserializerInitFromSerializer zeroUnserializer
      (DbfSerializerFinalize (DbfSerializerWriteWord (DbfSerializerInit zeroSerializer)
        [72, 105]))).2 [0, 0, 0, 0, 0, 0, 0, 0] 8).1 = 2 ∧
    DbfUnserializerStringLength (DbfUnserializerInitFromSerializer zeroUnserializer
      (DbfSerializerFinalize (DbfSerializerWriteWord (DbfSerializerInit zeroSerializer)
        [72, 105]))).2 = 2 := by
  decide

set_option maxRecDepth 100000 in
/-- C18, what the code does.  `DbfSerializerInitAscii` gives a capacity of 256; for
`DbfSerializerWriteString` of 64 quote characters the ASCII branch of `serializerWrite`
asks for room for `pos + len + 8 = 72` bytes, so the capacity stays 256, and then stores
the two quotes and 64 escapes of four bytes each: `pos` is 258, beyond the capacity. -/
theorem C18_escapes_overrun_capacity :
    (DbfSerializerInitAscii zeroSerializer).capacity = 256 ∧
    (DbfSerializerWriteString (DbfSerializerInitAscii zeroSerializer)
      (List.replicate 64 34)).capacity = 256 ∧
    (DbfSerializerWriteString (DbfSerializerInitAscii zeroSerializer)
      (List.replicate 64 34)).pos = 258 := by
  decide

/-- C20, what the code does.  The integers -1, 2 written in ASCII mode give the text `-1 2`;
the first `DbfUnserializerReadInt64` returns -1 but its loop over `isalnum` characters does
not pass the minus sign, so the cursor stays at 0, the second call returns -1 again, and
after the single value -1 the state is `DbfAsciiNumberState`, not `DbfEndOfMsgState`.
Non-negative integers are read back (1, 2 then end of message), and the string `a"b` is
read back unchanged. -/
theorem C20_negative_integer_not_consumed :
    (DbfSerializerFinalize (writeInts (DbfSerializerInitAscii zeroSerializer) [-1, 2])).buffer
      = [45, 49, 32, 50] ∧
    (readInts 2 (DbfUnserializerInitAsciiSerializer zeroUnserializer
      (DbfSerializerFinalize (writeInts (DbfSerializerInitAscii zeroSerializer) [-1, 2]))).2).1
      = [-1, -1] ∧
    (DbfUnserializerReadInt64 (DbfUnserializerInitAsciiSerializer zeroUnserializer
      (DbfSerializerFinalize (writeInts (DbfSerializerInitAscii zeroSerializer) [-1]))).2).2
      = ⟨[45, 49], 2, DbfAsciiNumberState, 0, 0, 0⟩ ∧
    readInts 2 (DbfUnserializerInitAsciiSerializer zeroUnserializer
      (DbfSerializerFinalize (writeInts (DbfSerializerInitAscii zeroSerializer) [1, 2]))).2
      = ([1, 2], ⟨[49, 32, 50], 3, DbfEndOfMsgState, 3, 0, 0⟩) ∧
    (DbfUnserializerRead (DbfUnserializerInitAsciiSerializer zeroUnserializer
      (DbfSerializerFinalize (DbfSerializerWriteString (DbfSerializerInitAscii zeroSerializer)
        [97, 34, 98]))).2 [0, 0, 0, 0, 0, 0, 0, 0] 8).1 = 3 ∧
    (DbfUnserializerRead (DbfUnserializerInitAsciiSerializer zeroUnserializer
      (DbfSerializerFinalize (DbfSerializerWriteString (DbfSerializerInitAscii zeroSerializer)
        [97, 34, 98]))).2 [0, 0, 0, 0, 0, 0, 0, 0] 8).2.1 = [97, 34, 98, 0, 0, 0, 0, 0] := by
  decide

/-! ## ASCII rendering of strings -/

theorem encode_digit_eq (d : Nat) (hd : d < 16) : utility_encode_digit d = hexDigit d := by
  have h : ∀ x : Fin 16, utility_encode_digit x.val = hexDigit x.val := by decide
  exact h ⟨d, hd⟩

theorem writeGrow_fields (fuel : Nat) : ∀ (s : DbfSerializer) (len : Nat),
    (serializerWriteGrow fuel s len).buffer = s.buffer ∧
    (serializerWriteGrow fuel s len).prev_code = s.prev_code ∧
    (serializerWriteGrow fuel s len).encoderState = s.encoderState ∧
    (serializerWriteGrow fuel s len).repeat_counter = s.repeat_counter := by
  induction fuel with
  | zero => intro s len; exact ⟨rfl, rfl, rfl, rfl⟩
  | succ fuel ih =>
    intro s len
    rw [serializerWriteGrow]
    split
    · exact ih _ len
    · exact ⟨rfl, rfl, rfl, rfl⟩

theorem strlen_eq (str : List Nat) (h : ∀ c ∈ str, c ≠ 0) : strlen str = str.length := by
  induction str with
  | nil => rfl
  | cons c rest ih =>
    rw [strlen, if_neg (h c (List.mem_cons_self _ _)), ih (fun x hx => h x (List.mem_cons_of_mem _ hx))]
    rfl

theorem writeEscaped_buffer (str : List Nat) : ∀ (s : DbfSerializer),
    (∀ c ∈ str, c < 128) →
    (serializerWriteEscaped s str).buffer = s.buffer ++ str.flatMap asciiRender ∧
    (serializerWriteEscaped s str).prev_code = s.prev_code ∧
    (serializerWriteEscaped s str).encoderState = s.encoderState ∧
    (serializerWriteEscaped s str).repeat_counter = s.repeat_counter := by
  induction str with
  | nil => intro s _; simp [serializerWriteEscaped]
  | cons c rest ih =>
    intro s h
    have hc : c < 128 := h c (List.mem_cons_self _ _)
    have hrest : ∀ x ∈ rest, x < 128 := fun x hx => h x (List.mem_cons_of_mem _ hx)
    have hci := charToInt_of_lt c hc
    have hb : toByte (c : Int) = c := toByte_of_lt c (by omega)
    rw [serializerWriteEscaped]
    simp only [hci]
    by_cases hp : 0x20 ≤ c ∧ c ≤ 0x7E ∧ c ≠ 34 ∧ c ≠ 92
    · have hcond : (isprint (c : Int) && decide ((c : Int) ≠ 34) && decide ((c : Int) ≠ 92)) = true := by
        simp only [isprint, Bool.and_eq_true, decide_eq_true_eq]
        omega
      rw [if_pos hcond]
      have hr := ih { s with buffer := s.buffer ++ [toByte (c : Int)] } hrest
      rw [hr.1, hr.2.1, hr.2.2.1, hr.2.2.2, hb]
      refine ⟨?_, rfl, rfl, rfl⟩
      simp only [List.flatMap_cons, asciiRender, if_pos hp, List.append_assoc]
    · have hcond : ¬ (isprint (c : Int) && decide ((c : Int) ≠ 34) && decide ((c : Int) ≠ 92)) = true := by
        simp only [isprint, Bool.and_eq_true, decide_eq_true_eq]
        omega
      rw [if_neg hcond]
      have hr := ih { s with buffer := s.buffer ++ [92, 120,
        utility_encode_digit (toByte ((c : Int) / 16)), utility_encode_digit (toByte ((c : Int) % 16))] }
        hrest
      rw [hr.1, hr.2.1, hr.2.2.1, hr.2.2.2]
      refine ⟨?_, rfl, rfl, rfl⟩
      have h1 : toByte ((c : Int) / 16) = c / 16 := by
        have : (c : Int) / 16 = ((c / 16 : Nat) : Int) := by omega
        rw [this]; exact toByte_of_lt _ (by omega)
      have h2 : toByte ((c : Int) % 16) = c % 16 := by
        have : (c : Int) % 16 = ((c % 16 : Nat) : Int) := by omega
        rw [this]; exact toByte_of_lt _ (by omega)
      simp only [h1, h2, encode_digit_eq (c / 16) (by omega), encode_digit_eq (c % 16) (by omega),
        List.flatMap_cons, asciiRender, if_neg hp, List.append_assoc]

theorem writeEscaped_capacity (str : List Nat) : ∀ (s : DbfSerializer),
    (serializerWriteEscaped s str).capacity = s.capacity := by
  induction str with
  | nil => intro s; rfl
  | cons c rest ih =>
    intro s
    rw [serializerWriteEscaped]
    split <;> rw [ih]

/-- The bound of the read loop is never reached: any two bounds above `msgSize - readPos`
give the same result. -/
theorem readCodesLoop_fuel (fuel1 : Nat) : ∀ (fuel2 : Nat) (u : DbfUnserializer)
    (bufPtr : List Nat) (bufCap n : Nat),
    u.msgSize - u.readPos < fuel1 → u.msgSize - u.readPos < fuel2 →
    readCodesLoop fuel1 u bufPtr bufCap n = readCodesLoop fuel2 u bufPtr bufCap n := by
  induction fuel1 with
  | zero => intro fuel2 u _ _ _ h; omega
  | succ fuel1 ih =>
    intro fuel2 u bufPtr bufCap n h1 h2
    obtain ⟨f2, rfl⟩ : ∃ f2, fuel2 = f2 + 1 := ⟨fuel2 - 1, by omega⟩
    rw [readCodesLoop, readCodesLoop]
    by_cases hst : u.decodeState = DbfNextIsWordState ∨ u.decodeState = DbfNextIsStringState
    · rw [if_pos hst, if_pos hst]
      have hgt := take_next_code_readPos_gt u
      have hf := take_next_code_fields u
      cases hct : DbfUnserializerGetNextType u u.readPos <;> simp only []
      all_goals
        have hlt : u.readPos < u.msgSize := by
          by_contra hge
          unfold DbfUnserializerGetNextType at hct
          rw [if_pos (by omega)] at hct
          cases hct
        exact ih _ _ _ _ _ (by simp only [hf.2.1]; omega) (by simp only [hf.2.1]; omega)
    · rw [if_neg hst, if_neg hst]

/-! ## Receiver: single calls -/

theorem processCh_initial (now : Int) (r : DbfReceiver) (ch : Nat)
    (h : r.receiverState = DbfRcvInitialState) :
    DbfReceiverProcessCh now r ch = (0, processFirstChar now r ch) := by
  unfold DbfReceiverProcessCh; rw [h]

theorem processCh_noise (now : Int) (r : DbfReceiver) (ch : Nat)
    (h : r.receiverState = DbfRcvIgnoreInputState) :
    DbfReceiverProcessCh now r ch = (0, processNoise now r ch) := by
  unfold DbfReceiverProcessCh; rw [h]

theorem processCh_message (now : Int) (r : DbfReceiver) (ch : Nat)
    (h : r.receiverState = DbfRcvReceivingMessageState) :
    DbfReceiverProcessCh now r ch =
      if ch = DBF_BEGIN_CODEID then
        if r.msgSize = 0 then (0, r)
        else ((r.msgSize : Int), { r with receiverState := DbfRcvDbfReceivedMoreExpectedState })
      else if ch = DBF_END_CODEID then
        if r.msgSize = 0 then (0, enterInitialState r)
        else ((r.msgSize : Int), { r with receiverState := DbfRcvDbfReceivedState })
      else
        if (DbfReceiverStoreByte r ch).1 ≠ 0 then (0, enterInitialState (DbfReceiverStoreByte r ch).2)
        else (0, (DbfReceiverStoreByte r ch).2) := by
  unfold DbfReceiverProcessCh; rw [h]

theorem processCh_txt (now : Int) (r : DbfReceiver) (ch : Nat)
    (h : r.receiverState = DbfRcvReceivingTxtState) :
    DbfReceiverProcessCh now r ch =
      if ch = DBF_END_CODEID then (0, enterInitialState r)
      else if ch = DBF_BEGIN_CODEID then (0, enterReceivingBinaryMessageState now r ch)
      else if ch = 13 ∨ ch = 10 then
        if r.msgSize < BUFFER_SIZE_IN_BYTES then
          ((r.msgSize : Int),
            { r with buffer := r.buffer.set r.msgSize 0, receiverState := DbfRcvTxtReceivedState })
        else ((r.msgSize : Int), r)
      else if ch < 32 ∨ ch > 126 then (0, enterReceivingNoiseState now r ch)
      else
        if DbfReceiverIsFull { (DbfReceiverStoreByte r ch).2 with msgtimestamp := toU64 now } then
          ((({ (DbfReceiverStoreByte r ch).2 with msgtimestamp := toU64 now } : DbfReceiver).msgSize
              : Int),
            { (DbfReceiverStoreByte r ch).2 with
              msgtimestamp := toU64 now, receiverState := DbfRcvTxtReceivedState })
        else (0, { (DbfReceiverStoreByte r ch).2 with msgtimestamp := toU64 now }) := by
  unfold DbfReceiverProcessCh; rw [h]

theorem processCh_other (now : Int) (r : DbfReceiver) (ch : Nat)
    (h1 : r.receiverState ≠ DbfRcvInitialState) (h2 : r.receiverState ≠ DbfRcvReceivingTxtState)
    (h3 : r.receiverState ≠ DbfRcvReceivingMessageState)
    (h4 : r.receiverState ≠ DbfRcvIgnoreInputState) :
    DbfReceiverProcessCh now r ch = (-1, { r with msgSize := 0 }) := by
  unfold DbfReceiverProcessCh
  cases h : r.receiverState <;> simp_all

/-- C24, as stated, fails: in `DbfRcvMessageReadyState` the function returns 1, not -1. -/
theorem C24_message_ready_counterexample :
    DbfReceiverGetEncoding ⟨List.replicate 1024 0, 0, DbfRcvMessageReadyState, 0⟩ = 1 := by
  rfl

/-- C24, amended. GetEncoding mapping: for every receiver, `DbfReceiverGetEncoding` returns 1
exactly when the state is `DbfRcvMessageReadyState`, `DbfRcvDbfReceivedState` or
`DbfRcvDbfReceivedMoreExpectedState`, 0 exactly when the state is `DbfRcvTxtReceivedState`,
and -1 in every other state. -/
theorem C24_get_encoding (r : DbfReceiver) :
    (DbfReceiverGetEncoding r = 1 ↔
      (r.receiverState = DbfRcvMessageReadyState ∨ r.receiverState = DbfRcvDbfReceivedState ∨
        r.receiverState = DbfRcvDbfReceivedMoreExpectedState)) ∧
    (DbfReceiverGetEncoding r = 0 ↔ r.receiverState = DbfRcvTxtReceivedState) ∧
    (DbfReceiverGetEncoding r = -1 ↔
      (r.receiverState ≠ DbfRcvMessageReadyState ∧ r.receiverState ≠ DbfRcvDbfReceivedState ∧
        r.receiverState ≠ DbfRcvDbfReceivedMoreExpectedState ∧
        r.receiverState ≠ DbfRcvTxtReceivedState)) := by
  unfold DbfReceiverGetEncoding
  cases r.receiverState <;> simp

/-- C25. Byte in a terminal state: for every receiver in `DbfRcvTxtReceivedState`,
`DbfRcvDbfReceivedState` or `DbfRcvDbfReceivedMoreExpectedState`, every byte `c` and every
clock value, `DbfReceiverProcessCh` returns -1 and neither starts nor extends a message: the
state, the buffer and the timestamp stay as they are (and `msgSize` is cleared), so the
state stays terminal until the caller resets the receiver. -/
theorem C25_byte_in_terminal_state (now : Int) (r : DbfReceiver) (c : Nat)
    (h : r.receiverState = DbfRcvTxtReceivedState ∨ r.receiverState = DbfRcvDbfReceivedState ∨
      r.receiverState = DbfRcvDbfReceivedMoreExpectedState) :
    (DbfReceiverProcessCh now r c).1 = -1 ∧
    (DbfReceiverProcessCh now r c).1 < 0 ∧
    (DbfReceiverProcessCh now r c).2.receiverState = r.receiverState ∧
    (DbfReceiverProcessCh now r c).2.buffer = r.buffer ∧
    (DbfReceiverProcessCh now r c).2.msgtimestamp = r.msgtimestamp ∧
    (DbfReceiverProcessCh now r c).2.msgSize = 0 := by
  have hp : DbfReceiverProcessCh now r c = (-1, { r with msgSize := 0 }) := by
    apply processCh_other <;> rcases h with h | h | h <;> rw [h] <;> decide
  rw [hp]
  exact ⟨rfl, by show (-1 : Int) < 0; decide, rfl, rfl, rfl, rfl⟩

theorem C25_byte_in_terminal_state_witness :
    (DbfReceiverProcessCh 5 ⟨[0x47], 1, DbfRcvDbfReceivedState, 3⟩ 0).1 = -1 ∧
    (DbfReceiverProcessCh 5 ⟨[0x47], 1, DbfRcvDbfReceivedState, 3⟩ 0).1 < 0 ∧
    (DbfReceiverProcessCh 5 ⟨[0x47], 1, DbfRcvDbfReceivedState, 3⟩ 0).2.receiverState
      = (⟨[0x47], 1, DbfRcvDbfReceivedState, 3⟩ : DbfReceiver).receiverState ∧
    (DbfReceiverProcessCh 5 ⟨[0x47], 1, DbfRcvDbfReceivedState, 3⟩ 0).2.buffer
      = (⟨[0x47], 1, DbfRcvDbfReceivedState, 3⟩ : DbfReceiver).buffer ∧
    (DbfReceiverProcessCh 5 ⟨[0x47], 1, DbfRcvDbfReceivedState, 3⟩ 0).2.msgtimestamp
      = (⟨[0x47], 1, DbfRcvDbfReceivedState, 3⟩ : DbfReceiver).msgtimestamp ∧
    (DbfReceiverProcessCh 5 ⟨[0x47], 1, DbfRcvDbfReceivedState, 3⟩ 0).2.msgSize = 0 :=
  C25_byte_in_terminal_state 5 ⟨[0x47], 1, DbfRcvDbfReceivedState, 3⟩ 0 (Or.inr (Or.inl rfl))

/-! ## Receiver: framed messages -/

theorem processAll_cons (r : DbfReceiver) (x : Nat × Int) (rest : List (Nat × Int)) :
    processAll r (x :: rest)
      = ((DbfReceiverProcessCh x.2 r x.1).1 :: (processAll (DbfReceiverProcessCh x.2 r x.1).2 rest).1,
          (processAll (DbfReceiverProcessCh x.2 r x.1).2 rest).2) := rfl

theorem processAll_append (a : List (Nat × Int)) : ∀ (r : DbfReceiver) (b : List (Nat × Int)),
    processAll r (a ++ b)
      = ((processAll r a).1 ++ (processAll (processAll r a).2 b).1,
          (processAll (processAll r a).2 b).2) := by
  induction a with
  | nil => intro r b; rfl
  | cons x a ih =>
    intro r b
    rw [List.cons_append, processAll_cons, processAll_cons, ih]
    rfl

/-- A payload byte in `DbfRcvReceivingMessageState` with room in the buffer is stored. -/
theorem processCh_store (now : Int) (r : DbfReceiver) (c : Nat)
    (hst : r.receiverState = DbfRcvReceivingMessageState) (hroom : r.msgSize < 1024)
    (hc0 : c ≠ 0) (hc1 : c ≠ 1) (hc : c < 256) :
    DbfReceiverProcessCh now r c
      = (0, { r with buffer := r.buffer.set r.msgSize c, msgSize := r.msgSize + 1 }) := by
  rw [processCh_message now r c hst, if_neg (by simpa [DBF_BEGIN_CODEID] using hc0),
    if_neg (by simpa [DBF_END_CODEID] using hc1)]
  have hs : DbfReceiverStoreByte r c
      = (0, { r with buffer := r.buffer.set r.msgSize c, msgSize := r.msgSize + 1 }) := by
    unfold DbfReceiverStoreByte
    rw [if_pos (by simpa [BUFFER_SIZE_IN_BYTES] using hroom), Nat.mod_eq_of_lt hc]
  rw [hs]
  simp

/-- The payload bytes of a binary message are stored one after the other. -/
theorem processAll_payload (pt : List (Nat × Int)) : ∀ (r : DbfReceiver),
    r.receiverState = DbfRcvReceivingMessageState → r.buffer.length = 1024 →
    r.msgSize + pt.length ≤ 1024 → (∀ x ∈ pt, x.1 ≠ 0 ∧ x.1 ≠ 1 ∧ x.1 < 256) →
    (processAll r pt).1 = List.replicate pt.length 0 ∧
    (processAll r pt).2.receiverState = DbfRcvReceivingMessageState ∧
    (processAll r pt).2.msgSize = r.msgSize + pt.length ∧
    (processAll r pt).2.buffer.length = 1024 ∧
    (processAll r pt).2.msgtimestamp = r.msgtimestamp ∧
    (processAll r pt).2.buffer.take (r.msgSize + pt.length)
      = r.buffer.take r.msgSize ++ pt.map Prod.fst := by
  induction pt with
  | nil => intro r hst hlen _ _; simp [processAll, hst, hlen]
  | cons x pt ih =>
    intro r hst hlen hroom hb
    have hx := hb x (List.mem_cons_self _ _)
    simp only [List.length_cons] at hroom
    have hstep := processCh_store x.2 r x.1 hst (by omega) hx.1 hx.2.1 hx.2.2
    have h := ih { r with buffer := r.buffer.set r.msgSize x.1, msgSize := r.msgSize + 1 }
      hst (by simp [hlen]) (by simp only; omega) (fun y hy => hb y (List.mem_cons_of_mem _ hy))
    rw [processAll_cons, hstep]
    simp only [List.length_cons, List.map_cons]
    refine ⟨by rw [h.1]; rfl, h.2.1, by rw [h.2.2.1]; simp only; omega, h.2.2.2.1, h.2.2.2.2.1, ?_⟩
    have e : r.msgSize + (pt.length + 1) = r.msgSize + 1 + pt.length := by omega
    rw [e, h.2.2.2.2.2]
    simp only
    rw [take_set_succ x.1 r.buffer r.msgSize (by omega), List.append_assoc]
    rfl

/-- From `DbfRcvReceivingMessageState` with an empty buffer, a non-empty payload of at most
1024 bytes followed by END is reported with its length and lies at the start of the
buffer. -/
theorem message_delivery (r : DbfReceiver) (pt : List (Nat × Int)) (t1 : Int)
    (hst : r.receiverState = DbfRcvReceivingMessageState) (h0 : r.msgSize = 0)
    (hlen : r.buffer.length = 1024) (hne : pt ≠ []) (hsz : pt.length ≤ 1024)
    (hb : ∀ x ∈ pt, x.1 ≠ 0 ∧ x.1 ≠ 1 ∧ x.1 < 256) :
    (processAll r (pt ++ [(1, t1)])).1 = List.replicate pt.length 0 ++ [(pt.length : Int)] ∧
    (processAll r (pt ++ [(1, t1)])).2.receiverState = DbfRcvDbfReceivedState ∧
    (processAll r (pt ++ [(1, t1)])).2.msgSize = pt.length ∧
    (processAll r (pt ++ [(1, t1)])).2.buffer.length = 1024 ∧
    (processAll r (pt ++ [(1, t1)])).2.buffer.take pt.length = pt.map Prod.fst := by
  have hp := processAll_payload pt r hst hlen (by omega) hb
  rw [h0, Nat.zero_add] at hp
  have hpos : 0 < pt.length := List.length_pos.2 hne
  have hend : DbfReceiverProcessCh t1 (processAll r pt).2 1
      = (((processAll r pt).2.msgSize : Int),
          { (processAll r pt).2 with receiverState := DbfRcvDbfReceivedState }) := by
    rw [processCh_message _ _ _ hp.2.1, if_neg (by decide), if_pos (by decide),
      if_neg (by rw [hp.2.2.1]; omega)]
  rw [processAll_append, processAll_cons, hend]
  simp only [processAll, hp.1, hp.2.2.1, List.append_nil]
  refine ⟨trivial, trivial, trivial, hp.2.2.2.1, ?_⟩
  have := hp.2.2.2.2.2
  simpa using this

/-- From `DbfRcvInitialState`: BEGIN, the payload and END. -/
theorem framed_delivery (r : DbfReceiver) (pt : List (Nat × Int)) (t0 t1 : Int)
    (hst : r.receiverState = DbfRcvInitialState)
    (hlen : r.buffer.length = 1024) (hne : pt ≠ []) (hsz : pt.length ≤ 1024)
    (hb : ∀ x ∈ pt, x.1 ≠ 0 ∧ x.1 ≠ 1 ∧ x.1 < 256) :
    (processAll r ((0, t0) :: pt ++ [(1, t1)])).1
      = List.replicate (pt.length + 1) 0 ++ [(pt.length : Int)] ∧
    (processAll r ((0, t0) :: pt ++ [(1, t1)])).2.receiverState = DbfRcvDbfReceivedState ∧
    (processAll r ((0, t0) :: pt ++ [(1, t1)])).2.msgSize = pt.length ∧
    (processAll r ((0, t0) :: pt ++ [(1, t1)])).2.buffer.length = 1024 ∧
    (processAll r ((0, t0) :: pt ++ [(1, t1)])).2.buffer.take pt.length = pt.map Prod.fst := by
  have hbegin : DbfReceiverProcessCh t0 r 0 = (0, enterReceivingBinaryMessageState t0 r 0) := by
    rw [processCh_initial t0 r 0 hst]; rfl
  have h := message_delivery (enterReceivingBinaryMessageState t0 r 0) pt t1 rfl rfl hlen hne hsz hb
  rw [List.cons_append, processAll_cons, hbegin]
  simp only
  exact ⟨by rw [h.1]; rfl, h.2.1, h.2.2.1, h.2.2.2.1, h.2.2.2.2⟩

theorem zeroReceiver_length : zeroReceiver.buffer.length = 1024 := by
  unfold zeroReceiver
  exact List.length_replicate _ _

set_option maxRecDepth 100000 in
/-- C22. Framed message delivery: for every receiver in `DbfRcvInitialState`, every
non-empty payload of at most 1024 bytes none of which is 0x00 or 0x01, and all clock
values, giving the bytes 0x00, the payload, 0x01 one at a time to `DbfReceiverProcessCh`
returns 0 for every byte except the last and the payload length for the last, and leaves
the receiver in `DbfRcvDbfReceivedState` with `msgSize` the payload length and the payload
at the start of the buffer; `DbfReceiverReset` brings the receiver back to
`DbfRcvInitialState`, so the same holds for the next framed message: the stream
`00 47 01 00 48 01` yields two messages of length 1 containing `47` and `48`. -/
theorem C22_framed_message_delivery (r : DbfReceiver) (pt : List (Nat × Int)) (t0 t1 : Int)
    (hst : r.receiverState = DbfRcvInitialState) (hlen : r.buffer.length = 1024)
    (hne : pt ≠ []) (hsz : pt.length ≤ 1024)
    (hb : ∀ x ∈ pt, x.1 ≠ 0 ∧ x.1 ≠ 1 ∧ x.1 < 256) :
    (processAll r ((0, t0) :: pt ++ [(1, t1)])).1
      = List.replicate (pt.length + 1) 0 ++ [(pt.length : Int)] ∧
    (processAll r ((0, t0) :: pt ++ [(1, t1)])).2.receiverState = DbfRcvDbfReceivedState ∧
    (processAll r ((0, t0) :: pt ++ [(1, t1)])).2.msgSize = pt.length ∧
    (processAll r ((0, t0) :: pt ++ [(1, t1)])).2.buffer.take pt.length = pt.map Prod.fst ∧
    (DbfReceiverReset (processAll r ((0, t0) :: pt ++ [(1, t1)])).2).receiverState
      = DbfRcvInitialState ∧
    (DbfReceiverReset (processAll r ((0, t0) :: pt ++ [(1, t1)])).2).buffer.length = 1024 ∧
    (processAll zeroReceiver [(0, 0), (0x47, 0), (1, 0)]).1 = [0, 0, 1] ∧
    (processAll zeroReceiver [(0, 0), (0x47, 0), (1, 0)]).2.buffer.take 1 = [0x47] ∧
    (processAll (DbfReceiverReset (processAll zeroReceiver [(0, 0), (0x47, 0), (1, 0)]).2)
      [(0, 0), (0x48, 0), (1, 0)]).1 = [0, 0, 1] ∧
    (processAll (DbfReceiverReset (processAll zeroReceiver [(0, 0), (0x47, 0), (1, 0)]).2)
      [(0, 0), (0x48, 0), (1, 0)]).2.buffer.take 1 = [0x48] := by
  have h := framed_delivery r pt t0 t1 hst hlen hne hsz hb
  exact ⟨h.1, h.2.1, h.2.2.1, h.2.2.2.2, rfl, h.2.2.2.1, by decide, by decide, by decide,
    by decide⟩

theorem C22_framed_message_delivery_witness :
    (processAll zeroReceiver ((0, 5) :: [(0x47, 6), (0x10, 7)] ++ [(1, 8)])).1
      = List.replicate ([(0x47, 6), (0x10, 7)].length + 1) 0
        ++ [(([(0x47, 6), (0x10, 7)] : List (Nat × Int)).length : Int)] ∧
    (processAll zeroReceiver ((0, 5) :: [(0x47, 6), (0x10, 7)] ++ [(1, 8)])).2.receiverState
      = DbfRcvDbfReceivedState ∧
    (processAll zeroReceiver ((0, 5) :: [(0x47, 6), (0x10, 7)] ++ [(1, 8)])).2.msgSize
      = ([(0x47, 6), (0x10, 7)] : List (Nat × Int)).length ∧
    (processAll zeroReceiver ((0, 5) :: [(0x47, 6), (0x10, 7)] ++ [(1, 8)])).2.buffer.take
        ([(0x47, 6), (0x10, 7)] : List (Nat × Int)).length
      = ([(0x47, 6), (0x10, 7)] : List (Nat × Int)).map Prod.fst ∧
    (DbfReceiverReset
      (processAll zeroReceiver ((0, 5) :: [(0x47, 6), (0x10, 7)] ++ [(1, 8)])).2).receiverState
      = DbfRcvInitialState ∧
    (DbfReceiverReset
      (processAll zeroReceiver ((0, 5) :: [(0x47, 6), (0x10, 7)] ++ [(1, 8)])).2).buffer.length
      = 1024 ∧
    (processAll zeroReceiver [(0, 0), (0x47, 0), (1, 0)]).1 = [0, 0, 1] ∧
    (processAll zeroReceiver [(0, 0), (0x47, 0), (1, 0)]).2.buffer.take 1 = [0x47] ∧
    (processAll (DbfReceiverReset (processAll zeroReceiver [(0, 0), (0x47, 0), (1, 0)]).2)
      [(0, 0), (0x48, 0), (1, 0)]).1 = [0, 0, 1] ∧
    (processAll (DbfReceiverReset (processAll zeroReceiver [(0, 0), (0x47, 0), (1, 0)]).2)
      [(0, 0), (0x48, 0), (1, 0)]).2.buffer.take 1 = [0x48] :=
  C22_framed_message_delivery zeroReceiver [(0x47, 6), (0x10, 7)] 5 8 rfl zeroReceiver_length
    (by decide) (by decide) (by decide)

/-- C26. Receiver overflow: for every receiver in `DbfRcvReceivingMessageState` whose buffer
already holds 1024 bytes, `DbfReceiverProcessCh` of any byte other than BEGIN and END
discards the message, returns 0 and leaves the receiver in `DbfRcvInitialState` with
`msgSize = 0`, while END reports the 1024 bytes (`DbfRcvDbfReceivedState`, buffer as it is);
and from `DbfRcvInitialState` a framed payload of exactly 1024 bytes is delivered in full. -/
theorem C26_receiver_overflow (now : Int) (r : DbfReceiver) (c : Nat)
    (hst : r.receiverState = DbfRcvReceivingMessageState) (hfull : r.msgSize = 1024)
    (hc0 : c ≠ 0) (hc1 : c ≠ 1)
    (r0 : DbfReceiver) (pt : List (Nat × Int)) (t0 t1 : Int)
    (h0 : r0.receiverState = DbfRcvInitialState) (hlen : r0.buffer.length = 1024)
    (hsz : pt.length = 1024) (hb : ∀ x ∈ pt, x.1 ≠ 0 ∧ x.1 ≠ 1 ∧ x.1 < 256) :
    DbfReceiverProcessCh now r c
      = (0, { r with msgSize := 0, msgtimestamp := 0, receiverState := DbfRcvInitialState }) ∧
    DbfReceiverProcessCh now r DBF_END_CODEID
      = (1024, { r with receiverState := DbfRcvDbfReceivedState }) ∧
    (processAll r0 ((0, t0) :: pt ++ [(1, t1)])).1 = List.replicate 1025 0 ++ [1024] ∧
    (processAll r0 ((0, t0) :: pt ++ [(1, t1)])).2.receiverState = DbfRcvDbfReceivedState ∧
    (processAll r0 ((0, t0) :: pt ++ [(1, t1)])).2.msgSize = 1024 ∧
    (processAll r0 ((0, t0) :: pt ++ [(1, t1)])).2.buffer = pt.map Prod.fst := by
  refine ⟨?_, ?_, ?_⟩
  · rw [processCh_message now r c hst, if_neg (by simpa [DBF_BEGIN_CODEID] using hc0),
      if_neg (by simpa [DBF_END_CODEID] using hc1)]
    have hs : DbfReceiverStoreByte r c = (-1, r) := by
      unfold DbfReceiverStoreByte
      rw [if_neg (by rw [hfull]; decide)]
    rw [hs]
    rfl
  · rw [processCh_message now r _ hst, if_neg (by decide), if_pos rfl,
      if_neg (by rw [hfull]; decide), hfull]
    rfl
  · have hne : pt ≠ [] := by
      intro h; rw [h] at hsz; simp at hsz
    have h := framed_delivery r0 pt t0 t1 h0 hlen hne (by omega) hb
    rw [hsz] at h
    refine ⟨h.1, h.2.1, h.2.2.1, ?_⟩
    have ht := h.2.2.2.2
    rw [← h.2.2.2.1, List.take_length] at ht
    exact ht

theorem C26_receiver_overflow_witness :
    DbfReceiverProcessCh 7 ⟨List.replicate 1024 0x47, 1024, DbfRcvReceivingMessageState, 3⟩ 0x48
      = (0, { (⟨List.replicate 1024 0x47, 1024, DbfRcvReceivingMessageState, 3⟩ : DbfReceiver) with
              msgSize := 0, msgtimestamp := 0, receiverState := DbfRcvInitialState }) ∧
    DbfReceiverProcessCh 7 ⟨List.replicate 1024 0x47, 1024, DbfRcvReceivingMessageState, 3⟩
        DBF_END_CODEID
      = (1024, { (⟨List.replicate 1024 0x47, 1024, DbfRcvReceivingMessageState, 3⟩ : DbfReceiver)
              with receiverState := DbfRcvDbfReceivedState }) ∧
    (processAll zeroReceiver ((0, 5) :: List.replicate 1024 (0x47, 6) ++ [(1, 8)])).1
      = List.replicate 1025 0 ++ [1024] ∧
    (processAll zeroReceiver
      ((0, 5) :: List.replicate 1024 (0x47, 6) ++ [(1, 8)])).2.receiverState
      = DbfRcvDbfReceivedState ∧
    (processAll zeroReceiver ((0, 5) :: List.replicate 1024 (0x47, 6) ++ [(1, 8)])).2.msgSize
      = 1024 ∧
    (processAll zeroReceiver ((0, 5) :: List.replicate 1024 (0x47, 6) ++ [(1, 8)])).2.buffer
      = (List.replicate 1024 ((0x47, 6) : Nat × Int)).map Prod.fst :=
  C26_receiver_overflow 7 ⟨List.replicate 1024 0x47, 1024, DbfRcvReceivingMessageState, 3⟩ 0x48
    rfl rfl (by decide) (by decide) zeroReceiver (List.replicate 1024 (0x47, 6)) 5 8 rfl
    zeroReceiver_length (List.length_replicate _ _)
    (fun x hx => by rw [List.eq_of_mem_replicate hx]; decide)

/-- C27. Receiver recovery: for every receiver in `DbfRcvIgnoreInputState`, whatever its
timestamp and the clock value, `DbfReceiverProcessCh` of BEGIN (0x00) returns 0 and leaves
the receiver in `DbfRcvReceivingMessageState` with an empty buffer (`msgSize = 0`); the
bytes that follow up to the next END are then delivered as a fresh message. -/
theorem C27_receiver_recovery (now : Int) (r : DbfReceiver)
    (hst : r.receiverState = DbfRcvIgnoreInputState) (hlen : r.buffer.length = 1024)
    (pt : List (Nat × Int)) (t1 : Int) (hne : pt ≠ []) (hsz : pt.length ≤ 1024)
    (hb : ∀ x ∈ pt, x.1 ≠ 0 ∧ x.1 ≠ 1 ∧ x.1 < 256) :
    DbfReceiverProcessCh now r DBF_BEGIN_CODEID
      = (0, { r with msgSize := 0, msgtimestamp := toU64 now,
                     receiverState := DbfRcvReceivingMessageState }) ∧
    (processAll (DbfReceiverProcessCh now r DBF_BEGIN_CODEID).2 (pt ++ [(1, t1)])).1
      = List.replicate pt.length 0 ++ [(pt.length : Int)] ∧
    (processAll (DbfReceiverProcessCh now r DBF_BEGIN_CODEID).2
      (pt ++ [(1, t1)])).2.receiverState = DbfRcvDbfReceivedState ∧
    (processAll (DbfReceiverProcessCh now r DBF_BEGIN_CODEID).2
      (pt ++ [(1, t1)])).2.msgSize = pt.length ∧
    (processAll (DbfReceiverProcessCh now r DBF_BEGIN_CODEID).2
      (pt ++ [(1, t1)])).2.buffer.take pt.length = pt.map Prod.fst := by
  have hp : DbfReceiverProcessCh now r DBF_BEGIN_CODEID
      = (0, { r with msgSize := 0, msgtimestamp := toU64 now,
                     receiverState := DbfRcvReceivingMessageState }) := by
    rw [processCh_noise now r _ hst]; rfl
  refine ⟨hp, ?_⟩
  rw [hp]
  have h := message_delivery
    (⟨r.buffer, 0, DbfRcvReceivingMessageState, toU64 now⟩ : DbfReceiver) pt t1 rfl rfl hlen
    hne hsz hb
  exact ⟨h.1, h.2.1, h.2.2.1, h.2.2.2.2⟩

theorem C27_receiver_recovery_witness :
    DbfReceiverProcessCh 2000 ⟨List.replicate 1024 0, 5, DbfRcvIgnoreInputState, 1990⟩
        DBF_BEGIN_CODEID
      = (0, { (⟨List.replicate 1024 0, 5, DbfRcvIgnoreInputState, 1990⟩ : DbfReceiver) with
              msgSize := 0, msgtimestamp := toU64 2000,
              receiverState := DbfRcvReceivingMessageState }) ∧
    (processAll (DbfReceiverProcessCh 2000
        ⟨List.replicate 1024 0, 5, DbfRcvIgnoreInputState, 1990⟩ DBF_BEGIN_CODEID).2
      ([(0x47, 2001)] ++ [(1, 2002)])).1
      = List.replicate ([(0x47, 2001)] : List (Nat × Int)).length 0
        ++ [(([(0x47, 2001)] : List (Nat × Int)).length : Int)] ∧
    (processAll (DbfReceiverProcessCh 2000
        ⟨List.replicate 1024 0, 5, DbfRcvIgnoreInputState, 1990⟩ DBF_BEGIN_CODEID).2
      ([(0x47, 2001)] ++ [(1, 2002)])).2.receiverState = DbfRcvDbfReceivedState ∧
    (processAll (DbfReceiverProcessCh 2000
        ⟨List.replicate 1024 0, 5, DbfRcvIgnoreInputState, 1990⟩ DBF_BEGIN_CODEID).2
      ([(0x47, 2001)] ++ [(1, 2002)])).2.msgSize = ([(0x47, 2001)] : List (Nat × Int)).length ∧
    (processAll (DbfReceiverProcessCh 2000
        ⟨List.replicate 1024 0, 5, DbfRcvIgnoreInputState, 1990⟩ DBF_BEGIN_CODEID).2
      ([(0x47, 2001)] ++ [(1, 2002)])).2.buffer.take ([(0x47, 2001)] : List (Nat × Int)).length
      = ([(0x47, 2001)] : List (Nat × Int)).map Prod.fst :=
  C27_receiver_recovery 2000 ⟨List.replicate 1024 0, 5, DbfRcvIgnoreInputState, 1990⟩ rfl
    (List.length_replicate _ _) [(0x47, 2001)] 2002 (by decide) (by decide) (by decide)

theorem toInt32_of_range (i : Int) (h0 : 0 ≤ i) (h1 : i < 2147483648) : toInt32 i = i := by
  unfold toInt32
  have h : i % 4294967296 = i := Int.emod_eq_of_lt h0 (by omega)
  rw [h, if_pos h1]

theorem processFirstChar_state_irrelevant (now : Int) (r : DbfReceiver) (c : Nat)
    (s : DbfReveiverCodeStateEnum) (h1 : c ≠ 1) (h10 : c ≠ 10) (h13 : c ≠ 13) :
    processFirstChar now { r with receiverState := s } c = processFirstChar now r c := by
  have he : ¬ c = DBF_END_CODEID := by simpa [DBF_END_CODEID] using h1
  have hcr : ¬ (c = 13 ∨ c = 10) := by omega
  unfold processFirstChar
  simp only [if_neg he, if_neg hcr]
  by_cases hb : c = DBF_BEGIN_CODEID
  · simp only [if_pos hb]; rfl
  · simp only [if_neg hb]
    by_cases h9 : c = 9
    · simp only [if_pos h9]
      unfold enterReceivingTxtState DbfReceiverStoreByte
      simp only
      split <;> rfl
    · simp only [if_neg h9]
      by_cases hp : c ≥ 32 ∧ c ≤ 126
      · simp only [if_pos hp]
        unfold enterReceivingTxtState DbfReceiverStoreByte
        simp only
        split <;> rfl
      · simp only [if_neg hp]; rfl

/-- C28 (counterexample). With `msgtimestamp = 1000` and the clock at 1100 the difference is
exactly 100 ms, yet the byte `A` is not re-interpreted: the receiver stays in
`DbfRcvIgnoreInputState`, while `DbfReceiverProcessCh` in `DbfRcvInitialState` would start a
text message with it. -/
theorem C28_exactly_100_ms_counterexample :
    (1100 : Int) - ((1000 : Nat) : Int) ≥ 100 ∧
    (DbfReceiverProcessCh 1100 ⟨List.replicate 1024 0, 0, DbfRcvIgnoreInputState, 1000⟩
      65).2.receiverState = DbfRcvIgnoreInputState ∧
    (DbfReceiverProcessCh 1100 ⟨List.replicate 1024 0, 0, DbfRcvInitialState, 1000⟩
      65).2.receiverState = DbfRcvReceivingTxtState := by
  decide

/-- C28 (amended). Noise quiescence window: for a receiver in `DbfRcvIgnoreInputState` and a
non-BEGIN byte `c` arriving at clock value `now`, with `d` the difference
`now - msgtimestamp` as a 32-bit signed integer (the difference itself when it lies in
`[0, 2^31)`): if `d > 100` then `DbfReceiverProcessCh` returns 0 and gives `c` to
`processFirstChar`, which for every `c` other than END, CR and LF leaves the receiver exactly
as `DbfReceiverProcessCh` in `DbfRcvInitialState` would; if `d ≤ 100` the call returns 0 and
the receiver stays in `DbfRcvIgnoreInputState` with buffer and `msgSize` unchanged. -/
theorem C28_noise_quiescence_window (now : Int) (r : DbfReceiver) (c : Nat)
    (hst : r.receiverState = DbfRcvIgnoreInputState) (hc : c ≠ DBF_BEGIN_CODEID) :
    (toInt32 (now - (r.msgtimestamp : Int)) > 100 →
      DbfReceiverProcessCh now r c = (0, processFirstChar now r c) ∧
      (c ≠ 1 → c ≠ 10 → c ≠ 13 →
        DbfReceiverProcessCh now r c
          = DbfReceiverProcessCh now { r with receiverState := DbfRcvInitialState } c)) ∧
    (toInt32 (now - (r.msgtimestamp : Int)) ≤ 100 →
      (DbfReceiverProcessCh now r c).1 = 0 ∧
      (DbfReceiverProcessCh now r c).2.receiverState = DbfRcvIgnoreInputState ∧
      (DbfReceiverProcessCh now r c).2.msgSize = r.msgSize ∧
      (DbfReceiverProcessCh now r c).2.buffer = r.buffer) ∧
    (0 ≤ now - (r.msgtimestamp : Int) → now - (r.msgtimestamp : Int) < 2147483648 →
      toInt32 (now - (r.msgtimestamp : Int)) = now - (r.msgtimestamp : Int)) := by
  refine ⟨?_, ?_, toInt32_of_range _⟩
  · intro hd
    have hp : DbfReceiverProcessCh now r c = (0, processFirstChar now r c) := by
      rw [processCh_noise now r c hst]
      unfold processNoise
      rw [if_neg hc]
      simp only [IGNORE_UNTIL_SILENCE_MS, if_pos hd]
    refine ⟨hp, ?_⟩
    intro h1 h10 h13
    rw [hp, processCh_initial now _ c rfl,
      processFirstChar_state_irrelevant now r c DbfRcvInitialState h1 h10 h13]
  · intro hd
    have hd2 : ¬ toInt32 (now - (r.msgtimestamp : Int)) > 100 := by omega
    rw [processCh_noise now r c hst]
    unfold processNoise
    rw [if_neg hc]
    simp only [IGNORE_UNTIL_SILENCE_MS, if_neg hd2]
    by_cases hp : (c ≥ 32 ∧ c ≤ 126) ∨ c = 10 ∨ c = 13 ∨ c = 9
    · rw [if_pos hp]; exact ⟨trivial, hst, rfl, rfl⟩
    · rw [if_neg hp]; exact ⟨trivial, hst, rfl, rfl⟩

theorem C28_noise_quiescence_window_witness :
    (toInt32 ((1101 : Int)
        - (((⟨List.replicate 1024 0, 0, DbfRcvIgnoreInputState, 1000⟩ : DbfReceiver).msgtimestamp
            : Nat) : Int)) > 100 →
      DbfReceiverProcessCh 1101 ⟨List.replicate 1024 0, 0, DbfRcvIgnoreInputState, 1000⟩ 65
        = (0, processFirstChar 1101
            ⟨List.replicate 1024 0, 0, DbfRcvIgnoreInputState, 1000⟩ 65) ∧
      ((65 : Nat) ≠ 1 → (65 : Nat) ≠ 10 → (65 : Nat) ≠ 13 →
        DbfReceiverProcessCh 1101 ⟨List.replicate 1024 0, 0, DbfRcvIgnoreInputState, 1000⟩ 65
          = DbfReceiverProcessCh 1101
            { (⟨List.replicate 1024 0, 0, DbfRcvIgnoreInputState, 1000⟩ : DbfReceiver) with
              receiverState := DbfRcvInitialState } 65)) ∧
    (toInt32 ((1101 : Int)
        - (((⟨List.replicate 1024 0, 0, DbfRcvIgnoreInputState, 1000⟩ : DbfReceiver).msgtimestamp
            : Nat) : Int)) ≤ 100 →
      (DbfReceiverProcessCh 1101
        ⟨List.replicate 1024 0, 0, DbfRcvIgnoreInputState, 1000⟩ 65).1 = 0 ∧
      (DbfReceiverProcessCh 1101
        ⟨List.replicate 1024 0, 0, DbfRcvIgnoreInputState, 1000⟩ 65).2.receiverState
        = DbfRcvIgnoreInputState ∧
      (DbfReceiverProcessCh 1101
        ⟨List.replicate 1024 0, 0, DbfRcvIgnoreInputState, 1000⟩ 65).2.msgSize
        = (⟨List.replicate 1024 0, 0, DbfRcvIgnoreInputState, 1000⟩ : DbfReceiver).msgSize ∧
      (DbfReceiverProcessCh 1101
        ⟨List.replicate 1024 0, 0, DbfRcvIgnoreInputState, 1000⟩ 65).2.buffer
        = (⟨List.replicate 1024 0, 0, DbfRcvIgnoreInputState, 1000⟩ : DbfReceiver).buffer) ∧
    (0 ≤ (1101 : Int)
        - (((⟨List.replicate 1024 0, 0, DbfRcvIgnoreInputState, 1000⟩ : DbfReceiver).msgtimestamp
            : Nat) : Int) →
      (1101 : Int)
        - (((⟨List.replicate 1024 0, 0, DbfRcvIgnoreInputState, 1000⟩ : DbfReceiver).msgtimestamp
            : Nat) : Int) < 2147483648 →
      toInt32 ((1101 : Int)
        - (((⟨List.replicate 1024 0, 0, DbfRcvIgnoreInputState, 1000⟩ : DbfReceiver).msgtimestamp
            : Nat) : Int))
        = (1101 : Int)
        - (((⟨List.replicate 1024 0, 0, DbfRcvIgnoreInputState, 1000⟩ : DbfReceiver).msgtimestamp
            : Nat) : Int)) :=
  C28_noise_quiescence_window 1101 ⟨List.replicate 1024 0, 0, DbfRcvIgnoreInputState, 1000⟩ 65
    rfl (by decide)

/-- C29 (counterexample). In `DbfRcvIgnoreInputState` with `msgtimestamp = 1000`, the
printable byte `A` arriving at clock value 1050 (inside the 100 ms window) does not set the
timestamp to 1050: the timestamp is still 1000 and the whole receiver is unchanged. -/
theorem C29_printable_keeps_timestamp_counterexample :
    toInt32 ((1050 : Int) - ((1000 : Nat) : Int)) ≤ 100 ∧
    (DbfReceiverProcessCh 1050 ⟨List.replicate 1024 0, 0, DbfRcvIgnoreInputState, 1000⟩
      65).2.msgtimestamp = 1000 ∧
    (DbfReceiverProcessCh 1050 ⟨List.replicate 1024 0, 0, DbfRcvIgnoreInputState, 1000⟩
      65).2.msgtimestamp ≠ toU64 1050 := by
  decide

/-- C29 (amended). Timestamp in noise mode: for a receiver in `DbfRcvIgnoreInputState` and a
non-BEGIN byte `c` arriving within the window (32-bit signed `now - msgtimestamp` at most
100), `DbfReceiverProcessCh` returns 0 and, when `c` is printable (0x20..0x7E) or CR, LF or
TAB, leaves the receiver unchanged, timestamp included; for every other byte it sets
`msgtimestamp` to the current clock value (as a 64-bit unsigned number) and changes nothing
else. -/
theorem C29_noise_timestamp (now : Int) (r : DbfReceiver) (c : Nat)
    (hst : r.receiverState = DbfRcvIgnoreInputState) (hc : c ≠ DBF_BEGIN_CODEID)
    (hd : toInt32 (now - (r.msgtimestamp : Int)) ≤ 100) :
    (((32 ≤ c ∧ c ≤ 126) ∨ c = 10 ∨ c = 13 ∨ c = 9) → DbfReceiverProcessCh now r c = (0, r)) ∧
    (¬ ((32 ≤ c ∧ c ≤ 126) ∨ c = 10 ∨ c = 13 ∨ c = 9) →
      DbfReceiverProcessCh now r c = (0, { r with msgtimestamp := toU64 now })) := by
  have hd2 : ¬ toInt32 (now - (r.msgtimestamp : Int)) > 100 := by omega
  have hp : DbfReceiverProcessCh now r c
      = (0, if (c ≥ 32 ∧ c ≤ 126) ∨ c = 10 ∨ c = 13 ∨ c = 9 then r
            else { r with msgtimestamp := toU64 now }) := by
    rw [processCh_noise now r c hst]
    unfold processNoise
    rw [if_neg hc]
    simp only [IGNORE_UNTIL_SILENCE_MS, if_neg hd2]
  refine ⟨?_, ?_⟩
  · intro h
    rw [hp, if_pos h]
  · intro h
    rw [hp, if_neg h]

theorem C29_noise_timestamp_witness :
    ((((32 : Nat) ≤ 200 ∧ (200 : Nat) ≤ 126) ∨ (200 : Nat) = 10 ∨ (200 : Nat) = 13
        ∨ (200 : Nat) = 9) →
      DbfReceiverProcessCh 1050 ⟨List.replicate 1024 0, 0, DbfRcvIgnoreInputState, 1000⟩ 200
        = (0, ⟨List.replicate 1024 0, 0, DbfRcvIgnoreInputState, 1000⟩)) ∧
    (¬ (((32 : Nat) ≤ 200 ∧ (200 : Nat) ≤ 126) ∨ (200 : Nat) = 10 ∨ (200 : Nat) = 13
        ∨ (200 : Nat) = 9) →
      DbfReceiverProcessCh 1050 ⟨List.replicate 1024 0, 0, DbfRcvIgnoreInputState, 1000⟩ 200
        = (0, { (⟨List.replicate 1024 0, 0, DbfRcvIgnoreInputState, 1000⟩ : DbfReceiver) with
                msgtimestamp := toU64 1050 })) :=
  C29_noise_timestamp 1050 ⟨List.replicate 1024 0, 0, DbfRcvIgnoreInputState, 1000⟩ 200 rfl
    (by decide) (by decide)

/-- C30 (counterexample). A receiver in `DbfRcvReceivingTxtState` holding one byte whose
timestamp is 9000 ms old is left as it is by `DbfReceiverCheckTimeout` with a timeout of
5000 ms; and a receiver in `DbfRcvReceivingMessageState` whose timestamp is 2^31 ms old is
left in that state too, the difference being taken as a 32-bit signed number. -/
theorem C30_no_timeout_counterexample :
    (10000 : Int) - ((1000 : Nat) : Int) > 5000 ∧
    DbfReceiverCheckTimeout 10000 ⟨List.replicate 1024 0, 1, DbfRcvReceivingTxtState, 1000⟩ 5000
      = ⟨List.replicate 1024 0, 1, DbfRcvReceivingTxtState, 1000⟩ ∧
    (2147483648 : Int) - ((0 : Nat) : Int) > 5000 ∧
    (DbfReceiverCheckTimeout 2147483648
      ⟨List.replicate 1024 0, 1, DbfRcvReceivingMessageState, 0⟩ 5000).receiverState
      = DbfRcvReceivingMessageState := by
  refine ⟨by decide, rfl, by decide, by decide⟩

/-- C30 (amended). Timeout: for every receiver in `DbfRcvReceivingMessageState` or
`DbfRcvIgnoreInputState` and every timeout `ms`, with `d` the difference
`now - msgtimestamp` as a 32-bit signed integer (the difference itself when it lies in
`[0, 2^31)`): if `d > ms` then `DbfReceiverCheckTimeout` leaves the receiver in
`DbfRcvInitialState` with `msgSize = 0` and timestamp 0, the buffer as it was; if `d ≤ ms`,
or the receiver is in `DbfRcvInitialState` or in a terminal state, nothing changes;
`DbfReceiverTick` is `DbfReceiverCheckTimeout` with 5000. -/
theorem C30_check_timeout (now : Int) (r : DbfReceiver) (ms : Int) :
    (r.receiverState = DbfRcvReceivingMessageState ∨ r.receiverState = DbfRcvIgnoreInputState →
      toInt32 (now - (r.msgtimestamp : Int)) > ms →
      DbfReceiverCheckTimeout now r ms
        = { r with msgSize := 0, msgtimestamp := 0, receiverState := DbfRcvInitialState }) ∧
    (r.receiverState = DbfRcvReceivingMessageState ∨ r.receiverState = DbfRcvIgnoreInputState →
      toInt32 (now - (r.msgtimestamp : Int)) ≤ ms → DbfReceiverCheckTimeout now r ms = r) ∧
    (r.receiverState = DbfRcvInitialState ∨ r.receiverState = DbfRcvTxtReceivedState ∨
      r.receiverState = DbfRcvDbfReceivedState ∨
      r.receiverState = DbfRcvDbfReceivedMoreExpectedState ∨
      r.receiverState = DbfRcvMessageReadyState ∨ r.receiverState = DbfRcvErrorState →
      DbfReceiverCheckTimeout now r ms = r) ∧
    DbfReceiverTick now r = DbfReceiverCheckTimeout now r 5000 ∧
    (0 ≤ now - (r.msgtimestamp : Int) → now - (r.msgtimestamp : Int) < 2147483648 →
      toInt32 (now - (r.msgtimestamp : Int)) = now - (r.msgtimestamp : Int)) := by
  refine ⟨?_, ?_, ?_, rfl, toInt32_of_range _⟩
  · intro hs hd
    rcases hs with hs | hs
    · unfold DbfReceiverCheckTimeout
      rw [hs]
      simp only [if_pos hd]
      by_cases hm : r.msgSize ≠ 0
      · rw [if_pos hm]; rfl
      · rw [if_neg hm]; rfl
    · unfold DbfReceiverCheckTimeout
      rw [hs]
      simp only [if_pos hd]
      by_cases hm : r.msgSize ≠ 0
      · rw [if_pos hm]; rfl
      · rw [if_neg hm]; rfl
  · intro hs hd
    have hd2 : ¬ toInt32 (now - (r.msgtimestamp : Int)) > ms := by omega
    rcases hs with hs | hs
    · unfold DbfReceiverCheckTimeout
      rw [hs]
      simp only [if_neg hd2]
    · unfold DbfReceiverCheckTimeout
      rw [hs]
      simp only [if_neg hd2]
  · intro hs
    unfold DbfReceiverCheckTimeout
    rcases hs with hs | hs | hs | hs | hs | hs <;> rw [hs]

theorem storeByte_buffer_length (r : DbfReceiver) (c : Nat) :
    (DbfReceiverStoreByte r c).2.buffer.length = r.buffer.length := by
  unfold DbfReceiverStoreByte
  split
  · simp
  · rfl

theorem storeByte_state (r : DbfReceiver) (c : Nat) :
    (DbfReceiverStoreByte r c).2.receiverState = r.receiverState := by
  unfold DbfReceiverStoreByte
  split <;> rfl

theorem processFirstChar_buffer_length (now : Int) (r : DbfReceiver) (c : Nat) :
    (processFirstChar now r c).buffer.length = r.buffer.length := by
  unfold processFirstChar enterReceivingBinaryMessageState enterReceivingTxtState
    enterReceivingNoiseState
  split_ifs <;> simp [storeByte_buffer_length]

theorem processFirstChar_not_message (now : Int) (r : DbfReceiver) (c : Nat)
    (hc : c ≠ DBF_BEGIN_CODEID) (hs : r.receiverState ≠ DbfRcvReceivingMessageState) :
    (processFirstChar now r c).receiverState ≠ DbfRcvReceivingMessageState := by
  unfold processFirstChar enterReceivingTxtState enterReceivingNoiseState
  rw [if_neg hc]
  split_ifs <;> simp [hs]

theorem processCh_buffer_length (now : Int) (r : DbfReceiver) (c : Nat) :
    (DbfReceiverProcessCh now r c).2.buffer.length = r.buffer.length := by
  unfold DbfReceiverProcessCh
  split
  · exact processFirstChar_buffer_length now r c
  · simp only [enterInitialState, enterReceivingBinaryMessageState, enterReceivingNoiseState]
    split_ifs <;> simp [storeByte_buffer_length]
  · simp only [enterInitialState]
    split_ifs <;> simp [storeByte_buffer_length]
  · unfold processNoise enterReceivingBinaryMessageState
    simp only
    split_ifs <;> simp [processFirstChar_buffer_length]
  · rfl

/-- How `DbfReceiverProcessCh` can leave the receiver in `DbfRcvReceivingMessageState`: on a
BEGIN byte with an empty message, or by storing a payload byte. -/
theorem processCh_into_message (now : Int) (r : DbfReceiver) (c : Nat)
    (h : (DbfReceiverProcessCh now r c).2.receiverState = DbfRcvReceivingMessageState) :
    (c = 0 ∧ (DbfReceiverProcessCh now r c).2.msgSize = 0) ∨
    (r.receiverState = DbfRcvReceivingMessageState ∧ c ≠ 0 ∧ c ≠ 1 ∧ r.msgSize < 1024 ∧
      (DbfReceiverProcessCh now r c).2.msgSize = r.msgSize + 1 ∧
      (DbfReceiverProcessCh now r c).2.buffer = r.buffer.set r.msgSize (c % 256)) := by
  by_cases hc : c = DBF_BEGIN_CODEID
  · left
    refine ⟨hc, ?_⟩
    subst hc
    revert h
    unfold DbfReceiverProcessCh
    split
    · intro _; rfl
    · intro _; rfl
    · rw [if_pos rfl]
      split_ifs with hm
      · intro _; exact hm
      · intro h; cases h
    · intro _; rfl
    · rename_i h1 h2 h3 h4
      intro h
      exact absurd h h3
  · right
    revert h
    unfold DbfReceiverProcessCh
    split
    · rename_i hs
      intro h
      exact absurd h (processFirstChar_not_message now r c hc (by rw [hs]; decide))
    · rename_i hs
      simp only [enterInitialState, enterReceivingNoiseState, if_neg hc]
      split_ifs <;> intro h <;> simp [storeByte_state, hs] at h
    · rename_i hs
      rw [if_neg hc]
      simp only [enterInitialState]
      split_ifs with h1 hm hst
      · intro h; cases h
      · intro h; cases h
      · intro h; cases h
      · intro _
        have hroom : r.msgSize < 1024 := by
          by_contra hn
          apply hst
          unfold DbfReceiverStoreByte
          rw [if_neg (by simpa [BUFFER_SIZE_IN_BYTES] using hn)]
          simp
        refine ⟨hs, by simpa [DBF_BEGIN_CODEID] using hc, by simpa [DBF_END_CODEID] using h1,
          hroom, ?_, ?_⟩
        · unfold DbfReceiverStoreByte
          rw [if_pos (by simpa [BUFFER_SIZE_IN_BYTES] using hroom)]
        · unfold DbfReceiverStoreByte
          rw [if_pos (by simpa [BUFFER_SIZE_IN_BYTES] using hroom)]
    · rename_i hs
      unfold processNoise
      rw [if_neg hc]
      simp only
      split_ifs
      · intro h
        exact absurd h (processFirstChar_not_message now r c hc (by rw [hs]; decide))
      · intro h; rw [hs] at h; cases h
      · intro h
        simp only at h
        rw [hs] at h; cases h
    · rename_i h1 h2 h3 h4
      intro h
      exact absurd h h3

/-- A positive result together with encoding 1 comes from `DbfRcvReceivingMessageState` on a
BEGIN or END byte, and reports the bytes stored so far. -/
theorem processCh_report (now : Int) (r : DbfReceiver) (c : Nat)
    (hpos : (DbfReceiverProcessCh now r c).1 > 0)
    (henc : DbfReceiverGetEncoding (DbfReceiverProcessCh now r c).2 = 1) :
    r.receiverState = DbfRcvReceivingMessageState ∧ (c = 0 ∨ c = 1) ∧
    (DbfReceiverProcessCh now r c).1 = (r.msgSize : Int) ∧
    (DbfReceiverProcessCh now r c).2.msgSize = r.msgSize ∧
    (DbfReceiverProcessCh now r c).2.buffer = r.buffer := by
  revert hpos henc
  unfold DbfReceiverProcessCh
  split
  · intro hpos; simp at hpos
  · rename_i hs
    dsimp only
    split_ifs
    · intro hpos; simp at hpos
    · intro hpos; simp at hpos
    · intro _ henc; simp [DbfReceiverGetEncoding] at henc
    · intro _ henc; simp [DbfReceiverGetEncoding, hs] at henc
    · intro hpos; simp at hpos
    · intro _ henc; simp [DbfReceiverGetEncoding] at henc
    · intro hpos; simp at hpos
  · rename_i hs
    dsimp only
    split_ifs with h1 h2 h3 h4 h5
    · intro hpos; simp at hpos
    · intro _ _; exact ⟨hs, Or.inl h1, rfl, rfl, rfl⟩
    · intro hpos; simp at hpos
    · intro _ _; exact ⟨hs, Or.inr h3, rfl, rfl, rfl⟩
    · intro hpos; simp at hpos
    · intro hpos; simp at hpos
  · intro hpos; simp at hpos
  · intro hpos; simp at hpos

/-- While a binary message is being received, the stream consumed so far ends with a BEGIN
byte followed by the bytes stored in the buffer, none of which is BEGIN or END. -/
theorem receiveAll_invariant : ∀ (rest : List (Nat × Int)) (done : List Nat) (r : DbfReceiver),
    r.buffer.length = 1024 →
    (r.receiverState = DbfRcvReceivingMessageState →
      ∃ a body, done = a ++ 0 :: body ∧ (∀ b ∈ body, b ≠ 0 ∧ b ≠ 1) ∧
        r.msgSize = body.length ∧ r.buffer.take body.length = body) →
    (∀ x ∈ rest, x.1 < 256) →
    (receiveAll r rest).buffer.length = 1024 ∧
    ((receiveAll r rest).receiverState = DbfRcvReceivingMessageState →
      ∃ a body, done ++ rest.map Prod.fst = a ++ 0 :: body ∧ (∀ b ∈ body, b ≠ 0 ∧ b ≠ 1) ∧
        (receiveAll r rest).msgSize = body.length ∧
        (receiveAll r rest).buffer.take body.length = body) := by
  intro rest
  induction rest with
  | nil =>
    intro done r hlen hinv _
    refine ⟨hlen, ?_⟩
    intro hs
    simpa [receiveAll] using hinv hs
  | cons x rest ih =>
    intro done r hlen hinv hb
    have hx : x.1 < 256 := hb x (List.mem_cons_self _ _)
    have hrest : ∀ y ∈ rest, y.1 < 256 := fun y hy => hb y (List.mem_cons_of_mem _ hy)
    have hstep : receiveAll r (x :: rest)
        = receiveAll (if (DbfReceiverProcessCh x.2 r x.1).1 > 0
            then DbfReceiverReset (DbfReceiverProcessCh x.2 r x.1).2
            else (DbfReceiverProcessCh x.2 r x.1).2) rest := rfl
    have hl : done ++ (x :: rest).map Prod.fst = (done ++ [x.1]) ++ rest.map Prod.fst := by
      simp
    rw [hstep, hl]
    apply ih (done ++ [x.1])
    · split_ifs
      · exact (processCh_buffer_length x.2 r x.1).trans hlen
      · exact (processCh_buffer_length x.2 r x.1).trans hlen
    · split_ifs with hpos
      · intro hs; cases hs
      · intro hs
        rcases processCh_into_message x.2 r x.1 hs with ⟨hc, hm⟩ | ⟨hst, hc0, hc1, hroom, hm, hbuf⟩
        · refine ⟨done, [], by rw [hc], ?_, hm, rfl⟩
          intro b hb; cases hb
        · obtain ⟨a, body, hd, hbody, hsz, htake⟩ := hinv hst
          refine ⟨a, body ++ [x.1], by rw [hd]; simp, ?_, ?_, ?_⟩
          · intro b hb
            rcases List.mem_append.mp hb with hb | hb
            · exact hbody b hb
            · rw [List.mem_singleton] at hb
              rw [hb]; exact ⟨hc0, hc1⟩
          · rw [hm, hsz]; simp
          · rw [hbuf, Nat.mod_eq_of_lt hx, List.length_append, List.length_singleton, ← hsz,
              take_set_succ x.1 r.buffer r.msgSize (by omega), hsz, htake]
    · exact hrest

set_option maxRecDepth 100000 in
/-- C23 (counterexample). The stream `00 47 00` contains no END byte, yet at its last byte
(a second BEGIN) `DbfReceiverProcessCh` reports a complete binary message: it returns 1,
`DbfReceiverGetEncoding` is 1 and the message is the byte `47`. -/
theorem C23_message_without_end_counterexample :
    (DbfReceiverProcessCh 0
      (receiveAll (DbfReceiverInit zeroReceiver) [(0, 0), (0x47, 0)]) 0).1 = 1 ∧
    DbfReceiverGetEncoding (DbfReceiverProcessCh 0
      (receiveAll (DbfReceiverInit zeroReceiver) [(0, 0), (0x47, 0)]) 0).2 = 1 ∧
    (DbfReceiverProcessCh 0
      (receiveAll (DbfReceiverInit zeroReceiver) [(0, 0), (0x47, 0)]) 0).2.buffer.take 1
      = [0x47] ∧
    DBF_END_CODEID ∉ [0, 0x47, 0] := by
  decide

/-- C23 (amended). Receiver framing invariant: for every byte stream fed to an initialised
receiver with a buffer of 1024 bytes, with a `DbfReceiverReset` after each reported message,
every binary message reported complete (positive return with `DbfReceiverGetEncoding = 1`)
is reported at a BEGIN or END byte and is non-empty, and consists of exactly the bytes that
arrived after a BEGIN byte of the stream and before that reporting byte, none of them BEGIN
or END; the return value and `msgSize` are their number. -/
theorem C23_receiver_framing (r0 : DbfReceiver) (pre : List (Nat × Int)) (c : Nat)
    (now : Int) (hlen : r0.buffer.length = 1024) (hb : ∀ x ∈ pre, x.1 < 256)
    (hpos : (DbfReceiverProcessCh now (receiveAll (DbfReceiverInit r0) pre) c).1 > 0)
    (henc : DbfReceiverGetEncoding
      (DbfReceiverProcessCh now (receiveAll (DbfReceiverInit r0) pre) c).2 = 1) :
    ∃ a body, pre.map Prod.fst = a ++ 0 :: body ∧ (∀ b ∈ body, b ≠ 0 ∧ b ≠ 1) ∧
      (c = 0 ∨ c = 1) ∧ body ≠ [] ∧
      (DbfReceiverProcessCh now (receiveAll (DbfReceiverInit r0) pre) c).1
        = (body.length : Int) ∧
      (DbfReceiverProcessCh now (receiveAll (DbfReceiverInit r0) pre) c).2.msgSize
        = body.length ∧
      (DbfReceiverProcessCh now (receiveAll (DbfReceiverInit r0) pre) c).2.buffer.take
        body.length = body := by
  obtain ⟨hst, hc, hret, hm, hbuf⟩ := processCh_report now _ c hpos henc
  have hinv := receiveAll_invariant pre [] (DbfReceiverInit r0) hlen
    (fun h => by cases h) hb
  obtain ⟨a, body, hd, hbody, hsz, htake⟩ := hinv.2 hst
  refine ⟨a, body, by simpa using hd, hbody, hc, ?_, ?_, ?_, ?_⟩
  · intro he
    rw [hret, hsz, he] at hpos
    simp at hpos
  · rw [hret, hsz]
  · rw [hm, hsz]
  · rw [hbuf, htake]

set_option maxRecDepth 100000 in
theorem C23_receiver_framing_witness :
    ∃ a body, ([(0, 0), (0x47, 0), (0x48, 0)] : List (Nat × Int)).map Prod.fst = a ++ 0 :: body ∧
      (∀ b ∈ body, b ≠ 0 ∧ b ≠ 1) ∧
      ((1 : Nat) = 0 ∨ (1 : Nat) = 1) ∧ body ≠ [] ∧
      (DbfReceiverProcessCh 0
        (receiveAll (DbfReceiverInit zeroReceiver) [(0, 0), (0x47, 0), (0x48, 0)]) 1).1
        = (body.length : Int) ∧
      (DbfReceiverProcessCh 0
        (receiveAll (DbfReceiverInit zeroReceiver) [(0, 0), (0x47, 0), (0x48, 0)]) 1).2.msgSize
        = body.length ∧
      (DbfReceiverProcessCh 0
        (receiveAll (DbfReceiverInit zeroReceiver) [(0, 0), (0x47, 0), (0x48, 0)]) 1).2.buffer.take
        body.length = body :=
  C23_receiver_framing zeroReceiver [(0, 0), (0x47, 0), (0x48, 0)] 1 0 zeroReceiver_length
    (by decide) (by decide) (by decide)

/-- Copying the ASCII number `-1`: the minus sign is not a character of a number for the
copy loop, so a call of `DbfUnserializerToSerializer` consumes nothing. -/
theorem toSerializer_minus_one_stuck (s : DbfSerializer) :
    (DbfUnserializerToSerializer
      ⟨[45, 49], 2, DbfAsciiNumberState, 0, 0, 0⟩ s).2.1
      = ⟨[45, 49], 2, DbfAsciiNumberState, 0, 0, 0⟩ := by
  rfl

theorem toSerializerAll_minus_one_loops : ∀ (fuel : Nat) (s : DbfSerializer) (n : Int),
    toSerializerAllLoop fuel ⟨[45, 49], 2, DbfAsciiNumberState, 0, 0, 0⟩ s n = none := by
  intro fuel
  induction fuel with
  | zero => intro s n; rfl
  | succ k ih =>
    intro s n
    unfold toSerializerAllLoop
    rw [if_pos (by decide)]
    simp only [toSerializer_minus_one_stuck]
    exact ih _ _

/-- C21. Copying the integer 5 from binary to ASCII and back to binary does not reproduce
the message: the binary serializer writes `45`, `DbfUnserializerToSerializerAll` into an
ASCII serializer gives the text `5`, and copying that text into a fresh binary serializer
gives `10 35`, which the binary unserializer reads as the integer -22 and which is copied
back to ASCII as the text `-22`, not `5`.  For the integer -1 the ASCII text is `-1`, and the
copy of that text into a binary serializer never ends. -/
theorem C21_integer_transcoding_evaluation :
    (DbfSerializerFinalize
      (DbfSerializerWriteInt64 (DbfSerializerInit zeroSerializer) 5)).buffer = [0x45] ∧
    (DbfUnserializerToSerializerAll 4
      (DbfUnserializerInitFromSerializer zeroUnserializer
        (DbfSerializerFinalize (DbfSerializerWriteInt64 (DbfSerializerInit zeroSerializer) 5))).2
      (DbfSerializerInitAscii zeroSerializer)).map
      (fun r => (r.1, (DbfSerializerFinalize r.2.2).buffer)) = some (1, [0x35]) ∧
    ((DbfUnserializerToSerializerAll 4
      (DbfUnserializerInitFromSerializer zeroUnserializer
        (DbfSerializerFinalize (DbfSerializerWriteInt64 (DbfSerializerInit zeroSerializer) 5))).2
      (DbfSerializerInitAscii zeroSerializer)).bind
      (fun r => DbfUnserializerToSerializerAll 4
        (DbfUnserializerInitAsciiSerializer zeroUnserializer (DbfSerializerFinalize r.2.2)).2
        (DbfSerializerInit zeroSerializer))).map
      (fun r => (r.1, (DbfSerializerFinalize r.2.2).buffer)) = some (1, [0x10, 0x35]) ∧
    (DbfUnserializerReadInt64 (DbfUnserializerInitNoCRC zeroUnserializer [0x10, 0x35] 2)).1
      = -22 ∧
    (DbfUnserializerToSerializerAll 4 (DbfUnserializerInitNoCRC zeroUnserializer [0x10, 0x35] 2)
      (DbfSerializerInitAscii zeroSerializer)).map
      (fun r => (r.1, (DbfSerializerFinalize r.2.2).buffer)) = some (1, [45, 50, 50]) ∧
    (DbfUnserializerToSerializerAll 4
      (DbfUnserializerInitFromSerializer zeroUnserializer
        (DbfSerializerFinalize
          (DbfSerializerWriteInt64 (DbfSerializerInit zeroSerializer) (-1)))).2
      (DbfSerializerInitAscii zeroSerializer)).map
      (fun r => (r.1, (DbfSerializerFinalize r.2.2).buffer)) = some (1, [45, 49]) ∧
    ∀ fuel : Nat, DbfUnserializerToSerializerAll fuel
      (DbfUnserializerInitAscii zeroUnserializer [45, 49] 2).2
      (DbfSerializerInit zeroSerializer) = none := by
  refine ⟨by decide, by decide, by decide, by decide, by decide, by decide, ?_⟩
  intro fuel
  exact toSerializerAll_minus_one_loops fuel _ 0

/-! ## Noise trigger -/

theorem processCh_initial_noise_iff (now : Int) (r : DbfReceiver) (c : Nat)
    (hst : r.receiverState = DbfRcvInitialState) :
    (DbfReceiverProcessCh now r c).2.receiverState = DbfRcvIgnoreInputState ↔
      ¬ (32 ≤ c ∧ c ≤ 126) ∧ c ≠ 0 ∧ c ≠ 1 ∧ c ≠ 13 ∧ c ≠ 10 ∧ c ≠ 9 := by
  rw [processCh_initial now r c hst]
  unfold processFirstChar enterReceivingBinaryMessageState enterReceivingTxtState
    enterReceivingNoiseState
  simp only [DBF_BEGIN_CODEID, DBF_END_CODEID]
  split_ifs <;> simp [hst] <;> omega

theorem processCh_txt_noise_iff (now : Int) (r : DbfReceiver) (c : Nat)
    (hst : r.receiverState = DbfRcvReceivingTxtState) :
    (DbfReceiverProcessCh now r c).2.receiverState = DbfRcvIgnoreInputState ↔
      ¬ (32 ≤ c ∧ c ≤ 126) ∧ c ≠ 0 ∧ c ≠ 1 ∧ c ≠ 13 ∧ c ≠ 10 := by
  unfold DbfReceiverProcessCh
  rw [hst]
  simp only [DBF_BEGIN_CODEID, DBF_END_CODEID, enterInitialState,
    enterReceivingBinaryMessageState, enterReceivingNoiseState]
  split_ifs <;> simp [hst, storeByte_state] <;> omega

set_option maxRecDepth 100000 in
/-- C31. A TAB inside a text line triggers noise mode: after the byte `a` the receiver is in
`DbfRcvReceivingTxtState`, and `DbfReceiverProcessCh` of TAB (0x09) moves it to
`DbfRcvIgnoreInputState`, although TAB as first byte starts a text line.  In
`DbfRcvInitialState` the receiver goes to `DbfRcvIgnoreInputState` exactly for the bytes
outside 0x20..0x7E other than BEGIN, END, CR, LF and TAB; in `DbfRcvReceivingTxtState`
exactly for the bytes outside 0x20..0x7E other than BEGIN, END, CR and LF. -/
theorem C31_tab_in_text_line_is_noise :
    (processAll zeroReceiver [(97, 0)]).2.receiverState = DbfRcvReceivingTxtState ∧
    (DbfReceiverProcessCh 1 (processAll zeroReceiver [(97, 0)]).2 9).2.receiverState
      = DbfRcvIgnoreInputState ∧
    (DbfReceiverProcessCh 0 zeroReceiver 9).2.receiverState = DbfRcvReceivingTxtState ∧
    (∀ (now : Int) (r : DbfReceiver) (c : Nat), r.receiverState = DbfRcvInitialState →
      ((DbfReceiverProcessCh now r c).2.receiverState = DbfRcvIgnoreInputState ↔
        ¬ (32 ≤ c ∧ c ≤ 126) ∧ c ≠ 0 ∧ c ≠ 1 ∧ c ≠ 13 ∧ c ≠ 10 ∧ c ≠ 9)) ∧
    (∀ (now : Int) (r : DbfReceiver) (c : Nat), r.receiverState = DbfRcvReceivingTxtState →
      ((DbfReceiverProcessCh now r c).2.receiverState = DbfRcvIgnoreInputState ↔
        ¬ (32 ≤ c ∧ c ≤ 126) ∧ c ≠ 0 ∧ c ≠ 1 ∧ c ≠ 13 ∧ c ≠ 10)) :=
  ⟨by decide, by decide, by decide, processCh_initial_noise_iff, processCh_txt_noise_iff⟩

/-! ## Classification -/

set_option maxRecDepth 100000 in
theorem getCodeType_table (b : Nat) (hb : b < 256) : codeTypeTable.getD b DbfNct = getCodeType b := by
  have h : ∀ c : Fin 256, codeTypeTable.getD c.val DbfNct = getCodeType c.val := by decide
  exact h ⟨b, hb⟩

/-- C34. Classify: for every byte value `b` in 0..255 the 256-entry table `codeTypeTable` and
the comparison chain `getCodeType` give the same class, and that class is EXT exactly for
`b ≥ 0x80`, PINT for 0x40..0x7F, NINT for 0x20..0x3F, FMTCRC for 0x10..0x1F, REP for
0x08..0x0F and none (`DbfNct`) for 0x00..0x07. -/
theorem C34_classify (b : Nat) (hb : b < 256) :
    codeTypeTable.getD b DbfNct = getCodeType b ∧
    GET_CODE_TYPE b = getCodeType b ∧
    (getCodeType b = DbfExt ↔ 0x80 ≤ b) ∧
    (getCodeType b = DbfPnc ↔ 0x40 ≤ b ∧ b ≤ 0x7F) ∧
    (getCodeType b = DbfNnc ↔ 0x20 ≤ b ∧ b ≤ 0x3F) ∧
    (getCodeType b = DbfFoC ↔ 0x10 ≤ b ∧ b ≤ 0x1F) ∧
    (getCodeType b = DbfRcc ↔ 0x08 ≤ b ∧ b ≤ 0x0F) ∧
    (getCodeType b = DbfNct ↔ b ≤ 0x07) := by
  refine ⟨getCodeType_table b hb, getCodeType_table b hb, ?_, ?_, ?_, ?_, ?_, ?_⟩ <;>
    unfold getCodeType <;> split_ifs <;> simp <;> omega

theorem C34_classify_witness :
    codeTypeTable.getD 0x45 DbfNct = getCodeType 0x45 ∧
    GET_CODE_TYPE 0x45 = getCodeType 0x45 ∧
    (getCodeType 0x45 = DbfExt ↔ 0x80 ≤ 0x45) ∧
    (getCodeType 0x45 = DbfPnc ↔ 0x40 ≤ 0x45 ∧ 0x45 ≤ 0x7F) ∧
    (getCodeType 0x45 = DbfNnc ↔ 0x20 ≤ 0x45 ∧ 0x45 ≤ 0x3F) ∧
    (getCodeType 0x45 = DbfFoC ↔ 0x10 ≤ 0x45 ∧ 0x45 ≤ 0x1F) ∧
    (getCodeType 0x45 = DbfRcc ↔ 0x08 ≤ 0x45 ∧ 0x45 ≤ 0x0F) ∧
    (getCodeType 0x45 = DbfNct ↔ 0x45 ≤ 0x07) :=
  C34_classify 0x45 (by decide)

/-! ## Evaluations -/

/-- C35. In binary mode `DbfSerializerWriteWord` does not stop at the end of the leading
word: for the C string `a b` the word length is 1 and the ASCII serializer writes `a`, but
the binary serializer writes the codes of all three characters (`11 61 3F 62`), which
`DbfUnserializerRead` gives back as `a b`, with the space.  For ` a`, whose leading word is
empty, the string form is used (`12`) but the codes of both characters follow, not an empty
string. -/
theorem C35_binary_word_ignores_word_length :
    word_length [97, 32, 98] = 1 ∧
    (DbfSerializerFinalize
      (DbfSerializerWriteWord (DbfSerializerInitAscii zeroSerializer) [97, 32, 98])).buffer
      = [97] ∧
    (DbfSerializerFinalize
      (DbfSerializerWriteWord (DbfSerializerInit zeroSerializer) [97, 32, 98])).buffer
      = [0x11, 0x61, 0x3F, 0x62] ∧
    (DbfUnserializerRead (DbfUnserializerInitNoCRC zeroUnserializer [0x11, 0x61, 0x3F, 0x62] 4)
      [0, 0, 0, 0, 0, 0, 0, 0] 8).1 = 3 ∧
    (DbfUnserializerRead (DbfUnserializerInitNoCRC zeroUnserializer [0x11, 0x61, 0x3F, 0x62] 4)
      [0, 0, 0, 0, 0, 0, 0, 0] 8).2.1 = [97, 32, 98, 0, 0, 0, 0, 0] ∧
    word_length [32, 97] = 0 ∧
    (DbfSerializerFinalize
      (DbfSerializerWriteWord (DbfSerializerInit zeroSerializer) [32, 97])).buffer
      = [0x12, 0x3F, 0x61] := by
  decide

/-- C36. A repetition can be pending with no code for it in the buffer: after
`DbfSerializerInit` and `DbfSerializerWriteInt64(0)` the counter is 1 and the buffer is
empty, so `DbfSerializerFinalize` starts the message with a REP code (`09`); and after
`DbfSerializerWriteInt64(5)` and `DbfSerializerWriteWord("E")` the counter is 1 while the
last code in the buffer is the format code, so the flushed REP code follows a format
switch (`45 11 09`). -/
theorem C36_pending_repetition_without_code :
    (DbfSerializerWriteInt64 (DbfSerializerInit zeroSerializer) 0).repeat_counter = 1 ∧
    (DbfSerializerWriteInt64 (DbfSerializerInit zeroSerializer) 0).buffer = [] ∧
    (DbfSerializerFinalize
      (DbfSerializerWriteInt64 (DbfSerializerInit zeroSerializer) 0)).buffer = [0x09] ∧
    (DbfSerializerWriteWord
      (DbfSerializerWriteInt64 (DbfSerializerInit zeroSerializer) 5) [69]).repeat_counter = 1 ∧
    (DbfSerializerWriteWord
      (DbfSerializerWriteInt64 (DbfSerializerInit zeroSerializer) 5) [69]).prev_code = 5 ∧
    (DbfSerializerWriteWord
      (DbfSerializerWriteInt64 (DbfSerializerInit zeroSerializer) 5) [69]).buffer
      = [0x45, 0x11] ∧
    (DbfSerializerFinalize (DbfSerializerWriteWord
      (DbfSerializerWriteInt64 (DbfSerializerInit zeroSerializer) 5) [69])).buffer
      = [0x45, 0x11, 0x09] := by
  decide

/-- C38. In `DbfNextIsWordState` none of the three classification functions returns
non-zero: for the message `11 48` (the word `H`) the decoder is in `DbfNextIsWordState`,
`DbfUnserializerReadIsNextInt`, `DbfUnserializerReadIsNextString` and
`DbfUnserializerReadIsNextEnd` all return 0, and `DbfUnserializerRead` reads the word.  In
each of the other six states exactly one of the three returns non-zero. -/
theorem C38_word_state_is_not_classified :
    (DbfUnserializerInitNoCRC zeroUnserializer [0x11, 0x48] 2).decodeState
      = DbfNextIsWordState ∧
    DbfUnserializerReadIsNextInt (DbfUnserializerInitNoCRC zeroUnserializer [0x11, 0x48] 2)
      = 0 ∧
    DbfUnserializerReadIsNextString (DbfUnserializerInitNoCRC zeroUnserializer [0x11, 0x48] 2)
      = 0 ∧
    DbfUnserializerReadIsNextEnd (DbfUnserializerInitNoCRC zeroUnserializer [0x11, 0x48] 2)
      = 0 ∧
    (DbfUnserializerRead (DbfUnserializerInitNoCRC zeroUnserializer [0x11, 0x48] 2)
      [0, 0, 0, 0] 4).1 = 1 ∧
    (DbfUnserializerRead (DbfUnserializerInitNoCRC zeroUnserializer [0x11, 0x48] 2)
      [0, 0, 0, 0] 4).2.1 = [0x48, 0, 0, 0] ∧
    (∀ u : DbfUnserializer, u.decodeState = DbfAsciiWordState →
      DbfUnserializerReadIsNextString u = 1) ∧
    (∀ u : DbfUnserializer,
      u.decodeState = DbfNextIsIntegerState ∨ u.decodeState = DbfAsciiNumberState →
      DbfUnserializerReadIsNextInt u = 1 ∧ DbfUnserializerReadIsNextString u = 0 ∧
        DbfUnserializerReadIsNextEnd u = 0) ∧
    (∀ u : DbfUnserializer,
      u.decodeState = DbfNextIsStringState ∨ u.decodeState = DbfAsciiWordState ∨
        u.decodeState = DbfAsciiStringState →
      DbfUnserializerReadIsNextInt u = 0 ∧ DbfUnserializerReadIsNextString u = 1 ∧
        DbfUnserializerReadIsNextEnd u = 0) ∧
    (∀ u : DbfUnserializer, u.decodeState = DbfEndOfMsgState →
      DbfUnserializerReadIsNextInt u = 0 ∧ DbfUnserializerReadIsNextString u = 0 ∧
        DbfUnserializerReadIsNextEnd u = 1) := by
  refine ⟨by decide, by decide, by decide, by decide, by decide, by decide, ?_, ?_, ?_, ?_⟩
  · intro u h
    simp [DbfUnserializerReadIsNextString, h]
  · intro u h
    rcases h with h | h <;>
      simp [DbfUnserializerReadIsNextInt, DbfUnserializerReadIsNextString,
        DbfUnserializerReadIsNextEnd, h]
  · intro u h
    rcases h with h | h | h <;>
      simp [DbfUnserializerReadIsNextInt, DbfUnserializerReadIsNextString,
        DbfUnserializerReadIsNextEnd, h]
  · intro u h
    simp [DbfUnserializerReadIsNextInt, DbfUnserializerReadIsNextString,
      DbfUnserializerReadIsNextEnd, h]

/-! ## Termination of the copy loop -/

/-- Copying a word whose next byte is not a code the copy knows (`00`): the call of
`DbfUnserializerToSerializer` consumes nothing and leaves the decoder state as it is. -/
theorem toSerializer_unknown_code_stuck (s : DbfSerializer) :
    (DbfUnserializerToSerializer ⟨[0x11, 0x00], 2, DbfNextIsWordState, 1, 0, 0⟩ s).2.1
      = ⟨[0x11, 0x00], 2, DbfNextIsWordState, 1, 0, 0⟩ := by
  rfl

theorem toSerializerAll_unknown_code_loops : ∀ (fuel : Nat) (s : DbfSerializer) (n : Int),
    toSerializerAllLoop fuel ⟨[0x11, 0x00], 2, DbfNextIsWordState, 1, 0, 0⟩ s n = none := by
  intro fuel
  induction fuel with
  | zero => intro s n; rfl
  | succ k ih =>
    intro s n
    unfold toSerializerAllLoop
    rw [if_pos (by decide)]
    simp only [toSerializer_unknown_code_stuck]
    exact ih _ _

/-- C40. `DbfUnserializerToSerializerAll` does not return on the ASCII text `-1`, which is
what the ASCII serializer writes for the integer -1: every call of
`DbfUnserializerToSerializer` leaves `readPos`, `repeat_counter` and the decoder state
(`DbfAsciiNumberState`) as they are, so the loop has not ended after any number of rounds,
whatever the destination serializer.  The same holds for the binary buffer `11 00`. -/
theorem C40_copy_loop_does_not_end :
    (DbfSerializerFinalize
      (DbfSerializerWriteInt64 (DbfSerializerInitAscii zeroSerializer) (-1))).buffer
      = [45, 49] ∧
    (DbfUnserializerInitAscii zeroUnserializer [45, 49] 2).2
      = ⟨[45, 49], 2, DbfAsciiNumberState, 0, 0, 0⟩ ∧
    (∀ s : DbfSerializer,
      (DbfUnserializerToSerializer (DbfUnserializerInitAscii zeroUnserializer [45, 49] 2).2 s).2.1
        = (DbfUnserializerInitAscii zeroUnserializer [45, 49] 2).2) ∧
    (∀ (fuel : Nat) (s : DbfSerializer),
      DbfUnserializerToSerializerAll fuel
        (DbfUnserializerInitAscii zeroUnserializer [45, 49] 2).2 s = none) ∧
    DbfUnserializerInitNoCRC zeroUnserializer [0x11, 0x00] 2
      = ⟨[0x11, 0x00], 2, DbfNextIsWordState, 1, 0, 0⟩ ∧
    (∀ (fuel : Nat) (s : DbfSerializer),
      DbfUnserializerToSerializerAll fuel
        (DbfUnserializerInitNoCRC zeroUnserializer [0x11, 0x00] 2) s = none) := by
  refine ⟨by decide, by decide, ?_, ?_, by decide, ?_⟩
  · intro s
    exact toSerializer_minus_one_stuck s
  · intro fuel s
    exact toSerializerAll_minus_one_loops fuel s 0
  · intro fuel s
    exact toSerializerAll_unknown_code_loops fuel s 0

/-! ## A run of EXT sub-codes at the start of the buffer -/

theorem findNextCodeLoop_spec (u : DbfUnserializer) : ∀ (fuel idx : Nat), idx < u.msgSize →
    u.msgSize - idx ≤ fuel →
    idx < findNextCodeLoop fuel u idx ∧ findNextCodeLoop fuel u idx ≤ u.msgSize ∧
    (∀ k, idx < k → k < findNextCodeLoop fuel u idx →
      (u.byteAt k &&& DBF_EXT_CODEMASK) = DBF_EXT_CODEID) ∧
    (findNextCodeLoop fuel u idx < u.msgSize →
      ¬ (u.byteAt (findNextCodeLoop fuel u idx) &&& DBF_EXT_CODEMASK) = DBF_EXT_CODEID) := by
  intro fuel
  induction fuel with
  | zero => intro idx h1 h2; omega
  | succ fuel ih =>
    intro idx h1 h2
    unfold findNextCodeLoop
    simp only
    by_cases hend : idx + 1 ≥ u.msgSize
    · rw [if_pos hend]
      exact ⟨by omega, by omega, fun k hk1 hk2 => by omega, fun h => by omega⟩
    · rw [if_neg hend]
      by_cases hext : (u.byteAt (idx + 1) &&& DBF_EXT_CODEMASK) = DBF_EXT_CODEID
      · rw [if_pos hext]
        obtain ⟨a, b, c, d⟩ := ih (idx + 1) (by omega) (by omega)
        refine ⟨by omega, b, ?_, d⟩
        intro k hk1 hk2
        by_cases hk : k = idx + 1
        · rw [hk]; exact hext
        · exact c k (by omega) hk2
      · rw [if_neg hext]
        exact ⟨by omega, by omega, fun k hk1 hk2 => by omega, fun _ => hext⟩

theorem findBeginOfCode_back (u : DbfUnserializer) (i : Nat)
    (hi : ¬ (u.byteAt i &&& DBF_EXT_CODEMASK) = DBF_EXT_CODEID) : ∀ (j : Nat), i < j →
    (∀ k, i < k → k < j → (u.byteAt k &&& DBF_EXT_CODEMASK) = DBF_EXT_CODEID) →
    DbfUnserializerFindBeginOfCode u j = i := by
  intro j
  induction j with
  | zero => intro h; omega
  | succ j ih =>
    intro hij hext
    unfold DbfUnserializerFindBeginOfCode
    by_cases hj : j = i
    · rw [hj, if_neg hi]
    · rw [if_pos (hext j (by omega) (by omega))]
      exact ih (by omega) (fun k hk1 hk2 => hext k hk1 (by omega))

theorem byteAt_lt (u : DbfUnserializer) (hbytes : ∀ b ∈ u.msgPtr, b < 256) (k : Nat) :
    u.byteAt k < 256 := by
  unfold DbfUnserializer.byteAt
  rw [List.getD_eq_getElem?_getD]
  cases h : u.msgPtr[k]? with
  | none => simp
  | some b =>
    simp only [Option.getD_some]
    exact hbytes b (List.getElem?_mem h)

theorem ext_type_iff (b : Nat) (hb : b < 256) :
    (b &&& DBF_EXT_CODEMASK) = DBF_EXT_CODEID ↔ GET_CODE_TYPE b = DbfExt := by
  rw [ext_mask_iff b hb, get_code_type_eq b hb]
  split_ifs <;> simp <;> omega

/-- C33. Forward and backward scans agree: for every buffer of bytes and every index
`i < msgSize` holding a non-EXT byte, `j = DbfUnserializerFindNextCode(i)` satisfies
`i < j ≤ msgSize`, every byte strictly between `i` and `j` is an EXT sub-code, the byte at
`j` (when `j < msgSize`) is not EXT, and `DbfUnserializerFindBeginOfCode(j) = i`. -/
theorem C33_scans_agree (u : DbfUnserializer) (i : Nat) (hbytes : ∀ b ∈ u.msgPtr, b < 256)
    (hi : i < u.msgSize) (hstart : GET_CODE_TYPE (u.byteAt i) ≠ DbfExt) :
    i < DbfUnserializerFindNextCode u i ∧ DbfUnserializerFindNextCode u i ≤ u.msgSize ∧
    (∀ k, i < k → k < DbfUnserializerFindNextCode u i →
      GET_CODE_TYPE (u.byteAt k) = DbfExt) ∧
    (DbfUnserializerFindNextCode u i < u.msgSize →
      GET_CODE_TYPE (u.byteAt (DbfUnserializerFindNextCode u i)) ≠ DbfExt) ∧
    DbfUnserializerFindBeginOfCode u (DbfUnserializerFindNextCode u i) = i := by
  have h := findNextCodeLoop_spec u (u.msgSize - i + 1) i hi (by omega)
  have hmask : ∀ k, (u.byteAt k &&& DBF_EXT_CODEMASK) = DBF_EXT_CODEID ↔
      GET_CODE_TYPE (u.byteAt k) = DbfExt := fun k => ext_type_iff _ (byteAt_lt u hbytes k)
  unfold DbfUnserializerFindNextCode
  refine ⟨h.1, h.2.1, fun k hk1 hk2 => (hmask k).1 (h.2.2.1 k hk1 hk2),
    fun hlt hc => h.2.2.2 hlt ((hmask _).2 hc), ?_⟩
  exact findBeginOfCode_back u i (fun hc => hstart ((hmask i).1 hc)) _ h.1 h.2.2.1

theorem C33_scans_agree_witness :
    1 < DbfUnserializerFindNextCode ⟨[0x45, 0x46, 0x81, 0x82, 0x47], 5, DbfNextIsIntegerState,
        0, 0, 0⟩ 1 ∧
    DbfUnserializerFindNextCode ⟨[0x45, 0x46, 0x81, 0x82, 0x47], 5, DbfNextIsIntegerState,
        0, 0, 0⟩ 1
      ≤ (⟨[0x45, 0x46, 0x81, 0x82, 0x47], 5, DbfNextIsIntegerState, 0, 0, 0⟩
          : DbfUnserializer).msgSize ∧
    (∀ k, 1 < k →
      k < DbfUnserializerFindNextCode ⟨[0x45, 0x46, 0x81, 0x82, 0x47], 5,
        DbfNextIsIntegerState, 0, 0, 0⟩ 1 →
      GET_CODE_TYPE ((⟨[0x45, 0x46, 0x81, 0x82, 0x47], 5, DbfNextIsIntegerState, 0, 0, 0⟩
          : DbfUnserializer).byteAt k) = DbfExt) ∧
    (DbfUnserializerFindNextCode ⟨[0x45, 0x46, 0x81, 0x82, 0x47], 5, DbfNextIsIntegerState,
        0, 0, 0⟩ 1
      < (⟨[0x45, 0x46, 0x81, 0x82, 0x47], 5, DbfNextIsIntegerState, 0, 0, 0⟩
          : DbfUnserializer).msgSize →
      GET_CODE_TYPE ((⟨[0x45, 0x46, 0x81, 0x82, 0x47], 5, DbfNextIsIntegerState, 0, 0, 0⟩
          : DbfUnserializer).byteAt
        (DbfUnserializerFindNextCode ⟨[0x45, 0x46, 0x81, 0x82, 0x47], 5,
          DbfNextIsIntegerState, 0, 0, 0⟩ 1)) ≠ DbfExt) ∧
    DbfUnserializerFindBeginOfCode ⟨[0x45, 0x46, 0x81, 0x82, 0x47], 5, DbfNextIsIntegerState,
        0, 0, 0⟩
      (DbfUnserializerFindNextCode ⟨[0x45, 0x46, 0x81, 0x82, 0x47], 5, DbfNextIsIntegerState,
        0, 0, 0⟩ 1) = 1 :=
  C33_scans_agree ⟨[0x45, 0x46, 0x81, 0x82, 0x47], 5, DbfNextIsIntegerState, 0, 0, 0⟩ 1
    (by decide) (by decide) (by decide)

/-! ## The bytes of a binary message -/

theorem bytes_Encode {code nofb : Nat} {t : DbfCodeTypesEnum} (hclass : isValueClass code nofb t)
    (v : Nat) : ∀ b ∈ Encode code nofb v, 8 ≤ b ∧ b < 256 := by
  intro b hb
  rw [Encode_eq code nofb t hclass v] at hb
  rcases List.mem_cons.mp hb with h | h
  · have := encode_first_lt code nofb t hclass v
    rw [h]; omega
  · have := extSlabs_bytes _ b h
    omega

theorem bytes_repBytes (k : Nat) : ∀ b ∈ repBytes k, 8 ≤ b ∧ b < 256 := by
  unfold repBytes
  split
  · exact bytes_Encode isValueClass_rep _
  · intro b hb; cases hb

theorem bytes_numBytes (i : Int) : ∀ b ∈ numBytes i, 8 ≤ b ∧ b < 256 := by
  unfold numBytes
  split
  · exact bytes_Encode isValueClass_pint _
  · exact bytes_Encode isValueClass_nint _

theorem bytes_append (a l : List Nat) (ha : ∀ b ∈ a, 8 ≤ b ∧ b < 256)
    (hl : ∀ b ∈ l, 8 ≤ b ∧ b < 256) : ∀ b ∈ a ++ l, 8 ≤ b ∧ b < 256 := by
  intro b hb
  rcases List.mem_append.mp hb with h | h
  · exact ha b h
  · exact hl b h

theorem bytes_writeRepeat (s : DbfSerializer) (hk : s.repeat_counter < 2 ^ 64)
    (h : ∀ b ∈ s.buffer, 8 ≤ b ∧ b < 256) :
    ∀ b ∈ (DbfSerializerWriteRepeat s).buffer, 8 ≤ b ∧ b < 256 := by
  rw [(writeRepeat_fields s hk).1]
  exact bytes_append _ _ h (bytes_repBytes _)

theorem bytes_writeCode64 (s : DbfSerializer) (i : Int) (hk : s.repeat_counter < 2 ^ 64)
    (h : ∀ b ∈ s.buffer, 8 ≤ b ∧ b < 256) :
    ∀ b ∈ (DbfSerializerWriteCode64 s i).buffer, 8 ≤ b ∧ b < 256 := by
  by_cases hp : i = s.prev_code
  · rw [writeCode64_same s i hp]; exact h
  · rw [(writeCode64_diff s i hp hk).1]
    exact bytes_append _ _ (bytes_append _ _ h (bytes_repBytes _)) (bytes_numBytes _)

theorem bytes_afterFmt (s : DbfSerializer) (c : Nat) (st : encoder_states_type) (hc : c < 2 ^ 32)
    (hk : s.repeat_counter < 2 ^ 64) (h : ∀ b ∈ s.buffer, 8 ≤ b ∧ b < 256) :
    ∀ b ∈ (afterFmt s c st).buffer, 8 ≤ b ∧ b < 256 := by
  rw [(afterFmt_fields s c st hc hk).1]
  exact bytes_append _ _ (bytes_append _ _ h (bytes_repBytes _)) (bytes_Encode isValueClass_fmt _)

theorem bytes_writeCodes (str : List Nat) : ∀ (s : DbfSerializer), s.repeat_counter < 2 ^ 64 →
    (∀ b ∈ s.buffer, 8 ≤ b ∧ b < 256) →
    ∀ b ∈ (serializerWriteCodes s str).buffer, 8 ≤ b ∧ b < 256 := by
  induction str with
  | nil => intro s _ h; exact h
  | cons c rest ih =>
    intro s hk h
    unfold serializerWriteCodes
    split
    · exact h
    · exact ih _ (writeCode64_state s _ hk).2 (bytes_writeCode64 s _ hk h)

theorem bytes_writeItem (s : DbfSerializer) (it : Item) (hb : isBinary s)
    (hk : s.repeat_counter < 2 ^ 64) (h : ∀ b ∈ s.buffer, 8 ≤ b ∧ b < 256) :
    ∀ b ∈ (writeItem s it).buffer, 8 ≤ b ∧ b < 256 := by
  cases it with
  | int i =>
    rcases isBinary_cases s hb with hm | hm
    · simp only [writeItem]
      rw [writeInt64_int_mode s i hm]
      exact bytes_writeCode64 _ i hk h
    · simp only [writeItem]
      rw [writeInt64_str_mode s i hm]
      have hs := extends_afterFmt s DBF_INT_BEGIN_CODE DBF_ENCODING_INT (by decide) (Or.inl rfl) hk
      exact bytes_writeCode64 _ i hs.2.1 (bytes_afterFmt s _ _ (by decide) hk h)
  | word w =>
    rw [writeItem_chars s _ hb (by intro i; simp)]
    have hc : (Item.word w).fmt < 2 ^ 32 := by have := fmt_lt (Item.word w); norm_num; omega
    have hs := extends_afterFmt s (Item.word w).fmt DBF_ENCODING_WORD hc (Or.inr rfl) hk
    exact bytes_writeCodes _ _ hs.2.1 (bytes_afterFmt s _ _ hc hk h)
  | str w =>
    rw [writeItem_chars s _ hb (by intro i; simp)]
    have hc : (Item.str w).fmt < 2 ^ 32 := by have := fmt_lt (Item.str w); norm_num; omega
    have hs := extends_afterFmt s (Item.str w).fmt DBF_ENCODING_WORD hc (Or.inr rfl) hk
    exact bytes_writeCodes _ _ hs.2.1 (bytes_afterFmt s _ _ hc hk h)

/-- `DbfSerializerWriteCrc` in a binary state appends the flushed repetition and the code
of the checksum. -/
theorem writeCrc_fields (crc32_calculate : List Nat → Nat) (s : DbfSerializer)
    (hk : s.repeat_counter < 2 ^ 64) :
    (DbfSerializerWriteCrc crc32_calculate s).buffer
      = s.buffer ++ repBytes s.repeat_counter ++
        Encode DBF_FMTCRC_CODEID DBF_FMTCRC_DATANBITS
          (crc32_calculate (DbfSerializerWriteRepeat s).buffer % 4294967296) ∧
    (DbfSerializerWriteCrc crc32_calculate s).repeat_counter = 0 ∧
    (DbfSerializerWriteCrc crc32_calculate s).encoderState = s.encoderState := by
  have h := writeRepeat_fields s hk
  unfold DbfSerializerWriteCrc
  simp only
  have he := encodeData32_step2_eq (DbfSerializerWriteRepeat s) isValueClass_fmt
    (crc32_calculate (DbfSerializerWriteRepeat s).buffer % 4294967296)
    (Nat.mod_lt _ (by norm_num))
  rw [he]
  simp only
  exact ⟨by rw [h.1], h.2.2.1, h.2.2.2⟩

/-- Every call keeps the serializer in a binary state with a valid counter, appends whole
codes, and writes no byte below 0x08. -/
theorem payload_applyWriteCall (crc32_calculate : List Nat → Nat) (s : DbfSerializer)
    (c : WriteCall) (hb : isBinary s) (hk : s.repeat_counter < 2 ^ 64)
    (hs : startsWithCode s.buffer) (h : ∀ b ∈ s.buffer, 8 ≤ b ∧ b < 256) :
    isBinary (applyWriteCall crc32_calculate s c) ∧
    (applyWriteCall crc32_calculate s c).repeat_counter < 2 ^ 64 ∧
    startsWithCode (applyWriteCall crc32_calculate s c).buffer ∧
    ∀ b ∈ (applyWriteCall crc32_calculate s c).buffer, 8 ≤ b ∧ b < 256 := by
  have hitem : ∀ it : Item, isBinary (writeItem s it) ∧ (writeItem s it).repeat_counter < 2 ^ 64 ∧
      startsWithCode (writeItem s it).buffer ∧
      ∀ b ∈ (writeItem s it).buffer, 8 ≤ b ∧ b < 256 := by
    intro it
    obtain ⟨h1, h2, tail, h3, h4⟩ := extends_writeItem s it hb hk
    exact ⟨h1, h2, by rw [h3]; exact startsWithCode_append _ _ hs h4, bytes_writeItem s it hb hk h⟩
  cases c with
  | int64 i => exact hitem (Item.int i)
  | int32 i => exact hitem (Item.int i)
  | word w => exact hitem (Item.word w)
  | str w => exact hitem (Item.str w)
  | crc =>
    have hf := writeCrc_fields crc32_calculate s hk
    refine ⟨?_, ?_, ?_, ?_⟩
    · unfold isBinary at hb ⊢
      simp only [applyWriteCall]
      rw [hf.2.2]; exact hb
    · simp only [applyWriteCall]
      rw [hf.2.1]; norm_num
    · simp only [applyWriteCall]
      rw [hf.1]
      exact startsWithCode_append _ _ (startsWithCode_append _ _ hs (startsWithCode_repBytes _))
        (startsWithCode_Encode isValueClass_fmt _)
    · simp only [applyWriteCall]
      rw [hf.1]
      exact bytes_append _ _ (bytes_append _ _ h (bytes_repBytes _))
        (bytes_Encode isValueClass_fmt _)
  | finalize =>
    obtain ⟨h1, h2, tail, h3, h4⟩ := extends_writeRepeat s hb hk
    simp only [applyWriteCall]
    rw [finalize_binary s hb]
    exact ⟨h1, h2, by rw [h3]; exact startsWithCode_append _ _ hs h4, bytes_writeRepeat s hk h⟩

theorem payload_applyWriteCalls (crc32_calculate : List Nat → Nat) (calls : List WriteCall) :
    ∀ (s : DbfSerializer), isBinary s → s.repeat_counter < 2 ^ 64 → startsWithCode s.buffer →
    (∀ b ∈ s.buffer, 8 ≤ b ∧ b < 256) →
    startsWithCode (applyWriteCalls crc32_calculate s calls).buffer ∧
    ∀ b ∈ (applyWriteCalls crc32_calculate s calls).buffer, 8 ≤ b ∧ b < 256 := by
  induction calls with
  | nil => intro s _ _ hs h; exact ⟨hs, h⟩
  | cons c rest ih =>
    intro s hb hk hs h
    obtain ⟨h1, h2, h3, h4⟩ := payload_applyWriteCall crc32_calculate s c hb hk hs h
    exact ih _ h1 h2 h3 h4

/-- C39. Payload never collides with framing: for every checksum function, every sequence of
`DbfSerializerWriteInt64`, `DbfSerializerWriteInt32`, `DbfSerializerWriteWord`,
`DbfSerializerWriteString`, `DbfSerializerWriteCrc` and `DbfSerializerFinalize` calls on a
serializer initialised with `DbfSerializerInit`, every byte of the buffer is at least 0x08
(so none is BEGIN 0x00 or END 0x01) and the first byte is not an EXT sub-code. -/
theorem C39_payload_avoids_framing (crc32_calculate : List Nat → Nat) (s0 : DbfSerializer)
    (calls : List WriteCall) :
    (∀ b ∈ (applyWriteCalls crc32_calculate (DbfSerializerInit s0) calls).buffer,
      0x08 ≤ b ∧ b < 256 ∧ b ≠ DBF_BEGIN_CODEID ∧ b ≠ DBF_END_CODEID) ∧
    (∀ b, (applyWriteCalls crc32_calculate (DbfSerializerInit s0) calls).buffer.head? = some b →
      GET_CODE_TYPE b ≠ DbfExt) := by
  have h := payload_applyWriteCalls crc32_calculate calls (DbfSerializerInit s0)
    (by unfold isBinary; simp [DbfSerializerInit])
    (by simp [DbfSerializerInit, DbfSerializerInitBase])
    (by intro b hb; simp [DbfSerializerInit, DbfSerializerInitBase] at hb)
    (by intro b hb; simp [DbfSerializerInit, DbfSerializerInitBase] at hb)
  refine ⟨?_, ?_⟩
  · intro b hb
    have := h.2 b hb
    refine ⟨this.1, this.2, ?_, ?_⟩
    · simp only [DBF_BEGIN_CODEID]; omega
    · simp only [DBF_END_CODEID]; omega
  · intro b hb
    have h1 := h.1 b hb
    rw [get_code_type_eq b (by omega), if_neg (by omega)]
    split_ifs <;> simp

/-! ## The cursor of the unserializer -/

theorem decodeData64Loop_congr (u v : DbfUnserializer) (h : u.msgPtr = v.msgPtr) :
    ∀ (k acc : Nat), decodeData64Loop k u acc = decodeData64Loop k v acc := by
  intro k
  induction k with
  | zero => intro acc; rfl
  | succ k ih =>
    intro acc
    have hb : u.byteAt k = v.byteAt k := by unfold DbfUnserializer.byteAt; rw [h]
    unfold decodeData64Loop
    simp only [hb]
    cases GET_CODE_TYPE (v.byteAt k) <;> simp only []
    exact ih _

theorem findNextCodeLoop_congr (u v : DbfUnserializer) (h : u.msgPtr = v.msgPtr)
    (hs : u.msgSize = v.msgSize) :
    ∀ (fuel idx : Nat), findNextCodeLoop fuel u idx = findNextCodeLoop fuel v idx := by
  intro fuel
  induction fuel with
  | zero => intro idx; rfl
  | succ fuel ih =>
    intro idx
    have hb : u.byteAt (idx + 1) = v.byteAt (idx + 1) := by
      unfold DbfUnserializer.byteAt; rw [h]
    unfold findNextCodeLoop
    simp only [hb, hs, ih]

theorem take_next_code_congr (u v : DbfUnserializer) (h : u.msgPtr = v.msgPtr)
    (hs : u.msgSize = v.msgSize) :
    (take_next_code u).1
      = DbfUnserializerDecodeData64 v (DbfUnserializerFindNextCode v u.readPos) := by
  unfold take_next_code DbfUnserializerDecodeData64 DbfUnserializerFindNextCode
  simp only
  rw [findNextCodeLoop_congr u v h hs, hs, decodeData64Loop_congr u v h]

theorem takeSpecialLoop_inv (m : List Nat) (n : Nat) (hrep : repCountsNonZero m n) :
    ∀ (fuel : Nat) (u : DbfUnserializer), u.msgPtr = m → u.msgSize = n →
      isBinaryState u.decodeState → n - u.readPos < fuel →
      readInvariant m n (takeSpecialLoop fuel u) := by
  intro fuel
  induction fuel with
  | zero => intro u _ _ _ h; omega
  | succ fuel ih =>
    intro u hm hn hst hfuel
    rw [takeSpecialLoop]
    by_cases hrc : u.repeat_counter = 0
    · rw [if_pos hrc]
      by_cases hend : u.readPos ≥ u.msgSize
      · rw [if_pos hend]
        exact ⟨hm, hn, Or.inr (Or.inr (Or.inr rfl)), Or.inl rfl⟩
      · rw [if_neg hend]
        have hlt : u.readPos < u.msgSize := by omega
        cases hct : GET_CODE_TYPE (u.byteAt u.readPos) with
        | DbfNct =>
          simp only []
          exact ⟨hm, hn, hst, Or.inr (Or.inr ⟨hlt, Or.inr (Or.inr (Or.inl hct))⟩)⟩
        | DbfExt =>
          simp only []
          exact ⟨hm, hn, hst, Or.inr (Or.inr ⟨hlt, Or.inr (Or.inr (Or.inr hct))⟩)⟩
        | DbfPnc =>
          simp only []
          exact ⟨hm, hn, hst, Or.inr (Or.inr ⟨hlt, Or.inl hct⟩)⟩
        | DbfNnc =>
          simp only []
          exact ⟨hm, hn, hst, Or.inr (Or.inr ⟨hlt, Or.inr (Or.inl hct)⟩)⟩
        | DbfFoC =>
          simp only []
          have hgt := take_next_code_readPos_gt u
          have hf := take_next_code_fields u
          apply ih
          · simp only [hf.1, hm]
          · simp only [hf.2.1, hn]
          · simp only
            split_ifs
            · exact Or.inl rfl
            · exact Or.inr (Or.inr (Or.inl rfl))
            · exact Or.inr (Or.inl rfl)
            · exact Or.inr (Or.inr (Or.inr rfl))
          · simp only
            omega
        | DbfRcc =>
          simp only []
          have hf := take_next_code_fields u
          have hcanon := take_next_code_congr u ⟨m, n, DbfNextIsIntegerState, 0, 0, 0⟩ hm hn
          have hne := hrep u.readPos (by omega)
            (by
              have : m.getD u.readPos 0 = u.byteAt u.readPos := by
                unfold DbfUnserializer.byteAt; rw [hm]
              rw [this]; exact hct)
          rw [← hcanon] at hne
          refine ⟨by simp only [hf.1, hm], by simp only [hf.2.1, hn], ?_, Or.inr (Or.inl ?_)⟩
          · simp only [hf.2.2.1]; exact hst
          · simp only
            omega
        | DbfEom =>
          simp only []
          exact ⟨hm, hn, Or.inr (Or.inr (Or.inr rfl)), Or.inl rfl⟩
    · rw [if_neg hrc]
      exact ⟨hm, hn, hst, Or.inr (Or.inl (by omega))⟩

theorem takeSpecial_inv (m : List Nat) (n : Nat) (hrep : repCountsNonZero m n)
    (u : DbfUnserializer) (hm : u.msgPtr = m) (hn : u.msgSize = n)
    (hst : isBinaryState u.decodeState) : readInvariant m n (DbfUnserializerTakeSpecial u) := by
  unfold DbfUnserializerTakeSpecial
  exact takeSpecialLoop_inv m n hrep _ u hm hn hst (by omega)

theorem readInt64_inv (m : List Nat) (n : Nat) (hrep : repCountsNonZero m n)
    (u : DbfUnserializer) (h : readInvariant m n u) :
    readInvariant m n (DbfUnserializerReadInt64 u).2 := by
  obtain ⟨hm, hn, hst, hcur⟩ := h
  have hEnd : isBinaryState DbfEndOfMsgState := Or.inr (Or.inr (Or.inr rfl))
  unfold DbfUnserializerReadInt64
  rcases hst with hs | hs | hs | hs
  · rw [hs]
    simp only
    split_ifs
    · exact takeSpecial_inv m n hrep _ hm hn (Or.inl rfl)
    · have hf := take_next_code_fields u
      cases GET_CODE_TYPE (u.byteAt u.readPos) with
      | DbfPnc =>
        simp only []
        exact takeSpecial_inv m n hrep _ (by simp only [hf.1, hm]) (by simp only [hf.2.1, hn])
          (by simp only [hf.2.2.1]; exact Or.inl hs)
      | DbfNnc =>
        simp only []
        exact takeSpecial_inv m n hrep _ (by simp only [hf.1, hm]) (by simp only [hf.2.1, hn])
          (by simp only [hf.2.2.1]; exact Or.inl hs)
      | DbfNct => simp only []; exact takeSpecial_inv m n hrep _ hm hn hEnd
      | DbfExt => simp only []; exact takeSpecial_inv m n hrep _ hm hn hEnd
      | DbfFoC => simp only []; exact takeSpecial_inv m n hrep _ hm hn hEnd
      | DbfRcc => simp only []; exact takeSpecial_inv m n hrep _ hm hn hEnd
      | DbfEom => simp only []; exact takeSpecial_inv m n hrep _ hm hn hEnd
  · rw [hs]
    exact ⟨hm, hn, Or.inr (Or.inl hs), hcur⟩
  · rw [hs]
    exact ⟨hm, hn, Or.inr (Or.inr (Or.inl hs)), hcur⟩
  · rw [hs]
    exact ⟨hm, hn, Or.inr (Or.inr (Or.inr hs)), hcur⟩

theorem readCodesLoop_inv (m : List Nat) (n : Nat) (hrep : repCountsNonZero m n) :
    ∀ (fuel : Nat) (u : DbfUnserializer) (bufPtr : List Nat) (bufCap k : Nat),
      u.msgPtr = m → u.msgSize = n → isBinaryState u.decodeState →
      readInvariant m n (readCodesLoop fuel u bufPtr bufCap k).2.2 := by
  intro fuel
  induction fuel with
  | zero =>
    intro u bufPtr bufCap k hm hn hst
    exact takeSpecial_inv m n hrep u hm hn hst
  | succ fuel ih =>
    intro u bufPtr bufCap k hm hn hst
    rw [readCodesLoop]
    split_ifs
    · have hf := take_next_code_fields u
      cases DbfUnserializerGetNextType u u.readPos with
      | DbfPnc =>
        simp only []
        exact ih _ _ _ _ (by simp only [hf.1, hm]) (by simp only [hf.2.1, hn])
          (by simp only [hf.2.2.1]; exact hst)
      | DbfNnc =>
        simp only []
        exact ih _ _ _ _ (by simp only [hf.1, hm]) (by simp only [hf.2.1, hn])
          (by simp only [hf.2.2.1]; exact hst)
      | DbfRcc =>
        simp only []
        exact ih _ _ _ _ (by simp only [hf.1, hm]) (by simp only [hf.2.1, hn])
          (by simp only [hf.2.2.1]; exact hst)
      | DbfEom =>
        simp only []
        exact ⟨hm, hn, Or.inr (Or.inr (Or.inr rfl)), Or.inl rfl⟩
      | DbfNct => simp only []; exact takeSpecial_inv m n hrep u hm hn hst
      | DbfExt => simp only []; exact takeSpecial_inv m n hrep u hm hn hst
      | DbfFoC => simp only []; exact takeSpecial_inv m n hrep u hm hn hst
    · exact takeSpecial_inv m n hrep u hm hn hst

theorem read_inv (m : List Nat) (n : Nat) (hrep : repCountsNonZero m n)
    (u : DbfUnserializer) (bufPtr : List Nat) (bufCap : Nat) (h : readInvariant m n u) :
    readInvariant m n (DbfUnserializerRead u bufPtr bufCap).2.2 := by
  obtain ⟨hm, hn, hst, hcur⟩ := h
  unfold DbfUnserializerRead
  rcases hst with hs | hs | hs | hs
  · rw [hs]
    exact ⟨hm, hn, Or.inl hs, hcur⟩
  · rw [hs]
    exact readCodesLoop_inv m n hrep _ u _ _ _ hm hn (Or.inr (Or.inl hs))
  · rw [hs]
    exact readCodesLoop_inv m n hrep _ u _ _ _ hm hn (Or.inr (Or.inr (Or.inl hs)))
  · rw [hs]
    exact ⟨hm, hn, Or.inr (Or.inr (Or.inr hs)), hcur⟩

theorem applyReadCalls_inv (m : List Nat) (n : Nat) (hrep : repCountsNonZero m n)
    (calls : List ReadCall) : ∀ (u : DbfUnserializer), readInvariant m n u →
    readInvariant m n (applyReadCalls u calls) := by
  induction calls with
  | nil => intro u h; exact h
  | cons c rest ih =>
    intro u h
    have hstep : readInvariant m n (applyReadCall u c) := by
      cases c with
      | readInt64 => exact readInt64_inv m n hrep u h
      | read bufPtr bufCap => exact read_inv m n hrep u bufPtr bufCap h
    exact ih _ hstep

theorem initNoCRC_inv (m : List Nat) (n : Nat) (hrep : repCountsNonZero m n)
    (u0 : DbfUnserializer) : readInvariant m n (DbfUnserializerInitNoCRC u0 m n) := by
  unfold DbfUnserializerInitNoCRC
  exact takeSpecial_inv m n hrep _ rfl rfl (Or.inl rfl)

/-- C37 (counterexample). For the buffer `80`, a single EXT sub-code, the decoder after
`DbfUnserializerInitNoCRC` is in `DbfNextIsIntegerState` with `repeat_counter = 0` and the
byte at `readPos` is not a PINT or NINT start sub-code; and for the buffer `08`, a REP code
with count 0, it is in `DbfNextIsIntegerState` with `repeat_counter = 0` and
`readPos = msgSize`, the case the assertion of `DbfUnserializerReadIsNextEnd` excludes. -/
theorem C37_cursor_at_unknown_code_counterexample :
    (DbfUnserializerInitNoCRC zeroUnserializer [0x80] 1).decodeState = DbfNextIsIntegerState ∧
    (DbfUnserializerInitNoCRC zeroUnserializer [0x80] 1).repeat_counter = 0 ∧
    (DbfUnserializerInitNoCRC zeroUnserializer [0x80] 1).readPos = 0 ∧
    GET_CODE_TYPE ((DbfUnserializerInitNoCRC zeroUnserializer [0x80] 1).byteAt 0) = DbfExt ∧
    (DbfUnserializerInitNoCRC zeroUnserializer [0x08] 1).decodeState = DbfNextIsIntegerState ∧
    (DbfUnserializerInitNoCRC zeroUnserializer [0x08] 1).repeat_counter = 0 ∧
    (DbfUnserializerInitNoCRC zeroUnserializer [0x08] 1).readPos = 1 ∧
    (DbfUnserializerInitNoCRC zeroUnserializer [0x08] 1).msgSize = 1 := by
  decide

/-- C37 (amended). Unserializer cursor invariant: for every byte buffer in which every REP
code carries a non-zero count, after `DbfUnserializerInitNoCRC` and after every subsequent
`DbfUnserializerReadInt64` or `DbfUnserializerRead`, whenever `decodeState` is not
`DbfEndOfMsgState` either `repeat_counter > 0` or `readPos < msgSize` with the byte at
`readPos` being a PINT/NINT start sub-code or a byte that is no code start (0x00..0x07 or
an EXT sub-code), never a format or REP code; in particular the condition asserted in
`DbfUnserializerReadIsNextEnd` holds. -/
theorem C37_cursor_invariant (u0 : DbfUnserializer) (msg : List Nat) (calls : List ReadCall)
    (hrep : repCountsNonZero msg msg.length)
    (hst : (applyReadCalls (DbfUnserializerInitNoCRC u0 msg msg.length) calls).decodeState
      ≠ DbfEndOfMsgState) :
    ((applyReadCalls (DbfUnserializerInitNoCRC u0 msg msg.length) calls).repeat_counter > 0 ∨
      cursorAtCode (applyReadCalls (DbfUnserializerInitNoCRC u0 msg msg.length) calls)) ∧
    ¬ ((applyReadCalls (DbfUnserializerInitNoCRC u0 msg msg.length) calls).repeat_counter = 0 ∧
      (applyReadCalls (DbfUnserializerInitNoCRC u0 msg msg.length) calls).readPos
        ≥ (applyReadCalls (DbfUnserializerInitNoCRC u0 msg msg.length) calls).msgSize) ∧
    DbfUnserializerReadIsNextEnd
      (applyReadCalls (DbfUnserializerInitNoCRC u0 msg msg.length) calls) = 0 := by
  have h := applyReadCalls_inv msg msg.length hrep calls _
    (initNoCRC_inv msg msg.length hrep u0)
  obtain ⟨_, _, _, hcur⟩ := h
  have hc : (applyReadCalls (DbfUnserializerInitNoCRC u0 msg msg.length) calls).repeat_counter > 0 ∨
      cursorAtCode (applyReadCalls (DbfUnserializerInitNoCRC u0 msg msg.length) calls) := by
    rcases hcur with h1 | h1
    · exact absurd h1 hst
    · exact h1
  refine ⟨hc, ?_, ?_⟩
  · intro hbad
    rcases hc with h1 | h1
    · omega
    · have := h1.1
      omega
  · unfold DbfUnserializerReadIsNextEnd
    rw [if_neg hst]

theorem C37_cursor_invariant_witness :
    ((applyReadCalls
        (DbfUnserializerInitNoCRC zeroUnserializer [0x45, 0x09, 0x11, 0x48]
          ([0x45, 0x09, 0x11, 0x48] : List Nat).length)
        [ReadCall.readInt64]).repeat_counter > 0 ∨
      cursorAtCode (applyReadCalls
        (DbfUnserializerInitNoCRC zeroUnserializer [0x45, 0x09, 0x11, 0x48]
          ([0x45, 0x09, 0x11, 0x48] : List Nat).length)
        [ReadCall.readInt64])) ∧
    ¬ ((applyReadCalls
        (DbfUnserializerInitNoCRC zeroUnserializer [0x45, 0x09, 0x11, 0x48]
          ([0x45, 0x09, 0x11, 0x48] : List Nat).length)
        [ReadCall.readInt64]).repeat_counter = 0 ∧
      (applyReadCalls
        (DbfUnserializerInitNoCRC zeroUnserializer [0x45, 0x09, 0x11, 0x48]
          ([0x45, 0x09, 0x11, 0x48] : List Nat).length)
        [ReadCall.readInt64]).readPos
        ≥ (applyReadCalls
          (DbfUnserializerInitNoCRC zeroUnserializer [0x45, 0x09, 0x11, 0x48]
            ([0x45, 0x09, 0x11, 0x48] : List Nat).length)
          [ReadCall.readInt64]).msgSize) ∧
    DbfUnserializerReadIsNextEnd
      (applyReadCalls
        (DbfUnserializerInitNoCRC zeroUnserializer [0x45, 0x09, 0x11, 0x48]
          ([0x45, 0x09, 0x11, 0x48] : List Nat).length)
        [ReadCall.readInt64]) = 0 :=
  C37_cursor_invariant zeroUnserializer [0x45, 0x09, 0x11, 0x48] [ReadCall.readInt64]
    (by decide) (by decide)

/-- While `pos + len + 8` stays below 2^31 the doubling of the `unsigned int` capacity does
not wrap, and with a capacity of at least 1 the loop ends with room for `pos + len + 8`
bytes. -/
theorem writeGrow_capacity (fuel : Nat) : ∀ (s : DbfSerializer) (len : Nat),
    s.pos + len + 8 < 2 ^ 31 → s.capacity < 2 ^ 32 →
    s.pos + len + 8 < s.capacity * 2 ^ fuel →
    s.pos + len + 8 ≤ (serializerWriteGrow fuel s len).capacity ∧
    (serializerWriteGrow fuel s len).capacity < 2 ^ 32 := by
  induction fuel with
  | zero =>
    intro s len _ hc h
    rw [serializerWriteGrow]
    exact ⟨by simpa using Nat.le_of_lt h, hc⟩
  | succ fuel ih =>
    intro s len h31 hc h
    rw [serializerWriteGrow]
    split
    · rename_i hgt
      have hs : ({ s with capacity := s.capacity * 2 % 4294967296 } : DbfSerializer).pos = s.pos :=
        rfl
      have hw : s.capacity * 2 % 4294967296 = s.capacity * 2 :=
        Nat.mod_eq_of_lt (by norm_num at h31 ⊢; omega)
      have := ih { s with capacity := s.capacity * 2 % 4294967296 } len
        (by rw [hs]; exact h31) (by simp only; rw [hw]; norm_num at h31 ⊢; omega)
        (by rw [hs]; simp only; rw [hw]; rw [pow_succ] at h; nlinarith)
      rw [hs] at this
      exact this
    · exact ⟨by omega, hc⟩

/-- The bytes of `DbfSerializerWriteString` in ASCII mode, and the capacity the doubling
loop leaves. -/
theorem writeString_ascii (s : DbfSerializer) (str : List Nat)
    (hmode : s.encoderState = DBF_ENCODER_ASCII_MODE) (h7 : ∀ c ∈ str, 0 < c ∧ c < 128) :
    (DbfSerializerWriteString s str).buffer
      = s.buffer ++ (if s.pos ≠ 0 then [toByte s.prev_code] else []) ++ [34]
          ++ str.flatMap asciiRender ++ [34] ∧
    (DbfSerializerWriteString s str).encoderState = DBF_ENCODER_ASCII_MODE ∧
    (DbfSerializerWriteString s str).prev_code = s.prev_code ∧
    (DbfSerializerWriteString s str).repeat_counter = s.repeat_counter ∧
    (DbfSerializerWriteString s str).capacity
      = (serializerWriteGrow (s.pos + str.length + 8) s str.length).capacity := by
  have hlen := strlen_eq str (fun c hc => by have := h7 c hc; omega)
  unfold DbfSerializerWriteString serializerWrite
  rw [hmode]
  simp only [hlen, List.take_length]
  have hg := writeGrow_fields (s.pos + str.length + 8) s str.length
  generalize serializerWriteGrow (s.pos + str.length + 8) s str.length = s1 at hg ⊢
  have hpos : s1.pos = s.pos := by unfold DbfSerializer.pos; rw [hg.1]
  have h2 : (if s1.pos ≠ 0 then
        ({ s1 with buffer := s1.buffer ++ [toByte s1.prev_code] } : DbfSerializer) else s1).buffer
        = s.buffer ++ (if s.pos ≠ 0 then [toByte s.prev_code] else []) ∧
      (if s1.pos ≠ 0 then
        ({ s1 with buffer := s1.buffer ++ [toByte s1.prev_code] } : DbfSerializer) else s1).prev_code
        = s.prev_code ∧
      (if s1.pos ≠ 0 then
        ({ s1 with buffer := s1.buffer ++ [toByte s1.prev_code] } : DbfSerializer) else s1).encoderState
        = DBF_ENCODER_ASCII_MODE ∧
      (if s1.pos ≠ 0 then
        ({ s1 with buffer := s1.buffer ++ [toByte s1.prev_code] } : DbfSerializer) else s1).repeat_counter
        = s.repeat_counter ∧
      (if s1.pos ≠ 0 then
        ({ s1 with buffer := s1.buffer ++ [toByte s1.prev_code] } : DbfSerializer) else s1).capacity
        = s1.capacity := by
    rw [hpos]
    by_cases h0 : s.pos ≠ 0
    · simp only [if_pos h0, hg.1, hg.2.1, hg.2.2.1, hg.2.2.2, hmode]
      exact ⟨trivial, trivial, trivial, trivial, trivial⟩
    · simp only [if_neg h0, hg.1, hg.2.1, hg.2.2.1, hg.2.2.2, hmode, List.append_nil]
      exact ⟨trivial, trivial, trivial, trivial, trivial⟩
  generalize (if s1.pos ≠ 0 then
        ({ s1 with buffer := s1.buffer ++ [toByte s1.prev_code] } : DbfSerializer) else s1) = s2
    at h2 ⊢
  have he := writeEscaped_buffer str
    { buffer := s2.buffer ++ [34], capacity := s2.capacity, encoderState := s2.encoderState,
      prev_code := s2.prev_code, repeat_counter := s2.repeat_counter } (fun c hc => (h7 c hc).2)
  have hec := writeEscaped_capacity str
    { buffer := s2.buffer ++ [34], capacity := s2.capacity, encoderState := s2.encoderState,
      prev_code := s2.prev_code, repeat_counter := s2.repeat_counter }
  rw [if_neg (by decide)]
  simp only [if_true, he.1, he.2.1, he.2.2.1, he.2.2.2, hec]
  simp only [h2.1, h2.2.1, h2.2.2.1, h2.2.2.2.1, h2.2.2.2.2, List.append_assoc]
  exact ⟨trivial, trivial, trivial, trivial, trivial⟩

set_option maxRecDepth 100000 in
/-- C19. The rendering does not always fit the room `serializerWrite` makes for it: for
`DbfSerializerWriteString` of 64 bytes `07` on a fresh ASCII serializer the capacity loop
asks for `pos + len + 8 = 72` bytes, so the capacity stays 256, but the two quotes and the
64 escapes of four bytes take 258 bytes, so the last stores lie outside the allocation.
Whenever the stores stay inside it (`pos` after the call, where the terminating zero is
stored, is below the capacity, and `pos + len + 8` is below 2^31 so that the doubling of the
`unsigned int` capacity does not wrap), the bytes appended are, after the separator byte
`prev_code` when `pos != 0`, a `'"'`, then for each byte `c` of `str` either `c` itself when
it is printable (0x20..0x7E) and is neither `'"'` nor `'\\'`, or the four bytes `'\\'`,
`'x'` and the two hexadecimal digits of `c` otherwise, then a closing `'"'`. -/
theorem C19_rendering_overruns_allocation :
    (DbfSerializerInitAscii zeroSerializer).capacity = 256 ∧
    (DbfSerializerWriteString (DbfSerializerInitAscii zeroSerializer)
      (List.replicate 64 7)).capacity = 256 ∧
    (DbfSerializerWriteString (DbfSerializerInitAscii zeroSerializer)
      (List.replicate 64 7)).pos = 258 ∧
    (∀ (s : DbfSerializer) (str : List Nat), s.encoderState = DBF_ENCODER_ASCII_MODE →
      0 < s.capacity → s.capacity < 2 ^ 32 → (∀ c ∈ str, 0 < c ∧ c < 128) →
      s.pos + str.length + 8 < 2 ^ 31 →
      (DbfSerializerWriteString s str).pos < (DbfSerializerWriteString s str).capacity →
      (DbfSerializerWriteString s str).buffer
        = s.buffer ++ (if s.pos ≠ 0 then [toByte s.prev_code] else []) ++ [34]
            ++ str.flatMap asciiRender ++ [34] ∧
      (DbfSerializerWriteString s str).encoderState = DBF_ENCODER_ASCII_MODE ∧
      (DbfSerializerWriteString s str).prev_code = s.prev_code ∧
      (DbfSerializerWriteString s str).repeat_counter = s.repeat_counter ∧
      s.pos + str.length + 8 ≤ (DbfSerializerWriteString s str).capacity ∧
      (DbfSerializerWriteString s str).capacity < 2 ^ 32) ∧
    (DbfSerializerWriteString (DbfSerializerWriteInt64 (DbfSerializerInitAscii zeroSerializer) 5)
      [97, 34, 1, 126, 127]).buffer
      = [53, 32, 34, 97, 92, 120, 50, 50, 92, 120, 48, 49, 126, 92, 120, 55, 70, 34] ∧
    (DbfSerializerWriteString (DbfSerializerWriteInt64 (DbfSerializerInitAscii zeroSerializer) 5)
      [97, 34, 1, 126, 127]).capacity = 256 := by
  refine ⟨by decide, by decide, by decide, ?_, by decide, by decide⟩
  intro s str hmode hcap hc32 h7 h31 _
  have h := writeString_ascii s str hmode h7
  have hg := writeGrow_capacity (s.pos + str.length + 8) s str.length h31 hc32
    (by
      have h1 : s.pos + str.length + 8 < 2 ^ (s.pos + str.length + 8) := Nat.lt_two_pow _
      calc s.pos + str.length + 8 < 1 * 2 ^ (s.pos + str.length + 8) := by omega
        _ ≤ s.capacity * 2 ^ (s.pos + str.length + 8) := Nat.mul_le_mul_right _ hcap)
  refine ⟨h.1, h.2.1, h.2.2.1, h.2.2.2.1, ?_, ?_⟩
  · rw [h.2.2.2.2]; exact hg.1
  · rw [h.2.2.2.2]; exact hg.2

/-! ## The error state of the fixed-size build -/

theorem fixed_putByte_full (s : Fixed.DbfSerializer) (b : Nat)
    (hfull : ¬ s.pos < Fixed.DBF_FIXED_MSG_SIZE) :
    Fixed.DbfSerializerPutByte s b = { s with encoderState := DBF_ENCODER_ERROR } := by
  unfold Fixed.DbfSerializerPutByte
  rw [if_neg hfull]

theorem fixed_extLoop_full (fuel : Nat) : ∀ (s : Fixed.DbfSerializer) (data : Nat),
    ¬ s.pos < Fixed.DBF_FIXED_MSG_SIZE → s.encoderState = DBF_ENCODER_ERROR →
    Fixed.encodeExtLoop fuel s data = s := by
  induction fuel with
  | zero => intro s data _ _; rfl
  | succ fuel ih =>
    intro s data hfull herr
    rw [Fixed.encodeExtLoop]
    split
    · rw [fixed_putByte_full s _ hfull]
      have hs : ({ s with encoderState := DBF_ENCODER_ERROR } : Fixed.DbfSerializer) = s := by
        cases s; simp only at herr; subst herr; rfl
      rw [hs]
      exact ih s _ hfull herr
    · rfl

theorem fixed_step2_64_full (s : Fixed.DbfSerializer) (code nofb data : Nat)
    (hfull : ¬ s.pos < Fixed.DBF_FIXED_MSG_SIZE) :
    Fixed.DbfSerializerEncodeData64_step2 s code nofb data
      = { s with encoderState := DBF_ENCODER_ERROR } := by
  unfold Fixed.DbfSerializerEncodeData64_step2 Fixed.DbfSerializerResizeIfNeeded
  simp only
  rw [fixed_putByte_full s _ hfull]
  exact fixed_extLoop_full 10 _ _ hfull rfl

theorem fixed_step2_32_full (s : Fixed.DbfSerializer) (code nofb data : Nat)
    (hfull : ¬ s.pos < Fixed.DBF_FIXED_MSG_SIZE) :
    Fixed.DbfSerializerEncodeData32_step2 s code nofb data
      = { s with encoderState := DBF_ENCODER_ERROR } := by
  unfold Fixed.DbfSerializerEncodeData32_step2 Fixed.DbfSerializerResizeIfNeeded
  simp only
  rw [fixed_putByte_full s _ hfull]
  exact fixed_extLoop_full 10 _ _ hfull rfl

/-- On a full buffer `DbfSerializerWriteCrc` stores nothing, but it still clears a pending
repetition. -/
theorem fixed_writeCrc_full (crc32_calculate : List Nat → Nat) (s : Fixed.DbfSerializer)
    (hfull : ¬ s.pos < Fixed.DBF_FIXED_MSG_SIZE) (herr : s.encoderState = DBF_ENCODER_ERROR) :
    Fixed.DbfSerializerWriteCrc crc32_calculate s
      = if s.repeat_counter > 0 then { s with repeat_counter := 0, prev_code := 0 } else s := by
  have hs : ({ s with encoderState := DBF_ENCODER_ERROR } : Fixed.DbfSerializer) = s := by
    cases s; simp only at herr; subst herr; rfl
  unfold Fixed.DbfSerializerWriteCrc Fixed.DbfSerializerWriteRepeat
  by_cases hr : s.repeat_counter > 0
  · simp only [if_pos hr]
    rw [fixed_step2_64_full s _ _ _ hfull, hs]
    rw [fixed_step2_32_full _ _ _ _ (by exact hfull)]
    cases s; simp only at herr; subst herr; rfl
  · simp only [if_neg hr]
    rw [fixed_step2_32_full s _ _ _ hfull, hs]

set_option maxRecDepth 1000000 in
/-- C17, what the code does.  `DBF_ENCODER_ERROR` is assigned only by `DbfSerializerPutByte`
of the fixed-size build, when the 120 bytes are used up.  After `DbfSerializerInit` and 120
calls of `DbfSerializerWriteInt64` with 1, 2, 1, 2, ... the buffer is full and the state is
still `DBF_ENCODING_INT`; `DbfSerializerWriteWord` of `"aa"` then fails to store its codes:
the state is `DBF_ENCODER_ERROR`, `prev_code` is 33 and the second `a` is counted in
`repeat_counter`.  In that state `DbfSerializerWriteInt64`, `DbfSerializerWriteInt32`,
`DbfSerializerWriteWord`, `DbfSerializerWriteString` and `DbfSerializerFinalize` change
nothing (as in every state with `DBF_ENCODER_ERROR`, in both builds), but
`DbfSerializerWriteCrc`, which has no test of the state, sets `prev_code` and
`repeat_counter` to 0. -/
theorem C17_write_crc_clears_pending_repetition :
    Fixed.writeInts (Fixed.DbfSerializerInit Fixed.zeroSerializer) (Fixed.alternating 120)
      = ⟨(List.range 120).map (fun k => 0x41 + k % 2), DBF_ENCODING_INT, 2, 0⟩ ∧
    Fixed.DbfSerializerWriteWord
        (Fixed.writeInts (Fixed.DbfSerializerInit Fixed.zeroSerializer) (Fixed.alternating 120))
        [97, 97]
      = ⟨(List.range 120).map (fun k => 0x41 + k % 2), DBF_ENCODER_ERROR, 33, 1⟩ ∧
    (∀ crc32_calculate : List Nat → Nat,
      Fixed.DbfSerializerWriteCrc crc32_calculate
          ⟨(List.range 120).map (fun k => 0x41 + k % 2), DBF_ENCODER_ERROR, 33, 1⟩
        = ⟨(List.range 120).map (fun k => 0x41 + k % 2), DBF_ENCODER_ERROR, 0, 0⟩) ∧
    (∀ (s : Fixed.DbfSerializer) (i : Int) (str : List Nat),
      s.encoderState = DBF_ENCODER_ERROR →
      Fixed.DbfSerializerWriteInt64 s i = s ∧ Fixed.DbfSerializerWriteInt32 s i = s ∧
      Fixed.DbfSerializerWriteWord s str = s ∧ Fixed.DbfSerializerWriteString s str = s ∧
      Fixed.DbfSerializerFinalize s = s) ∧
    (∀ (s : DbfSerializer) (i : Int) (str : List Nat),
      s.encoderState = DBF_ENCODER_ERROR →
      DbfSerializerWriteInt64 s i = s ∧ DbfSerializerWriteInt32 s i = s ∧
      DbfSerializerWriteWord s str = s ∧ DbfSerializerWriteString s str = s ∧
      DbfSerializerFinalize s = s) := by
  refine ⟨by decide, by decide, ?_, ?_, ?_⟩
  · intro crc
    rw [fixed_writeCrc_full crc _ (by decide) rfl]
    rfl
  · intro s i str h
    refine ⟨?_, ?_, ?_, ?_, ?_⟩
    · unfold Fixed.DbfSerializerWriteInt64; rw [h]
    · unfold Fixed.DbfSerializerWriteInt32; rw [h]
    · unfold Fixed.DbfSerializerWriteWord Fixed.serializerWrite; rw [h]; simp
    · unfold Fixed.DbfSerializerWriteString Fixed.serializerWrite; rw [h]
    · unfold Fixed.DbfSerializerFinalize Fixed.DbfSerializerEndWrite; rw [h]
  · intro s i str h
    refine ⟨?_, ?_, ?_, ?_, ?_⟩
    · unfold DbfSerializerWriteInt64; rw [h]
    · unfold DbfSerializerWriteInt32 DbfSerializerWriteInt64; rw [h]
    · unfold DbfSerializerWriteWord serializerWrite; rw [h]; simp
    · unfold DbfSerializerWriteString serializerWrite; rw [h]
    · unfold DbfSerializerFinalize DbfSerializerEndWrite; rw [h]

/-! ## Room in the allocation -/

theorem extSlabs_length_le (w k : Nat) (hw : w < 2 ^ (7 * k)) : (extSlabs w).length ≤ k := by
  rw [extSlabs_length]
  split
  · omega
  · rename_i h0
    have hl : Nat.log2 w < 7 * k := (Nat.log2_lt h0).2 hw
    omega

/-- A code of a value below 2^64 takes at most 10 bytes, one of a value below 2^32 at most
6. -/
theorem Encode_length_le {code nofb : Nat} {t : DbfCodeTypesEnum} (h : isValueClass code nofb t)
    (v : Nat) :
    (v < 2 ^ 64 → (Encode code nofb v).length ≤ 10) ∧
    (v < 2 ^ 32 → (Encode code nofb v).length ≤ 6) ∧ 0 < (Encode code nofb v).length := by
  have h3 : 2 ^ 3 ∣ 2 ^ nofb ∧ 0 < 2 ^ nofb := by
    rcases h with ⟨_, h, _⟩ | ⟨_, h, _⟩ | ⟨_, h, _⟩ | ⟨_, h, _⟩ <;>
      · rw [h]; decide
  obtain ⟨⟨q, hq⟩, hpos⟩ := h3
  have hle : v / 2 ^ nofb ≤ v / 8 := by
    rw [hq]
    have hqpos : 0 < q := by
      rcases Nat.eq_zero_or_pos q with h0 | h0
      · rw [h0] at hq; omega
      · exact h0
    calc v / (2 ^ 3 * q) = v / 2 ^ 3 / q := by rw [Nat.div_div_eq_div_mul]
      _ ≤ v / 2 ^ 3 := Nat.div_le_self _ _
      _ = v / 8 := by norm_num
  rw [Encode_length]
  refine ⟨fun hv => ?_, fun hv => ?_, by omega⟩
  · have := extSlabs_length_le (v / 2 ^ nofb) 9 (by norm_num at hv ⊢; omega)
    omega
  · have := extSlabs_length_le (v / 2 ^ nofb) 5 (by norm_num at hv ⊢; omega)
    omega

/-- One doubling step of the capacity check: with `need ≤ 12` bytes asked for and at most
`need - 2` bytes written, room is kept as long as the message stays below 2^31 - 12
bytes. -/
theorem hasRoom_step (s : DbfSerializer) (tail : List Nat) (need : Nat)
    (hneed : need ≤ 12) (hlen : tail.length + 2 ≤ need) (hroom : hasRoom s)
    (hmsg : s.pos + tail.length + 12 < 2 ^ 31) :
    hasRoom { s with buffer := s.buffer ++ tail,
                     capacity := (DbfSerializerResizeIfNeeded s (s.pos + need)).capacity } := by
  obtain ⟨⟨j, hj, hcap⟩, hfree⟩ := hroom
  have h256 : 256 ≤ s.capacity := by
    rw [hcap]; have := Nat.one_le_two_pow (n := j); omega
  unfold hasRoom DbfSerializerResizeIfNeeded DbfSerializer.pos at *
  simp only [List.length_append]
  split
  · rename_i hge
    have hlt : s.capacity < 2 ^ 31 := by omega
    have hw : s.capacity * 2 % 4294967296 = s.capacity * 2 :=
      Nat.mod_eq_of_lt (by norm_num at hlt ⊢; omega)
    simp only [hw]
    have hj1 : j ≤ 22 := by
      rcases Nat.lt_or_eq_of_le hj with h | h
      · omega
      · rw [h] at hcap; norm_num at hcap hlt; omega
    exact ⟨⟨j + 1, by omega, by rw [hcap, pow_succ]; ring⟩, by omega⟩
  · exact ⟨⟨j, hj, hcap⟩, by omega⟩

theorem step2_64_room (s : DbfSerializer) {code nofb : Nat} {t : DbfCodeTypesEnum}
    (h : isValueClass code nofb t) (data : Nat) (hd : data < 2 ^ 64) (hroom : hasRoom s)
    (hmsg : (DbfSerializerEncodeData64_step2 s code nofb data).pos + 12 < 2 ^ 31) :
    hasRoom (DbfSerializerEncodeData64_step2 s code nofb data) := by
  rw [encodeData64_step2_eq s h data hd] at hmsg ⊢
  have hl := (Encode_length_le h data).1 hd
  exact hasRoom_step s _ 12 (by omega) (by omega) hroom
    (by simpa [DbfSerializer.pos, List.length_append] using hmsg)

theorem step2_32_room (s : DbfSerializer) {code nofb : Nat} {t : DbfCodeTypesEnum}
    (h : isValueClass code nofb t) (data : Nat) (hd : data < 2 ^ 32) (hroom : hasRoom s)
    (hmsg : (DbfSerializerEncodeData32_step2 s code nofb data).pos + 12 < 2 ^ 31) :
    hasRoom (DbfSerializerEncodeData32_step2 s code nofb data) := by
  rw [encodeData32_step2_eq s h data hd] at hmsg ⊢
  have hl := (Encode_length_le h data).2.1 hd
  exact hasRoom_step s _ 8 (by omega) (by omega) hroom
    (by simpa [DbfSerializer.pos, List.length_append] using hmsg)

theorem pos_le_of_extends {s s' : DbfSerializer} (h : Extends s s') : s.pos ≤ s'.pos := by
  obtain ⟨_, _, tail, ht, _⟩ := h
  unfold DbfSerializer.pos
  rw [ht, List.length_append]; omega

theorem step2_64_pos_le (s : DbfSerializer) {code nofb : Nat} {t : DbfCodeTypesEnum}
    (h : isValueClass code nofb t) (data : Nat) (hd : data < 2 ^ 64) :
    s.pos ≤ (DbfSerializerEncodeData64_step2 s code nofb data).pos := by
  rw [encodeData64_step2_eq s h data hd]
  simp [DbfSerializer.pos, List.length_append]

theorem step2_32_pos_le (s : DbfSerializer) {code nofb : Nat} {t : DbfCodeTypesEnum}
    (h : isValueClass code nofb t) (data : Nat) (hd : data < 2 ^ 32) :
    s.pos ≤ (DbfSerializerEncodeData32_step2 s code nofb data).pos := by
  rw [encodeData32_step2_eq s h data hd]
  simp [DbfSerializer.pos, List.length_append]

theorem writeRepeat_room (s : DbfSerializer) (hk : s.repeat_counter < 2 ^ 64) (hroom : hasRoom s)
    (hmsg : (DbfSerializerWriteRepeat s).pos + 12 < 2 ^ 31) :
    hasRoom (DbfSerializerWriteRepeat s) := by
  unfold DbfSerializerWriteRepeat at hmsg ⊢
  split
  · rw [if_pos (by assumption)] at hmsg
    have := step2_64_room s isValueClass_rep s.repeat_counter hk hroom hmsg
    exact this
  · exact hroom

theorem writeRepeat_pos_le (s : DbfSerializer) (hk : s.repeat_counter < 2 ^ 64) :
    s.pos ≤ (DbfSerializerWriteRepeat s).pos := by
  unfold DbfSerializerWriteRepeat
  split
  · exact step2_64_pos_le s isValueClass_rep s.repeat_counter hk
  · exact Nat.le_refl _

theorem encodeData64_room (s : DbfSerializer) {code nofb : Nat} {t : DbfCodeTypesEnum}
    (h : isValueClass code nofb t) (data : Nat) (hd : data < 2 ^ 64)
    (hk : s.repeat_counter < 2 ^ 64) (hroom : hasRoom s)
    (hmsg : (DbfSerializerEncodeData64 s code nofb data).pos + 12 < 2 ^ 31) :
    hasRoom (DbfSerializerEncodeData64 s code nofb data) := by
  unfold DbfSerializerEncodeData64 at hmsg ⊢
  have hle := step2_64_pos_le (DbfSerializerWriteRepeat s) h data hd
  exact step2_64_room _ h data hd (writeRepeat_room s hk hroom (by omega)) hmsg

theorem encodeData32_room (s : DbfSerializer) {code nofb : Nat} {t : DbfCodeTypesEnum}
    (h : isValueClass code nofb t) (data : Nat) (hd : data < 2 ^ 32)
    (hk : s.repeat_counter < 2 ^ 64) (hroom : hasRoom s)
    (hmsg : (DbfSerializerEncodeData32 s code nofb data).pos + 12 < 2 ^ 31) :
    hasRoom (DbfSerializerEncodeData32 s code nofb data) := by
  unfold DbfSerializerEncodeData32 at hmsg ⊢
  have hle := step2_32_pos_le (DbfSerializerWriteRepeat s) h data hd
  exact step2_32_room _ h data hd (writeRepeat_room s hk hroom (by omega)) hmsg

theorem writeCode64_room (s : DbfSerializer) (i : Int) (hk : s.repeat_counter < 2 ^ 64)
    (hroom : hasRoom s) (hmsg : (DbfSerializerWriteCode64 s i).pos + 12 < 2 ^ 31) :
    hasRoom (DbfSerializerWriteCode64 s i) := by
  unfold DbfSerializerWriteCode64 at hmsg ⊢
  split
  · exact hroom
  · rw [if_neg (by assumption)] at hmsg
    simp only at hmsg ⊢
    split
    · rw [if_pos (by assumption)] at hmsg
      exact encodeData64_room s isValueClass_pint _ (toU64_lt _) hk hroom hmsg
    · rw [if_neg (by assumption)] at hmsg
      exact encodeData64_room s isValueClass_nint _ (toU64_lt _) hk hroom hmsg

theorem afterFmt_room (s : DbfSerializer) (c : Nat) (st : encoder_states_type) (hc : c < 2 ^ 32)
    (hk : s.repeat_counter < 2 ^ 64) (hroom : hasRoom s)
    (hmsg : (afterFmt s c st).pos + 12 < 2 ^ 31) : hasRoom (afterFmt s c st) := by
  have := encodeData32_room s isValueClass_fmt c hc hk hroom hmsg
  exact this

theorem writeCodes_room (str : List Nat) : ∀ (s : DbfSerializer), isBinary s →
    s.repeat_counter < 2 ^ 64 → hasRoom s → (serializerWriteCodes s str).pos + 12 < 2 ^ 31 →
    hasRoom (serializerWriteCodes s str) := by
  induction str with
  | nil => intro s _ _ hroom _; exact hroom
  | cons c rest ih =>
    intro s hb hk hroom hmsg
    unfold serializerWriteCodes at hmsg ⊢
    split
    · exact hroom
    · rw [if_neg (by assumption)] at hmsg
      have hext := extends_writeCode64 s (charToInt c - ASCII_OFFSET) hb hk
      have hle := pos_le_of_extends
        (extends_writeCodes rest (DbfSerializerWriteCode64 s (charToInt c - ASCII_OFFSET))
          hext.1 hext.2.1)
      have hmsg2 : (serializerWriteCodes
          (DbfSerializerWriteCode64 s (charToInt c - ASCII_OFFSET)) rest).pos + 12 < 2 ^ 31 := hmsg
      exact ih _ hext.1 hext.2.1 (writeCode64_room s _ hk hroom (by omega)) hmsg2

theorem writeItem_room (s : DbfSerializer) (it : Item) (hb : isBinary s)
    (hk : s.repeat_counter < 2 ^ 64) (hroom : hasRoom s)
    (hmsg : (writeItem s it).pos + 12 < 2 ^ 31) : hasRoom (writeItem s it) := by
  by_cases hit : ∀ i, it ≠ Item.int i
  · rw [writeItem_chars s it hb hit] at hmsg ⊢
    have hc32 : it.fmt < 2 ^ 32 := by have := fmt_lt it; norm_num; omega
    have hext := extends_afterFmt s it.fmt DBF_ENCODING_WORD hc32 (Or.inr rfl) hk
    have hle := pos_le_of_extends (extends_writeCodes it.chars _ hext.1 hext.2.1)
    exact writeCodes_room it.chars _ hext.1 hext.2.1
      (afterFmt_room s it.fmt _ hc32 hk hroom (by omega)) hmsg
  · push_neg at hit
    obtain ⟨i, rfl⟩ := hit
    simp only [writeItem] at hmsg ⊢
    rcases isBinary_cases s hb with hm | hm
    · rw [writeInt64_int_mode s i hm] at hmsg ⊢
      exact writeCode64_room _ i hk hroom hmsg
    · rw [writeInt64_str_mode s i hm] at hmsg ⊢
      have hext := extends_afterFmt s DBF_INT_BEGIN_CODE DBF_ENCODING_INT (by decide) (Or.inl rfl) hk
      have hle := pos_le_of_extends (extends_writeCode64 _ i hext.1 hext.2.1)
      exact writeCode64_room _ i hext.2.1
        (afterFmt_room s _ _ (by decide) hk hroom (by omega)) hmsg

theorem writeItems_room (V : List Item) : ∀ (s : DbfSerializer), isBinary s →
    s.repeat_counter < 2 ^ 64 → hasRoom s → (writeItems s V).pos + 12 < 2 ^ 31 →
    hasRoom (writeItems s V) := by
  induction V with
  | nil => intro s _ _ hroom _; exact hroom
  | cons it V ih =>
    intro s hb hk hroom hmsg
    have hext := extends_writeItem s it hb hk
    have hle := pos_le_of_extends (extends_writeItems V (writeItem s it) hext.1 hext.2.1)
    exact ih (writeItem s it) hext.1 hext.2.1
      (writeItem_room s it hb hk hroom
        (by have : writeItems s (it :: V) = writeItems (writeItem s it) V := rfl
            rw [this] at hmsg; omega)) hmsg

theorem writeItems_append (V W : List Item) (s : DbfSerializer) :
    writeItems s (V ++ W) = writeItems (writeItems s V) W := by
  unfold writeItems; rw [List.foldl_append]

theorem init_room (s0 : DbfSerializer) : hasRoom (DbfSerializerInit s0) :=
  ⟨⟨0, by omega, rfl⟩, by show (0 : Nat) + 2 < 256; omega⟩

/-- As long as the finalized message is shorter than 2^31 - 12 bytes, the capacity never
wraps and every byte is stored inside the allocation: there is room after each write call
and after `DbfSerializerFinalize`, which also leaves no repetition pending. -/
theorem fresh_room (s0 : DbfSerializer) (V : List Item)
    (hmsg : (DbfSerializerFinalize (writeItems (DbfSerializerInit s0) V)).pos + 12 < 2 ^ 31) :
    (∀ k, hasRoom (writeItems (DbfSerializerInit s0) (V.take k))) ∧
    hasRoom (DbfSerializerFinalize (writeItems (DbfSerializerInit s0) V)) ∧
    (DbfSerializerFinalize (writeItems (DbfSerializerInit s0) V)).repeat_counter = 0 := by
  have hf := init_fields s0
  have hb0 : isBinary (DbfSerializerInit s0) := by unfold isBinary; rw [hf.2.2.2]; simp
  have hk0 : (DbfSerializerInit s0).repeat_counter < 2 ^ 64 := by rw [hf.2.2.1]; norm_num
  have hextV := extends_writeItems V _ hb0 hk0
  have hfin := finalize_binary _ hextV.1
  have hleF := writeRepeat_pos_le _ hextV.2.1
  rw [hfin] at hmsg ⊢
  have hroomV := writeItems_room V _ hb0 hk0 (init_room s0) (by omega)
  refine ⟨fun k => ?_, writeRepeat_room _ hextV.2.1 hroomV hmsg,
    (writeRepeat_fields _ hextV.2.1).2.2.1⟩
  have hextk := extends_writeItems (V.take k) _ hb0 hk0
  have hsplit : writeItems (DbfSerializerInit s0) V
      = writeItems (writeItems (DbfSerializerInit s0) (V.take k)) (V.drop k) := by
    rw [← writeItems_append, List.take_append_drop]
  have hle := pos_le_of_extends (extends_writeItems (V.drop k) _ hextk.1 hextk.2.1)
  rw [← hsplit] at hle
  exact writeItems_room (V.take k) _ hb0 hk0 (init_room s0) (by omega)

/-! ## A message that outgrows the `unsigned int` capacity -/

/-- Writing a value of one byte that differs from `prev_code`, with no repetition
pending. -/
theorem writeInt64_small (s : DbfSerializer) (i : Nat) (hi : i < 64)
    (hst : s.encoderState = DBF_ENCODER_IDLE ∨ s.encoderState = DBF_ENCODING_INT)
    (hne : (i : Int) ≠ s.prev_code) (hrc : s.repeat_counter = 0) :
    DbfSerializerWriteInt64 s (i : Int)
      = ⟨s.buffer ++ [64 + i], (DbfSerializerResizeIfNeeded s (s.pos + 12)).capacity,
          DBF_ENCODING_INT, (i : Int), 0⟩ := by
  rw [writeInt64_int_mode s _ hst]
  unfold DbfSerializerWriteCode64
  rw [if_neg hne]
  have hge : (i : Int) ≥ 0 := Int.natCast_nonneg i
  simp only [if_pos hge]
  unfold DbfSerializerEncodeData64 DbfSerializerWriteRepeat
  have hz : ¬ (({ s with encoderState := DBF_ENCODING_INT } : DbfSerializer).repeat_counter > 0) := by
    show ¬ (s.repeat_counter > 0); omega
  rw [if_neg hz]
  rw [encodeData64_step2_eq _ isValueClass_pint _ (toU64_lt _)]
  have hu : toU64 (i : Int) = i := by
    unfold toU64
    have : ((i : Int) % 18446744073709551616) = (i : Int) :=
      Int.emod_eq_of_lt hge (by omega)
    rw [this]; exact Int.toNat_natCast i
  have hE : Encode DBF_PINT_CODEID DBF_PINT_DATANBITS i = [64 + i] := by
    rw [Encode_eq _ _ _ isValueClass_pint]
    have h1 : i % 2 ^ DBF_PINT_DATANBITS = i := Nat.mod_eq_of_lt (by
      show i < 2 ^ 6; omega)
    have h2 : i / 2 ^ DBF_PINT_DATANBITS = 0 := Nat.div_eq_of_lt (by show i < 2 ^ 6; omega)
    rw [h1, h2, extSlabs_zero]; rfl
  rw [hu, hE]
  cases s
  simp only [DbfSerializerResizeIfNeeded, DbfSerializer.pos] at hrc ⊢
  subst hrc
  split <;> rfl

theorem alternating_succ (n : Nat) :
    alternating (n + 1) = alternating n ++ [((n % 2 + 1 : Nat) : Int)] := by
  unfold alternating
  rw [List.range_succ, List.map_append]; rfl

theorem writeInts_append (V W : List Int) (s : DbfSerializer) :
    writeInts s (V ++ W) = writeInts (writeInts s V) W := by
  unfold writeInts; rw [List.foldl_append]

/-- One more one-byte value: `pos` advances by one, and the capacity is doubled, modulo
2^32, when `pos + 12` has reached it. -/
theorem writeInts_alternating_next (n : Nat)
    (hpos : (writeInts (DbfSerializerInit zeroSerializer) (alternating n)).pos = n)
    (hst : (writeInts (DbfSerializerInit zeroSerializer) (alternating n)).encoderState
        = DBF_ENCODER_IDLE ∨
      (writeInts (DbfSerializerInit zeroSerializer) (alternating n)).encoderState
        = DBF_ENCODING_INT)
    (hprev : (writeInts (DbfSerializerInit zeroSerializer) (alternating n)).prev_code
      ≠ ((n % 2 + 1 : Nat) : Int))
    (hrc : (writeInts (DbfSerializerInit zeroSerializer) (alternating n)).repeat_counter = 0) :
    (writeInts (DbfSerializerInit zeroSerializer) (alternating (n + 1))).pos = n + 1 ∧
    (writeInts (DbfSerializerInit zeroSerializer) (alternating (n + 1))).encoderState
      = DBF_ENCODING_INT ∧
    (writeInts (DbfSerializerInit zeroSerializer) (alternating (n + 1))).prev_code
      = ((n % 2 + 1 : Nat) : Int) ∧
    (writeInts (DbfSerializerInit zeroSerializer) (alternating (n + 1))).repeat_counter = 0 ∧
    (writeInts (DbfSerializerInit zeroSerializer) (alternating (n + 1))).capacity
      = if n + 12 ≥ (writeInts (DbfSerializerInit zeroSerializer) (alternating n)).capacity
        then (writeInts (DbfSerializerInit zeroSerializer) (alternating n)).capacity * 2
          % 4294967296
        else (writeInts (DbfSerializerInit zeroSerializer) (alternating n)).capacity := by
  rw [alternating_succ, writeInts_append]
  generalize writeInts (DbfSerializerInit zeroSerializer) (alternating n) = s at *
  have hstep : writeInts s [((n % 2 + 1 : Nat) : Int)]
      = DbfSerializerWriteInt64 s ((n % 2 + 1 : Nat) : Int) := rfl
  rw [hstep, writeInt64_small s (n % 2 + 1) (by omega) hst (Ne.symm hprev) hrc]
  unfold DbfSerializer.pos at hpos
  unfold DbfSerializerResizeIfNeeded DbfSerializer.pos
  simp only [List.length_append, List.length_singleton, hpos]
  refine ⟨trivial, trivial, trivial, trivial, ?_⟩
  split <;> rfl

/-- The serializer after `n` one-byte values, up to the last one that fits: `pos` is `n`,
and the capacity is the power of two that the doubling at `pos + 12 >= capacity` has
reached. -/
theorem writeInts_alternating (n : Nat) (hn : n ≤ 2147483636) :
    (writeInts (DbfSerializerInit zeroSerializer) (alternating n)).pos = n ∧
    ((writeInts (DbfSerializerInit zeroSerializer) (alternating n)).encoderState
        = DBF_ENCODER_IDLE ∨
      (writeInts (DbfSerializerInit zeroSerializer) (alternating n)).encoderState
        = DBF_ENCODING_INT) ∧
    (writeInts (DbfSerializerInit zeroSerializer) (alternating n)).prev_code
      ≠ ((n % 2 + 1 : Nat) : Int) ∧
    (writeInts (DbfSerializerInit zeroSerializer) (alternating n)).repeat_counter = 0 ∧
    (∃ j, j ≤ 23 ∧
      (writeInts (DbfSerializerInit zeroSerializer) (alternating n)).capacity = 256 * 2 ^ j) ∧
    n + 11 < (writeInts (DbfSerializerInit zeroSerializer) (alternating n)).capacity ∧
    ((writeInts (DbfSerializerInit zeroSerializer) (alternating n)).capacity = 256 ∨
      (writeInts (DbfSerializerInit zeroSerializer) (alternating n)).capacity ≤ 2 * (n + 11)) := by
  induction n with
  | zero =>
    refine ⟨rfl, Or.inl rfl, by decide, rfl, ⟨0, by omega, rfl⟩, by decide, Or.inl rfl⟩
  | succ n ih =>
    obtain ⟨hpos, hst, hprev, hrc, ⟨j, hj, hcap⟩, hA, hB⟩ := ih (by omega)
    obtain ⟨h1, h2, h3, h4, h5⟩ := writeInts_alternating_next n hpos hst hprev hrc
    refine ⟨h1, Or.inr h2, ?_, h4, ?_⟩
    · rw [h3]
      intro h
      have h2 : n % 2 + 1 = (n + 1) % 2 + 1 := by exact_mod_cast h
      omega
    · rw [h5]
      split
      · rename_i hge
        have hlt : (writeInts (DbfSerializerInit zeroSerializer) (alternating n)).capacity
            < 2 ^ 31 := by omega
        have hw : (writeInts (DbfSerializerInit zeroSerializer) (alternating n)).capacity * 2
            % 4294967296
            = (writeInts (DbfSerializerInit zeroSerializer) (alternating n)).capacity * 2 :=
          Nat.mod_eq_of_lt (by norm_num at hlt ⊢; omega)
        rw [hw]
        have hj1 : j ≤ 22 := by
          rcases Nat.lt_or_eq_of_le hj with h | h
          · omega
          · rw [h] at hcap; norm_num at hcap hlt; omega
        exact ⟨⟨j + 1, by omega, by rw [hcap, pow_succ]; ring⟩, by omega, Or.inr (by omega)⟩
      · rename_i hlt
        exact ⟨⟨j, hj, hcap⟩, by omega, by omega⟩

/-- The capacity after 2147483636 one-byte values is 2^31, and the next value makes the
doubling wrap to 0. -/
theorem writeInts_alternating_wrap :
    (writeInts (DbfSerializerInit zeroSerializer) (alternating 2147483636)).pos = 2147483636 ∧
    (writeInts (DbfSerializerInit zeroSerializer) (alternating 2147483636)).capacity
      = 2147483648 ∧
    (writeInts (DbfSerializerInit zeroSerializer) (alternating 2147483637)).pos = 2147483637 ∧
    (writeInts (DbfSerializerInit zeroSerializer) (alternating 2147483637)).capacity = 0 := by
  obtain ⟨hpos, hst, hprev, hrc, ⟨j, hj, hcap⟩, hA, hB⟩ :=
    writeInts_alternating 2147483636 (Nat.le_refl _)
  have hc : (writeInts (DbfSerializerInit zeroSerializer) (alternating 2147483636)).capacity
      = 2147483648 := by
    have hlt : (writeInts (DbfSerializerInit zeroSerializer) (alternating 2147483636)).capacity
        < 4294967296 := by
      rcases hB with h | h <;> omega
    rcases Nat.lt_or_eq_of_le hj with h | h
    · have : 2 ^ j ≤ 2 ^ 22 := Nat.pow_le_pow_right (by omega) (by omega)
      norm_num at this
      omega
    · rw [hcap, h]; norm_num
  obtain ⟨h1, _, _, _, h5⟩ := writeInts_alternating_next 2147483636 hpos hst hprev hrc
  have e : (2147483636 + 1 : Nat) = 2147483637 := by norm_num
  rw [e] at h1 h5
  rw [hc, if_pos (by omega)] at h5
  exact ⟨hpos, hc, h1, by rw [h5]⟩

/-- C2, as stated, fails for a list whose message outgrows the `unsigned int` capacity.  After
`DbfSerializerInit` and `DbfSerializerWriteInt64` of the 2147483636 values 1, 2, 1, 2, ...
(one byte each, no two neighbours equal) `pos` is 2147483636 and the capacity has been
doubled to 2^31.  The next `DbfSerializerWriteInt64` finds `pos + 12 >= capacity` and
doubles again: `capacity * 2` is 0 in `unsigned int`, so `st_resize` is called with the new
size 0 (its assertion `new_size > old_size` fails) and the byte would be stored at index
2147483636 with a capacity of 0.  The list cannot be written, so it cannot be read back. -/
theorem C2_capacity_wraps_counterexample :
    (writeInts (DbfSerializerInit zeroSerializer) (alternating 2147483636)).pos = 2147483636 ∧
    (writeInts (DbfSerializerInit zeroSerializer) (alternating 2147483636)).capacity
      = 2147483648 ∧
    (writeInts (DbfSerializerInit zeroSerializer) (alternating 2147483637)).pos = 2147483637 ∧
    (writeInts (DbfSerializerInit zeroSerializer) (alternating 2147483637)).capacity = 0 ∧
    ¬ hasRoom (writeInts (DbfSerializerInit zeroSerializer) (alternating 2147483637)) := by
  obtain ⟨h1, h2, h3, h4⟩ := writeInts_alternating_wrap
  refine ⟨h1, h2, h3, h4, ?_⟩
  intro h
  have h5 := h.2
  rw [h4] at h5
  exact Nat.not_lt_zero _ h5

/-- C2, amended. Integer round trip with repetition folding: let `V` be a list of fewer than
2^64 `int64_t` values whose finalized message is shorter than 2^31 - 12 bytes.  Then
`DbfSerializerInit`, `DbfSerializerWriteInt64` of each element and `DbfSerializerFinalize`
keep every byte inside the allocation (`hasRoom` after each call: the capacity has not
wrapped and `pos` is below it) and leave no repetition pending, and after
`DbfUnserializerInitFromSerializer` the `|V|` successive `DbfUnserializerReadInt64` calls
return the elements of `V` in order, after which the decoder state is
`DbfEndOfMsgState`. -/
theorem C2_integer_round_trip (s0 : DbfSerializer) (u0 : DbfUnserializer) (V : List Int)
    (hV : ∀ v ∈ V, isInt64 v) (hlen : V.length < 2 ^ 64)
    (hmsg : (DbfSerializerFinalize (writeInts (DbfSerializerInit s0) V)).pos + 12 < 2 ^ 31) :
    (∀ k, hasRoom (writeInts (DbfSerializerInit s0) (V.take k))) ∧
    hasRoom (DbfSerializerFinalize (writeInts (DbfSerializerInit s0) V)) ∧
    (DbfSerializerFinalize (writeInts (DbfSerializerInit s0) V)).repeat_counter = 0 ∧
    (readInts V.length (DbfUnserializerInitFromSerializer u0
      (DbfSerializerFinalize (writeInts (DbfSerializerInit s0) V))).2).1 = V ∧
    (readInts V.length (DbfUnserializerInitFromSerializer u0
      (DbfSerializerFinalize (writeInts (DbfSerializerInit s0) V))).2).2.decodeState
      = DbfEndOfMsgState := by
  have h := readsBack_fresh s0 u0 (V.map Item.int) (valid_ints V hV)
    (by rw [itemsSize_ints]; exact hlen)
    (noSlip_ints V _ (Or.inl (init_fields s0).2.2.2) (by rw [(init_fields s0).2.2.1]; norm_num))
  rw [writeItems_ints] at h
  have hr := fresh_room s0 (V.map Item.int) (by rw [writeItems_ints]; exact hmsg)
  rw [writeItems_ints] at hr
  refine ⟨fun k => ?_, hr.2.1, hr.2.2, readsBack_ints V _ h⟩
  have := hr.1 k
  rw [← List.map_take, writeItems_ints] at this
  exact this

set_option maxRecDepth 100000 in
theorem C2_integer_round_trip_witness :
    (∀ k, hasRoom (writeInts (DbfSerializerInit zeroSerializer)
      (([0, 0, -9223372036854775808, 9223372036854775807, 7, 7, 7, -1] : List Int).take k))) ∧
    hasRoom (DbfSerializerFinalize (writeInts (DbfSerializerInit zeroSerializer)
      [0, 0, -9223372036854775808, 9223372036854775807, 7, 7, 7, -1])) ∧
    (DbfSerializerFinalize (writeInts (DbfSerializerInit zeroSerializer)
      [0, 0, -9223372036854775808, 9223372036854775807, 7, 7, 7, -1])).repeat_counter = 0 ∧
    (readInts [0, 0, -9223372036854775808, 9223372036854775807, 7, 7, 7, -1].length
      (DbfUnserializerInitFromSerializer zeroUnserializer
        (DbfSerializerFinalize (writeInts (DbfSerializerInit zeroSerializer)
          [0, 0, -9223372036854775808, 9223372036854775807, 7, 7, 7, -1]))).2).1
      = [0, 0, -9223372036854775808, 9223372036854775807, 7, 7, 7, -1] ∧
    (readInts [0, 0, -9223372036854775808, 9223372036854775807, 7, 7, 7, -1].length
      (DbfUnserializerInitFromSerializer zeroUnserializer
        (DbfSerializerFinalize (writeInts (DbfSerializerInit zeroSerializer)
          [0, 0, -9223372036854775808, 9223372036854775807, 7, 7, 7, -1]))).2).2.decodeState
      = DbfEndOfMsgState :=
  C2_integer_round_trip zeroSerializer zeroUnserializer _ (by decide) (by decide) (by decide)

/-! ## The length of a written word -/

theorem repBytes_length_le (k : Nat) : (repBytes k).length ≤ k := by
  rcases Nat.eq_zero_or_pos k with h | h
  · rw [h, repBytes_zero]; exact Nat.le_refl _
  · rw [repBytes_pos k h, Encode_length]
    rcases Nat.lt_or_ge k 8 with h8 | h8
    · have hz : k / 2 ^ DBF_REPEAT_DATANBITS = 0 := Nat.div_eq_of_lt (by show k < 2 ^ 3; omega)
      rw [hz, extSlabs_zero]; simp; omega
    · have hlt : k / 2 ^ DBF_REPEAT_DATANBITS < 2 ^ (7 * (k - 1)) := by
        have h1 : k / 2 ^ DBF_REPEAT_DATANBITS ≤ k := Nat.div_le_self _ _
        have h2 : k < 2 ^ k := Nat.lt_two_pow k
        have h3 : 2 ^ k ≤ 2 ^ (7 * (k - 1)) := Nat.pow_le_pow_right (by omega) (by omega)
        omega
      have := extSlabs_length_le _ (k - 1) hlt
      omega

/-- The code of a printable character (`c - 64` for `c` in 0x20..0x7F) is one byte. -/
theorem numBytes_char_length (x : Int) (h : -32 ≤ x ∧ x < 64) : (numBytes x).length = 1 := by
  rcases numBytes_cases x (by unfold isInt64; omega) with ⟨h0, he, _⟩ | ⟨h0, he, _⟩
  · rw [he, Encode_length]
    have hz : x.toNat / 2 ^ DBF_PINT_DATANBITS = 0 :=
      Nat.div_eq_of_lt (by show x.toNat < 2 ^ 6; omega)
    rw [hz, extSlabs_zero]; rfl
  · rw [he, Encode_length]
    have hz : (-1 - x).toNat / 2 ^ DBF_NINT_DATANBITS = 0 :=
      Nat.div_eq_of_lt (by show (-1 - x).toNat < 2 ^ 5; omega)
    rw [hz, extSlabs_zero]; rfl

/-- A run of one-byte codes takes at most one byte per code, the pending count included:
a flushed count of `k` takes at most `k` bytes. -/
theorem foldedCodes_length_le (xs : List Int) : ∀ (p : Int) (k : Nat),
    (∀ x ∈ xs, -32 ≤ x ∧ x < 64) → (foldedCodes p k xs).length ≤ k + xs.length := by
  induction xs with
  | nil =>
    intro p k _
    simp only [foldedCodes, List.length_nil, Nat.add_zero]
    exact repBytes_length_le k
  | cons x xs ih =>
    intro p k h
    have hx := h x (List.mem_cons_self _ _)
    have hxs : ∀ y ∈ xs, -32 ≤ y ∧ y < 64 := fun y hy => h y (List.mem_cons_of_mem _ hy)
    rw [foldedCodes]
    split
    · have := ih p (k + 1) hxs
      simp only [List.length_cons]; omega
    · have h1 := ih x 0 hxs
      have h2 := repBytes_length_le k
      have h3 := numBytes_char_length x hx
      simp only [List.length_append, List.length_cons, h3]; omega

theorem valid_word (w : List Nat) (hne : w ≠ []) (hlen : w.length + 2 < 2 ^ 31)
    (h : ∀ x ∈ w, 0 < x ∧ x < 128) : [Item.word w].all Item.valid = true := by
  simp only [List.all_cons, List.all_nil, Bool.and_true, Item.valid, Bool.and_eq_true,
    decide_eq_true_eq, List.all_eq_true]
  exact ⟨⟨hne, hlen⟩, h⟩

/-- C9, as stated, fails for a word with a repeated character: the word `aa` is written as
`11 61 09` (format code, the code of `a`, one repetition), not as `11 61 61`.  It also fails
for a word that begins with `'@'`: `@x` is written as `11 09 78` (the `@`, code 0, is counted
against the initial `prev_code` and emitted as a REP code), the unserializer takes that REP
code together with the format code, and `DbfUnserializerRead` fails its assertion
`repeat_counter == 0`. -/
theorem C9_repeated_character_counterexample :
    (DbfSerializerFinalize (DbfSerializerWriteWord (DbfSerializerInit zeroSerializer)
      [97, 97])).buffer = [0x11, 0x61, 0x09] ∧
    (DbfSerializerFinalize (DbfSerializerWriteWord (DbfSerializerInit zeroSerializer)
      [97, 97])).buffer ≠ [0x11, 0x61, 0x61] ∧
    (DbfSerializerFinalize (DbfSerializerWriteWord (DbfSerializerInit zeroSerializer)
      [64, 120])).buffer = [0x11, 0x09, 0x78] ∧
    (DbfUnserializerInitFromSerializer zeroUnserializer
      (DbfSerializerFinalize (DbfSerializerWriteWord (DbfSerializerInit zeroSerializer)
        [64, 120]))).2.repeat_counter = 1 ∧
    DbfUnserializerReadAssert (DbfUnserializerInitFromSerializer zeroUnserializer
      (DbfSerializerFinalize (DbfSerializerWriteWord (DbfSerializerInit zeroSerializer)
        [64, 120]))).2 = false := by
  decide

/-- C9, amended. Word round trip: for every word `w` that does not begin with `'@'` (bytes in
0x21..0x7E other than `'"'` and `'\\'`, at least one and fewer than 2^31 - 13 of them),
`DbfSerializerWriteWord(w)` then `DbfSerializerFinalize` on a freshly initialised binary
serializer emits the format-switch byte `11`, the number code of `c - 64` for the first
character `c`, and the number codes of the following characters with repetition folding (a
character equal to the one before it emits no code of its own; the run is counted and the
count is emitted as one REP code: `foldedCodes` from the first character on); every byte is
stored inside the allocation and no repetition is left pending; an unserializer initialised
from it is in `DbfNextIsWordState`, and `DbfUnserializerRead` passes its assertions and with
capacity greater than `|w|` returns `|w|` and stores exactly the bytes of `w` followed by a
NUL.  The word `Hi` gives `11 48 69`. -/
theorem C9_word_round_trip (s0 : DbfSerializer) (u0 : DbfUnserializer) (c : Nat)
    (rest : List Nat) (hw : ∀ x ∈ c :: rest, 0x21 ≤ x ∧ x ≤ 0x7E ∧ x ≠ 34 ∧ x ≠ 92)
    (hat : c ≠ 64) (hlen : (c :: rest).length + 13 < 2 ^ 31) :
    (DbfSerializerFinalize (DbfSerializerWriteWord (DbfSerializerInit s0) (c :: rest))).buffer
      = 0x11 :: (numBytes ((c : Int) - 64)
          ++ foldedCodes ((c : Int) - 64) 0 (rest.map (fun (x : Nat) => (x : Int) - 64))) ∧
    hasRoom (DbfSerializerWriteWord (DbfSerializerInit s0) (c :: rest)) ∧
    hasRoom (DbfSerializerFinalize (DbfSerializerWriteWord (DbfSerializerInit s0) (c :: rest))) ∧
    (DbfSerializerFinalize
      (DbfSerializerWriteWord (DbfSerializerInit s0) (c :: rest))).repeat_counter = 0 ∧
    (DbfUnserializerInitFromSerializer u0 (DbfSerializerFinalize
      (DbfSerializerWriteWord (DbfSerializerInit s0) (c :: rest)))).2.decodeState
      = DbfNextIsWordState ∧
    DbfUnserializerReadAssert (DbfUnserializerInitFromSerializer u0 (DbfSerializerFinalize
      (DbfSerializerWriteWord (DbfSerializerInit s0) (c :: rest)))).2 = true ∧
    (∀ (bufPtr : List Nat) (bufCap : Nat), (c :: rest).length < bufCap →
      bufCap ≤ bufPtr.length →
      (DbfUnserializerRead (DbfUnserializerInitFromSerializer u0 (DbfSerializerFinalize
        (DbfSerializerWriteWord (DbfSerializerInit s0) (c :: rest)))).2 bufPtr bufCap).1
        = ((c :: rest).length : Int) ∧
      (DbfUnserializerRead (DbfUnserializerInitFromSerializer u0 (DbfSerializerFinalize
        (DbfSerializerWriteWord (DbfSerializerInit s0) (c :: rest)))).2
        bufPtr bufCap).2.1.take ((c :: rest).length + 1) = (c :: rest) ++ [0]) ∧
    (DbfSerializerFinalize (DbfSerializerWriteWord (DbfSerializerInit zeroSerializer)
      [72, 105])).buffer = [0x11, 0x48, 0x69] := by
  have hf := init_fields s0
  have hb : isBinary (DbfSerializerInit s0) := by unfold isBinary; rw [hf.2.2.2]; simp
  have hk : (DbfSerializerInit s0).repeat_counter < 2 ^ 64 := by rw [hf.2.2.1]; norm_num
  have hne : c :: rest ≠ [] := List.cons_ne_nil _ _
  have hfmt := word_fmt (c :: rest) hne hw
  have hwi : DbfSerializerWriteWord (DbfSerializerInit s0) (c :: rest)
      = serializerWriteCodes (afterFmt (DbfSerializerInit s0) DBF_WORD_BEGIN_CODE DBF_ENCODING_WORD)
          (c :: rest) := by
    have h := writeItem_chars (DbfSerializerInit s0) (Item.word (c :: rest)) hb (by intro i; simp)
    rw [hfmt] at h
    exact h
  have hext : Extends (DbfSerializerInit s0)
      (DbfSerializerWriteWord (DbfSerializerInit s0) (c :: rest)) :=
    extends_writeItem (DbfSerializerInit s0) (Item.word (c :: rest)) hb hk
  have haf := afterFmt_fields (DbfSerializerInit s0) DBF_WORD_BEGIN_CODE DBF_ENCODING_WORD
    (by decide) hk
  have hcodes : (c :: rest).map (fun x => charToInt x - ASCII_OFFSET)
      = (c :: rest).map (fun (x : Nat) => (x : Int) - 64) :=
    List.map_congr_left (fun x hx => by rw [(word_char x (hw x hx)).2.1]; rfl)
  have hc := hw c (List.mem_cons_self _ _)
  have hc0 : ¬ ((c : Int) - 64 = 0) := by omega
  have hbuf : (DbfSerializerFinalize
      (DbfSerializerWriteWord (DbfSerializerInit s0) (c :: rest))).buffer
      = 0x11 :: (numBytes ((c : Int) - 64)
          ++ foldedCodes ((c : Int) - 64) 0 (rest.map (fun (x : Nat) => (x : Int) - 64))) := by
    rw [finalize_binary _ hext.1, hwi,
      writeCodes_buffer (c :: rest) _ (fun x hx => by have := hw x hx; omega)
        (by rw [haf.2.2.1]; norm_num at hlen ⊢; omega),
      haf.1, haf.2.1, haf.2.2.1, (writeRepeat_fields _ hk).2.1, hf.1, hf.2.1, hf.2.2.1, hcodes,
      repBytes_zero, fmtBytes_word]
    simp only [List.map_cons, foldedCodes, if_neg hc0, repBytes_zero, List.nil_append,
      lt_self_iff_false, if_false, gt_iff_lt]
    rfl
  have hmsg : (DbfSerializerFinalize
      (DbfSerializerWriteWord (DbfSerializerInit s0) (c :: rest))).pos + 12 < 2 ^ 31 := by
    unfold DbfSerializer.pos
    rw [hbuf]
    have h1 := numBytes_char_length ((c : Int) - 64) (by omega)
    have h2 := foldedCodes_length_le (rest.map (fun (x : Nat) => (x : Int) - 64))
      ((c : Int) - 64) 0 (fun x hx => by
        obtain ⟨y, hy, rfl⟩ := List.mem_map.1 hx
        have := hw y (List.mem_cons_of_mem _ hy)
        omega)
    simp only [List.length_cons, List.length_append, List.length_map, h1] at h2 hlen ⊢
    omega
  have hroom := fresh_room s0 [Item.word (c :: rest)] hmsg
  have hvalid : [Item.word (c :: rest)].all Item.valid = true :=
    valid_word (c :: rest) hne (by omega) (fun x hx => by have := hw x hx; omega)
  have hns : noSlip (DbfSerializerInit s0) [Item.word (c :: rest)] = true := by
    simp only [noSlip, Bool.and_true, decide_eq_true_eq, Item.codes,
      (writeRepeat_fields _ hk).2.1, hf.2.1, hf.2.2.1]
    have hci := word_char c hc
    simp only [List.map_cons, List.head?_cons, ne_eq, Option.some.injEq]
    rw [hci.2.1]
    simp only [ASCII_OFFSET]
    intro h
    have : (c : Int) = 64 := by
      split at h <;> omega
    exact hat (by omega)
  have h := readsBack_fresh s0 u0 [Item.word (c :: rest)] hvalid
    (by simp only [itemsSize, Item.codes, List.length_map, List.length_cons] at hlen ⊢
        norm_num at hlen ⊢; omega) hns
  have hexp : (Item.word (c :: rest)).expected = c :: rest := by
    simp only [Item.expected, hfmt, if_true, Item.chars]
  have hstate : (Item.word (c :: rest)).state = DbfNextIsWordState := by
    simp only [Item.state, hfmt]; decide
  simp only [ReadsBack, hexp, hstate] at h
  have hr1 := hroom.1 1
  refine ⟨hbuf, hr1, hroom.2.1, hroom.2.2, h.1, h.2.1, fun bufPtr bufCap h1 h2 => ?_, by decide⟩
  have h3 := h.2.2 bufPtr bufCap h1 h2
  exact ⟨h3.1, h3.2.1⟩

set_option maxRecDepth 100000 in
theorem C9_word_round_trip_witness :
    (DbfSerializerFinalize (DbfSerializerWriteWord (DbfSerializerInit zeroSerializer)
        [72, 105, 105])).buffer
      = 0x11 :: (numBytes (((72 : Nat) : Int) - 64)
          ++ foldedCodes (((72 : Nat) : Int) - 64) 0
            ([105, 105].map (fun (x : Nat) => (x : Int) - 64))) ∧
    hasRoom (DbfSerializerWriteWord (DbfSerializerInit zeroSerializer) [72, 105, 105]) ∧
    hasRoom (DbfSerializerFinalize
      (DbfSerializerWriteWord (DbfSerializerInit zeroSerializer) [72, 105, 105])) ∧
    (DbfSerializerFinalize
      (DbfSerializerWriteWord (DbfSerializerInit zeroSerializer) [72, 105, 105])).repeat_counter
      = 0 ∧
    (DbfUnserializerInitFromSerializer zeroUnserializer (DbfSerializerFinalize
      (DbfSerializerWriteWord (DbfSerializerInit zeroSerializer) [72, 105, 105]))).2.decodeState
      = DbfNextIsWordState ∧
    DbfUnserializerReadAssert (DbfUnserializerInitFromSerializer zeroUnserializer
      (DbfSerializerFinalize
        (DbfSerializerWriteWord (DbfSerializerInit zeroSerializer) [72, 105, 105]))).2 = true ∧
    (∀ (bufPtr : List Nat) (bufCap : Nat), ([72, 105, 105] : List Nat).length < bufCap →
      bufCap ≤ bufPtr.length →
      (DbfUnserializerRead (DbfUnserializerInitFromSerializer zeroUnserializer
        (DbfSerializerFinalize (DbfSerializerWriteWord (DbfSerializerInit zeroSerializer)
          [72, 105, 105]))).2 bufPtr bufCap).1
        = (([72, 105, 105] : List Nat).length : Int) ∧
      (DbfUnserializerRead (DbfUnserializerInitFromSerializer zeroUnserializer
        (DbfSerializerFinalize (DbfSerializerWriteWord (DbfSerializerInit zeroSerializer)
          [72, 105, 105]))).2
        bufPtr bufCap).2.1.take (([72, 105, 105] : List Nat).length + 1)
          = [72, 105, 105] ++ [0]) ∧
    (DbfSerializerFinalize (DbfSerializerWriteWord (DbfSerializerInit zeroSerializer)
      [72, 105])).buffer = [0x11, 0x48, 0x69] :=
  C9_word_round_trip zeroSerializer zeroUnserializer 72 [105, 105] (by decide) (by decide)
    (by decide)

/-! ## Round trip of a whole message, inside the allocation -/

/-- C1, as stated, fails.  The string `a` written with `DbfSerializerWriteString` to a fresh
binary serializer is read back by `DbfUnserializerRead` (capacity 8) as the three bytes
`"a"` with the quotes, and the call returns 3, where the claim expects the one byte `a` and
the result 1.  The empty string is written as the format code `12` alone: the unserializer is
in `DbfEndOfMsgState` right after its initialisation and `DbfUnserializerRead` returns -1.
The word `@x` is written as `11 09 78` (the `@`, code 0, is folded into a REP code against
the initial `prev_code`): the unserializer takes the REP code with the format code, is in
`DbfNextIsWordState` with `repeat_counter` 1, and `DbfUnserializerRead` fails its assertion
`repeat_counter == 0`.  The word `E` followed by the integer 5 is written as `11 45 10 09`
(the 5 is folded against the `prev_code` that `E` left): after the word is read,
`DbfUnserializerReadInt64` returns 0. -/
theorem C1_round_trip_counterexample :
    (DbfUnserializerRead (DbfUnserializerInitFromSerializer zeroUnserializer
        (DbfSerializerFinalize (writeItems (DbfSerializerInit zeroSerializer) [Item.str [97]]))).2
      [0, 0, 0, 0, 0, 0, 0, 0] 8).1 = 3 ∧
    (DbfUnserializerRead (DbfUnserializerInitFromSerializer zeroUnserializer
        (DbfSerializerFinalize (writeItems (DbfSerializerInit zeroSerializer) [Item.str [97]]))).2
      [0, 0, 0, 0, 0, 0, 0, 0] 8).2.1 = [34, 97, 34, 0, 0, 0, 0, 0] ∧
    ¬ ((DbfUnserializerRead (DbfUnserializerInitFromSerializer zeroUnserializer
        (DbfSerializerFinalize (writeItems (DbfSerializerInit zeroSerializer) [Item.str [97]]))).2
      [0, 0, 0, 0, 0, 0, 0, 0] 8).2.1.take 2 = [97, 0]) ∧
    (DbfSerializerFinalize (writeItems (DbfSerializerInit zeroSerializer) [Item.str []])).buffer
      = [0x12] ∧
    (DbfUnserializerInitFromSerializer zeroUnserializer
      (DbfSerializerFinalize (writeItems (DbfSerializerInit zeroSerializer)
        [Item.str []]))).2.decodeState = DbfEndOfMsgState ∧
    (DbfUnserializerRead (DbfUnserializerInitFromSerializer zeroUnserializer
        (DbfSerializerFinalize (writeItems (DbfSerializerInit zeroSerializer) [Item.str []]))).2
      [0, 0, 0, 0, 0, 0, 0, 0] 8).1 = -1 ∧
    (DbfSerializerFinalize (writeItems (DbfSerializerInit zeroSerializer)
      [Item.word [64, 120]])).buffer = [0x11, 0x09, 0x78] ∧
    (DbfUnserializerInitFromSerializer zeroUnserializer
      (DbfSerializerFinalize (writeItems (DbfSerializerInit zeroSerializer)
        [Item.word [64, 120]]))).2.decodeState = DbfNextIsWordState ∧
    (DbfUnserializerInitFromSerializer zeroUnserializer
      (DbfSerializerFinalize (writeItems (DbfSerializerInit zeroSerializer)
        [Item.word [64, 120]]))).2.repeat_counter = 1 ∧
    DbfUnserializerReadAssert (DbfUnserializerInitFromSerializer zeroUnserializer
      (DbfSerializerFinalize (writeItems (DbfSerializerInit zeroSerializer)
        [Item.word [64, 120]]))).2 = false ∧
    (DbfSerializerFinalize (writeItems (DbfSerializerInit zeroSerializer)
      [Item.word [69], Item.int 5])).buffer = [0x11, 0x45, 0x10, 0x09] ∧
    (DbfUnserializerRead (DbfUnserializerInitFromSerializer zeroUnserializer
        (DbfSerializerFinalize (writeItems (DbfSerializerInit zeroSerializer)
          [Item.word [69], Item.int 5]))).2
      [0, 0, 0, 0, 0, 0, 0, 0] 8).2.1 = [69, 0, 0, 0, 0, 0, 0, 0] ∧
    (DbfUnserializerReadInt64 (DbfUnserializerRead (DbfUnserializerInitFromSerializer
        zeroUnserializer
        (DbfSerializerFinalize (writeItems (DbfSerializerInit zeroSerializer)
          [Item.word [69], Item.int 5]))).2
      [0, 0, 0, 0, 0, 0, 0, 0] 8).2.2).1 = 0 := by
  decide

/-- C1, amended. Round trip: let `V` be a sequence of `int64_t` values and of non-empty words
and strings of bytes 1..127, each of fewer than 2^31 - 2 bytes (`Item.valid`: the `int`
counters of the source hold the length, the two quotes of a string included), with fewer
than 2^64 number codes in all, in which no word or
string begins with the character whose code `c - 64` is the serializer's `prev_code` at its
format switch and no integer that follows a word or string equals a non-zero `prev_code`
there (`noSlip`), and whose finalized message is shorter than 2^31 - 12 bytes.  When `V` is
written in order to a freshly initialised binary serializer and finalized, every byte is
stored inside the allocation (`hasRoom` after each call) and no repetition is left pending;
an unserializer initialised from that serializer is, before each value, in the state of the
value's kind, `DbfUnserializerReadInt64` returns each integer, `DbfUnserializerRead` passes
its assertions and with enough capacity returns the length and stores the bytes of each value
written under the word code exactly as written and those of each value written under the
string code between two `'"'`, and after the last value the state is `DbfEndOfMsgState` (all
of this is `ReadsBack`). -/
theorem C1_round_trip (s0 : DbfSerializer) (u0 : DbfUnserializer) (V : List Item)
    (hvalid : V.all Item.valid = true)
    (hsize : itemsSize V < 2 ^ 64) (hns : noSlip (DbfSerializerInit s0) V = true)
    (hmsg : (DbfSerializerFinalize (writeItems (DbfSerializerInit s0) V)).pos + 12 < 2 ^ 31) :
    (∀ k, hasRoom (writeItems (DbfSerializerInit s0) (V.take k))) ∧
    hasRoom (DbfSerializerFinalize (writeItems (DbfSerializerInit s0) V)) ∧
    (DbfSerializerFinalize (writeItems (DbfSerializerInit s0) V)).repeat_counter = 0 ∧
    ReadsBack (DbfUnserializerInitFromSerializer u0
      (DbfSerializerFinalize (writeItems (DbfSerializerInit s0) V))).2 V := by
  have hr := fresh_room s0 V hmsg
  exact ⟨hr.1, hr.2.1, hr.2.2, readsBack_fresh s0 u0 V hvalid hsize hns⟩

set_option maxRecDepth 100000 in
theorem C1_round_trip_witness :
    (∀ k, hasRoom (writeItems (DbfSerializerInit zeroSerializer)
      (([Item.int 5, Item.int 5, Item.word [72, 105], Item.str [97, 32, 98], Item.int (-1),
          Item.int 0] : List Item).take k))) ∧
    hasRoom (DbfSerializerFinalize (writeItems (DbfSerializerInit zeroSerializer)
        [Item.int 5, Item.int 5, Item.word [72, 105], Item.str [97, 32, 98], Item.int (-1),
          Item.int 0])) ∧
    (DbfSerializerFinalize (writeItems (DbfSerializerInit zeroSerializer)
        [Item.int 5, Item.int 5, Item.word [72, 105], Item.str [97, 32, 98], Item.int (-1),
          Item.int 0])).repeat_counter = 0 ∧
    ReadsBack (DbfUnserializerInitFromSerializer zeroUnserializer
      (DbfSerializerFinalize (writeItems (DbfSerializerInit zeroSerializer)
        [Item.int 5, Item.int 5, Item.word [72, 105], Item.str [97, 32, 98], Item.int (-1),
          Item.int 0]))).2
      [Item.int 5, Item.int 5, Item.word [72, 105], Item.str [97, 32, 98], Item.int (-1),
        Item.int 0] :=
  C1_round_trip zeroSerializer zeroUnserializer _ (by decide) (by decide) (by decide) (by decide)

end Dbf
